import Mathlib

/-! # The data-dependency engine of Nanos6 (linear regions, fragmented)

A shallow embedding of `src/dependencies/linear-regions-fragmented/DataAccessRegistration.cpp`
and of the pieces of the cluster execution workflow it drives.  The C++ engine mutates
objects through pointers while holding per-task locks; here every function takes the whole
engine state and returns the new one.  An access is addressed by the task that owns it, the
index it is stored in and an address inside its region.  `FatalErrorHandler::failIf` and
`assert` are results of type `Except Failure`, an assertion being identified by the line of
`DataAccessRegistration.cpp` it stands on.
-/

set_option linter.all false

namespace DataAccessRegistration

/-! ## Regions -/

/-- Modelled from the spec: `DataAccessRegion.hpp` is not part of the sources.  A region is the
half-open byte interval `[startAddress, startAddress + length)`. -/
structure DataAccessRegion where
  startAddress : Nat
  length : Nat
deriving DecidableEq, Repr

namespace DataAccessRegion

def getEndAddress (r : DataAccessRegion) : Nat := r.startAddress + r.length

def getSize (r : DataAccessRegion) : Nat := r.length

def empty (r : DataAccessRegion) : Bool := r.length == 0

/-- The region `[s, e)`. -/
def fromBounds (s e : Nat) : DataAccessRegion := ⟨s, e - s⟩

/-- Whether the address lies inside the region. -/
def containsAddress (r : DataAccessRegion) (x : Nat) : Bool :=
  decide (r.startAddress ≤ x) && decide (x < r.getEndAddress)

/-- Whether the two regions share a byte. -/
def intersects (a b : DataAccessRegion) : Bool :=
  decide (max a.startAddress b.startAddress < min a.getEndAddress b.getEndAddress)

def intersect (a b : DataAccessRegion) : DataAccessRegion :=
  fromBounds (max a.startAddress b.startAddress) (min a.getEndAddress b.getEndAddress)

def fullyContainedIn (a b : DataAccessRegion) : Bool :=
  decide (b.startAddress ≤ a.startAddress) && decide (a.getEndAddress ≤ b.getEndAddress)

/-- The part of `a` that lies before `b` (empty when there is none). -/
def leftOf (a b : DataAccessRegion) : DataAccessRegion :=
  fromBounds a.startAddress (min a.getEndAddress b.startAddress)

/-- The part of `a` that lies after `b` (empty when there is none). -/
def rightOf (a b : DataAccessRegion) : DataAccessRegion :=
  fromBounds (max a.startAddress b.getEndAddress) a.getEndAddress

end DataAccessRegion

/-! ## Access kinds, links, failures -/

inductive DataAccessType
  | NO_ACCESS_TYPE
  | READ_ACCESS_TYPE
  | WRITE_ACCESS_TYPE
  | READWRITE_ACCESS_TYPE
  | CONCURRENT_ACCESS_TYPE
  | COMMUTATIVE_ACCESS_TYPE
  | REDUCTION_ACCESS_TYPE
deriving DecidableEq, Repr

inductive DataAccessObjectType
  | access_type
  | fragment_type
  | taskwait_type
  | top_level_sink_type
deriving DecidableEq, Repr

open DataAccessType DataAccessObjectType

/-- A link to the objects of one kind of one task: `DataAccessLink(task, objectType)`. -/
structure DataAccessLink where
  task : Nat
  objectType : DataAccessObjectType
deriving DecidableEq, Repr

/-- The messages of the `FatalErrorHandler::failIf` calls of the engine. -/
inductive FatalError
  /-- Task has non-reduction accesses that overlap a reduction. -/
  | nonReductionOverlapsReduction
  /-- Task has two overlapping reductions over different types or with different operators. -/
  | overlappingReductionsDiffer
  /-- The release construct does not currently support the type downgrade of dependencies. -/
  | releaseTypeDowngrade
  /-- Task declares a reduction within a region registered as concurrent or commutative
  by its parent without a taskwait. -/
  | reductionWithinConcurrentOrCommutative
  /-- Task declares a non-reduction access within a region registered as reduction. -/
  | nonReductionWithinReduction
  /-- Region dependencies do not support CUDA reductions. -/
  | cudaReduction
deriving DecidableEq, Repr

/-- How a call of the engine can end without a result. -/
inductive Failure
  /-- A `FatalErrorHandler::failIf` whose condition held. -/
  | fatal (error : FatalError)
  /-- An `assert` that did not hold, named by its line in `DataAccessRegistration.cpp`. -/
  | assertion (line : Nat)
  /-- A reference that names no object of the engine: in the C++ code, the use of a pointer
  to an object that is not there. -/
  | noSuchObject
  /-- The bound on the number of steps of a loop of the model was reached. -/
  | outOfFuel
deriving DecidableEq, Repr

/-- An `assert(condition)` on the given line, followed by the rest. -/
def assertThat {α : Type} (condition : Bool) (line : Nat) (rest : Except Failure α) :
    Except Failure α :=
  if condition then rest else .error (.assertion line)

/-- A call `FatalErrorHandler::failIf(condition, ...)`, followed by the rest. -/
def failIf {α : Type} (condition : Bool) (error : FatalError) (rest : Except Failure α) :
    Except Failure α :=
  if condition then .error (.fatal error) else rest

/-- The value `no_reduction_type_and_operator`. -/
def no_reduction_type_and_operator : Int := -1

/-! ## The access object -/

/-- Modelled from the spec: `DataAccess.hpp` is not part of the sources.  The record of the
spec, section 3: kind, object kind, weak flag, region, originator, the status bits, the next
link, reduction data, locations and the handles of the workflow steps.  `has_next`,
`has_output_location`, `has_data_release_step` and `has_data_link_step` are read off the
optional fields (`has_next ⇒ next.is_some()`).  The four `can_propagate_*` bits of an access
are set from its creation on, until a bottom-map update unsets them. -/
structure DataAccess where
  objectType : DataAccessObjectType
  type : DataAccessType
  weak : Bool
  originator : Nat
  region : DataAccessRegion
  reductionTypeAndOperatorIndex : Int := no_reduction_type_and_operator
  reductionIndex : Int := -1
  location : Option Nat := none
  outputLocation : Option Nat := none
  dataReleaseStep : Option Nat := none
  dataLinkStep : Option Nat := none
  next : Option DataAccessLink := none
  registered : Bool := false
  readSatisfied : Bool := false
  writeSatisfied : Bool := false
  concurrentSatisfied : Bool := false
  commutativeSatisfied : Bool := false
  receivedReductionInfo : Bool := false
  allocatedReductionInfo : Bool := false
  receivedReductionSlotSet : Bool := false
  closesReduction : Bool := false
  complete : Bool := false
  topmost : Bool := false
  topLevel : Bool := false
  inBottomMap : Bool := false
  hasSubaccesses : Bool := false
  discounted : Bool := false
  reachable : Bool := false
  canPropagateReadSatisfiability : Bool := true
  canPropagateConcurrentSatisfiability : Bool := true
  canPropagateCommutativeSatisfiability : Bool := true
  canPropagateReductionInfo : Bool := true
  reductionInfo : Option Nat := none
  previousReductionInfo : Option Nat := none
  reductionSlotSet : Nat := 0
  symbols : Nat := 0
deriving DecidableEq, Repr

namespace DataAccess

def hasNext (a : DataAccess) : Bool := a.next.isSome

def hasLocation (a : DataAccess) : Bool := a.location.isSome

def hasOutputLocation (a : DataAccess) : Bool := a.outputLocation.isSome

def hasDataReleaseStep (a : DataAccess) : Bool := a.dataReleaseStep.isSome

def hasDataLinkStep (a : DataAccess) : Bool := a.dataLinkStep.isSome

def hasBeenDiscounted (a : DataAccess) : Bool := a.discounted

/-- Modelled from the spec: `DataAccess::satisfied` is not part of the sources.  Section 3:
satisfied = read_satisfied ∧ write_satisfied ∧ concurrent_satisfied ∧ commutative_satisfied ∧
received_reduction_info ∧ (kind≠Reduction ∨ received_reduction_slot_set ∨
allocated_reduction_info). -/
def satisfied (a : DataAccess) : Bool :=
  a.readSatisfied && a.writeSatisfied && a.concurrentSatisfied && a.commutativeSatisfied
    && a.receivedReductionInfo
    && (a.type != REDUCTION_ACCESS_TYPE || a.receivedReductionSlotSet || a.allocatedReductionInfo)

/-- Modelled from the spec: `DataAccess::upgrade(newWeak, newType)` stores the two values. -/
def upgrade (a : DataAccess) (newWeak : Bool) (newType : DataAccessType) : DataAccess :=
  { a with weak := newWeak, type := newType }

/-- Modelled from the spec: `setReadSatisfied(location)` sets the bit and the location. -/
def setReadSatisfied (a : DataAccess) (location : Option Nat) : DataAccess :=
  { a with readSatisfied := true, location := location }

def addToSymbols (a : DataAccess) (symbols : Nat) : DataAccess :=
  { a with symbols := a.symbols ||| symbols }

/-- Modelled from the spec: a fragment inherits the status and the location of the access it
projects (section 4.5): the satisfiability bits and the reduction data. -/
def inheritFragmentStatus (fragment other : DataAccess) : DataAccess :=
  { fragment with
    readSatisfied := other.readSatisfied
    location := if other.readSatisfied then other.location else fragment.location
    writeSatisfied := other.writeSatisfied
    concurrentSatisfied := other.concurrentSatisfied
    commutativeSatisfied := other.commutativeSatisfied
    receivedReductionInfo := other.receivedReductionInfo
    previousReductionInfo := other.previousReductionInfo
    reductionInfo := other.reductionInfo
    allocatedReductionInfo := other.allocatedReductionInfo
    receivedReductionSlotSet := other.receivedReductionSlotSet
    reductionSlotSet := other.reductionSlotSet }

end DataAccess

/-- The function `createAccess`: a new object with an empty status and no next link. -/
def createAccess (originator : Nat) (objectType : DataAccessObjectType)
    (accessType : DataAccessType) (weak : Bool) (region : DataAccessRegion)
    (reductionTypeAndOperatorIndex : Int) (reductionIndex : Int) : DataAccess :=
  { objectType := objectType, type := accessType, weak := weak, originator := originator,
    region := region, reductionTypeAndOperatorIndex := reductionTypeAndOperatorIndex,
    reductionIndex := reductionIndex }

/-- The function `upgradeAccess`, called by `registerTaskDataAccess` when a declaration
intersects an access the task has already declared. -/
def upgradeAccess (dataAccess : DataAccess) (accessType : DataAccessType) (weak : Bool)
    (reductionTypeAndOperatorIndex : Int) : Except Failure DataAccess :=
  assertThat (!dataAccess.hasBeenDiscounted) 1085 <|
  let newWeak := dataAccess.weak && weak
  if accessType ≠ dataAccess.type then
    failIf (accessType = REDUCTION_ACCESS_TYPE || dataAccess.type = REDUCTION_ACCESS_TYPE)
      .nonReductionOverlapsReduction <|
    if (accessType = COMMUTATIVE_ACCESS_TYPE && dataAccess.type = CONCURRENT_ACCESS_TYPE)
        || (accessType = CONCURRENT_ACCESS_TYPE && dataAccess.type = COMMUTATIVE_ACCESS_TYPE) then
      .ok (dataAccess.upgrade newWeak COMMUTATIVE_ACCESS_TYPE)
    else
      .ok (dataAccess.upgrade newWeak READWRITE_ACCESS_TYPE)
  else
    failIf (accessType = REDUCTION_ACCESS_TYPE
        && dataAccess.reductionTypeAndOperatorIndex ≠ reductionTypeAndOperatorIndex)
      .overlappingReductionsDiffer <|
    .ok (dataAccess.upgrade newWeak accessType)

/-- The function `duplicateDataAccess`: a copy, symbols included, that is not registered. -/
def duplicateDataAccess (toBeDuplicated : DataAccess) : DataAccess :=
  { toBeDuplicated with registered := false }

/-! ## Tasks and their access structures -/

/-- Modelled from the spec: `BottomMapEntry.hpp` is not part of the sources.  An entry of the
bottom map: `region`, `link`, `access_type_of_parent_chain`, `reduction_type_and_op_index`. -/
structure BottomMapEntry where
  region : DataAccessRegion
  link : DataAccessLink
  accessType : DataAccessType
  reductionTypeAndOperatorIndex : Int
deriving DecidableEq, Repr

/-- Modelled from the spec: `TaskDataAccesses.hpp` is not part of the sources.  Four region
indices, kept in address order, and the counters of the task. -/
structure TaskDataAccesses where
  accesses : List DataAccess := []
  accessFragments : List DataAccess := []
  taskwaitFragments : List DataAccess := []
  subaccessBottomMap : List BottomMapEntry := []
  removalBlockers : Int := 0
  liveTaskwaitFragmentCount : Int := 0
  totalCommutativeBytes : Nat := 0
deriving DecidableEq, Repr

/-- The arguments of one call of `registerTaskDataAccess` that the `registerDependencies`
callback of a task issues. -/
structure AccessDeclaration where
  accessType : DataAccessType
  weak : Bool
  start : Nat
  length : Nat
  symbolIndex : Int := -1
  reductionTypeAndOperatorIndex : Int := no_reduction_type_and_operator
  reductionIndex : Int := -1
deriving DecidableEq, Repr

/-- Modelled from the spec: `Task.hpp` is not part of the sources.  The task handle of the
spec, section 6: the parent, the counters behind `increase_predecessors`,
`increase_blocking_count` and `increase_removal_blocking_count`, the flags the engine reads,
the declarations its `register_dependencies` callback issues, and its access structures. -/
structure Task where
  parent : Option Nat := none
  predecessorCount : Int := 0
  blockingCount : Int := 1
  removalBlockingCount : Int := 1
  remote : Bool := false
  final : Bool := false
  spawned : Bool := false
  runnable : Bool := true
  hostDevice : Bool := true
  memoryPlace : Option Nat := none
  dependencies : List AccessDeclaration := []
  dataAccesses : TaskDataAccesses := {}
deriving DecidableEq, Repr

instance : Inhabited Task := ⟨{}⟩

/-- The update operation of `CPUDependencyData.hpp`, with the fields the engine sets; an absent
reduction slot set is a set of size zero. -/
structure UpdateOperation where
  target : DataAccessLink
  region : DataAccessRegion
  makeReadSatisfied : Bool := false
  makeWriteSatisfied : Bool := false
  makeConcurrentSatisfied : Bool := false
  makeCommutativeSatisfied : Bool := false
  location : Option Nat := none
  setReductionInfo : Bool := false
  reductionInfo : Option Nat := none
  reductionSlotSet : Option Nat := none
  releaseStep : Option Nat := none
  makeTopmost : Bool := false
  makeTopLevel : Bool := false
deriving DecidableEq, Repr

/-- Modelled from the spec: `UpdateOperation::empty` is not part of the sources; an operation
is empty when none of the fields that section 4.3 lists for it is set. -/
def UpdateOperation.empty (o : UpdateOperation) : Bool :=
  !o.makeReadSatisfied && !o.makeWriteSatisfied && !o.makeConcurrentSatisfied
    && !o.makeCommutativeSatisfied && !o.setReductionInfo && o.reductionSlotSet.isNone
    && o.releaseStep.isNone && !o.makeTopmost && !o.makeTopLevel

/-- An object of one task: the index is chosen by the object kind and the object is the one
whose region holds the address. -/
structure AccessRef where
  task : Nat
  objectType : DataAccessObjectType
  address : Nat
deriving DecidableEq, Repr

/-- The per-call queues of `CPUDependencyData` (spec, section 5). -/
structure CPUDependencyData where
  delayedOperations : List UpdateOperation := []
  satisfiedOriginators : List Nat := []
  satisfiedCommutativeOriginators : List Nat := []
  releasedCommutativeRegions : List (Nat × DataAccessRegion) := []
  completedTaskwaits : List AccessRef := []
  removableTasks : List Nat := []
deriving DecidableEq, Repr

def CPUDependencyData.empty (d : CPUDependencyData) : Bool :=
  d.delayedOperations.isEmpty && d.satisfiedOriginators.isEmpty
    && d.satisfiedCommutativeOriginators.isEmpty && d.releasedCommutativeRegions.isEmpty
    && d.completedTaskwaits.isEmpty && d.removableTasks.isEmpty

/-- Modelled from the spec: `ReductionInfo.hpp` is not part of the sources.  The reduction
metadata of a region; `combinationCounter` is the number of bytes of the region that have not
been combined into the original storage yet. -/
structure ReductionInfo where
  region : DataAccessRegion
  typeAndOperatorIndex : Int
  combinationCounter : Nat
  availableBytes : Nat := 0
  privateCombinations : Nat := 0
  deleted : Bool := false
  /-- The calls of `release_slots_in_use(cpu)`, by the index of the CPU. -/
  releasedSlots : List Nat := []
deriving DecidableEq, Repr

/-- Modelled from the spec: `release_slots_in_use(cpu)` of a reduction info; the call is
recorded. -/
def ReductionInfo.releaseSlotsInUse (info : ReductionInfo) (cpu : Nat) : ReductionInfo :=
  { info with releasedSlots := info.releasedSlots ++ [cpu] }

/-- Modelled from the spec: `CommutativeScoreboard.hpp` is not part of the sources.  The regions
that strong commutative accesses hold at the moment, and the tasks that wait for theirs
(section 4.8). -/
structure CommutativeScoreboard where
  held : List DataAccessRegion := []
  waiting : List Nat := []
deriving DecidableEq, Repr

inductive ReadyTaskHint
  | SIBLING_TASK_HINT
  | BUSY_COMPUTE_PLACE_TASK_HINT
  | UNBLOCKED_TASK_HINT
deriving DecidableEq, Repr

/-- What the engine reads of the compute place a call is made from. -/
structure ComputePlace where
  memoryPlace : Nat
  hostDevice : Bool := true
  owned : Bool := true
  index : Nat := 0
deriving DecidableEq, Repr

/-- A call `linkRegion(region, location, read, write)` on a data link step. -/
structure LinkedRegion where
  step : Nat
  region : DataAccessRegion
  location : Option Nat
  read : Bool
  write : Bool
deriving DecidableEq, Repr

/-- A call `releaseRegion(region, location)` on a data release step. -/
structure ReleasedRegion where
  step : Nat
  region : DataAccessRegion
  location : Option Nat
deriving DecidableEq, Repr

/-- The local variables of a call of `replaceMatchingInBottomMapLinkAndPropagate`, which its
two processors share. -/
structure LinkingFrame where
  hasAllocatedReductionInfo : Bool := false
  previousReductionInfo : Option Nat := none
  previousReductionAccesses : List AccessRef := []
  isLocal : Bool := false
  lastWasLocal : Bool := false
  first : Bool := true
  parentAccessType : DataAccessType := .NO_ACCESS_TYPE
  parentReductionTypeAndOperatorIndex : Int := no_reduction_type_and_operator
deriving DecidableEq, Repr

/-- The state of the engine: the tasks (a task is named by its position), the reduction infos
(likewise), the commutative scoreboard, the queues of the running call, and the calls made to
the collaborators so far, oldest first. -/
structure Engine where
  tasks : List Task := []
  reductionInfos : List ReductionInfo := []
  scoreboard : CommutativeScoreboard := {}
  hpDependencyData : CPUDependencyData := {}
  /-- The local variables of the running call of `replaceMatchingInBottomMapLinkAndPropagate`. -/
  linking : LinkingFrame := {}
  /-- The calls of `Scheduler::addReadyTask`. -/
  readyTasks : List (Nat × ReadyTaskHint) := []
  /-- The calls of `TaskFinalization::disposeTask`. -/
  disposedTasks : List Nat := []
  /-- The calls of `ExecutionWorkflow::setupTaskwaitWorkflow`. -/
  taskwaitWorkflows : List AccessRef := []
  linkedRegions : List LinkedRegion := []
  releasedRegions : List ReleasedRegion := []
  /-- The accesses deleted by the removal edge of `handleDataAccessStatusChanges`. -/
  deletedAccesses : List DataAccess := []
deriving DecidableEq, Repr

/-- The memory place `Directory::getDirectoryMemoryPlace()`. -/
def directoryMemoryPlace : Nat := 0

namespace TaskDataAccesses

/-- The index that holds the objects of a kind. -/
def index (s : TaskDataAccesses) : DataAccessObjectType → List DataAccess
  | access_type => s.accesses
  | fragment_type => s.accessFragments
  | taskwait_type => s.taskwaitFragments
  | top_level_sink_type => s.taskwaitFragments

def setIndex (s : TaskDataAccesses) (k : DataAccessObjectType) (l : List DataAccess) :
    TaskDataAccesses :=
  match k with
  | access_type => { s with accesses := l }
  | fragment_type => { s with accessFragments := l }
  | taskwait_type => { s with taskwaitFragments := l }
  | top_level_sink_type => { s with taskwaitFragments := l }

end TaskDataAccesses

namespace Engine

def getTask (e : Engine) (t : Nat) : Task := e.tasks.getD t default

def modifyTask (e : Engine) (t : Nat) (f : Task → Task) : Engine :=
  { e with tasks := e.tasks.modify f t }

def getDataAccesses (e : Engine) (t : Nat) : TaskDataAccesses := (e.getTask t).dataAccesses

def modifyDataAccesses (e : Engine) (t : Nat) (f : TaskDataAccesses → TaskDataAccesses) :
    Engine :=
  e.modifyTask t (fun task => { task with dataAccesses := f task.dataAccesses })

def getParent (e : Engine) (t : Nat) : Option Nat := (e.getTask t).parent

/-- The object a reference stands for, if the index holds one at the address. -/
def findAccess (e : Engine) (r : AccessRef) : Option DataAccess :=
  ((e.getDataAccesses r.task).index r.objectType).find?
    (fun a => a.region.containsAddress r.address)

/-- Apply a change to the object a reference stands for. -/
def modifyAccess (e : Engine) (r : AccessRef) (f : DataAccess → DataAccess) : Engine :=
  e.modifyDataAccesses r.task (fun s =>
    s.setIndex r.objectType
      ((s.index r.objectType).map
        (fun a => if a.region.containsAddress r.address then f a else a)))

/-- Erase the object a reference stands for from its index. -/
def eraseAccess (e : Engine) (r : AccessRef) : Engine :=
  e.modifyDataAccesses r.task (fun s =>
    s.setIndex r.objectType
      ((s.index r.objectType).filter (fun a => !a.region.containsAddress r.address)))

/-- Modelled from the spec: `increase_predecessors(n)`. -/
def increasePredecessors (e : Engine) (t : Nat) (amount : Int) : Engine :=
  e.modifyTask t (fun task => { task with predecessorCount := task.predecessorCount + amount })

/-- Modelled from the spec: `decrease_predecessors(n) -> bool`, true meaning that the task
became ready, which is when no predecessor is left. -/
def decreasePredecessors (e : Engine) (t : Nat) (amount : Int) : Engine × Bool :=
  (e.modifyTask t (fun task => { task with predecessorCount := task.predecessorCount - amount }),
    decide ((e.getTask t).predecessorCount - amount = 0))

/-- Modelled from the spec: `increase_blocking_count`. -/
def increaseBlockingCount (e : Engine) (t : Nat) : Engine :=
  e.modifyTask t (fun task => { task with blockingCount := task.blockingCount + 1 })

/-- Modelled from the spec: `decrease_blocking_count -> bool`, true when the count is zero. -/
def decreaseBlockingCount (e : Engine) (t : Nat) : Engine × Bool :=
  (e.modifyTask t (fun task => { task with blockingCount := task.blockingCount - 1 }),
    decide ((e.getTask t).blockingCount - 1 = 0))

/-- Modelled from the spec: `increase_removal_blocking_count`. -/
def increaseRemovalBlockingCount (e : Engine) (t : Nat) : Engine :=
  e.modifyTask t (fun task =>
    { task with removalBlockingCount := task.removalBlockingCount + 1 })

/-- Modelled from the spec: `decrease_removal_blocking_count -> bool`, true when the count is
zero. -/
def decreaseRemovalBlockingCount (e : Engine) (t : Nat) : Engine × Bool :=
  (e.modifyTask t (fun task =>
      { task with removalBlockingCount := task.removalBlockingCount - 1 }),
    decide ((e.getTask t).removalBlockingCount - 1 = 0))

def modifyHp (e : Engine) (f : CPUDependencyData → CPUDependencyData) : Engine :=
  { e with hpDependencyData := f e.hpDependencyData }

end Engine

/-! ## The region index -/

/-- Insert an object into an index, which is kept in the order of the start addresses. -/
def insertAccess (a : DataAccess) : List DataAccess → List DataAccess
  | [] => [a]
  | b :: rest =>
    if a.region.startAddress ≤ b.region.startAddress then a :: b :: rest
    else b :: insertAccess a rest

def insertBottomMapEntry (a : BottomMapEntry) : List BottomMapEntry → List BottomMapEntry
  | [] => [a]
  | b :: rest =>
    if a.region.startAddress ≤ b.region.startAddress then a :: b :: rest
    else b :: insertBottomMapEntry a rest

/-- The regions that a walk over an index in address order meets inside a region: the elements
that intersect it, and the holes between them. -/
inductive RegionMatch
  | intersecting (element : DataAccessRegion)
  | missing (hole : DataAccessRegion)
deriving DecidableEq, Repr

/-- Modelled from the spec: the region index is not part of the sources.
`process_intersecting_and_missing(r, f_hit, f_hole)` visits the elements that intersect `r` and
reports the sub-regions of `r` that are not covered.  The walk is over the part
`[cursor, regionEnd)` of `r` that is still ahead. -/
def intersectingAndMissing (cursor regionEnd : Nat) : List DataAccessRegion → List RegionMatch
  | [] => if cursor < regionEnd then [.missing (.fromBounds cursor regionEnd)] else []
  | k :: rest =>
    if k.intersects (.fromBounds cursor regionEnd) then
      (if cursor < k.startAddress then [.missing (.fromBounds cursor k.startAddress)] else [])
        ++ .intersecting k :: intersectingAndMissing k.getEndAddress regionEnd rest
    else intersectingAndMissing cursor regionEnd rest

/-- The walk of `processIntersectingAndMissing` over the keys of an index. -/
def regionMatches (region : DataAccessRegion) (keys : List DataAccessRegion) :
    List RegionMatch :=
  intersectingAndMissing region.startAddress region.getEndAddress keys

/-- The keys that `processIntersecting` visits. -/
def intersectingKeys (region : DataAccessRegion) (keys : List DataAccessRegion) :
    List DataAccessRegion :=
  keys.filter (fun k => k.intersects region)

/-- Modelled from the spec: `fragment_by_intersection` splits an element into up to three
parts, the part inside the region and what is left of it on either side. -/
def fragmentRegions (element region : DataAccessRegion) : List DataAccessRegion :=
  (if (element.leftOf region).empty then [] else [element.leftOf region])
    ++ [element.intersect region]
    ++ (if (element.rightOf region).empty then [] else [element.rightOf region])

/-- The parts that fragmenting leaves of an element that intersects the region without
lying inside it: the element itself, shrunk to the first part, and a copy made by the
duplicator on each further part. -/
def fragmentPieces (duplicator : DataAccess → DataAccess) (region : DataAccessRegion)
    (a : DataAccess) : List DataAccess :=
  match fragmentRegions a.region region with
  | [] => []
  | r :: rest => { a with region := r } :: rest.map (fun r => { duplicator a with region := r })

/-- Whether `fragmentIntersecting` and `fragmentAccess` split the element. -/
def needsFragmenting (region : DataAccessRegion) (a : DataAccess) : Bool :=
  a.region.intersects region && !a.region.fullyContainedIn region

/-- Modelled from the spec: `fragmentIntersecting(region, duplicator, post)` of the region
index splits every element that intersects the region so that no element crosses a bound of
the region. -/
def fragmentIntersecting (duplicator : DataAccess → DataAccess) (region : DataAccessRegion) :
    List DataAccess → List DataAccess
  | [] => []
  | a :: rest =>
    (if needsFragmenting region a then fragmentPieces duplicator region a else [a])
      ++ fragmentIntersecting duplicator region rest

/-! ## Registration of the declared accesses -/

/-- The intersecting processor of `registerTaskDataAccess` at the element with the given
region: `upgradeAccess`, then `addToSymbols`. -/
def upgradeMatching (k : DataAccessRegion) (accessType : DataAccessType) (weak : Bool)
    (reductionTypeAndOperatorIndex : Int) (symbols : Nat) :
    List DataAccess → Except Failure (List DataAccess)
  | [] => .ok []
  | a :: rest =>
    if a.region = k then
      match upgradeAccess a accessType weak reductionTypeAndOperatorIndex with
      | .error f => .error f
      | .ok b =>
        (upgradeMatching k accessType weak reductionTypeAndOperatorIndex symbols rest).map
          (fun l => b.addToSymbols symbols :: l)
    else
      (upgradeMatching k accessType weak reductionTypeAndOperatorIndex symbols rest).map
        (fun l => a :: l)

/-- The two processors that `registerTaskDataAccess` hands to `processIntersectingAndMissing`. -/
def registerMatch (task : Nat) (accessType : DataAccessType) (weak : Bool)
    (reductionTypeAndOperatorIndex reductionIndex : Int) (symbols : Nat)
    (accesses : List DataAccess) : RegionMatch → Except Failure (List DataAccess)
  | .intersecting k =>
    upgradeMatching k accessType weak reductionTypeAndOperatorIndex symbols accesses
  | .missing r =>
    .ok (insertAccess
      ((createAccess task access_type accessType weak r reductionTypeAndOperatorIndex
        reductionIndex).addToSymbols symbols) accesses)

/-- The walk of `processIntersectingAndMissing` in `registerTaskDataAccess`: the processors
are run on the matches in order, until one fails. -/
def registerMatches (task : Nat) (accessType : DataAccessType) (weak : Bool)
    (reductionTypeAndOperatorIndex reductionIndex : Int) (symbols : Nat) :
    List RegionMatch → List DataAccess → Except Failure (List DataAccess)
  | [], accesses => .ok accesses
  | m :: rest, accesses =>
    match registerMatch task accessType weak reductionTypeAndOperatorIndex reductionIndex
        symbols accesses m with
    | .error f => .error f
    | .ok updated =>
      registerMatches task accessType weak reductionTypeAndOperatorIndex reductionIndex symbols
        rest updated

/-- The symbols that the postprocessor of `registerTaskDataAccess` collects from the accesses
that the new region splits. -/
def collectedSymbols (region : DataAccessRegion) (accesses : List DataAccess) : Nat :=
  accesses.foldl (fun s a => if needsFragmenting region a then s ||| a.symbols else s) 0

/-- The function `registerTaskDataAccess` on the accesses index of the task. -/
def registerInAccesses (task : Nat) (accessType : DataAccessType) (weak : Bool)
    (region : DataAccessRegion) (symbolIndex : Int)
    (reductionTypeAndOperatorIndex reductionIndex : Int) (accesses : List DataAccess) :
    Except Failure (List DataAccess) :=
  let symbol_list : Nat := if 0 ≤ symbolIndex then 1 <<< symbolIndex.toNat else 0
  assertThat (accesses.all (fun a => !needsFragmenting region a || !a.registered)) 3011 <|
  let fragmented := fragmentIntersecting duplicateDataAccess region accesses
  let symbol_list := symbol_list ||| collectedSymbols region accesses
  registerMatches task accessType weak reductionTypeAndOperatorIndex reductionIndex symbol_list
    (regionMatches region (fragmented.map (fun a => a.region))) fragmented

/-- The function `registerTaskDataAccess`: register one declared access of a task, without
linking it to the accesses of the parent and of the siblings. -/
def registerTaskDataAccess (e : Engine) (task : Nat) (accessType : DataAccessType) (weak : Bool)
    (region : DataAccessRegion) (symbolIndex : Int)
    (reductionTypeAndOperatorIndex reductionIndex : Int) : Except Failure Engine :=
  match registerInAccesses task accessType weak region symbolIndex
      reductionTypeAndOperatorIndex reductionIndex (e.getDataAccesses task).accesses with
  | .error f => .error f
  | .ok l => .ok (e.modifyDataAccesses task (fun s => { s with accesses := l }))

/-- The function `register_access` of `RegisterDependencies.cpp`, through which the
`nanos_register_*_depinfo` entry points reach `registerTaskDataAccess`: a declaration with a
null start or no length registers nothing, and a weak access of a final task is registered
strong. -/
def register_access (e : Engine) (task : Nat) (d : AccessDeclaration) : Except Failure Engine :=
  if d.start = 0 then .ok e
  else if d.length = 0 then .ok e
  else registerTaskDataAccess e task d.accessType (d.weak && !(e.getTask task).final)
    ⟨d.start, d.length⟩ d.symbolIndex d.reductionTypeAndOperatorIndex d.reductionIndex

/-- A sequence of calls of `registerTaskDataAccess` on one task, in order. -/
def registerSequence (task : Nat) : List AccessDeclaration → Engine → Except Failure Engine
  | [], e => .ok e
  | d :: rest, e =>
    match registerTaskDataAccess e task d.accessType d.weak ⟨d.start, d.length⟩ d.symbolIndex
        d.reductionTypeAndOperatorIndex d.reductionIndex with
    | .error f => .error f
    | .ok e1 => registerSequence task rest e1

/-- The callback `task->registerDependencies()` of a task: the calls of
`registerTaskDataAccess` that the task issues (spec, section 6). -/
def registerDependencies (e : Engine) (task : Nat) : Except Failure Engine :=
  registerSequence task (e.getTask task).dependencies e

/-! ## The effects of the status of an access -/

/-- The structure `DataAccessStatusEffects`: what the status of an access makes it do. -/
structure DataAccessStatusEffects where
  isRegistered : Bool := false
  isSatisfied : Bool := false
  enforcesDependency : Bool := false
  hasNext : Bool := false
  propagatesReadSatisfiabilityToNext : Bool := false
  propagatesWriteSatisfiabilityToNext : Bool := false
  propagatesConcurrentSatisfiabilityToNext : Bool := false
  propagatesCommutativeSatisfiabilityToNext : Bool := false
  propagatesReductionInfoToNext : Bool := false
  propagatesReductionSlotSetToNext : Bool := false
  makesNextTopmost : Bool := false
  propagatesTopLevel : Bool := false
  releasesCommutativeRegion : Bool := false
  propagatesReadSatisfiabilityToFragments : Bool := false
  propagatesWriteSatisfiabilityToFragments : Bool := false
  propagatesConcurrentSatisfiabilityToFragments : Bool := false
  propagatesCommutativeSatisfiabilityToFragments : Bool := false
  propagatesReductionInfoToFragments : Bool := false
  propagatesReductionSlotSetToFragments : Bool := false
  makesReductionOriginalStorageAvailable : Bool := false
  combinesReductionToPrivateStorage : Bool := false
  combinesReductionToOriginal : Bool := false
  linksBottomMapAccessesToNextAndInhibitsPropagation : Bool := false
  isRemovable : Bool := false
  triggersTaskwaitWorkflow : Bool := false
  propagatesDataReleaseStepToNext : Bool := false
  triggersDataRelease : Bool := false
  triggersDataLinkRead : Bool := false
  triggersDataLinkWrite : Bool := false
deriving DecidableEq, Repr

/-- The method `setEnforcesDependency`, used by `registerLocalAccess` only. -/
def DataAccessStatusEffects.setEnforcesDependency (s : DataAccessStatusEffects) :
    Except Failure DataAccessStatusEffects :=
  assertThat (s.enforcesDependency == false) 456 <| .ok { s with enforcesDependency := true }

/-- The method `ClusterDataReleaseStep::checkDataRelease` of `ExecutionWorkflowCluster.hpp`. -/
def checkDataRelease (originatorIsSpawned : Bool) (access : DataAccess) : Bool :=
  access.objectType = taskwait_type && originatorIsSpawned && access.readSatisfied
    && access.writeSatisfied

/-- The task whose domain an access lives in: the originator for a fragment, a taskwait, a
top-level sink and a local (`NO_ACCESS_TYPE`) access, else the parent of the originator. -/
def domainParentOf (e : Engine) (access : DataAccess) : Option Nat :=
  if access.objectType = access_type then
    if access.type = NO_ACCESS_TYPE then some access.originator
    else e.getParent access.originator
  else some access.originator

/-- The domain of the objects a link leads to. -/
def nextDomainParentOf (e : Engine) (next : DataAccessLink) : Option Nat :=
  if next.objectType = access_type then e.getParent next.task else some next.task

/-- The propagation to the next access of an access that has subaccesses. -/
def effectsToNextWithSubaccesses (access : DataAccess) (s : DataAccessStatusEffects) :
    DataAccessStatusEffects :=
  { s with
    propagatesReadSatisfiabilityToNext :=
      access.canPropagateReadSatisfiability && access.readSatisfied
        && (access.type = READ_ACCESS_TYPE || access.type = NO_ACCESS_TYPE)
    propagatesWriteSatisfiabilityToNext := false
    propagatesConcurrentSatisfiabilityToNext :=
      access.canPropagateConcurrentSatisfiability && access.concurrentSatisfied
        && access.type = CONCURRENT_ACCESS_TYPE
    propagatesCommutativeSatisfiabilityToNext :=
      access.canPropagateCommutativeSatisfiability && access.commutativeSatisfied
        && access.type = COMMUTATIVE_ACCESS_TYPE
    propagatesReductionInfoToNext :=
      access.canPropagateReductionInfo
        && (access.receivedReductionInfo || access.allocatedReductionInfo)
        && (access.type ≠ WRITE_ACCESS_TYPE && access.type ≠ READWRITE_ACCESS_TYPE)
    propagatesReductionSlotSetToNext := false
    propagatesDataReleaseStepToNext := access.complete && access.hasDataReleaseStep }

/-- The propagation to the next access of a fragment, a taskwait or a top-level sink. -/
def effectsToNextOfFragment (access : DataAccess) (s : DataAccessStatusEffects) :
    DataAccessStatusEffects :=
  { s with
    propagatesReadSatisfiabilityToNext :=
      access.canPropagateReadSatisfiability && access.readSatisfied
    propagatesWriteSatisfiabilityToNext := access.writeSatisfied
    propagatesConcurrentSatisfiabilityToNext :=
      access.canPropagateConcurrentSatisfiability && access.concurrentSatisfied
    propagatesCommutativeSatisfiabilityToNext :=
      access.canPropagateCommutativeSatisfiability && access.commutativeSatisfied
    propagatesReductionInfoToNext :=
      access.canPropagateReductionInfo
        && (access.receivedReductionInfo || access.allocatedReductionInfo)
    propagatesReductionSlotSetToNext :=
      access.type = REDUCTION_ACCESS_TYPE && access.complete && access.receivedReductionInfo
        && !access.closesReduction
        && (access.allocatedReductionInfo || access.receivedReductionSlotSet)
    propagatesDataReleaseStepToNext := access.hasDataReleaseStep }

/-- The propagation to the next access of a regular access without subaccesses. -/
def effectsToNextOfLeafAccess (access : DataAccess) (s : DataAccessStatusEffects) :
    DataAccessStatusEffects :=
  { s with
    propagatesReadSatisfiabilityToNext :=
      access.canPropagateReadSatisfiability && access.readSatisfied && access.satisfied
        && (access.type = READ_ACCESS_TYPE || access.type = NO_ACCESS_TYPE || access.complete)
    propagatesWriteSatisfiabilityToNext :=
      access.writeSatisfied && access.complete && access.satisfied
    propagatesConcurrentSatisfiabilityToNext :=
      access.canPropagateConcurrentSatisfiability && access.concurrentSatisfied
        && access.satisfied && (access.type = CONCURRENT_ACCESS_TYPE || access.complete)
    propagatesCommutativeSatisfiabilityToNext :=
      access.canPropagateCommutativeSatisfiability && access.commutativeSatisfied
        && (access.type = COMMUTATIVE_ACCESS_TYPE || access.complete)
    propagatesReductionInfoToNext :=
      access.canPropagateReductionInfo
        && (access.receivedReductionInfo || access.allocatedReductionInfo)
        && ((access.type ≠ WRITE_ACCESS_TYPE && access.type ≠ READWRITE_ACCESS_TYPE)
          || access.complete)
    propagatesReductionSlotSetToNext :=
      access.type = REDUCTION_ACCESS_TYPE && access.complete && !access.closesReduction
        && (access.allocatedReductionInfo || access.receivedReductionSlotSet)
    propagatesDataReleaseStepToNext := access.hasDataReleaseStep && access.complete }

/-- The predicates that the constructor `DataAccessStatusEffects(DataAccess const *)`
computes, without its assertions. -/
def statusEffectsOf (e : Engine) (access : DataAccess) : DataAccessStatusEffects :=
  let s : DataAccessStatusEffects :=
    { isRegistered := access.registered
      isSatisfied := access.satisfied
      enforcesDependency :=
        !access.weak && !access.satisfied
          && !(access.type = REDUCTION_ACCESS_TYPE
            && (access.receivedReductionInfo || access.allocatedReductionInfo))
          && access.objectType = access_type
      hasNext := access.hasNext
      propagatesReadSatisfiabilityToFragments := access.hasSubaccesses && access.readSatisfied
      propagatesWriteSatisfiabilityToFragments := access.hasSubaccesses && access.writeSatisfied
      propagatesConcurrentSatisfiabilityToFragments :=
        access.hasSubaccesses && access.concurrentSatisfied
      propagatesCommutativeSatisfiabilityToFragments :=
        access.hasSubaccesses && access.commutativeSatisfied
      propagatesReductionInfoToFragments :=
        access.hasSubaccesses && access.receivedReductionInfo
      propagatesReductionSlotSetToFragments :=
        access.hasSubaccesses && access.receivedReductionSlotSet }
  let s : DataAccessStatusEffects :=
    if access.hasNext then
      if access.hasSubaccesses then effectsToNextWithSubaccesses access s
      else if access.objectType = fragment_type || access.objectType = taskwait_type
          || access.objectType = top_level_sink_type then effectsToNextOfFragment access s
      else effectsToNextOfLeafAccess access s
    else s
  let combinesReductionToPrivateStorage : Bool :=
    access.closesReduction && !access.hasSubaccesses
      && (access.allocatedReductionInfo || access.receivedReductionSlotSet) && access.complete
  let isRemovable : Bool :=
    access.topmost && access.readSatisfied && access.writeSatisfied
      && access.receivedReductionInfo
      && (access.type ≠ REDUCTION_ACCESS_TYPE || access.allocatedReductionInfo
        || access.receivedReductionSlotSet)
      && access.complete
      && (!access.inBottomMap || access.hasNext || access.type = NO_ACCESS_TYPE
        || access.objectType = taskwait_type || access.objectType = top_level_sink_type)
  { s with
    makesReductionOriginalStorageAvailable :=
      access.objectType = access_type && access.allocatedReductionInfo && access.writeSatisfied
    combinesReductionToPrivateStorage := combinesReductionToPrivateStorage
    combinesReductionToOriginal := combinesReductionToPrivateStorage && access.satisfied
    isRemovable := isRemovable
    triggersTaskwaitWorkflow :=
      access.objectType = taskwait_type && access.readSatisfied && access.writeSatisfied
        && access.hasOutputLocation
    triggersDataRelease :=
      access.hasDataReleaseStep && checkDataRelease (e.getTask access.originator).spawned access
    triggersDataLinkRead := access.hasDataLinkStep && access.readSatisfied
    triggersDataLinkWrite := access.hasDataLinkStep && access.writeSatisfied
    makesNextTopmost :=
      match access.next with
      | some next => isRemovable && domainParentOf e access = nextDomainParentOf e next
      | none => false
    propagatesTopLevel :=
      match access.next with
      | some next =>
        access.topLevel && e.getParent access.originator = e.getParent next.task
      | none => false
    releasesCommutativeRegion :=
      access.type = COMMUTATIVE_ACCESS_TYPE && !access.weak && access.complete
    linksBottomMapAccessesToNextAndInhibitsPropagation :=
      access.hasNext && access.complete && access.hasSubaccesses }

/-- The assertions of the constructor `DataAccessStatusEffects(DataAccess const *)`. -/
def statusEffectsAssertions {α : Type} (e : Engine) (access : DataAccess)
    (rest : Except Failure α) : Except Failure α :=
  assertThat (!access.hasNext || access.objectType ≠ taskwait_type) 237 <|
  assertThat (!access.hasNext || access.objectType ≠ top_level_sink_type) 238 <|
  assertThat (!(access.hasNext && access.hasSubaccesses) || access.objectType = access_type)
    241 <|
  assertThat (domainParentOf e access).isSome 416 <|
  assertThat
    (match access.next with
      | some next => !(statusEffectsOf e access).isRemovable
          || (nextDomainParentOf e next).isSome
      | none => true) 432 <|
  rest

/-- The constructor `DataAccessStatusEffects(DataAccess const *)` on the object a reference
stands for, the object being handed to the rest as well. -/
def withStatusEffects {α : Type} (e : Engine) (r : AccessRef)
    (rest : DataAccess → DataAccessStatusEffects → Except Failure α) : Except Failure α :=
  match e.findAccess r with
  | none => .error .noSuchObject
  | some access => statusEffectsAssertions e access (rest access (statusEffectsOf e access))

/-! ## Fragmenting registered objects -/

/-- The function `handleDataAccessStatusChanges` as the functions below call it: they are
written over the handler, which is defined after them by recursion on a bound of the depth of
the nested calls. -/
abbrev Handler : Type :=
  DataAccessStatusEffects → DataAccessStatusEffects → AccessRef → Engine → Except Failure Engine

/-- Run a part of a call on a private, empty `CPUDependencyData hpDependencyData`, assert on the
given line that it is empty again at the end, and carry on with the queues of the call. -/
def withLocalDependencyData (line : Nat) (body : Engine → Except Failure Engine) (e : Engine) :
    Except Failure Engine :=
  match body { e with hpDependencyData := {} } with
  | .error f => .error f
  | .ok e1 => assertThat e1.hpDependencyData.empty line <|
      .ok { e1 with hpDependencyData := e.hpDependencyData }

/-- Run a processor on the objects that references stand for, in order. -/
def forEachRef (process : AccessRef → Engine → Except Failure Engine) :
    List AccessRef → Engine → Except Failure Engine
  | [], e => .ok e
  | r :: rest, e =>
    match process r e with
    | .error f => .error f
    | .ok e1 => forEachRef process rest e1

/-- Modelled from the spec: `process_intersecting(r, f)` iterates over the elements that
intersect `r`; an element is handed over by an address of the part of it that lies inside
`r`, which names it before and after it is fragmented to `r`. -/
def intersectingRefs (e : Engine) (link : DataAccessLink) (region : DataAccessRegion) :
    List AccessRef :=
  (intersectingKeys region
    (((e.getDataAccesses link.task).index link.objectType).map (fun a => a.region))).map
    (fun k => ⟨link.task, link.objectType, (k.intersect region).startAddress⟩)

/-- The references to all the objects of an index (`processAll`). -/
def allRefs (e : Engine) (link : DataAccessLink) : List AccessRef :=
  ((e.getDataAccesses link.task).index link.objectType).map
    (fun a => ⟨link.task, link.objectType, a.region.startAddress⟩)

/-- Put the parts of an element in its place in the index. -/
def replaceByPieces (address : Nat) (pieces : List DataAccess) :
    List DataAccess → List DataAccess
  | [] => []
  | a :: rest =>
    if a.region.containsAddress address then pieces ++ rest
    else a :: replaceByPieces address pieces rest

/-- The function `setUpNewFragment` on a part that fragmenting has created: the part becomes
registered, and the consequences are handled on a private `CPUDependencyData`. -/
def setUpNewFragment (handle : Handler) (fragment : AccessRef) (e : Engine) :
    Except Failure Engine :=
  withLocalDependencyData 1225 (fun e =>
    withStatusEffects e fragment fun _ initialStatus =>
      let e1 := e.modifyAccess fragment (fun a => { a with registered := true })
      withStatusEffects e1 fragment fun _ updatedStatus =>
        handle initialStatus updatedStatus fragment e1) e

/-- The assertion on the discounted bit that each of `fragmentAccessObject`,
`fragmentFragmentObject` and `fragmentTaskwaitFragmentObject` starts with. -/
def fragmentObjectAssertionLine : DataAccessObjectType → Nat
  | access_type => 1241
  | fragment_type => 1279
  | taskwait_type => 1317
  | top_level_sink_type => 1317

/-- The assertion that the part returned lies inside the region. -/
def fragmentObjectResultLine : DataAccessObjectType → Nat
  | access_type => 1269
  | fragment_type => 1307
  | taskwait_type => 1345
  | top_level_sink_type => 1345

/-- The functions `fragmentAccessObject`, `fragmentFragmentObject` and
`fragmentTaskwaitFragmentObject`: if the object does not lie inside the region, split it by
`fragmentByIntersection`, the duplicator being `duplicateDataAccess` and the postprocessor
`setUpNewFragment`.  The object that is left inside the region keeps the reference. -/
def fragmentObject (handle : Handler) (r : AccessRef) (region : DataAccessRegion)
    (e : Engine) : Except Failure Engine :=
  match e.findAccess r with
  | none => .error .noSuchObject
  | some a =>
    assertThat (!a.hasBeenDiscounted) (fragmentObjectAssertionLine r.objectType) <|
    if a.region.fullyContainedIn region then .ok e
    else
      assertThat (a.region.intersects region) (fragmentObjectResultLine r.objectType) <|
      assertThat a.registered 1256 <|
      let pieces := fragmentPieces duplicateDataAccess region a
      let e1 := e.modifyDataAccesses r.task (fun s =>
        s.setIndex r.objectType (replaceByPieces r.address pieces (s.index r.objectType)))
      forEachRef (setUpNewFragment handle)
        ((pieces.drop 1).map (fun p => ⟨r.task, r.objectType, p.region.startAddress⟩)) e1

/-- The function `fragmentAccess`: fragment an access, a fragment or a taskwait fragment as
necessary to match a region. -/
def fragmentAccess (handle : Handler) (r : AccessRef) (region : DataAccessRegion)
    (e : Engine) : Except Failure Engine :=
  match e.findAccess r with
  | none => .error .noSuchObject
  | some a =>
    if a.region.fullyContainedIn region then .ok e
    else fragmentObject handle r region e

/-- The function `followLink`: fragment the objects that a link leads to against the region
and call the processor on the parts inside it. -/
def followLink (handle : Handler) (link : DataAccessLink) (region : DataAccessRegion)
    (processor : AccessRef → Engine → Except Failure Engine) (e : Engine) :
    Except Failure Engine :=
  forEachRef (fun r e =>
      match e.findAccess r with
      | none => .error .noSuchObject
      | some a =>
        assertThat (!a.hasBeenDiscounted)
          (match link.objectType with
            | access_type => 1776
            | fragment_type => 1793
            | _ => 1811) <|
        match fragmentObject handle r region e with
        | .error f => .error f
        | .ok e1 => processor r e1)
    (intersectingRefs e link region) e

/-! ## The bottom map -/

/-- The function `fragmentBottomMapEntry` on the entries of a bottom map: the entry that holds
the address is cut down to the region, what is left of it on either side staying in the map as
copies; with `removeIntersection` the part inside the region is dropped. -/
def fragmentBottomMapEntry (address : Nat) (region : DataAccessRegion)
    (removeIntersection : Bool) : List BottomMapEntry → List BottomMapEntry
  | [] => []
  | b :: rest =>
    if b.region.containsAddress address then
      if b.region.fullyContainedIn region then b :: rest
      else
        (if (b.region.leftOf region).empty then [] else [{ b with region := b.region.leftOf region }])
          ++ (if removeIntersection then [] else [{ b with region := b.region.intersect region }])
          ++ (if (b.region.rightOf region).empty then []
              else [{ b with region := b.region.rightOf region }])
          ++ rest
    else b :: fragmentBottomMapEntry address region removeIntersection rest

/-- The entry of a bottom map that holds an address. -/
def findBottomMapEntry (address : Nat) (l : List BottomMapEntry) : Option BottomMapEntry :=
  l.find? (fun b => b.region.containsAddress address)

def eraseBottomMapEntry (address : Nat) (l : List BottomMapEntry) : List BottomMapEntry :=
  l.filter (fun b => !b.region.containsAddress address)

/-- The addresses by which a walk over the bottom map names the entries that intersect a
region. -/
def intersectingEntries (e : Engine) (task : Nat) (region : DataAccessRegion) : List Nat :=
  (intersectingKeys region
    ((e.getDataAccesses task).subaccessBottomMap.map (fun b => b.region))).map
    (fun k => (k.intersect region).startAddress)

/-- Run a processor on the entries of a bottom map that addresses name, in order. -/
def forEachEntry (process : Nat → Engine → Except Failure Engine) :
    List Nat → Engine → Except Failure Engine
  | [], e => .ok e
  | r :: rest, e =>
    match process r e with
    | .error f => .error f
    | .ok e1 => forEachEntry process rest e1

/-- The function `removeBottomMapTaskwaitOrTopLevelSink`: take a taskwait fragment or a
top-level sink out of the bottom map and of the index, after moving its location and its data
release step back to the accesses of the task. -/
def removeBottomMapTaskwaitOrTopLevelSink (handle : Handler) (r : AccessRef) (e : Engine) :
    Except Failure Engine :=
  match e.findAccess r with
  | none => .error .noSuchObject
  | some access =>
    assertThat (access.originator == r.task) 986 <|
    assertThat (access.objectType = taskwait_type || access.objectType = top_level_sink_type)
      988 <|
    match forEachEntry (fun address e =>
        match findBottomMapEntry address (e.getDataAccesses r.task).subaccessBottomMap with
        | none => .error .noSuchObject
        | some bottomMapEntry =>
          assertThat (access.region.fullyContainedIn bottomMapEntry.region) 995 <|
          assertThat (bottomMapEntry.link.task == r.task) 996 <|
          assertThat (bottomMapEntry.link.objectType == access.objectType) 997 <|
          .ok (e.modifyDataAccesses r.task fun s =>
            { s with subaccessBottomMap :=
                if access.region = bottomMapEntry.region then
                  eraseBottomMapEntry address s.subaccessBottomMap
                else fragmentBottomMapEntry address access.region true s.subaccessBottomMap }))
      (intersectingEntries e r.task access.region) e with
    | .error f => .error f
    | .ok e1 =>
      let dataReleaseStep := access.dataReleaseStep
      let e2 := e1.modifyAccess r (fun a => { a with dataReleaseStep := none })
      match forEachRef (fun original e =>
          match e.findAccess original with
          | none => .error .noSuchObject
          | some originalAccess =>
            assertThat (!originalAccess.hasBeenDiscounted) 1023 <|
            match fragmentAccess handle original access.region e with
            | .error f => .error f
            | .ok e3 =>
              .ok (e3.modifyAccess original fun a =>
                { a with
                  location := access.location
                  dataReleaseStep :=
                    if dataReleaseStep.isSome then dataReleaseStep else a.dataReleaseStep }))
        (intersectingRefs e2 ⟨r.task, access_type⟩ access.region) e2 with
      | .error f => .error f
      | .ok e4 =>
        .ok { (e4.eraseAccess r) with deletedAccesses := e4.deletedAccesses ++ [access] }

/-- The structure `BottomMapUpdateOperation`. -/
structure BottomMapUpdateOperation where
  region : DataAccessRegion
  parentAccessType : DataAccessType := NO_ACCESS_TYPE
  linkBottomMapAccessesToNext : Bool := false
  inhibitReadSatisfiabilityPropagation : Bool := false
  inhibitConcurrentSatisfiabilityPropagation : Bool := false
  inhibitCommutativeSatisfiabilityPropagation : Bool := false
  inhibitReductionInfoPropagation : Bool := false
  setCloseReduction : Bool := false
  next : Option DataAccessLink := none
deriving DecidableEq, Repr

def BottomMapUpdateOperation.empty (o : BottomMapUpdateOperation) : Bool :=
  !o.linkBottomMapAccessesToNext

/-- The function `foreachBottomMapMatch`: for every entry of the bottom map of the task that
intersects the region, run the processor on the objects that the entry links to, inside the
intersection. -/
def foreachBottomMapMatch (handle : Handler) (region : DataAccessRegion) (task : Nat)
    (processor : AccessRef → Engine → Except Failure Engine) (e : Engine) :
    Except Failure Engine :=
  forEachEntry (fun address e =>
      match findBottomMapEntry address (e.getDataAccesses task).subaccessBottomMap with
      | none => .error .noSuchObject
      | some bottomMapEntry =>
        let target := bottomMapEntry.link
        let subregion := region.intersect bottomMapEntry.region
        assertThat (target.task ≠ task || target.objectType ≠ access_type) 2007 <|
        followLink handle target subregion (fun r e =>
          match e.findAccess r with
          | none => .error .noSuchObject
          | some a =>
            assertThat a.reachable (if target.task ≠ task then 1996 else 2015) <|
            assertThat a.inBottomMap (if target.task ≠ task then 1997 else 2016) <|
            processor r e) e)
    (intersectingEntries e task region) e

/-- The function `processBottomMapUpdate`: link the objects in the bottom map of the task,
inside the region of the operation, to the next access of the operation, and inhibit the
propagation that the access of the task does itself. -/
def processBottomMapUpdate (handle : Handler) (operation : BottomMapUpdateOperation)
    (task : Nat) (e : Engine) : Except Failure Engine :=
  assertThat (!operation.empty) 2099 <|
  assertThat (!operation.region.empty) 2100 <|
  foreachBottomMapMatch handle operation.region task (fun r e =>
    match e.findAccess r with
    | none => .error .noSuchObject
    | some access =>
      failIf ((operation.parentAccessType = CONCURRENT_ACCESS_TYPE
          || operation.parentAccessType = COMMUTATIVE_ACCESS_TYPE)
          && access.type = REDUCTION_ACCESS_TYPE) .reductionWithinConcurrentOrCommutative <|
      withStatusEffects e r fun _ initialStatus =>
        failIf (operation.setCloseReduction
            && operation.parentAccessType = REDUCTION_ACCESS_TYPE
            && access.type ≠ REDUCTION_ACCESS_TYPE) .nonReductionWithinReduction <|
        assertThat (!access.hasNext) 2156 <|
        let e1 := e.modifyAccess r fun a =>
          { a with
            canPropagateReadSatisfiability :=
              a.canPropagateReadSatisfiability && !operation.inhibitReadSatisfiabilityPropagation
            canPropagateConcurrentSatisfiability :=
              a.canPropagateConcurrentSatisfiability
                && !operation.inhibitConcurrentSatisfiabilityPropagation
            canPropagateCommutativeSatisfiability :=
              a.canPropagateCommutativeSatisfiability
                && !operation.inhibitCommutativeSatisfiabilityPropagation
            canPropagateReductionInfo :=
              a.canPropagateReductionInfo && !operation.inhibitReductionInfoPropagation
            closesReduction :=
              a.closesReduction
                || (operation.setCloseReduction && a.type = REDUCTION_ACCESS_TYPE)
            next := operation.next }
        withStatusEffects e1 r fun _ updatedStatus =>
          handle initialStatus updatedStatus r e1) e

/-! ## Handling the changes of the status of an access -/

/-- Modelled from the spec: `ReductionInfo::combineRegion(region, slot_set,
can_combine_to_original)` returns whether this is the last combination, which is when no byte
of the region of the reduction is left to be combined into the original storage. -/
def combineRegion (e : Engine) (reductionInfo : Nat) (region : DataAccessRegion)
    (canCombineToOriginalStorage : Bool) : Engine × Bool :=
  match e.reductionInfos.get? reductionInfo with
  | none => (e, false)
  | some info =>
    let counter :=
      if canCombineToOriginalStorage then info.combinationCounter - region.getSize
      else info.combinationCounter
    ({ e with reductionInfos := (e.reductionInfos.set reductionInfo
        { info with
          combinationCounter := counter
          privateCombinations :=
            if canCombineToOriginalStorage then info.privateCombinations
            else info.privateCombinations + 1 }) },
      counter == 0)

/-- The registration edge of `handleDataAccessStatusChanges` (lines 549 to 577). -/
def handleRegistration (initialStatus updatedStatus : DataAccessStatusEffects)
    (access : DataAccess) (task : Nat) (e : Engine) : Except Failure Engine :=
  if initialStatus.isRegistered ≠ updatedStatus.isRegistered then
    assertThat (!initialStatus.isRegistered) 550 <|
    let e1 :=
      if !initialStatus.isRemovable then
        (if (e.getDataAccesses task).removalBlockers = 0 then e.increaseRemovalBlockingCount task
          else e).modifyDataAccesses task fun s =>
            { s with
              removalBlockers := s.removalBlockers + 1
              liveTaskwaitFragmentCount :=
                if access.objectType = taskwait_type then s.liveTaskwaitFragmentCount + 1
                else s.liveTaskwaitFragmentCount }
      else e
    let e2 :=
      if !access.weak && access.type = COMMUTATIVE_ACCESS_TYPE then
        e1.modifyDataAccesses task fun s =>
          { s with totalCommutativeBytes := s.totalCommutativeBytes + access.region.getSize }
      else e1
    .ok (if updatedStatus.enforcesDependency then e2.increasePredecessors task 1 else e2)
  else .ok e

/-- The dependency edge of `handleDataAccessStatusChanges` (lines 606 to 623). -/
def handleDependencyUpdate (initialStatus updatedStatus : DataAccessStatusEffects)
    (task : Nat) (e : Engine) : Except Failure Engine :=
  if initialStatus.enforcesDependency ≠ updatedStatus.enforcesDependency then
    if updatedStatus.enforcesDependency then
      assertThat (!initialStatus.isRegistered && updatedStatus.isRegistered) 611 <| .ok e
    else
      let (e1, ready) := e.decreasePredecessors task 1
      if ready then
        if (e1.getDataAccesses task).totalCommutativeBytes ≠ 0 then
          .ok (e1.modifyHp fun d =>
            { d with satisfiedCommutativeOriginators := d.satisfiedCommutativeOriginators ++ [task] })
        else
          .ok (e1.modifyHp fun d =>
            { d with satisfiedOriginators := d.satisfiedOriginators ++ [task] })
      else .ok e1
  else .ok e

/-- The reduction edges of `handleDataAccessStatusChanges` (lines 626 to 680). -/
def handleReductionChanges (initialStatus updatedStatus : DataAccessStatusEffects)
    (access : DataAccess) (e : Engine) : Except Failure Engine :=
  let available : Except Failure Engine :=
    if initialStatus.makesReductionOriginalStorageAvailable
        ≠ updatedStatus.makesReductionOriginalStorageAvailable then
      assertThat (!initialStatus.makesReductionOriginalStorageAvailable) 627 <|
      assertThat (access.objectType = access_type) 628 <|
      match access.reductionInfo with
      | none => .error (.assertion 631)
      | some i =>
        .ok { e with reductionInfos := (e.reductionInfos.modify
          (fun info => { info with availableBytes := info.availableBytes + access.region.getSize })
          i) }
    else .ok e
  match available with
  | .error f => .error f
  | .ok e1 =>
    let toPrivate : Except Failure Engine :=
      if initialStatus.combinesReductionToPrivateStorage
            ≠ updatedStatus.combinesReductionToPrivateStorage
          && initialStatus.combinesReductionToOriginal
            = updatedStatus.combinesReductionToOriginal then
        assertThat (!initialStatus.combinesReductionToPrivateStorage) 640 <|
        assertThat (!initialStatus.combinesReductionToOriginal) 641 <|
        assertThat (!access.hasBeenDiscounted) 643 <|
        assertThat (access.type = REDUCTION_ACCESS_TYPE) 645 <|
        assertThat (access.allocatedReductionInfo
          || (access.receivedReductionInfo && access.receivedReductionSlotSet)) 646 <|
        match access.reductionInfo with
        | none => .error (.assertion 649)
        | some i =>
          let (e2, wasLastCombination) := combineRegion e1 i access.region false
          assertThat (!wasLastCombination) 652 <| .ok e2
      else .ok e1
    match toPrivate with
    | .error f => .error f
    | .ok e2 =>
      if initialStatus.combinesReductionToOriginal ≠ updatedStatus.combinesReductionToOriginal then
        assertThat (!initialStatus.combinesReductionToOriginal) 657 <|
        assertThat updatedStatus.combinesReductionToPrivateStorage 658 <|
        assertThat (!access.hasBeenDiscounted) 660 <|
        assertThat (access.type = REDUCTION_ACCESS_TYPE) 662 <|
        assertThat access.receivedReductionInfo 663 <|
        assertThat (access.allocatedReductionInfo || access.receivedReductionSlotSet) 664 <|
        match access.reductionInfo with
        | none => .error (.assertion 667)
        | some i =>
          let (e3, wasLastCombination) := combineRegion e2 i access.region true
          .ok (if wasLastCombination then
              { e3 with reductionInfos :=
                  (e3.reductionInfos.modify (fun info => { info with deleted := true }) i) }
            else e3)
      else .ok e2

/-- The update operation that `handleDataAccessStatusChanges` prepares for the next access
(lines 693 to 757), with the assertions on the way. -/
def updateOperationToNext (initialStatus updatedStatus : DataAccessStatusEffects)
    (access : DataAccess) (taskIsFinal : Bool) (next : DataAccessLink) :
    Except Failure UpdateOperation :=
  let read := initialStatus.propagatesReadSatisfiabilityToNext
    ≠ updatedStatus.propagatesReadSatisfiabilityToNext
  let write := initialStatus.propagatesWriteSatisfiabilityToNext
    ≠ updatedStatus.propagatesWriteSatisfiabilityToNext
  let concurrent := initialStatus.propagatesConcurrentSatisfiabilityToNext
    ≠ updatedStatus.propagatesConcurrentSatisfiabilityToNext
  let commutative := initialStatus.propagatesCommutativeSatisfiabilityToNext
    ≠ updatedStatus.propagatesCommutativeSatisfiabilityToNext
  let reductionInfo := initialStatus.propagatesReductionInfoToNext
    ≠ updatedStatus.propagatesReductionInfoToNext
  let slotSet := initialStatus.propagatesReductionSlotSetToNext
    ≠ updatedStatus.propagatesReductionSlotSetToNext
  let releaseStep := initialStatus.propagatesDataReleaseStepToNext
    ≠ updatedStatus.propagatesDataReleaseStepToNext
  let topmost := initialStatus.makesNextTopmost ≠ updatedStatus.makesNextTopmost
  let topLevel := initialStatus.propagatesTopLevel ≠ updatedStatus.propagatesTopLevel
  assertThat (!read || !initialStatus.propagatesReadSatisfiabilityToNext) 696 <|
  assertThat (!read || access.hasLocation) 698 <|
  assertThat (!write || !initialStatus.propagatesWriteSatisfiabilityToNext) 703 <|
  assertThat (!concurrent || !initialStatus.propagatesConcurrentSatisfiabilityToNext) 713 <|
  assertThat (!commutative || !initialStatus.propagatesCommutativeSatisfiabilityToNext) 717 <|
  assertThat (!reductionInfo || !initialStatus.propagatesReductionInfoToNext) 722 <|
  assertThat (!reductionInfo || access.type ≠ REDUCTION_ACCESS_TYPE
    || access.receivedReductionInfo || access.allocatedReductionInfo) 723 <|
  assertThat (!slotSet || !initialStatus.propagatesReductionSlotSetToNext) 729 <|
  assertThat (!slotSet || access.type = REDUCTION_ACCESS_TYPE) 733 <|
  assertThat (!slotSet || access.receivedReductionInfo || access.allocatedReductionInfo) 734 <|
  assertThat (!slotSet || access.weak || taskIsFinal || access.reductionSlotSet ≠ 0) 736 <|
  assertThat (!releaseStep || !initialStatus.propagatesDataReleaseStepToNext) 742 <|
  assertThat (!topmost || !initialStatus.makesNextTopmost) 750 <|
  assertThat (!topLevel || !initialStatus.propagatesTopLevel) 755 <|
  .ok
    { target := next
      region := access.region
      makeReadSatisfied := read
      location := if read then access.location else none
      makeWriteSatisfied := write
      makeConcurrentSatisfied := concurrent
      makeCommutativeSatisfied := commutative
      setReductionInfo := reductionInfo
      reductionInfo := if reductionInfo then access.reductionInfo else none
      reductionSlotSet := if slotSet then some access.reductionSlotSet else none
      releaseStep := if releaseStep then access.dataReleaseStep else none
      makeTopmost := topmost
      makeTopLevel := topLevel }

/-- The update operation that `handleDataAccessStatusChanges` prepares for the fragments of
the access (lines 766 to 804), with the assertions on the way. -/
def updateOperationToFragments (initialStatus updatedStatus : DataAccessStatusEffects)
    (access : DataAccess) (task : Nat) : Except Failure UpdateOperation :=
  let read := initialStatus.propagatesReadSatisfiabilityToFragments
    ≠ updatedStatus.propagatesReadSatisfiabilityToFragments
  let write := initialStatus.propagatesWriteSatisfiabilityToFragments
    ≠ updatedStatus.propagatesWriteSatisfiabilityToFragments
  let concurrent := initialStatus.propagatesConcurrentSatisfiabilityToFragments
    ≠ updatedStatus.propagatesConcurrentSatisfiabilityToFragments
  let commutative := initialStatus.propagatesCommutativeSatisfiabilityToFragments
    ≠ updatedStatus.propagatesCommutativeSatisfiabilityToFragments
  let reductionInfo := initialStatus.propagatesReductionInfoToFragments
    ≠ updatedStatus.propagatesReductionInfoToFragments
  let slotSet := initialStatus.propagatesReductionSlotSetToFragments
    ≠ updatedStatus.propagatesReductionSlotSetToFragments
  assertThat (!read || !initialStatus.propagatesReadSatisfiabilityToFragments) 769 <|
  assertThat (!read || access.hasLocation) 771 <|
  assertThat (!write || !initialStatus.propagatesWriteSatisfiabilityToFragments) 776 <|
  assertThat (!concurrent || !initialStatus.propagatesConcurrentSatisfiabilityToFragments) 781 <|
  assertThat (!commutative || !initialStatus.propagatesCommutativeSatisfiabilityToFragments)
    786 <|
  assertThat (!reductionInfo || !initialStatus.propagatesReductionInfoToFragments) 791 <|
  assertThat (!reductionInfo || access.type ≠ REDUCTION_ACCESS_TYPE
    || access.receivedReductionInfo || access.allocatedReductionInfo) 792 <|
  assertThat (!slotSet || !initialStatus.propagatesReductionSlotSetToFragments) 798 <|
  assertThat (!slotSet || access.receivedReductionSlotSet
    || (access.type = REDUCTION_ACCESS_TYPE && access.allocatedReductionInfo)) 800 <|
  assertThat (!slotSet || access.type = REDUCTION_ACCESS_TYPE) 801 <|
  .ok
    { target := ⟨task, fragment_type⟩
      region := access.region
      makeReadSatisfied := read
      location := if read then access.location else none
      makeWriteSatisfied := write
      makeConcurrentSatisfied := concurrent
      makeCommutativeSatisfied := commutative
      setReductionInfo := reductionInfo
      reductionInfo := if reductionInfo then access.reductionInfo else none
      reductionSlotSet := if slotSet then some access.reductionSlotSet else none }

/-- The propagation edges of `handleDataAccessStatusChanges` (lines 683 to 809): the release of
a commutative region and the update operations for the next access and for the fragments. -/
def handlePropagation (initialStatus updatedStatus : DataAccessStatusEffects)
    (access : DataAccess) (r : AccessRef) (e : Engine) : Except Failure Engine :=
  let released : Except Failure Engine :=
    if initialStatus.releasesCommutativeRegion ≠ updatedStatus.releasesCommutativeRegion then
      assertThat (!initialStatus.releasesCommutativeRegion) 684 <|
      .ok (e.modifyHp fun d =>
        { d with releasedCommutativeRegions :=
            d.releasedCommutativeRegions ++ [(r.task, access.region)] })
    else .ok e
  match released with
  | .error f => .error f
  | .ok e1 =>
    let toNext : Except Failure Engine :=
      match access.next with
      | none => .ok e1
      | some next =>
        match updateOperationToNext initialStatus updatedStatus access (e1.getTask r.task).final
            next with
        | .error f => .error f
        | .ok updateOperation =>
          let e2 :=
            if initialStatus.propagatesDataReleaseStepToNext
                ≠ updatedStatus.propagatesDataReleaseStepToNext then
              e1.modifyAccess r fun a => { a with dataReleaseStep := none }
            else e1
          .ok (if !updateOperation.empty then
              e2.modifyHp fun d =>
                { d with delayedOperations := d.delayedOperations ++ [updateOperation] }
            else e2)
    match toNext with
    | .error f => .error f
    | .ok e2 =>
      if access.hasSubaccesses then
        match updateOperationToFragments initialStatus updatedStatus access r.task with
        | .error f => .error f
        | .ok updateOperation =>
          .ok (if !updateOperation.empty then
              e2.modifyHp fun d =>
                { d with delayedOperations := d.delayedOperations ++ [updateOperation] }
            else e2)
      else .ok e2

/-- The bottom-map edge of `handleDataAccessStatusChanges` (lines 812 to 838). -/
def handleBottomMapUpdate (handle : Handler)
    (initialStatus updatedStatus : DataAccessStatusEffects)
    (access : DataAccess) (task : Nat) (e : Engine) : Except Failure Engine :=
  if access.hasSubaccesses
      && initialStatus.linksBottomMapAccessesToNextAndInhibitsPropagation
        ≠ updatedStatus.linksBottomMapAccessesToNextAndInhibitsPropagation then
    assertThat (!updatedStatus.propagatesWriteSatisfiabilityToNext) 824 <|
    processBottomMapUpdate handle
      { region := access.region
        parentAccessType := access.type
        linkBottomMapAccessesToNext := true
        next := access.next
        inhibitReadSatisfiabilityPropagation := access.type = READ_ACCESS_TYPE
        inhibitConcurrentSatisfiabilityPropagation := access.type = CONCURRENT_ACCESS_TYPE
        inhibitCommutativeSatisfiabilityPropagation := access.type = COMMUTATIVE_ACCESS_TYPE
        inhibitReductionInfoPropagation :=
          access.type ≠ WRITE_ACCESS_TYPE && access.type ≠ READWRITE_ACCESS_TYPE
        setCloseReduction := access.type ≠ REDUCTION_ACCESS_TYPE || access.closesReduction }
      task e
  else .ok e

/-- The triggers of `handleDataAccessStatusChanges` (lines 840 to 885): the taskwait workflow,
the data release step and the data link step. -/
def handleTriggers (initialStatus updatedStatus : DataAccessStatusEffects)
    (access : DataAccess) (r : AccessRef) (e : Engine) : Except Failure Engine :=
  let taskwait : Except Failure Engine :=
    if initialStatus.triggersTaskwaitWorkflow ≠ updatedStatus.triggersTaskwaitWorkflow then
      assertThat (!initialStatus.triggersTaskwaitWorkflow) 841 <|
      assertThat (access.objectType = taskwait_type) 842 <|
      assertThat access.readSatisfied 843 <|
      assertThat access.writeSatisfied 844 <|
      assertThat (!access.complete) 845 <|
      assertThat (!access.hasNext) 846 <|
      assertThat access.inBottomMap 847 <|
      .ok (e.modifyHp fun d => { d with completedTaskwaits := d.completedTaskwaits ++ [r] })
    else .ok e
  match taskwait with
  | .error f => .error f
  | .ok e1 =>
    let release : Except Failure Engine :=
      if initialStatus.triggersDataRelease ≠ updatedStatus.triggersDataRelease then
        assertThat (!initialStatus.triggersDataRelease) 854 <|
        match access.dataReleaseStep with
        | none => .error .noSuchObject
        | some step =>
          .ok { (e1.modifyAccess r (fun a => { a with dataReleaseStep := none })) with
            releasedRegions := e1.releasedRegions ++ [⟨step, access.region, access.location⟩] }
      else .ok e1
    match release with
    | .error f => .error f
    | .ok e2 =>
      let linksRead := initialStatus.triggersDataLinkRead ≠ updatedStatus.triggersDataLinkRead
      let linksWrite := initialStatus.triggersDataLinkWrite ≠ updatedStatus.triggersDataLinkWrite
      if linksRead || linksWrite then
        match access.dataLinkStep with
        | none => .error (.assertion 864)
        | some step =>
          let e3 := { e2 with linkedRegions :=
            (e2.linkedRegions ++ [⟨step, access.region, access.location, linksRead, linksWrite⟩]) }
          .ok (if updatedStatus.triggersDataLinkRead && updatedStatus.triggersDataLinkWrite then
              e3.modifyAccess r fun a => { a with dataLinkStep := none }
            else e3)
      else .ok e2

/-- The removal edge of `handleDataAccessStatusChanges` (lines 888 to 977). -/
def handleRemoval (handle : Handler) (initialStatus updatedStatus : DataAccessStatusEffects)
    (access : DataAccess) (r : AccessRef) (e : Engine) : Except Failure Engine :=
  if initialStatus.isRemovable ≠ updatedStatus.isRemovable then
    assertThat (!initialStatus.isRemovable) 889 <|
    assertThat (decide ((e.getDataAccesses r.task).removalBlockers > 0)) 891 <|
    let e1 := (e.modifyDataAccesses r.task fun s =>
      { s with removalBlockers := s.removalBlockers - 1 }).modifyAccess r
        fun a => { a with discounted := true }
    let taskwait : Except Failure Engine :=
      if access.objectType = taskwait_type then
        let folded : Except Failure Engine :=
          if access.type = REDUCTION_ACCESS_TYPE then
            forEachRef (fun original e =>
                match e.findAccess original with
                | none => .error .noSuchObject
                | some dataAccess =>
                  assertThat (!dataAccess.hasBeenDiscounted) 914 <|
                  assertThat (dataAccess.type = REDUCTION_ACCESS_TYPE) 916 <|
                  assertThat dataAccess.weak 917 <|
                  assertThat (dataAccess.receivedReductionInfo
                    || dataAccess.allocatedReductionInfo) 919 <|
                  assertThat access.receivedReductionInfo 920 <|
                  assertThat (dataAccess.reductionInfo = access.reductionInfo) 921 <|
                  .ok (e.modifyAccess original fun a =>
                    { a with reductionSlotSet := a.reductionSlotSet ||| access.reductionSlotSet }))
              (intersectingRefs e1 ⟨r.task, access_type⟩ access.region) e1
          else .ok e1
        match folded with
        | .error f => .error f
        | .ok e2 =>
          assertThat (decide ((e2.getDataAccesses r.task).liveTaskwaitFragmentCount > 0)) 934 <|
          let e3 := e2.modifyDataAccesses r.task fun s =>
            { s with liveTaskwaitFragmentCount := s.liveTaskwaitFragmentCount - 1 }
          if (e3.getDataAccesses r.task).liveTaskwaitFragmentCount = 0 then
            let (e4, ready) := e3.decreaseBlockingCount r.task
            .ok (if ready then
                e4.modifyHp fun d =>
                  { d with satisfiedOriginators := d.satisfiedOriginators ++ [r.task] }
              else e4)
          else .ok e3
      else .ok e1
    match taskwait with
    | .error f => .error f
    | .ok e2 =>
      let removed : Except Failure Engine :=
        if access.hasNext then .ok e2
        else if access.objectType = taskwait_type || access.objectType = top_level_sink_type then
          removeBottomMapTaskwaitOrTopLevelSink handle r e2
        else
          assertThat (access.objectType = access_type && access.type = NO_ACCESS_TYPE) 958 <|
          .ok { (e2.eraseAccess r) with deletedAccesses := e2.deletedAccesses ++ [access] }
      match removed with
      | .error f => .error f
      | .ok e3 =>
        if (e3.getDataAccesses r.task).removalBlockers = 0 then
          let (e4, removable) := e3.decreaseRemovalBlockingCount r.task
          .ok (if removable then
              e4.modifyHp fun d => { d with removableTasks := d.removableTasks ++ [r.task] }
            else e4)
        else .ok e3
  else .ok e

/-- The body of `handleDataAccessStatusChanges`: make the changes that the difference between
the two statuses of the access implies, the nested calls going to the handler. -/
def handleDataAccessStatusChangesBody (handle : Handler) : Handler :=
  fun initialStatus updatedStatus r e =>
    match e.findAccess r with
    | none => .error .noSuchObject
    | some access =>
      match handleRegistration initialStatus updatedStatus access r.task e with
      | .error f => .error f
      | .ok e1 =>
        if !updatedStatus.isRegistered then .ok e1
        else
          assertThat (initialStatus.isSatisfied = updatedStatus.isSatisfied
            || !initialStatus.isSatisfied) 587 <|
          assertThat (initialStatus.hasNext = updatedStatus.hasNext || !initialStatus.hasNext)
            596 <|
          match handleDependencyUpdate initialStatus updatedStatus r.task e1 with
          | .error f => .error f
          | .ok e2 =>
            match handleReductionChanges initialStatus updatedStatus access e2 with
            | .error f => .error f
            | .ok e3 =>
              match handlePropagation initialStatus updatedStatus access r e3 with
              | .error f => .error f
              | .ok e4 =>
                match handleBottomMapUpdate handle initialStatus updatedStatus access r.task
                    e4 with
                | .error f => .error f
                | .ok e5 =>
                  match e5.findAccess r with
                  | none => .error .noSuchObject
                  | some current =>
                    match handleTriggers initialStatus updatedStatus current r e5 with
                    | .error f => .error f
                    | .ok e6 =>
                      match e6.findAccess r with
                      | none => .error .noSuchObject
                      | some final =>
                        handleRemoval handle initialStatus updatedStatus final r e6

/-- The function `handleDataAccessStatusChanges`, with a bound on the depth of the calls it
makes to itself through `processBottomMapUpdate` and through the fragmenting of objects. -/
def handleDataAccessStatusChanges : Nat → Handler
  | 0 => fun _ _ _ _ => .error .outOfFuel
  | depth + 1 => handleDataAccessStatusChangesBody (handleDataAccessStatusChanges depth)

/-! ## Update operations and the delayed operations -/

/-- The changes that `applyUpdateOperationOnAccess` makes to the access itself (lines 1467 to
1533), after its assertions. -/
def applyUpdateOperationBits (e : Engine) (updateOperation : UpdateOperation)
    (access : DataAccess) : Except Failure DataAccess :=
  let a1 : DataAccess :=
    if updateOperation.makeReadSatisfied then access.setReadSatisfied updateOperation.location
    else access
  let a2 : DataAccess :=
    { a1 with
      writeSatisfied := a1.writeSatisfied || updateOperation.makeWriteSatisfied
      concurrentSatisfied := a1.concurrentSatisfied || updateOperation.makeConcurrentSatisfied
      commutativeSatisfied := a1.commutativeSatisfied || updateOperation.makeCommutativeSatisfied
      dataReleaseStep :=
        if updateOperation.releaseStep.isSome then updateOperation.releaseStep
        else a1.dataReleaseStep }
  let a3 : Except Failure DataAccess :=
    if updateOperation.setReductionInfo then
      let a := { a2 with previousReductionInfo := updateOperation.reductionInfo }
      if a.reductionInfo.isSome then
        assertThat (a.type = REDUCTION_ACCESS_TYPE) 1499 <|
        assertThat a.allocatedReductionInfo 1500 <|
        .ok { a with receivedReductionInfo := true }
      else if a.type = REDUCTION_ACCESS_TYPE
          && (match updateOperation.reductionInfo with
            | some i => (match e.reductionInfos.get? i with
              | some info => a.reductionTypeAndOperatorIndex = info.typeAndOperatorIndex
              | none => false)
            | none => false) then
        .ok { a with reductionInfo := updateOperation.reductionInfo, receivedReductionInfo := true }
      else .ok { a with receivedReductionInfo := true }
    else .ok a2
  match a3 with
  | .error f => .error f
  | .ok a3 =>
    let a4 : Except Failure DataAccess :=
      match updateOperation.reductionSlotSet with
      | some slots =>
        assertThat (a3.objectType = access_type || a3.objectType = fragment_type
          || a3.objectType = taskwait_type) 1517 <|
        assertThat (a3.type = REDUCTION_ACCESS_TYPE) 1518 <|
        .ok { a3 with
          reductionSlotSet := a3.reductionSlotSet ||| slots
          receivedReductionSlotSet := true }
      | none => .ok a3
    match a4 with
    | .error f => .error f
    | .ok a4 =>
      .ok { a4 with
        topmost := a4.topmost || updateOperation.makeTopmost
        topLevel := a4.topLevel || updateOperation.makeTopLevel }

/-- The function `applyUpdateOperationOnAccess`. -/
def applyUpdateOperationOnAccess (handle : Handler) (updateOperation : UpdateOperation)
    (r : AccessRef) (e : Engine) : Except Failure Engine :=
  match fragmentAccess handle r updateOperation.region e with
  | .error f => .error f
  | .ok e1 =>
    withStatusEffects e1 r fun access initialStatus =>
      match applyUpdateOperationBits e1 updateOperation access with
      | .error f => .error f
      | .ok updated =>
        let e2 := e1.modifyAccess r fun _ => updated
        withStatusEffects e2 r fun _ updatedStatus =>
          handle initialStatus updatedStatus r e2

/-- The function `processUpdateOperation`: apply the operation to the objects of its target
that intersect its region. -/
def processUpdateOperation (handle : Handler) (updateOperation : UpdateOperation) (e : Engine) :
    Except Failure Engine :=
  assertThat (!updateOperation.empty) 1553 <|
  forEachRef (applyUpdateOperationOnAccess handle updateOperation)
    (intersectingRefs e updateOperation.target updateOperation.region) e

/-- The function `processDelayedOperations`: take the operations from the front of the queue
until the queue is empty, the operations that their processing emits going to its back.  The
bound is on the number of operations processed. -/
def processDelayedOperations (handle : Handler) : Nat → Engine → Except Failure Engine
  | 0, e => if e.hpDependencyData.delayedOperations.isEmpty then .ok e else .error .outOfFuel
  | steps + 1, e =>
    match e.hpDependencyData.delayedOperations with
    | [] => .ok e
    | delayedOperation :: _ =>
      match processUpdateOperation handle delayedOperation e with
      | .error f => .error f
      | .ok e1 =>
        processDelayedOperations handle steps
          (e1.modifyHp fun d => { d with delayedOperations := d.delayedOperations.drop 1 })

/-! ## The commutative scoreboard and the publication of ready tasks -/

/-- The regions of the strong commutative accesses of a task. -/
def commutativeRegions (e : Engine) (task : Nat) : List DataAccessRegion :=
  ((e.getDataAccesses task).accesses.filter
    (fun a => !a.weak && a.type = COMMUTATIVE_ACCESS_TYPE)).map (fun a => a.region)

/-- Modelled from the spec: `add_and_evaluate_task(task, dep_data)` records the commutative
regions of the task and returns true iff all of them are currently uncontended. -/
def addAndEvaluateTask (e : Engine) (task : Nat) : Engine × Bool :=
  let regions := commutativeRegions e task
  if regions.all (fun r => e.scoreboard.held.all (fun h => !h.intersects r)) then
    ({ e with scoreboard := { e.scoreboard with held := e.scoreboard.held ++ regions } }, true)
  else
    ({ e with scoreboard := { e.scoreboard with waiting := e.scoreboard.waiting ++ [task] } },
      false)

/-- Re-evaluate the tasks that wait on the scoreboard, in order. -/
def reevaluateWaiting : List Nat → Engine → Engine
  | [], e => e
  | task :: rest, e =>
    let (e1, acquired) := addAndEvaluateTask e task
    reevaluateWaiting rest
      (if acquired then
        e1.modifyHp fun d => { d with satisfiedOriginators := d.satisfiedOriginators ++ [task] }
      else e1)

/-- Modelled from the spec: on release, `process_released_commutative_regions` may re-evaluate
waiting tasks and push newly-acquired ones into `satisfied_originators`. -/
def scoreboardProcessReleasedCommutativeRegions (e : Engine) : Engine :=
  let released := e.hpDependencyData.releasedCommutativeRegions.map (fun p => p.2)
  let held := e.scoreboard.held.filter (fun h => released.all (fun r => !h.intersects r))
  let waiting := e.scoreboard.waiting
  let e1 : Engine :=
    { e with
      scoreboard := { held := held, waiting := [] }
      hpDependencyData := { e.hpDependencyData with releasedCommutativeRegions := [] } }
  reevaluateWaiting waiting e1

/-- The function `processReleasedCommutativeRegions`. -/
def processReleasedCommutativeRegions (e : Engine) : Engine :=
  if !e.hpDependencyData.releasedCommutativeRegions.isEmpty then
    scoreboardProcessReleasedCommutativeRegions e
  else e

/-- Evaluate the satisfied commutative originators on the scoreboard, in order. -/
def evaluateCommutativeOriginators : List Nat → Engine → Engine
  | [], e => e
  | task :: rest, e =>
    let (e1, acquiredCommutativeSlots) := addAndEvaluateTask e task
    evaluateCommutativeOriginators rest
      (if acquiredCommutativeSlots then
        e1.modifyHp fun d => { d with satisfiedOriginators := d.satisfiedOriginators ++ [task] }
      else e1)

/-- The function `processSatisfiedCommutativeOriginators`. -/
def processSatisfiedCommutativeOriginators (e : Engine) : Engine :=
  if !e.hpDependencyData.satisfiedCommutativeOriginators.isEmpty then
    (evaluateCommutativeOriginators e.hpDependencyData.satisfiedCommutativeOriginators e).modifyHp
      fun d => { d with satisfiedCommutativeOriginators := [] }
  else e

/-- The hint that `processSatisfiedOriginators` gives to the scheduler for a task. -/
def schedulingHint (e : Engine) (computePlace : Option ComputePlace) (fromBusyThread : Bool)
    (task : Nat) : ReadyTaskHint :=
  let computePlaceHint : Option ComputePlace :=
    match computePlace with
    | some place => if place.hostDevice = (e.getTask task).hostDevice then some place else none
    | none => none
  if fromBusyThread || computePlaceHint.isNone
      || !(computePlaceHint.map (fun place => place.owned)).getD false then
    .BUSY_COMPUTE_PLACE_TASK_HINT
  else .SIBLING_TASK_HINT

/-- The function `processSatisfiedOriginators`: publish the originators that have become
ready to the scheduler, in the order of their list. -/
def processSatisfiedOriginators (computePlace : Option ComputePlace) (fromBusyThread : Bool)
    (e : Engine) : Engine :=
  let e1 := processSatisfiedCommutativeOriginators e
  { e1 with
    readyTasks := e1.readyTasks ++ e1.hpDependencyData.satisfiedOriginators.map
      (fun task => (task, schedulingHint e1 computePlace fromBusyThread task))
    hpDependencyData := { e1.hpDependencyData with satisfiedOriginators := [] } }

/-- The function `handleCompletedTaskwaits`. -/
def handleCompletedTaskwaits (e : Engine) : Except Failure Engine :=
  assertThat (e.hpDependencyData.completedTaskwaits.all
    (fun r => r.objectType = taskwait_type)) 2701 <|
  .ok { e with
    taskwaitWorkflows := e.taskwaitWorkflows ++ e.hpDependencyData.completedTaskwaits
    hpDependencyData := { e.hpDependencyData with completedTaskwaits := [] } }

/-- The function `handleRemovableTasks`. -/
def handleRemovableTasks (e : Engine) : Engine :=
  { e with
    disposedTasks := e.disposedTasks ++ e.hpDependencyData.removableTasks
    hpDependencyData := { e.hpDependencyData with removableTasks := [] } }

/-- The function `processDelayedOperationsSatisfiedOriginatorsAndRemovableTasks`. -/
def processDelayedOperationsSatisfiedOriginatorsAndRemovableTasks (handle : Handler)
    (steps : Nat) (computePlace : Option ComputePlace) (fromBusyThread : Bool) (e : Engine) :
    Except Failure Engine :=
  match processDelayedOperations handle steps (processReleasedCommutativeRegions e) with
  | .error f => .error f
  | .ok e1 =>
    match handleCompletedTaskwaits e1 with
    | .error f => .error f
    | .ok e2 =>
      let e3 := processSatisfiedOriginators computePlace fromBusyThread e2
      assertThat e3.hpDependencyData.satisfiedOriginators.isEmpty 1659 <|
      .ok (handleRemovableTasks e3)

/-! ## Linking the accesses of a new task -/

/-- The function `createInitialFragment`: a child task touches a region of an access of the
parent that has no fragment yet.  The fragment covers the whole access; the parts of the access
outside the subregion of the child get bottom-map entries that lead to the fragment. -/
def createInitialFragment (parent : Nat) (superaccess : AccessRef)
    (subregion : DataAccessRegion) (e : Engine) : Except Failure Engine :=
  match e.findAccess superaccess with
  | none => .error .noSuchObject
  | some dataAccess =>
    assertThat ((e.getDataAccesses parent).accessFragments.all
      (fun f => !f.region.intersects dataAccess.region)) 1682 <|
    let fragment : DataAccess :=
      { (DataAccess.inheritFragmentStatus
          { objectType := fragment_type
            type := dataAccess.type
            weak := dataAccess.weak
            originator := dataAccess.originator
            region := dataAccess.region
            reductionTypeAndOperatorIndex := dataAccess.reductionTypeAndOperatorIndex
            reductionIndex := dataAccess.reductionIndex
            location := dataAccess.location
            outputLocation := dataAccess.outputLocation
            dataReleaseStep := dataAccess.dataReleaseStep
            dataLinkStep := dataAccess.dataLinkStep } dataAccess) with
        reachable := true
        inBottomMap := true }
    let e1 := (e.modifyDataAccesses parent fun s =>
      { s with accessFragments := insertAccess fragment s.accessFragments }).modifyAccess
        superaccess fun a => { a with hasSubaccesses := true, dataReleaseStep := none }
    let excluded : List DataAccessRegion :=
      if subregion ≠ dataAccess.region then
        (if (dataAccess.region.leftOf subregion).empty then []
          else [dataAccess.region.leftOf subregion])
        ++ (if (dataAccess.region.rightOf subregion).empty then []
          else [dataAccess.region.rightOf subregion])
      else []
    .ok (e1.modifyDataAccesses parent fun s =>
      { s with subaccessBottomMap :=
          (excluded.foldl (fun m excludedSubregion =>
            insertBottomMapEntry
              { region := excludedSubregion
                link := ⟨dataAccess.originator, fragment_type⟩
                accessType := dataAccess.type
                reductionTypeAndOperatorIndex := dataAccess.reductionTypeAndOperatorIndex } m)
            s.subaccessBottomMap) })

/-- The contents of a bottom-map entry that the matching processor receives. -/
structure BottomMapEntryContents where
  link : DataAccessLink
  accessType : DataAccessType
  reductionTypeAndOperatorIndex : Int
deriving DecidableEq, Repr

/-- Run a processor on the matches of a walk, in order. -/
def forEachMatch (process : RegionMatch → Engine → Except Failure Engine) :
    List RegionMatch → Engine → Except Failure Engine
  | [], e => .ok e
  | m :: rest, e =>
    match process m e with
    | .error f => .error f
    | .ok e1 => forEachMatch process rest e1

/-- The first processor of
`foreachBottomMapMatchPossiblyCreatingInitialFragmentsAndMissingRegion` (lines 1841 to 1895):
a part of the region is in the bottom map of the parent already. -/
def processBottomMapMatch (handle : Handler) (parent : Nat) (region : DataAccessRegion)
    (matchingProcessor : AccessRef → BottomMapEntryContents → Engine → Except Failure Engine)
    (entryRegion : DataAccessRegion) (e : Engine) : Except Failure Engine :=
  let address := (entryRegion.intersect region).startAddress
  match findBottomMapEntry address (e.getDataAccesses parent).subaccessBottomMap with
  | none => .error .noSuchObject
  | some bottomMapEntry =>
    let subregion := region.intersect bottomMapEntry.region
    let bmeContents : BottomMapEntryContents :=
      ⟨bottomMapEntry.link, bottomMapEntry.accessType,
        bottomMapEntry.reductionTypeAndOperatorIndex⟩
    let target := bmeContents.link
    assertThat (target.task ≠ parent || target.objectType = fragment_type) 1870 <|
    match followLink handle target subregion (fun previous e =>
        match e.findAccess previous with
        | none => .error .noSuchObject
        | some a =>
          assertThat (!a.hasNext) (if target.task ≠ parent then 1861 else 1876) <|
          assertThat a.inBottomMap (if target.task ≠ parent then 1862 else 1877) <|
          matchingProcessor previous bmeContents e) e with
    | .error f => .error f
    | .ok e1 =>
      .ok (e1.modifyDataAccesses parent fun s =>
        { s with subaccessBottomMap :=
            (eraseBottomMapEntry address
              (fragmentBottomMapEntry address subregion false s.subaccessBottomMap)) })

/-- The second processor of
`foreachBottomMapMatchPossiblyCreatingInitialFragmentsAndMissingRegion` (lines 1902 to 1960):
a part of the region is not in the bottom map of the parent.  Where an access of the parent
covers it an initial fragment is created and given to the matching processor; the rest goes to
the missing processor. -/
def processBottomMapHole (handle : Handler) (parent : Nat)
    (matchingProcessor : AccessRef → BottomMapEntryContents → Engine → Except Failure Engine)
    (missingProcessor : DataAccessRegion → Engine → Except Failure Engine)
    (missingRegion : DataAccessRegion) (e : Engine) : Except Failure Engine :=
  forEachMatch (fun m e =>
      match m with
      | .intersecting superaccessRegion =>
        let address := (superaccessRegion.intersect missingRegion).startAddress
        let previous : AccessRef := ⟨parent, fragment_type, address⟩
        match createInitialFragment parent ⟨parent, access_type, address⟩ missingRegion e with
        | .error f => .error f
        | .ok e1 =>
          let e2 := e1.modifyAccess previous fun a => { a with topmost := true, registered := true }
          withStatusEffects e2 previous fun fragment updatedStatus =>
            let bmeContents : BottomMapEntryContents :=
              ⟨⟨parent, fragment_type⟩, fragment.type, fragment.reductionTypeAndOperatorIndex⟩
            match withLocalDependencyData 1937
                (handle {} updatedStatus previous) e2 with
            | .error f => .error f
            | .ok e3 =>
              match fragmentAccess handle previous missingRegion e3 with
              | .error f => .error f
              | .ok e4 => matchingProcessor previous bmeContents e4
      | .missing regionUncoveredByParent => missingProcessor regionUncoveredByParent e)
    (regionMatches missingRegion ((e.getDataAccesses parent).accesses.map (fun a => a.region))) e

/-- The function `foreachBottomMapMatchPossiblyCreatingInitialFragmentsAndMissingRegion`. -/
def foreachBottomMapMatchPossiblyCreatingInitialFragmentsAndMissingRegion (handle : Handler)
    (parent : Nat) (region : DataAccessRegion)
    (matchingProcessor : AccessRef → BottomMapEntryContents → Engine → Except Failure Engine)
    (missingProcessor : DataAccessRegion → Engine → Except Failure Engine) (e : Engine) :
    Except Failure Engine :=
  forEachMatch (fun m e =>
      match m with
      | .intersecting entryRegion =>
        processBottomMapMatch handle parent region matchingProcessor entryRegion e
      | .missing missingRegion =>
        processBottomMapHole handle parent matchingProcessor missingProcessor missingRegion e)
    (regionMatches region
      ((e.getDataAccesses parent).subaccessBottomMap.map (fun b => b.region))) e

/-- The function `allocateReductionInfo`: a new reduction info on the region of the access. -/
def allocateReductionInfo (dataAccess : AccessRef) (e : Engine) : Except Failure Engine :=
  match e.findAccess dataAccess with
  | none => .error .noSuchObject
  | some access =>
    assertThat (access.type = REDUCTION_ACCESS_TYPE) 2172 <|
    let info : ReductionInfo :=
      { region := access.region
        typeAndOperatorIndex := access.reductionTypeAndOperatorIndex
        combinationCounter := access.region.getSize }
    let e1 : Engine := { e with reductionInfos := e.reductionInfos ++ [info] }
    .ok (e1.modifyAccess dataAccess fun a =>
      { a with reductionInfo := some e.reductionInfos.length, allocatedReductionInfo := true })

/-- The allocation of a reduction info for the access being linked, with the handling of the
change of its status (lines 2291 to 2298 and 2386 to 2393). -/
def allocateAndHandle (handle : Handler) (dataAccess : AccessRef) (e : Engine) :
    Except Failure Engine :=
  withStatusEffects e dataAccess fun _ initialStatus =>
    match allocateReductionInfo dataAccess e with
    | .error f => .error f
    | .ok e1 =>
      withStatusEffects e1 dataAccess fun _ updatedStatus =>
        handle initialStatus updatedStatus dataAccess
          { e1 with linking := { e1.linking with hasAllocatedReductionInfo := true } }

/-- The assertion that all the parts of the new access are local, or none (lines 2303 to 2307
and 2366 to 2370). -/
def assertSameLocality (e : Engine) (rest : Engine → Except Failure Engine) :
    Except Failure Engine :=
  assertThat (e.linking.first || e.linking.isLocal = e.linking.lastWasLocal) 2304 <|
  rest { e with linking := { e.linking with first := false, lastWasLocal := e.linking.isLocal } }

/-- The matching processor of `replaceMatchingInBottomMapLinkAndPropagate` (lines 2256 to 2355):
the object `previous` was in the bottom map of the parent where the new access comes. -/
def linkMatchingProcessor (handle : Handler) (next : DataAccessLink) (dataAccess : AccessRef)
    (region : DataAccessRegion) (previous : AccessRef)
    (bottomMapEntryContents : BottomMapEntryContents) (e : Engine) : Except Failure Engine :=
  match e.findAccess previous, e.findAccess dataAccess with
  | some previousAccess, some access =>
    assertThat previousAccess.reachable 2258 <|
    assertThat (!previousAccess.hasBeenDiscounted) 2259 <|
    assertThat (!previousAccess.hasNext) 2260 <|
    let e1 : Engine :=
      { e with linking :=
        { e.linking with
          parentAccessType := bottomMapEntryContents.accessType
          parentReductionTypeAndOperatorIndex :=
            bottomMapEntryContents.reductionTypeAndOperatorIndex
          isLocal := bottomMapEntryContents.accessType = NO_ACCESS_TYPE } }
    let reduction : Except Failure Engine :=
      if access.type = REDUCTION_ACCESS_TYPE && !e1.linking.hasAllocatedReductionInfo then
        if previousAccess.reductionTypeAndOperatorIndex ≠ access.reductionTypeAndOperatorIndex
        then allocateAndHandle handle dataAccess e1
        else if e1.linking.previousReductionInfo.isNone then
          .ok { e1 with linking :=
            { e1.linking with previousReductionInfo := previousAccess.reductionInfo } }
        else if previousAccess.reductionInfo ≠ e1.linking.previousReductionInfo then
          allocateAndHandle handle dataAccess e1
        else .ok e1
      else .ok e1
    match reduction with
    | .error f => .error f
    | .ok e2 =>
      assertSameLocality e2 fun e3 =>
        assertThat (previousAccess.region.fullyContainedIn region) 2312 <|
        withStatusEffects e3 previous fun _ initialStatus =>
          let closing : Except Failure Engine :=
            if previousAccess.type = REDUCTION_ACCESS_TYPE then
              if access.reductionTypeAndOperatorIndex
                  ≠ previousAccess.reductionTypeAndOperatorIndex then
                .ok (e3.modifyAccess previous fun a => { a with closesReduction := true })
              else
                assertThat (access.type = REDUCTION_ACCESS_TYPE) 2324 <|
                .ok { e3 with linking :=
                  { e3.linking with previousReductionAccesses :=
                      e3.linking.previousReductionAccesses ++ [previous] } }
            else .ok e3
          match closing with
          | .error f => .error f
          | .ok e4 =>
            let e5 := e4.modifyAccess previous fun a =>
              { a with next := some next, inBottomMap := false }
            withStatusEffects e5 previous fun _ updatedStatus =>
              handle initialStatus updatedStatus previous e5
  | _, _ => .error .noSuchObject

/-- The missing processor of `replaceMatchingInBottomMapLinkAndPropagate` (lines 2359 to 2430):
the region is neither in the bottom map of the parent nor in its accesses, and the parts of
the accesses of the new task inside it become satisfied. -/
def linkMissingProcessor (handle : Handler) (next : DataAccessLink) (dataAccess : AccessRef)
    (parent : Nat) (missingRegion : DataAccessRegion) (e : Engine) : Except Failure Engine :=
  assertThat ((e.getDataAccesses parent).accesses.all
    (fun a => !a.region.intersects missingRegion)) 2360 <|
  assertSameLocality { e with linking := { e.linking with isLocal := true } } fun e1 =>
    forEachRef (fun target e =>
        match e.findAccess target, e.findAccess dataAccess with
        | some targetAccess, some access =>
          assertThat (!targetAccess.hasBeenDiscounted) 2380 <|
          let reduction : Except Failure Engine :=
            if access.type = REDUCTION_ACCESS_TYPE && !e.linking.hasAllocatedReductionInfo then
              allocateAndHandle handle dataAccess e
            else .ok e
          match reduction with
          | .error f => .error f
          | .ok e2 =>
            match fragmentAccess handle target missingRegion e2 with
            | .error f => .error f
            | .ok e3 =>
              withStatusEffects e3 target fun targetAccess initialStatus =>
                let remote := (e3.getTask targetAccess.originator).remote
                let e4 := e3.modifyAccess target fun a =>
                  { (if !remote then
                      { a.setReadSatisfied (some directoryMemoryPlace) with
                        writeSatisfied := true }
                    else a) with
                    concurrentSatisfied := true
                    commutativeSatisfied := true
                    receivedReductionInfo := true
                    topmost := true
                    topLevel := true }
                withStatusEffects e4 target fun _ updatedStatus =>
                  handle initialStatus updatedStatus target e4
        | _, _ => .error .noSuchObject)
      (intersectingRefs e1 next missingRegion) e1

/-- The function `replaceMatchingInBottomMapLinkAndPropagate`: put an access of a new task in
the bottom map of the parent. -/
def replaceMatchingInBottomMapLinkAndPropagate (handle : Handler) (next : DataAccessLink)
    (dataAccess : AccessRef) (parent : Nat) (e : Engine) : Except Failure Engine :=
  match e.findAccess dataAccess with
  | none => .error .noSuchObject
  | some access =>
    let region := access.region
    match foreachBottomMapMatchPossiblyCreatingInitialFragmentsAndMissingRegion handle parent
        region (linkMatchingProcessor handle next dataAccess region)
        (linkMissingProcessor handle next dataAccess parent)
        { e with linking := {} } with
    | .error f => .error f
    | .ok e1 =>
      let e2 : Engine :=
        if e1.linking.hasAllocatedReductionInfo
            && !e1.linking.previousReductionAccesses.isEmpty then
          e1.linking.previousReductionAccesses.foldl
            (fun e previousAccess =>
              e.modifyAccess previousAccess fun a => { a with closesReduction := true }) e1
        else e1
      let e3 : Engine := { e2 with linking := {} }
      .ok (e3.modifyDataAccesses parent fun s =>
        { s with subaccessBottomMap :=
            (insertBottomMapEntry
              { region := region
                link := next
                accessType := e1.linking.parentAccessType
                reductionTypeAndOperatorIndex :=
                  e1.linking.parentReductionTypeAndOperatorIndex }
              s.subaccessBottomMap) })

/-- The processor that `linkTaskAccesses` runs on each access of the task (lines 2486 to
2524): the access becomes registered, reachable and part of the bottom map, and it is put in
the bottom map of the parent. -/
def linkTaskAccess (handle : Handler) (task parent : Nat) (dataAccess : AccessRef)
    (e : Engine) : Except Failure Engine :=
  match e.findAccess dataAccess with
  | none => .error .noSuchObject
  | some access =>
    assertThat (!access.hasBeenDiscounted) 2493 <|
    withStatusEffects e dataAccess fun _ initialStatus =>
      let e1 := e.modifyAccess dataAccess fun a =>
        { a with inBottomMap := true, registered := true, reachable := true }
      withStatusEffects e1 dataAccess fun _ updatedStatus =>
        match handle initialStatus updatedStatus dataAccess e1 with
        | .error f => .error f
        | .ok e2 =>
          replaceMatchingInBottomMapLinkAndPropagate handle ⟨task, access_type⟩
            dataAccess parent e2

/-- The function `linkTaskAccesses`: link the accesses of a task into the dependency system. -/
def linkTaskAccesses (handle : Handler) (task : Nat) (e : Engine) : Except Failure Engine :=
  if (e.getDataAccesses task).accesses.isEmpty then .ok e
  else
    match e.getParent task with
    | none => .error (.assertion 2467)
    | some parent =>
      forEachRef (linkTaskAccess handle task parent) (allRefs e ⟨task, access_type⟩) e

/-! ## Completion of accesses, taskwaits and top-level sinks -/

/-- The function `finalizeFragments`: mark the fragments of a task as complete. -/
def finalizeFragments (handle : Handler) (task : Nat) (e : Engine) : Except Failure Engine :=
  forEachRef (fun fragment e =>
      match e.findAccess fragment with
      | none => .error .noSuchObject
      | some access =>
        assertThat (!access.hasBeenDiscounted) 2548 <|
        if access.complete then .ok e
        else
          withStatusEffects e fragment fun _ initialStatus =>
            let e1 := e.modifyAccess fragment fun a => { a with complete := true }
            withStatusEffects e1 fragment fun _ updatedStatus =>
              handle initialStatus updatedStatus fragment e1)
    (allRefs e ⟨task, fragment_type⟩) e

/-- The function `applyToAccessAndFragments`: run a processor on the part of an access inside
a region and, if it asks for it, on the fragments that intersect that part. -/
def applyToAccessAndFragments (handle : Handler) (dataAccess : AccessRef)
    (region : DataAccessRegion) (processor : AccessRef → Engine → Except Failure Engine)
    (e : Engine) : Except Failure Engine :=
  match fragmentAccess handle dataAccess region e with
  | .error f => .error f
  | .ok e1 =>
    match e1.findAccess dataAccess with
    | none => .error .noSuchObject
    | some access =>
      let hasSubaccesses := access.hasSubaccesses
      let finalRegion := access.region
      match processor dataAccess e1 with
      | .error f => .error f
      | .ok e2 =>
        if hasSubaccesses then
          forEachRef (fun fragment e =>
              match e.findAccess fragment with
              | none => .error .noSuchObject
              | some fragmentAccess_ =>
                assertThat (!fragmentAccess_.hasBeenDiscounted) 2597 <|
                match fragmentAccess handle fragment finalRegion e with
                | .error f => .error f
                | .ok e3 => processor fragment e3)
            (intersectingRefs e2 ⟨dataAccess.task, fragment_type⟩ finalRegion) e2
        else .ok e2

/-- The function `finalizeAccess`: set an access of a finished task, and its fragments, as
complete inside the region, and update their location if one is given. -/
def finalizeAccess (handle : Handler) (finishedTask : Nat) (dataAccess : AccessRef)
    (region : DataAccessRegion) (location : Option Nat) (e : Engine) : Except Failure Engine :=
  match e.findAccess dataAccess with
  | none => .error .noSuchObject
  | some access =>
    assertThat (location.isSome || access.weak) 2648 <|
    assertThat (access.originator == finishedTask) 2650 <|
    assertThat (!region.empty) 2651 <|
    if access.complete then .ok e
    else
      assertThat (!access.hasBeenDiscounted) 2657 <|
      applyToAccessAndFragments handle dataAccess region (fun accessOrFragment e =>
        withStatusEffects e accessOrFragment fun current initialStatus =>
          assertThat (!current.complete) 2667 <|
          assertThat (current.originator == finishedTask) 2668 <|
          let e1 := e.modifyAccess accessOrFragment fun a =>
            { a with
              complete := true
              location := if location.isSome then location else a.location }
          withStatusEffects e1 accessOrFragment fun _ updatedStatus =>
            handle initialStatus updatedStatus accessOrFragment e1) e

/-- The linking of the objects that a bottom-map entry led to, to a new taskwait fragment or
top-level sink (lines 2804 to 2836 and 2934 to 2966). -/
def linkPreviousToSink (handle : Handler) (previous : DataAccessLink)
    (region : DataAccessRegion) (closes : DataAccess → Bool) (next : DataAccessLink)
    (e : Engine) : Except Failure Engine :=
  followLink handle previous region (fun previousAccess e =>
    withStatusEffects e previousAccess fun access initialStatus =>
      let e1 := e.modifyAccess previousAccess fun a =>
        { a with
          closesReduction := a.closesReduction || closes access
          next := some next
          inBottomMap := false }
      withStatusEffects e1 previousAccess fun _ updatedStatus =>
        handle initialStatus updatedStatus previousAccess e1) e

/-- The entries of a bottom map by their start addresses (`processAll`). -/
def allEntries (e : Engine) (task : Nat) : List Nat :=
  (e.getDataAccesses task).subaccessBottomMap.map (fun b => b.region.startAddress)

/-- Make the entry of a bottom map that holds an address lead to a link. -/
def relinkBottomMapEntry (address : Nat) (link : DataAccessLink) (l : List BottomMapEntry) :
    List BottomMapEntry :=
  l.map (fun b => if b.region.containsAddress address then { b with link := link } else b)

/-- The function `createTaskwait`: a taskwait fragment for every entry of the bottom map, which
becomes the next access of the objects that the entry led to. -/
def createTaskwait (handle : Handler) (task : Nat) (computePlace : Option ComputePlace)
    (e : Engine) : Except Failure Engine :=
  if (e.getDataAccesses task).subaccessBottomMap.isEmpty then .ok e
  else
    let e0 := e.increaseBlockingCount task
    assertThat (e0.getDataAccesses task).taskwaitFragments.isEmpty 2732 <|
    forEachEntry (fun address e =>
        match findBottomMapEntry address (e.getDataAccesses task).subaccessBottomMap with
        | none => .error .noSuchObject
        | some bottomMapEntry =>
          let previous := bottomMapEntry.link
          let region := bottomMapEntry.region
          let reductionTypeAndOperatorIndex := bottomMapEntry.reductionTypeAndOperatorIndex
          let created := createAccess task taskwait_type bottomMapEntry.accessType false region
            reductionTypeAndOperatorIndex (-1)
          let taskwaitFragment : AccessRef := ⟨task, taskwait_type, region.startAddress⟩
          let initialStatus := statusEffectsOf e created
          statusEffectsAssertions e created <|
          let registered : DataAccess :=
            { created with
              inBottomMap := true
              registered := true
              reachable := true
              outputLocation := computePlace.map (fun place => place.memoryPlace)
              complete := computePlace.isNone }
          let e1 := e.modifyDataAccesses task fun s =>
            { s with
              taskwaitFragments := insertAccess registered s.taskwaitFragments
              subaccessBottomMap :=
                relinkBottomMapEntry address ⟨task, taskwait_type⟩ s.subaccessBottomMap }
          withStatusEffects e1 taskwaitFragment fun _ updatedStatus =>
            match handle initialStatus updatedStatus taskwaitFragment e1 with
            | .error f => .error f
            | .ok e2 =>
              linkPreviousToSink handle previous region
                (fun previousAccess =>
                  previousAccess.type = REDUCTION_ACCESS_TYPE
                    && previousAccess.reductionTypeAndOperatorIndex
                      ≠ reductionTypeAndOperatorIndex)
                ⟨task, taskwait_type⟩ e2)
      (allEntries e0 task) e0

/-- The function `createTopLevelSink`: for every entry of the bottom map of a finishing task
whose type is `NO_ACCESS_TYPE`, a top-level sink fragment, which becomes the next access of the
objects that the entry led to. -/
def createTopLevelSink (handle : Handler) (task : Nat) (e : Engine) : Except Failure Engine :=
  forEachEntry (fun address e =>
      match findBottomMapEntry address (e.getDataAccesses task).subaccessBottomMap with
      | none => .error .noSuchObject
      | some bottomMapEntry =>
        if bottomMapEntry.accessType ≠ NO_ACCESS_TYPE then .ok e
        else
          let previous := bottomMapEntry.link
          let region := bottomMapEntry.region
          assertThat (bottomMapEntry.reductionTypeAndOperatorIndex
            = no_reduction_type_and_operator) 2881 <|
          let created := createAccess task top_level_sink_type bottomMapEntry.accessType false
            region no_reduction_type_and_operator (-1)
          let topLevelSinkFragment : AccessRef := ⟨task, top_level_sink_type, region.startAddress⟩
          let initialStatus := statusEffectsOf e created
          statusEffectsAssertions e created <|
          let registered : DataAccess :=
            { created with
              inBottomMap := true
              registered := true
              complete := true
              reachable := true }
          let e1 := e.modifyDataAccesses task fun s =>
            { s with
              taskwaitFragments := insertAccess registered s.taskwaitFragments
              subaccessBottomMap :=
                relinkBottomMapEntry address ⟨task, top_level_sink_type⟩ s.subaccessBottomMap }
          withStatusEffects e1 topLevelSinkFragment fun _ updatedStatus =>
            match handle initialStatus updatedStatus topLevelSinkFragment e1 with
            | .error f => .error f
            | .ok e2 =>
              linkPreviousToSink handle previous region
                (fun previousAccess => previousAccess.type = REDUCTION_ACCESS_TYPE)
                ⟨task, taskwait_type⟩ e2)
    (allEntries e task) e

/-! ## The entry points of the engine -/

/-- The handler and the bound on the delayed operations that an entry point runs with. -/
structure Fuel where
  depth : Nat
  steps : Nat
deriving DecidableEq, Repr

/-- The drain that every entry point ends with. -/
def drain (fuel : Fuel) (computePlace : Option ComputePlace) (fromBusyThread : Bool)
    (e : Engine) : Except Failure Engine :=
  processDelayedOperationsSatisfiedOriginatorsAndRemovableTasks
    (handleDataAccessStatusChanges fuel.depth) fuel.steps computePlace fromBusyThread e

/-- The function `registerTaskDataAccesses`: register the accesses that a task declares and
link them; the result says whether the task is ready immediately. -/
def registerTaskDataAccesses (fuel : Fuel) (task : Nat) (computePlace : ComputePlace)
    (e : Engine) : Except Failure (Engine × Bool) :=
  match registerDependencies e task with
  | .error f => .error f
  | .ok e1 =>
    if !(e1.getDataAccesses task).accesses.isEmpty then
      let e2 := e1.increasePredecessors task 2
      match linkTaskAccesses (handleDataAccessStatusChanges fuel.depth) task e2 with
      | .error f => .error f
      | .ok e3 =>
        match drain fuel (some computePlace) true e3 with
        | .error f => .error f
        | .ok e4 =>
          let (e5, ready) := e4.decreasePredecessors task 2
          if ready && decide ((e5.getDataAccesses task).totalCommutativeBytes > 0) then
            assertThat e5.hpDependencyData.satisfiedCommutativeOriginators.isEmpty 3112 <|
            assertThat e5.hpDependencyData.satisfiedOriginators.isEmpty 3113 <|
            let e6 := processSatisfiedCommutativeOriginators
              (e5.modifyHp fun d => { d with satisfiedCommutativeOriginators := [task] })
            if !e6.hpDependencyData.satisfiedOriginators.isEmpty then
              assertThat (e6.hpDependencyData.satisfiedOriginators.head? = some task) 3119 <|
              .ok (e6.modifyHp fun d => { d with satisfiedOriginators := [] }, true)
            else .ok (e6, false)
          else .ok (e5, ready)
    else .ok (e1, true)

/-- The function `releaseReductionStorage` (lines 2610 to 2639): the assertions on the compute
place, on the originator and on the region, and for a strong reduction the release of the
slots of the CPU in its reduction info.  The compute places of the host device are the CPUs, so
that the assertion of line 2631 on the cast of the compute place to a CPU holds with the
assertion of line 2625. -/
def releaseReductionStorage (finishedTask : Nat) (dataAccess : DataAccess)
    (region : DataAccessRegion) (computePlace : Option ComputePlace) (e : Engine) :
    Except Failure Engine :=
  match computePlace with
  | none => .error (.assertion 2617)
  | some place =>
    assertThat (dataAccess.originator == finishedTask) 2619 <|
    assertThat (!region.empty) 2620 <|
    if dataAccess.type = REDUCTION_ACCESS_TYPE && !dataAccess.weak then
      assertThat place.hostDevice 2625 <|
      match dataAccess.reductionInfo with
      | none => .error (.assertion 2635)
      | some reductionInfo =>
        .ok { e with reductionInfos :=
          (e.reductionInfos.modify (fun info => info.releaseSlotsInUse place.index)
            reductionInfo) }
    else .ok e

/-- The function `releaseAccessRegion`: release a region that a task accesses, for the release
directive and for the release of an access by a remote task. -/
def releaseAccessRegion (fuel : Fuel) (task : Nat) (region : DataAccessRegion)
    (accessType : DataAccessType) (weak : Bool) (computePlace : Option ComputePlace)
    (location : Option Nat) (e : Engine) : Except Failure Engine :=
  match forEachRef (fun dataAccess e =>
      match e.findAccess dataAccess with
      | none => .error .noSuchObject
      | some access =>
        assertThat (access.weak == weak) 3184 <|
        failIf (access.type ≠ accessType) .releaseTypeDowngrade <|
        match (if access.type = REDUCTION_ACCESS_TYPE && (e.getTask task).runnable then
            releaseReductionStorage task access region computePlace e
          else .ok e) with
        | .error f => .error f
        | .ok e0 =>
          assertThat (!(location.isNone && !access.weak) || (e0.getTask task).memoryPlace.isSome)
            3200 <|
          let releaseLocation :=
            if location.isNone && !access.weak then (e0.getTask task).memoryPlace else location
          match fragmentAccess (handleDataAccessStatusChanges fuel.depth) dataAccess region
              e0 with
          | .error f => .error f
          | .ok e1 =>
            finalizeAccess (handleDataAccessStatusChanges fuel.depth) task dataAccess region
              releaseLocation e1)
      (intersectingRefs e ⟨task, access_type⟩ region) e with
  | .error f => .error f
  | .ok e1 => drain fuel computePlace true e1

/-- The function `releaseTaskwaitFragment`: mark the taskwait fragments of a task inside a
region as complete. -/
def releaseTaskwaitFragment (fuel : Fuel) (task : Nat) (region : DataAccessRegion)
    (computePlace : Option ComputePlace) (e : Engine) : Except Failure Engine :=
  match forEachRef (fun taskwait e =>
      withStatusEffects e taskwait fun access initialStatus =>
        assertThat (access.region.fullyContainedIn region) 3250 <|
        let e1 := e.modifyAccess taskwait fun a => { a with complete := true }
        withStatusEffects e1 taskwait fun _ updatedStatus =>
          handleDataAccessStatusChanges fuel.depth initialStatus updatedStatus taskwait e1)
      (intersectingRefs e ⟨task, taskwait_type⟩ region) e with
  | .error f => .error f
  | .ok e1 => drain fuel computePlace true e1

/-- The function `updateTaskDataAccessLocation`: set the location of the accesses, or of the
taskwait fragments, of a task inside a region. -/
def updateTaskDataAccessLocation (fuel : Fuel) (task : Nat) (region : DataAccessRegion)
    (location : Option Nat) (isTaskwait : Bool) (e : Engine) : Except Failure Engine :=
  let link : DataAccessLink := ⟨task, if isTaskwait then taskwait_type else access_type⟩
  forEachRef (fun access e =>
      match fragmentAccess (handleDataAccessStatusChanges fuel.depth) access region e with
      | .error f => .error f
      | .ok e1 => .ok (e1.modifyAccess access fun a => { a with location := location }))
    (intersectingRefs e link region) e

/-- The function `registerLocalAccess`: a new local (`NO_ACCESS_TYPE`) access on a task that
has started, fully satisfied from the start. -/
def registerLocalAccess (fuel : Fuel) (task : Nat) (region : DataAccessRegion) (e : Engine) :
    Except Failure Engine :=
  let created := createAccess task access_type NO_ACCESS_TYPE false region
    no_reduction_type_and_operator (-1)
  let newLocalAccess : AccessRef := ⟨task, access_type, region.startAddress⟩
  let initialStatus := statusEffectsOf e created
  statusEffectsAssertions e created <|
  let satisfiedAccess : DataAccess :=
    { created.setReadSatisfied (some directoryMemoryPlace) with
      writeSatisfied := true
      concurrentSatisfied := true
      commutativeSatisfied := true
      receivedReductionInfo := true
      registered := true
      topmost := true
      topLevel := true
      reachable := true }
  statusEffectsAssertions e satisfiedAccess <|
  match (statusEffectsOf e satisfiedAccess).setEnforcesDependency with
  | .error f => .error f
  | .ok updatedStatus =>
    let e1 := e.modifyDataAccesses task fun s =>
      { s with accesses := insertAccess satisfiedAccess s.accesses }
    withLocalDependencyData 3388
      (handleDataAccessStatusChanges fuel.depth initialStatus updatedStatus newLocalAccess) e1

/-- The completion of the objects of one index inside a region, by `unregisterLocalAccess`. -/
def completeLocalObjects (fuel : Fuel) (link : DataAccessLink) (region : DataAccessRegion)
    (e : Engine) : Except Failure Engine :=
  forEachRef (fun object e =>
      match e.findAccess object with
      | none => .error .noSuchObject
      | some access =>
        assertThat (link.objectType ≠ access_type || !access.hasBeenDiscounted) 3444 <|
        assertThat (access.type = NO_ACCESS_TYPE)
          (if link.objectType = access_type then 3445 else 3413) <|
        match fragmentAccess (handleDataAccessStatusChanges fuel.depth) object region e with
        | .error f => .error f
        | .ok e1 =>
          withStatusEffects e1 object fun _ initialStatus =>
            let e2 := e1.modifyAccess object fun a => { a with complete := true }
            withStatusEffects e2 object fun _ updatedStatus =>
              withLocalDependencyData (if link.objectType = access_type then 3465 else 3432)
                (handleDataAccessStatusChanges fuel.depth initialStatus updatedStatus object) e2)
    (intersectingRefs e link region) e

/-- The function `unregisterLocalAccess`: complete the local accesses of a task inside a
region, and their fragments, which removes them. -/
def unregisterLocalAccess (fuel : Fuel) (task : Nat) (region : DataAccessRegion) (e : Engine) :
    Except Failure Engine :=
  match completeLocalObjects fuel ⟨task, fragment_type⟩ region e with
  | .error f => .error f
  | .ok e1 =>
    assertThat ((e1.getDataAccesses task).accessFragments.all
      (fun a => !a.region.intersects region)) 3437 <|
    match completeLocalObjects fuel ⟨task, access_type⟩ region e1 with
    | .error f => .error f
    | .ok e2 =>
      assertThat ((e2.getDataAccesses task).accesses.all
        (fun a => !a.region.intersects region)) 3470 <| .ok e2

/-- The function `unregisterTaskDataAccesses`: a task has finished; its top-level sink is
created and its accesses are finalized with the location the data is left at. -/
def unregisterTaskDataAccesses (fuel : Fuel) (task : Nat) (computePlace : Option ComputePlace)
    (location : Option Nat) (fromBusyThread : Bool) (e : Engine) : Except Failure Engine :=
  assertThat (location.isSome || (e.getTask task).memoryPlace.isSome) 3541 <|
  let location := if location.isNone then (e.getTask task).memoryPlace else location
  match createTopLevelSink (handleDataAccessStatusChanges fuel.depth) task e with
  | .error f => .error f
  | .ok e1 =>
    match forEachRef (fun dataAccess e =>
        match e.findAccess dataAccess with
        | none => .error .noSuchObject
        | some access =>
          finalizeAccess (handleDataAccessStatusChanges fuel.depth) task dataAccess
            access.region (if access.weak then none else location) e)
        (allRefs e1 ⟨task, access_type⟩) e1 with
    | .error f => .error f
    | .ok e2 => drain fuel computePlace fromBusyThread e2

/-- The function `propagateSatisfiability`: satisfiability that a message from another node
delivers for the accesses of a task inside a region. -/
def propagateSatisfiability (fuel : Fuel) (task : Nat) (region : DataAccessRegion)
    (computePlace : Option ComputePlace) (readSatisfied writeSatisfied : Bool)
    (location : Option Nat) (e : Engine) : Except Failure Engine :=
  assertThat (readSatisfied || writeSatisfied) 3593 <|
  let updateOperation : UpdateOperation :=
    { target := ⟨task, access_type⟩
      region := region
      makeReadSatisfied := readSatisfied
      makeWriteSatisfied := writeSatisfied
      location := location }
  match processUpdateOperation (handleDataAccessStatusChanges fuel.depth) updateOperation e with
  | .error f => .error f
  | .ok e1 => drain fuel computePlace true e1

/-- The function `handleEnterTaskwait`: create the taskwait fragments of a task and mark its
fragments as complete. -/
def handleEnterTaskwait (fuel : Fuel) (task : Nat) (computePlace : Option ComputePlace)
    (e : Engine) : Except Failure Engine :=
  match createTaskwait (handleDataAccessStatusChanges fuel.depth) task computePlace e with
  | .error f => .error f
  | .ok e1 =>
    match finalizeFragments (handleDataAccessStatusChanges fuel.depth) task e1 with
    | .error f => .error f
    | .ok e2 => drain fuel computePlace true e2

/-- The function `handleExitTaskwait`: the children of the task have finished; its fragments,
its taskwait fragments and its bottom map are deleted. -/
def handleExitTaskwait (task : Nat) (e : Engine) : Except Failure Engine :=
  let s := e.getDataAccesses task
  assertThat (s.accesses.isEmpty || s.accesses.all (fun a => !a.hasBeenDiscounted)) 3704 <|
  assertThat (s.accesses.isEmpty || s.taskwaitFragments.all
    (fun a => (statusEffectsOf e a).isRemovable)) 3742 <|
  assertThat (s.subaccessBottomMap.all (fun b =>
    b.link.objectType = taskwait_type || b.link.objectType = top_level_sink_type)) 3764 <|
  .ok (e.modifyDataAccesses task fun s =>
    if !s.accesses.isEmpty then
      { s with
        accesses := s.accesses.map (fun a => { a with hasSubaccesses := false })
        accessFragments := []
        taskwaitFragments := []
        subaccessBottomMap := [] }
    else { s with subaccessBottomMap := [] })

/-! ## The scenarios -/

/-- A task that has just been created as a child of task 0 and has not been registered yet,
with the calls of `registerTaskDataAccess` that its callback issues. -/
def newTask (dependencies : List AccessDeclaration) : Task :=
  { parent := some 0, dependencies := dependencies }

/-- The declaration of a strong access of a kind on a region. -/
def strongAccess (accessType : DataAccessType) (R : DataAccessRegion) : AccessDeclaration :=
  { accessType := accessType, weak := false, start := R.startAddress, length := R.length }

/-- The scenario S1 (read after write): an engine with no call in progress whose task 0 is the
parent `P`, followed by its two new children, T1 (task 1), which declares a strong write on
`R`, and T2 (task 2), which declares a strong read on `R`.  The engine `e` gives the tasks
after them and the other components of the state. -/
def rawScenario (e : Engine) (P : Task) (R : DataAccessRegion) : Engine :=
  { e with
    tasks := P :: newTask [strongAccess WRITE_ACCESS_TYPE R]
      :: newTask [strongAccess READ_ACCESS_TYPE R] :: e.tasks
    hpDependencyData := {} }

/-- The parent `P` with an entry on `R` in its bottom map that leads to the accesses of the
task `t`. -/
def withEntry (P : Task) (R : DataAccessRegion) (t : Nat) : Task :=
  { P with dataAccesses := { P.dataAccesses with
      subaccessBottomMap := insertBottomMapEntry
        { region := R, link := ⟨t, access_type⟩, accessType := NO_ACCESS_TYPE,
          reductionTypeAndOperatorIndex := no_reduction_type_and_operator }
        P.dataAccesses.subaccessBottomMap } }

/-- The access of T1 in the scenario S1 after T1 has been registered: linked through the
missing path, so satisfied at the directory, topmost and in the bottom map. -/
def linkedWrite (R : DataAccessRegion) : DataAccess :=
  { objectType := access_type, type := WRITE_ACCESS_TYPE, weak := false, originator := 1,
    region := R, location := some directoryMemoryPlace, registered := true,
    readSatisfied := true, writeSatisfied := true, concurrentSatisfied := true,
    commutativeSatisfied := true, receivedReductionInfo := true, topmost := true,
    topLevel := true, inBottomMap := true, reachable := true }

/-- The access of T2 in the scenario S1 after T2 has been registered: linked behind the access
of T1, with no satisfiability. -/
def linkedRead (R : DataAccessRegion) : DataAccess :=
  { objectType := access_type, type := READ_ACCESS_TYPE, weak := false, originator := 2,
    region := R, registered := true, topLevel := true, inBottomMap := true, reachable := true }

/-- The state of the scenario S1 after the registration of T1. -/
def rawScenarioFirst (e : Engine) (P : Task) (R : DataAccessRegion) : Engine :=
  { e with
    tasks := withEntry P R 1
      :: { newTask [strongAccess WRITE_ACCESS_TYPE R] with
            removalBlockingCount := 2
            dataAccesses := { accesses := [linkedWrite R], removalBlockers := 1 } }
      :: newTask [strongAccess READ_ACCESS_TYPE R] :: e.tasks
    hpDependencyData := {}
    linking := {} }

/-- The state of the scenario S1 after the registration of T1 and of T2. -/
def rawScenarioSecond (e : Engine) (P : Task) (R : DataAccessRegion) : Engine :=
  { e with
    tasks := withEntry P R 2
      :: { newTask [strongAccess WRITE_ACCESS_TYPE R] with
            removalBlockingCount := 2
            dataAccesses :=
              { accesses :=
                  [{ linkedWrite R with next := some ⟨2, access_type⟩, inBottomMap := false }]
                removalBlockers := 1 } }
      :: { newTask [strongAccess READ_ACCESS_TYPE R] with
            predecessorCount := 1
            removalBlockingCount := 2
            dataAccesses := { accesses := [linkedRead R], removalBlockers := 1 } }
      :: e.tasks
    hpDependencyData := {}
    linking := {} }

/-- The state of the scenario S1 after T1 has been unregistered with the location `L`. -/
def rawScenarioThird (e : Engine) (P : Task) (R : DataAccessRegion) (L : Nat)
    (computePlace : Option ComputePlace) (fromBusyThread : Bool) : Engine :=
  { e with
    tasks := withEntry P R 2
      :: { newTask [strongAccess WRITE_ACCESS_TYPE R] with
            dataAccesses :=
              { accesses :=
                  [{ linkedWrite R with
                      next := some ⟨2, access_type⟩, inBottomMap := false, complete := true,
                      discounted := true, location := some L }] } }
      :: { newTask [strongAccess READ_ACCESS_TYPE R] with
            removalBlockingCount := 2
            dataAccesses :=
              { accesses :=
                  [{ linkedRead R with
                      location := some L, readSatisfied := true, writeSatisfied := true,
                      concurrentSatisfied := true, commutativeSatisfied := true,
                      receivedReductionInfo := true, topmost := true }]
                removalBlockers := 1 } }
      :: e.tasks
    hpDependencyData := {}
    linking := {}
    readyTasks := e.readyTasks
      ++ [(2, schedulingHint (rawScenarioSecond e P R) computePlace fromBusyThread 2)] }

/-- The scenario S2 (fragmentation): a parent without accesses (task 0) and its three new
children: T1 (task 1), which declares a strong read-write on `[0, 64)`, T2 (task 2), a strong
read on `[0, 32)`, and T3 (task 3), a strong write on `[32, 64)`. -/
def fragmentationScenario : Engine :=
  { tasks := [{}, newTask [strongAccess READWRITE_ACCESS_TYPE ⟨0, 64⟩],
      newTask [strongAccess READ_ACCESS_TYPE ⟨0, 32⟩],
      newTask [strongAccess WRITE_ACCESS_TYPE ⟨32, 32⟩]] }

/-- The calls of the scenario S2: the registrations of T1, T2 and T3 in that order and the
unregistration of T1.  The result holds the answers of the three registrations, the state
before the unregistration and the state after it. -/
def fragmentationRun (fuel : Fuel) (computePlace : ComputePlace) (location : Nat) :
    Except Failure (Bool × Bool × Bool × Engine × Engine) :=
  match registerTaskDataAccesses fuel 1 computePlace fragmentationScenario with
  | .error f => .error f
  | .ok (e1, ready1) =>
    match registerTaskDataAccesses fuel 2 computePlace e1 with
    | .error f => .error f
    | .ok (e2, ready2) =>
      match registerTaskDataAccesses fuel 3 computePlace e2 with
      | .error f => .error f
      | .ok (e3, ready3) =>
        match unregisterTaskDataAccesses fuel 1 (some computePlace) (some location) false e3 with
        | .error f => .error f
        | .ok e4 => .ok (ready1, ready2, ready3, e3, e4)

/-- The access of the remote task of the scenario S6 after its registration: linked through the
missing path, which gives a remote task no read and no write satisfiability. -/
def remoteAccess (k : DataAccessType) (R : DataAccessRegion) : DataAccess :=
  { objectType := access_type, type := k, weak := false, originator := 1, region := R,
    registered := true, concurrentSatisfied := true, commutativeSatisfied := true,
    receivedReductionInfo := true, topmost := true, topLevel := true, inBottomMap := true,
    reachable := true }

/-- The registration of a new task: an engine with no call in progress whose task 0 is the
parent `P`, followed by its new child `T` (task 1).  The engine `e` gives the tasks after them
and the other components of the state. -/
def newTaskScenario (e : Engine) (P T : Task) : Engine :=
  { e with tasks := P :: T :: e.tasks, hpDependencyData := {} }

/-- The state of `newTaskScenario` once the callback of the new task has filled its index of
accesses. -/
def registeredState (e : Engine) (P T : Task) (accesses : List DataAccess) : Engine :=
  { e with
    tasks := P :: { T with dataAccesses := { accesses := accesses } } :: e.tasks
    hpDependencyData := {} }

/-- The state of `newTaskScenario` while `registerTaskDataAccesses` links the accesses of the
new task: the task holds its two extra predecessors, and the components that linking changes
are the bottom map of the parent, the accesses and the two removal counters of the task, the
reduction infos and the locals of the linking. -/
def linkingState (e : Engine) (P T : Task) (bottomMap : List BottomMapEntry)
    (accesses : List DataAccess) (removalBlockingCount removalBlockers : Int)
    (reductionInfos : List ReductionInfo) (linking : LinkingFrame) : Engine :=
  { e with
    tasks := { P with dataAccesses := { P.dataAccesses with subaccessBottomMap := bottomMap } }
      :: { T with
            predecessorCount := 2
            removalBlockingCount := removalBlockingCount
            dataAccesses := { accesses := accesses, removalBlockers := removalBlockers } }
      :: e.tasks
    reductionInfos := reductionInfos
    hpDependencyData := {}
    linking := linking }

/-- An access of task 1 as `registerTaskDataAccess` leaves it in the index: the object that
`createAccess` makes, with its symbols. -/
def declaredAccess (accessType : DataAccessType) (weak : Bool) (region : DataAccessRegion)
    (reductionTypeAndOperatorIndex reductionIndex : Int) (symbols : Nat) : DataAccess :=
  { createAccess 1 access_type accessType weak region reductionTypeAndOperatorIndex
      reductionIndex with symbols := symbols }

/-- Whether an access of the index of task 1 is as registration leaves it, of a kind other
than commutative. -/
def DataAccess.declared (a : DataAccess) : Prop :=
  a = declaredAccess a.type a.weak a.region a.reductionTypeAndOperatorIndex a.reductionIndex
      a.symbols
    ∧ a.type ≠ COMMUTATIVE_ACCESS_TYPE ∧ a.type ≠ NO_ACCESS_TYPE

instance : DecidablePred DataAccess.declared := fun a => by
  unfold DataAccess.declared
  infer_instance

/-- A remote task T1 (task 1) and its sibling T2 (task 2), children of task 0, which declare
a strong read on `[100, 108)` each. -/
def readWithoutLocationScenario : Engine :=
  { tasks := [{}, { newTask [strongAccess READ_ACCESS_TYPE ⟨100, 8⟩] with remote := true },
      newTask [strongAccess READ_ACCESS_TYPE ⟨100, 8⟩]] }

/-- The scenario `readWithoutLocationScenario` run: T1 and T2 are registered, which links the
access of T2 behind the access of T1, and a message delivers read and write satisfiability for
the access of T1 without a location. -/
def readWithoutLocationRun (fuel : Fuel) (computePlace : ComputePlace) :
    Except Failure Engine :=
  match registerTaskDataAccesses fuel 1 computePlace readWithoutLocationScenario with
  | .error f => .error f
  | .ok (e1, _) =>
    match registerTaskDataAccesses fuel 2 computePlace e1 with
    | .error f => .error f
    | .ok (e2, _) =>
      propagateSatisfiability fuel 1 ⟨100, 8⟩ (some computePlace) true true none e2

/-! ## The invariant of the taskwait fragments and top-level sinks, and the reachable states -/

/-- What the invariant asks of an object of the index of a kind: the object has the kind of the
index, and in the index of the taskwait fragments and top-level sinks it has no next access. -/
def kindOk : DataAccessObjectType → DataAccess → Prop
  | access_type, a => a.objectType = access_type
  | fragment_type, a => a.objectType = fragment_type
  | taskwait_type, a =>
    (a.objectType = taskwait_type ∨ a.objectType = top_level_sink_type) ∧ a.next = none
  | top_level_sink_type, a =>
    (a.objectType = taskwait_type ∨ a.objectType = top_level_sink_type) ∧ a.next = none

/-- The invariant on the access structures of a task: every object of every index is as
`kindOk` asks. -/
def TaskDataAccesses.sinksUnlinked (s : TaskDataAccesses) : Prop :=
  ∀ k, ∀ a ∈ s.index k, kindOk k a

/-- The invariant on a state: the access structures of every task satisfy it. -/
def Engine.sinksUnlinked (e : Engine) : Prop :=
  ∀ t ∈ e.tasks, t.dataAccesses.sinksUnlinked

/-- A handler keeps the invariant: the states it returns satisfy it when the state it is
called on does. -/
def Handler.keepsSinksUnlinked (handle : Handler) : Prop :=
  ∀ i u r e e1, handle i u r e = .ok e1 → e.sinksUnlinked → e1.sinksUnlinked

/-- The states that the operations of the engine lead to.  At the start no task holds an
object; a task that is created holds none; and every entry point of the engine that returns
leads from a state to the state that it returns, whatever its arguments and whatever the order
of the calls. -/
inductive Reachable : Engine → Prop
  | initial (e : Engine)
      (h : ∀ t ∈ e.tasks, t.dataAccesses.accesses = [] ∧ t.dataAccesses.accessFragments = []
        ∧ t.dataAccesses.taskwaitFragments = []) : Reachable e
  | createTask (e : Engine) (t : Task)
      (h : t.dataAccesses.accesses = [] ∧ t.dataAccesses.accessFragments = []
        ∧ t.dataAccesses.taskwaitFragments = []) :
      Reachable e → Reachable { e with tasks := e.tasks ++ [t] }
  | registerAccess (e e1 : Engine) (task : Nat) (d : AccessDeclaration) :
      Reachable e → register_access e task d = .ok e1 → Reachable e1
  | registerTaskDataAccesses (e e1 : Engine) (fuel : Fuel) (task : Nat) (cp : ComputePlace)
      (ready : Bool) :
      Reachable e → registerTaskDataAccesses fuel task cp e = .ok (e1, ready) → Reachable e1
  | releaseAccessRegion (e e1 : Engine) (fuel : Fuel) (task : Nat) (region : DataAccessRegion)
      (t : DataAccessType) (w : Bool) (cp : Option ComputePlace) (location : Option Nat) :
      Reachable e → releaseAccessRegion fuel task region t w cp location e = .ok e1 →
      Reachable e1
  | releaseTaskwaitFragment (e e1 : Engine) (fuel : Fuel) (task : Nat)
      (region : DataAccessRegion) (cp : Option ComputePlace) :
      Reachable e → releaseTaskwaitFragment fuel task region cp e = .ok e1 → Reachable e1
  | updateTaskDataAccessLocation (e e1 : Engine) (fuel : Fuel) (task : Nat)
      (region : DataAccessRegion) (location : Option Nat) (isTaskwait : Bool) :
      Reachable e →
      updateTaskDataAccessLocation fuel task region location isTaskwait e = .ok e1 →
      Reachable e1
  | registerLocalAccess (e e1 : Engine) (fuel : Fuel) (task : Nat)
      (region : DataAccessRegion) :
      Reachable e → registerLocalAccess fuel task region e = .ok e1 → Reachable e1
  | unregisterLocalAccess (e e1 : Engine) (fuel : Fuel) (task : Nat)
      (region : DataAccessRegion) :
      Reachable e → unregisterLocalAccess fuel task region e = .ok e1 → Reachable e1
  | unregisterTaskDataAccesses (e e1 : Engine) (fuel : Fuel) (task : Nat)
      (cp : Option ComputePlace) (location : Option Nat) (busy : Bool) :
      Reachable e → unregisterTaskDataAccesses fuel task cp location busy e = .ok e1 →
      Reachable e1
  | propagateSatisfiability (e e1 : Engine) (fuel : Fuel) (task : Nat)
      (region : DataAccessRegion) (cp : Option ComputePlace) (r w : Bool)
      (location : Option Nat) :
      Reachable e → propagateSatisfiability fuel task region cp r w location e = .ok e1 →
      Reachable e1
  | handleEnterTaskwait (e e1 : Engine) (fuel : Fuel) (task : Nat)
      (cp : Option ComputePlace) :
      Reachable e → handleEnterTaskwait fuel task cp e = .ok e1 → Reachable e1
  | handleExitTaskwait (e e1 : Engine) (task : Nat) :
      Reachable e → handleExitTaskwait task e = .ok e1 → Reachable e1

/-! ## The release of a part of an access that has a fragment -/

/-- The fragment of the access of T1 in `nestedState`. -/
def nestedFragment (A : DataAccessRegion) : DataAccess :=
  { objectType := fragment_type, type := WRITE_ACCESS_TYPE, weak := false, originator := 1,
    region := A, location := some directoryMemoryPlace, next := some ⟨2, access_type⟩,
    registered := true, readSatisfied := true, writeSatisfied := true,
    concurrentSatisfied := true, commutativeSatisfied := true, receivedReductionInfo := true,
    topmost := true, reachable := true }

/-- The access of the child of T1 in `nestedState`. -/
def nestedRead (A : DataAccessRegion) : DataAccess :=
  { objectType := access_type, type := READ_ACCESS_TYPE, weak := false, originator := 2,
    region := A, location := some directoryMemoryPlace, registered := true,
    readSatisfied := true, writeSatisfied := true, concurrentSatisfied := true,
    commutativeSatisfied := true, receivedReductionInfo := true, inBottomMap := true,
    reachable := true }

/-- The nested scenario on a region `A`: task 0 is the parent `P`, whose bottom map leads to
T1 (task 1) on `A`; T1 holds a registered strong write on `A`, and its child (task 2) has
registered a strong read on `A`, so that the access of T1 has a fragment, which leads to the
access of the child, and the bottom map of T1 holds that access. -/
def nestedState (e : Engine) (P : Task) (A : DataAccessRegion) : Engine :=
  { e with
    tasks := withEntry P A 1
      :: { newTask [strongAccess WRITE_ACCESS_TYPE A] with
            removalBlockingCount := 2
            dataAccesses :=
              { accesses := [{ linkedWrite A with hasSubaccesses := true }]
                accessFragments := [nestedFragment A]
                subaccessBottomMap := [{ region := A, link := ⟨2, access_type⟩, accessType := WRITE_ACCESS_TYPE, reductionTypeAndOperatorIndex := no_reduction_type_and_operator }]
                removalBlockers := 2 } }
      :: { newTask [strongAccess READ_ACCESS_TYPE A] with
            parent := some 1
            removalBlockingCount := 2
            dataAccesses := { accesses := [nestedRead A], removalBlockers := 1 } }
      :: e.tasks
    hpDependencyData := {}
    linking := {} }

/-- The nested scenario from its start: T1 (task 1), a child of task 0, declares a strong write
on `[100, 108)` and is registered, then its child (task 2), which declares a strong read on the
same region, is registered. -/
def nestedRun (fuel : Fuel) (computePlace : ComputePlace) : Except Failure Engine :=
  match registerTaskDataAccesses fuel 1 computePlace
      { tasks := [{}, newTask [strongAccess WRITE_ACCESS_TYPE ⟨100, 8⟩],
          { newTask [strongAccess READ_ACCESS_TYPE ⟨100, 8⟩] with parent := some 1 }] } with
  | .error f => .error f
  | .ok (e1, _) =>
    match registerTaskDataAccesses fuel 2 computePlace e1 with
    | .error f => .error f
    | .ok (e2, _) => .ok e2

/-- The nested scenario followed by two releases by T1 of the start `[100, 104)` of its region,
the first with the location `first` and the second with the location `second`. -/
def doubleReleaseRun (fuel : Fuel) (computePlace : ComputePlace) (first second : Nat) :
    Except Failure Engine :=
  match nestedRun fuel computePlace with
  | .error f => .error f
  | .ok e1 =>
    match releaseAccessRegion fuel 1 ⟨100, 4⟩ WRITE_ACCESS_TYPE false (some computePlace)
        (some first) e1 with
    | .error f => .error f
    | .ok e2 =>
      releaseAccessRegion fuel 1 ⟨100, 4⟩ WRITE_ACCESS_TYPE false (some computePlace)
        (some second) e2

/-! ## The top-level sinks of a finishing task -/

/-- The state in which the registration edges are compared: one task, which holds one registered
strong write. -/
def registrationEdgeState : Engine :=
  { tasks := [{ dataAccesses := { accesses := [{ createAccess 0 access_type WRITE_ACCESS_TYPE false ⟨100, 8⟩ (-1) (-1) with registered := true }] } }] }

/-- The state in which the dependency edges are compared: one task with one predecessor left,
which holds one registered strong write. -/
def dependencyEdgeState : Engine :=
  { tasks := [{ predecessorCount := 1, dataAccesses := { accesses := [{ createAccess 0 access_type WRITE_ACCESS_TYPE false ⟨100, 8⟩ (-1) (-1) with registered := true }] } }] }

/-- An access that is removable before it is registered: a strong write on `[100, 108)` that is
topmost, read and write satisfied, complete, and has received its reduction information. -/
def removableAccess : DataAccess :=
  { createAccess 0 access_type WRITE_ACCESS_TYPE false ⟨100, 8⟩ (-1) (-1) with
    topmost := true, readSatisfied := true, writeSatisfied := true,
    receivedReductionInfo := true, complete := true }

/-- The state in which the removable access is registered: one task, which holds the access with
its registered flag set. -/
def removableEdgeState : Engine :=
  { tasks := [{ dataAccesses := { accesses := [{ removableAccess with registered := true }] } }] }

/-- The state in which a local access is registered: one task without accesses. -/
def localAccessState : Engine := { tasks := [{}] }

/-- The access that `registerLocalAccess` inserts for a task on a region. -/
def localAccess (task : Nat) (region : DataAccessRegion) : DataAccess :=
  { createAccess task access_type NO_ACCESS_TYPE false region no_reduction_type_and_operator (-1)
    with
    location := some directoryMemoryPlace, registered := true, readSatisfied := true,
    writeSatisfied := true, concurrentSatisfied := true, commutativeSatisfied := true,
    receivedReductionInfo := true, topmost := true, topLevel := true, reachable := true }

/-- The run behind the weak reduction: of three children of task 0, T1 declares a strong write
on `[100, 108)`, T2 a weak reduction on it and T3 a strong reduction of the same type and
operator; they are registered in this order and T2 is unregistered, T1 being unfinished. -/
def weakReductionRun (fuel : Fuel) (computePlace : ComputePlace) : Except Failure Engine :=
  match registerTaskDataAccesses fuel 1 computePlace
      { tasks := [{}, newTask [strongAccess WRITE_ACCESS_TYPE ⟨100, 8⟩],
          newTask [⟨REDUCTION_ACCESS_TYPE, true, 100, 8, -1, 7, 0⟩],
          newTask [⟨REDUCTION_ACCESS_TYPE, false, 100, 8, -1, 7, 0⟩]] } with
  | .error f => .error f
  | .ok (e1, _) =>
    match registerTaskDataAccesses fuel 2 computePlace e1 with
    | .error f => .error f
    | .ok (e2, _) =>
      match registerTaskDataAccesses fuel 3 computePlace e2 with
      | .error f => .error f
      | .ok (e3, _) => unregisterTaskDataAccesses fuel 2 (some computePlace) (some 3) false e3

/-- The run of a finishing parent: the child T1 of task 0 declares a strong write on
`[100, 108)` and is registered; task 0, which has no access, is unregistered. -/
def finishingParentRun (fuel : Fuel) (computePlace : ComputePlace) : Except Failure Engine :=
  match registerTaskDataAccesses fuel 1 computePlace
      { tasks := [{}, newTask [strongAccess WRITE_ACCESS_TYPE ⟨100, 8⟩]] } with
  | .error f => .error f
  | .ok (e1, _) => unregisterTaskDataAccesses fuel 0 (some computePlace) (some 3) false e1

/-! ## The cluster workflow: fetching the data of an access -/

/-- Modelled from the spec: the device types `nanos6_device_t` of a memory place, as far as
`clusterFetchData` tells them apart: the host, a cluster node, any other device. -/
inductive nanos6_device_t
  | nanos6_host_device
  | nanos6_cluster_device
  | nanos6_other_device
deriving DecidableEq, Repr

/-- Modelled from the spec: a `MemoryPlace`, with its device type and its index; the directory is
the memory place of index `directoryMemoryPlace`. -/
structure MemoryPlace where
  type : nanos6_device_t
  index : Nat
deriving DecidableEq, Repr

/-- Modelled from the spec: `Directory::isDirectoryMemoryPlace`. -/
def MemoryPlace.isDirectoryMemoryPlace (place : MemoryPlace) : Bool :=
  place.index = directoryMemoryPlace

/-- The steps of `ExecutionWorkflow` that `clusterFetchData` creates: a plain `Step` and a
`ClusterDataCopyStep` with the arguments of its constructor. -/
inductive Step
  | step
  | clusterDataCopyStep (sourceMemoryPlace targetMemoryPlace : MemoryPlace)
      (region : DataAccessRegion) (task : Nat) (isTaskwait needsTransfer : Bool)
deriving DecidableEq, Repr

/-- The function `ExecutionWorkflow::clusterFetchData` of `ExecutionWorkflowCluster.hpp` (lines
214 to 286); the assertions are named by their lines in that file. The current memory node of
`ClusterManager` and the test `VirtualMemoryManagement::isDistributedRegion` are parameters. -/
def clusterFetchData (currentMemoryNode : MemoryPlace)
    (isDistributedRegion : DataAccessRegion → Bool) (source : Option MemoryPlace)
    (target : MemoryPlace) (inregion : DataAccessRegion) (access : DataAccess) :
    Except Failure Step :=
  match source with
  | none => .error (.assertion 220)
  | some source =>
    let sourceType := source.type
    assertThat (target = currentMemoryNode) 222 <|
    assertThat (!source.isDirectoryMemoryPlace) 229 <|
    if sourceType = .nanos6_host_device then .ok .step
    else
      assertThat (source.type = .nanos6_cluster_device) 241 <|
      let objectType := access.objectType
      let type := access.type
      let region := access.region
      let isDistributed := isDistributedRegion region
      let needsTransfer : Bool :=
        (objectType = taskwait_type && type ≠ READ_ACCESS_TYPE
          && (type ≠ NO_ACCESS_TYPE || !isDistributed))
        || (objectType = access_type && type ≠ WRITE_ACCESS_TYPE)
      .ok (.clusterDataCopyStep source target inregion access.originator
        (objectType = taskwait_type) needsTransfer)

/-- The run that splits a counted commutative access: the child T1 of task 0 declares a strong
commutative access on `[100, 108)` and is registered; then the location of its accesses inside
`[100, 104)` is updated, which fragments the access. -/
def commutativeSplitRun (fuel : Fuel) (computePlace : ComputePlace) : Except Failure Engine :=
  match registerTaskDataAccesses fuel 1 computePlace
      { tasks := [{}, newTask [strongAccess COMMUTATIVE_ACCESS_TYPE ⟨100, 8⟩]] } with
  | .error f => .error f
  | .ok (e1, _) => updateTaskDataAccessLocation fuel 1 ⟨100, 4⟩ (some 3) false e1

/-- A state in the middle of a split: T1 (task 1), a child of task 0, holds the registered part
`[100, 104)` of a strong commutative access and the part `[104, 108)` that fragmentation has
split off, which is not registered yet; the eight bytes of the access are counted. -/
def commutativeSplitState : Engine :=
  { tasks := [{}, { parent := some 0, dataAccesses := { accesses := [{ createAccess 1 access_type COMMUTATIVE_ACCESS_TYPE false ⟨100, 4⟩ (-1) (-1) with registered := true }, createAccess 1 access_type COMMUTATIVE_ACCESS_TYPE false ⟨104, 4⟩ (-1) (-1)], removalBlockers := 1, totalCommutativeBytes := 8 } }] }

/-- The sum that the specification compares the total commutative bytes of a task with: the
sizes of the regions of its registered strong commutative accesses. -/
def registeredCommutativeBytes (e : Engine) (task : Nat) : Nat :=
  (((e.getDataAccesses task).accesses.filter
    (fun a => a.registered && !a.weak && a.type = COMMUTATIVE_ACCESS_TYPE)).map
      (fun a => a.region.getSize)).sum

/-- The delayed operations of a state start with the operations `q`: what has been emitted since
the queue was `q` has gone to its back. -/
def Engine.queueFrom (e : Engine) (q : List UpdateOperation) : Prop :=
  q <+: e.hpDependencyData.delayedOperations

instance (e : Engine) (q : List UpdateOperation) : Decidable (e.queueFrom q) :=
  inferInstanceAs (Decidable (q <+: e.hpDependencyData.delayedOperations))

/-- A handler leaves the delayed operations that it finds in the queue where they are, and
emits at the back of the queue. -/
def Handler.emitsAtBack (handle : Handler) : Prop :=
  ∀ q i u r e e1, handle i u r e = .ok e1 → e.queueFrom q → e1.queueFrom q

/-! ## The locks of the drain of the delayed operations -/

/-- What `processDelayedOperations` does to the locks of the tasks and to the queue of the
delayed operations: it takes the lock of the access structures of a task, it gives it back, it
calls `processUpdateOperation` on the operation at the front of the queue, the queue being as
recorded, and it pops the front of the queue, the queue being as recorded before the pop. -/
inductive DrainEvent
  | lock (task : Nat)
  | unlock (task : Nat)
  | process (operation : UpdateOperation) (queue : List UpdateOperation)
  | pop (queue : List UpdateOperation)
deriving DecidableEq, Repr

/-- The unlocking of `lastLocked`, if it is not null (lines 1616 to 1618 and 1628 to 1630). -/
def unlockLast : Option Nat → List DrainEvent
  | none => []
  | some task => [.unlock task]

/-- The move of the cursor `lastLocked` to the target of the next operation (lines 1615 to
1621). -/
def lockTarget (lastLocked : Option Nat) (target : Nat) : List DrainEvent :=
  if some target ≠ lastLocked then unlockLast lastLocked ++ [.lock target] else []

/-- The function `processDelayedOperations` (lines 1606 to 1631) with its cursor `lastLocked`
and with the events of its run, which are returned also when the run fails. The state that it
returns is that of `processDelayedOperations`; the locks that the callees of
`processUpdateOperation` take and give back around the structures of a subtask (lines 1855 to
1867, 1990 to 2004 and 2055 to 2069) are inside the processing of one operation and are not
events of the drain. -/
def processDelayedOperationsLocking (handle : Handler) :
    Nat → Option Nat → Engine → Except Failure Engine × List DrainEvent
  | 0, lastLocked, e =>
    if e.hpDependencyData.delayedOperations.isEmpty then (.ok e, unlockLast lastLocked)
    else (.error .outOfFuel, [])
  | steps + 1, lastLocked, e =>
    match e.hpDependencyData.delayedOperations with
    | [] => (.ok e, unlockLast lastLocked)
    | delayedOperation :: _ =>
      let events := lockTarget lastLocked delayedOperation.target.task
        ++ [.process delayedOperation e.hpDependencyData.delayedOperations]
      match processUpdateOperation handle delayedOperation e with
      | .error f => (.error f, events)
      | .ok e1 =>
        let rest := processDelayedOperationsLocking handle steps
          (some delayedOperation.target.task)
          (e1.modifyHp fun d => { d with delayedOperations := d.delayedOperations.drop 1 })
        (rest.1, events ++ .pop e1.hpDependencyData.delayedOperations :: rest.2)

/-- The lock that is held after a run of events that starts with the lock `held`, if the run
keeps the discipline of the drain: a lock is taken only when none is held, the lock that is
given back is the one held, and an operation is processed only while the lock of its target
task is held. The result is `none` when the run breaks the discipline. -/
def lockHeldAfter : Option Nat → List DrainEvent → Option (Option Nat)
  | held, [] => some held
  | held, .lock task :: rest =>
    if held = none then lockHeldAfter (some task) rest else none
  | held, .unlock task :: rest =>
    if held = some task then lockHeldAfter none rest else none
  | held, .process operation _ :: rest =>
    if held = some operation.target.task then lockHeldAfter held rest else none
  | held, .pop _ :: rest => lockHeldAfter held rest

/-- The events of a run take the operations in the order of the queue `queue`: every operation
that is processed is the front of the queue, the queue is the one expected, the processing
leaves the operations of the queue where they are and adds the operations that it emits at the
back, and the pop takes the front off. -/
def takesInOrder : List UpdateOperation → List DrainEvent → Prop
  | _, [] => True
  | queue, .lock _ :: rest => takesInOrder queue rest
  | queue, .unlock _ :: rest => takesInOrder queue rest
  | queue, .process operation recorded :: rest =>
    recorded = queue ∧ queue.head? = some operation ∧ takesInOrder queue rest
  | queue, .pop recorded :: rest => queue <+: recorded ∧ takesInOrder (recorded.drop 1) rest

/-- The decision of `takesInOrder`. -/
def decideTakesInOrder :
    (queue : List UpdateOperation) → (events : List DrainEvent) →
      Decidable (takesInOrder queue events)
  | _, [] => isTrue trivial
  | queue, .lock _ :: rest => decideTakesInOrder queue rest
  | queue, .unlock _ :: rest => decideTakesInOrder queue rest
  | queue, .process operation recorded :: rest =>
    have := decideTakesInOrder queue rest
    inferInstanceAs (Decidable
      (recorded = queue ∧ queue.head? = some operation ∧ takesInOrder queue rest))
  | queue, .pop recorded :: rest =>
    have := decideTakesInOrder (recorded.drop 1) rest
    inferInstanceAs (Decidable (queue <+: recorded ∧ takesInOrder (recorded.drop 1) rest))

instance (queue : List UpdateOperation) (events : List DrainEvent) :
    Decidable (takesInOrder queue events) :=
  decideTakesInOrder queue events

/-- The operations that a run of events has processed, in order. -/
def processedOperations : List DrainEvent → List UpdateOperation
  | [] => []
  | .process operation _ :: rest => operation :: processedOperations rest
  | _ :: rest => processedOperations rest

/-- The operations that were emitted during a run of events that starts with a queue of the
length `length`, in the order of their emission: what each pop finds in the queue behind the
operations that were there when the processing started. -/
def emittedOperations : Nat → List DrainEvent → List UpdateOperation
  | _, [] => []
  | _, .process _ recorded :: rest => emittedOperations recorded.length rest
  | length, .pop recorded :: rest =>
    recorded.drop length ++ emittedOperations (recorded.length - 1) rest
  | length, _ :: rest => emittedOperations length rest

/-- A state whose queue holds two operations for T1 (task 1) and one for T2 (task 2), on
regions on which the tasks have no access. -/
def lockingState : Engine :=
  { tasks := [{}, {}, {}], hpDependencyData := { delayedOperations := [{ target := ⟨1, access_type⟩, region := ⟨100, 8⟩, makeTopLevel := true }, { target := ⟨1, access_type⟩, region := ⟨200, 8⟩, makeTopLevel := true }, { target := ⟨2, access_type⟩, region := ⟨100, 8⟩, makeTopLevel := true }] } }

/-- An invariant of the objects of the engine, by index: `ok task kind a` is what it asks of an
object `a` of the index of the kind `kind` of the task `task`. `source` holds of the tasks at
whose objects `handleDataAccessStatusChanges` may be called, and `target` of the indices that
the entries of the bottom maps of those tasks lead to, whose objects may be fragmented. -/
structure ObjectInvariant where
  ok : Nat → DataAccessObjectType → DataAccess → Prop
  source : Nat → Prop
  target : Nat → DataAccessObjectType → Prop
  /-- What the invariant asks of the remote flag of a task, which no operation changes. -/
  remote : Nat → Bool → Prop := fun _ _ => True
  /-- What the invariant asks of the entries of the bottom map of a task. -/
  entry : Nat → BottomMapEntry → Prop := fun _ _ => True
  /-- The tasks whose taskwait fragments and top-level sinks, when they are removed, change the
  accesses of the task. -/
  sinkTarget : Nat → Prop := fun _ => True

/-- The invariant on the access structures of the task `t`: the objects of its indices and the
entries of its bottom map are as the invariant asks. -/
def TaskDataAccesses.inv (I : ObjectInvariant) (t : Nat) (s : TaskDataAccesses) : Prop :=
  (∀ k, ∀ a ∈ s.index k, I.ok t k a) ∧ ∀ b ∈ s.subaccessBottomMap, I.entry t b

/-- The invariant on a state. -/
def Engine.inv (I : ObjectInvariant) (e : Engine) : Prop :=
  (∀ t, (e.getDataAccesses t).inv I t) ∧ ∀ t, I.remote t (e.getTask t).remote

theorem Engine.getTask_modifyTask (e : Engine) (t : Nat) (f : Task → Task)
    (h : t < e.tasks.length) : (e.modifyTask t f).getTask t = f (e.getTask t) := by
  simp [Engine.getTask, Engine.modifyTask, List.getD_eq_getElem?_getD, List.getElem?_modify, h]

theorem Engine.getTask_modifyTask_of_ne (e : Engine) (t u : Nat) (f : Task → Task)
    (h : t ≠ u) : (e.modifyTask t f).getTask u = e.getTask u := by
  simp [Engine.getTask, Engine.modifyTask, List.getD_eq_getElem?_getD, List.getElem?_modify, h]

theorem Engine.length_modifyTask (e : Engine) (t : Nat) (f : Task → Task) :
    (e.modifyTask t f).tasks.length = e.tasks.length := by
  simp [Engine.modifyTask]

theorem Engine.getDataAccesses_modifyDataAccesses (e : Engine) (t : Nat)
    (f : TaskDataAccesses → TaskDataAccesses) (h : t < e.tasks.length) :
    (e.modifyDataAccesses t f).getDataAccesses t = f (e.getDataAccesses t) := by
  simp [Engine.getDataAccesses, Engine.modifyDataAccesses, Engine.getTask_modifyTask _ _ _ h]

theorem Engine.length_modifyDataAccesses (e : Engine) (t : Nat)
    (f : TaskDataAccesses → TaskDataAccesses) :
    (e.modifyDataAccesses t f).tasks.length = e.tasks.length := by
  simp [Engine.modifyDataAccesses, Engine.length_modifyTask]

/-! ## Regions -/

theorem DataAccessRegion.intersects_self (R : DataAccessRegion) (h : 0 < R.length) :
    R.intersects R = true := by
  simp [DataAccessRegion.intersects, DataAccessRegion.getEndAddress, h]

theorem DataAccessRegion.fullyContainedIn_self (R : DataAccessRegion) :
    R.fullyContainedIn R = true := by
  simp [DataAccessRegion.fullyContainedIn]

theorem DataAccessRegion.fromBounds_self (R : DataAccessRegion) :
    DataAccessRegion.fromBounds R.startAddress R.getEndAddress = R := by
  simp [DataAccessRegion.fromBounds, DataAccessRegion.getEndAddress]

theorem DataAccessRegion.intersect_self (R : DataAccessRegion) : R.intersect R = R := by
  simp [DataAccessRegion.intersect, DataAccessRegion.fromBounds, DataAccessRegion.getEndAddress]

theorem DataAccessRegion.containsAddress_start (R : DataAccessRegion) (h : 0 < R.length) :
    R.containsAddress R.startAddress = true := by
  simp [DataAccessRegion.containsAddress, DataAccessRegion.getEndAddress, h]

theorem DataAccessRegion.containsAddress_of_not_intersects (k R : DataAccessRegion)
    (hR : 0 < R.length) (h : k.intersects R = false) :
    k.containsAddress R.startAddress = false := by
  simp [DataAccessRegion.intersects, DataAccessRegion.containsAddress,
    DataAccessRegion.getEndAddress] at h ⊢
  omega

/-! ## Upgrading an access -/

theorem upgradeAccess_ok (a : DataAccess) (t : DataAccessType) (w : Bool) (i : Int)
    (b : DataAccess) (hb : upgradeAccess a t w i = .ok b) :
    b = { a with weak := a.weak && w, type := b.type } ∧ b.type =
      (if a.type = t then t
       else if (a.type = CONCURRENT_ACCESS_TYPE ∧ t = COMMUTATIVE_ACCESS_TYPE)
          ∨ (a.type = COMMUTATIVE_ACCESS_TYPE ∧ t = CONCURRENT_ACCESS_TYPE) then
        COMMUTATIVE_ACCESS_TYPE
       else READWRITE_ACCESS_TYPE) := by
  by_cases hd : a.hasBeenDiscounted = true <;>
  by_cases hi : a.reductionTypeAndOperatorIndex = i <;>
  cases ha : a.type <;> cases t <;>
  simp [upgradeAccess, assertThat, failIf, DataAccess.upgrade, hd, hi, ha] at hb <;>
  (subst hb; simp [ha]) <;> exact hi.symm

/-- C4: when `upgradeAccess` succeeds, the access ends weak iff it was weak and the new
declaration is weak, and its kind is the common kind of the two declarations if they agree,
commutative if they are concurrent and commutative in either order, and readwrite for every
other pair of distinct kinds, all other fields being kept; the kind that results does not
depend on which of the two kinds was declared first. -/
theorem upgradeAccess_result (old : DataAccess) (newType : DataAccessType) (newWeak : Bool)
    (reductionTypeAndOperatorIndex : Int) (upgraded : DataAccess)
    (h : upgradeAccess old newType newWeak reductionTypeAndOperatorIndex = .ok upgraded) :
    upgraded = { old with weak := old.weak && newWeak, type := upgraded.type }
    ∧ upgraded.type =
      (if old.type = newType then newType
       else if (old.type = CONCURRENT_ACCESS_TYPE ∧ newType = COMMUTATIVE_ACCESS_TYPE)
          ∨ (old.type = COMMUTATIVE_ACCESS_TYPE ∧ newType = CONCURRENT_ACCESS_TYPE) then
        COMMUTATIVE_ACCESS_TYPE
       else READWRITE_ACCESS_TYPE)
    ∧ ∀ (swapped : DataAccess) (w : Bool) (i : Int) (result : DataAccess),
        swapped.type = newType →
        upgradeAccess swapped old.type w i = .ok result → result.type = upgraded.type := by
  obtain ⟨h1, h2⟩ := upgradeAccess_ok _ _ _ _ _ h
  refine ⟨h1, h2, ?_⟩
  intro swapped w i result hs hr
  obtain ⟨_, h4⟩ := upgradeAccess_ok _ _ _ _ _ hr
  rw [h2, h4, hs]
  cases old.type <;> cases newType <;> simp

/-- The upgrade of a weak read access by a strong write declaration is a strong readwrite
access. -/
theorem upgradeAccess_result_witness :
    upgradeAccess (createAccess 1 access_type READ_ACCESS_TYPE true ⟨100, 8⟩ (-1) (-1))
        WRITE_ACCESS_TYPE false (-1)
      = .ok (createAccess 1 access_type READWRITE_ACCESS_TYPE false ⟨100, 8⟩ (-1) (-1))
    ∧ (createAccess 1 access_type READWRITE_ACCESS_TYPE false ⟨100, 8⟩ (-1) (-1)).type
      = (if READ_ACCESS_TYPE = WRITE_ACCESS_TYPE then WRITE_ACCESS_TYPE
         else if (READ_ACCESS_TYPE = CONCURRENT_ACCESS_TYPE
              ∧ WRITE_ACCESS_TYPE = COMMUTATIVE_ACCESS_TYPE)
            ∨ (READ_ACCESS_TYPE = COMMUTATIVE_ACCESS_TYPE
              ∧ WRITE_ACCESS_TYPE = CONCURRENT_ACCESS_TYPE) then COMMUTATIVE_ACCESS_TYPE
         else READWRITE_ACCESS_TYPE) :=
  ⟨rfl, (upgradeAccess_result
    (createAccess 1 access_type READ_ACCESS_TYPE true ⟨100, 8⟩ (-1) (-1)) WRITE_ACCESS_TYPE false
    (-1) (createAccess 1 access_type READWRITE_ACCESS_TYPE false ⟨100, 8⟩ (-1) (-1)) rfl).2.1⟩

/-- C5 fails on the reduction index: a task declares a reduction on `[100, 108)` twice, with
the same reduction type and operator (3) and with the reduction indices 0 and 1; the triples
(type, operator, index) differ, and the second registration upgrades the access of the first
without failing. -/
theorem upgradeAccess_ignores_reductionIndex :
    registerInAccesses 1 REDUCTION_ACCESS_TYPE false ⟨100, 8⟩ (-1) 3 0 []
      = .ok [createAccess 1 access_type REDUCTION_ACCESS_TYPE false ⟨100, 8⟩ 3 0]
    ∧ registerInAccesses 1 REDUCTION_ACCESS_TYPE false ⟨100, 8⟩ (-1) 3 1
        [createAccess 1 access_type REDUCTION_ACCESS_TYPE false ⟨100, 8⟩ 3 0]
      = .ok [createAccess 1 access_type REDUCTION_ACCESS_TYPE false ⟨100, 8⟩ 3 0]
    ∧ (createAccess 1 access_type REDUCTION_ACCESS_TYPE false ⟨100, 8⟩ 3 0).reductionIndex ≠ 1 :=
  ⟨rfl, rfl, by decide⟩

/-- C5, amended: on an access that has not been discounted `upgradeAccess` fails fatally
exactly when the two kinds differ and one of them is a reduction, or both are reductions and
their reduction type-and-operator indices differ; in every other case it succeeds.  The
reduction index is not compared. -/
theorem upgradeAccess_fatal_iff (old : DataAccess) (newType : DataAccessType) (newWeak : Bool)
    (reductionTypeAndOperatorIndex : Int) (hd : old.hasBeenDiscounted = false) :
    ((∃ error, upgradeAccess old newType newWeak reductionTypeAndOperatorIndex
        = .error (.fatal error)) ↔
      ((newType ≠ old.type
          ∧ (newType = REDUCTION_ACCESS_TYPE ∨ old.type = REDUCTION_ACCESS_TYPE))
        ∨ (newType = REDUCTION_ACCESS_TYPE ∧ old.type = REDUCTION_ACCESS_TYPE
          ∧ old.reductionTypeAndOperatorIndex ≠ reductionTypeAndOperatorIndex)))
    ∧ ((∃ error, upgradeAccess old newType newWeak reductionTypeAndOperatorIndex
        = .error (.fatal error))
      ∨ ∃ upgraded, upgradeAccess old newType newWeak reductionTypeAndOperatorIndex
        = .ok upgraded) := by
  by_cases hi : old.reductionTypeAndOperatorIndex = reductionTypeAndOperatorIndex <;>
  cases ha : old.type <;> cases newType <;>
  simp [upgradeAccess, assertThat, failIf, hd, hi, ha]

/-- Two reductions with the type-and-operator indices 3 and 4 on one region: the upgrade fails
fatally. -/
theorem upgradeAccess_fatal_iff_witness :
    ∃ error, upgradeAccess (createAccess 1 access_type REDUCTION_ACCESS_TYPE false ⟨100, 8⟩ 3 0)
      REDUCTION_ACCESS_TYPE false 4 = .error (.fatal error) :=
  (upgradeAccess_fatal_iff (createAccess 1 access_type REDUCTION_ACCESS_TYPE false ⟨100, 8⟩ 3 0)
    REDUCTION_ACCESS_TYPE false 4 rfl).1.2 (Or.inr ⟨rfl, rfl, by decide⟩)

/-! ## Registration -/

theorem registerInAccesses_nil (task : Nat) (t : DataAccessType) (w : Bool)
    (R : DataAccessRegion) (s i j : Int) (hR : 0 < R.length) :
    registerInAccesses task t w R s i j [] =
      .ok [(createAccess task access_type t w R i j).addToSymbols
        (if 0 ≤ s then 1 <<< s.toNat else 0)] := by
  obtain ⟨start, length⟩ := R
  simp [registerInAccesses, registerMatches, assertThat, fragmentIntersecting, regionMatches,
    intersectingAndMissing, DataAccessRegion.getEndAddress, hR, registerMatch, insertAccess,
    collectedSymbols, DataAccessRegion.fromBounds]

theorem registerInAccesses_same_region (task : Nat) (t : DataAccessType) (w : Bool)
    (s i j : Int) (a : DataAccess) (hR : 0 < a.region.length) (h : a.registered = false) :
    registerInAccesses task t w a.region s i j [a] =
      (upgradeAccess a t w i).map
        (fun b => [b.addToSymbols (if 0 ≤ s then 1 <<< s.toNat else 0)]) := by
  have h1 := DataAccessRegion.intersects_self a.region hR
  have h2 := DataAccessRegion.fullyContainedIn_self a.region
  have h3 := DataAccessRegion.fromBounds_self a.region
  simp [registerInAccesses, assertThat, fragmentIntersecting, needsFragmenting, h1, h2, h,
    regionMatches, intersectingAndMissing, h3, registerMatch, upgradeMatching, collectedSymbols,
    registerMatches]
  cases upgradeAccess a t w i <;> simp [Except.map]

/-- C6: on a task whose accesses index is empty, registering a read access on a non-empty
region `R` and then a readwrite access on the same `R` succeeds and leaves the index with
exactly one access, whose region is `R` and whose kind is readwrite. -/
theorem register_read_then_readwrite (e : Engine) (task : Nat) (R : DataAccessRegion)
    (weak1 weak2 : Bool) (s1 s2 t1 t2 i1 i2 : Int)
    (hR : 0 < R.length) (htask : task < e.tasks.length)
    (hfresh : (e.getDataAccesses task).accesses = []) :
    ∃ e1 e2 access,
      registerTaskDataAccess e task READ_ACCESS_TYPE weak1 R s1 t1 i1 = .ok e1
      ∧ registerTaskDataAccess e1 task READWRITE_ACCESS_TYPE weak2 R s2 t2 i2 = .ok e2
      ∧ (e2.getDataAccesses task).accesses = [access]
      ∧ access.region = R ∧ access.type = READWRITE_ACCESS_TYPE := by
  have step1 := registerInAccesses_nil task READ_ACCESS_TYPE weak1 R s1 t1 i1 hR
  have h1 : registerTaskDataAccess e task READ_ACCESS_TYPE weak1 R s1 t1 i1 =
      .ok (e.modifyDataAccesses task (fun s => { s with accesses :=
        [(createAccess task access_type READ_ACCESS_TYPE weak1 R t1 i1).addToSymbols
          (if 0 ≤ s1 then 1 <<< s1.toNat else 0)] })) := by
    simp only [registerTaskDataAccess, hfresh, step1]
  have step2 := registerInAccesses_same_region task READWRITE_ACCESS_TYPE weak2 s2 t2 i2
    ((createAccess task access_type READ_ACCESS_TYPE weak1 R t1 i1).addToSymbols
      (if 0 ≤ s1 then 1 <<< s1.toNat else 0)) hR rfl
  have hup : upgradeAccess
      ((createAccess task access_type READ_ACCESS_TYPE weak1 R t1 i1).addToSymbols
        (if 0 ≤ s1 then 1 <<< s1.toNat else 0)) READWRITE_ACCESS_TYPE weak2 t2 =
      .ok (((createAccess task access_type READ_ACCESS_TYPE weak1 R t1 i1).addToSymbols
        (if 0 ≤ s1 then 1 <<< s1.toNat else 0)).upgrade (weak1 && weak2)
          READWRITE_ACCESS_TYPE) := by
    simp [upgradeAccess, assertThat, failIf, DataAccess.hasBeenDiscounted, createAccess,
      DataAccess.addToSymbols]
  rw [hup] at step2
  have hregion : ((createAccess task access_type READ_ACCESS_TYPE weak1 R t1 i1).addToSymbols
      (if 0 ≤ s1 then 1 <<< s1.toNat else 0)).region = R := rfl
  rw [hregion] at step2
  have h2 : registerTaskDataAccess (e.modifyDataAccesses task (fun s => { s with accesses :=
        [(createAccess task access_type READ_ACCESS_TYPE weak1 R t1 i1).addToSymbols
          (if 0 ≤ s1 then 1 <<< s1.toNat else 0)] })) task READWRITE_ACCESS_TYPE weak2 R s2 t2
        i2 =
      .ok ((e.modifyDataAccesses task (fun s => { s with accesses :=
        [(createAccess task access_type READ_ACCESS_TYPE weak1 R t1 i1).addToSymbols
          (if 0 ≤ s1 then 1 <<< s1.toNat else 0)] })).modifyDataAccesses task
        (fun s => { s with accesses :=
          [(((createAccess task access_type READ_ACCESS_TYPE weak1 R t1 i1).addToSymbols
            (if 0 ≤ s1 then 1 <<< s1.toNat else 0)).upgrade (weak1 && weak2)
              READWRITE_ACCESS_TYPE).addToSymbols
                (if 0 ≤ s2 then 1 <<< s2.toNat else 0)] })) := by
    simp only [registerTaskDataAccess, Engine.getDataAccesses_modifyDataAccesses _ _ _ htask,
      step2, Except.map]
  refine ⟨_, _, (((createAccess task access_type READ_ACCESS_TYPE weak1 R t1 i1).addToSymbols
      (if 0 ≤ s1 then 1 <<< s1.toNat else 0)).upgrade (weak1 && weak2)
        READWRITE_ACCESS_TYPE).addToSymbols (if 0 ≤ s2 then 1 <<< s2.toNat else 0),
    h1, h2, ?_, rfl, rfl⟩
  rw [Engine.getDataAccesses_modifyDataAccesses _ _ _
    (by rw [Engine.length_modifyDataAccesses]; exact htask)]

/-- A task with no access yet registers a read access and then a readwrite access on
`[100, 108)`. -/
theorem register_read_then_readwrite_witness :
    ∃ e1 e2 access,
      registerTaskDataAccess { tasks := [{}, { parent := some 0 }] } 1 READ_ACCESS_TYPE false
        ⟨100, 8⟩ (-1) (-1) (-1) = .ok e1
      ∧ registerTaskDataAccess e1 1 READWRITE_ACCESS_TYPE false ⟨100, 8⟩ (-1) (-1) (-1) = .ok e2
      ∧ (e2.getDataAccesses 1).accesses = [access]
      ∧ access.region = ⟨100, 8⟩ ∧ access.type = READWRITE_ACCESS_TYPE :=
  register_read_then_readwrite { tasks := [{}, { parent := some 0 }] } 1 ⟨100, 8⟩ false false
    (-1) (-1) (-1) (-1) (-1) (-1) (by decide) (by decide) rfl

/-! ## The accesses index after a sequence of registrations -/

theorem fragmentRegions_spec (a R : DataAccessRegion) (h : a.intersects R = true) :
    (∀ p ∈ fragmentRegions a R,
      0 < p.length ∧ a.startAddress ≤ p.startAddress ∧ p.getEndAddress ≤ a.getEndAddress)
    ∧ (fragmentRegions a R).Pairwise (fun r s => r.getEndAddress ≤ s.startAddress)
    ∧ ∀ x, (∃ p ∈ fragmentRegions a R, p.containsAddress x = true) ↔ a.containsAddress x = true := by
  obtain ⟨s, n⟩ := a
  obtain ⟨t, m⟩ := R
  simp only [DataAccessRegion.intersects, DataAccessRegion.getEndAddress, decide_eq_true_eq] at h
  refine ⟨?_, ?_, ?_⟩
  · intro p hp
    simp only [fragmentRegions, DataAccessRegion.leftOf, DataAccessRegion.rightOf,
      DataAccessRegion.intersect, DataAccessRegion.fromBounds, DataAccessRegion.empty,
      DataAccessRegion.getEndAddress, List.mem_append, List.mem_singleton] at hp
    rcases hp with (hp | hp) | hp
    · split at hp
      · simp at hp
      · rename_i hne
        simp at hp hne
        subst hp
        simp only [DataAccessRegion.getEndAddress]
        omega
    · subst hp
      simp only [DataAccessRegion.getEndAddress]
      omega
    · split at hp
      · simp at hp
      · rename_i hne
        simp at hp hne
        subst hp
        simp only [DataAccessRegion.getEndAddress]
        omega
  · simp only [fragmentRegions, DataAccessRegion.leftOf, DataAccessRegion.rightOf,
      DataAccessRegion.intersect, DataAccessRegion.fromBounds, DataAccessRegion.empty,
      DataAccessRegion.getEndAddress]
    split <;> split <;> simp [DataAccessRegion.getEndAddress] <;> omega
  · intro x
    constructor
    · rintro ⟨p, hp, hx⟩
      have hp' : p ∈ fragmentRegions ⟨s, n⟩ ⟨t, m⟩ := hp
      simp only [fragmentRegions, DataAccessRegion.leftOf, DataAccessRegion.rightOf,
        DataAccessRegion.intersect, DataAccessRegion.fromBounds, DataAccessRegion.empty,
        DataAccessRegion.getEndAddress, List.mem_append, List.mem_singleton] at hp
      simp only [DataAccessRegion.containsAddress, DataAccessRegion.getEndAddress,
        Bool.and_eq_true, decide_eq_true_eq] at hx ⊢
      rcases hp with (hp | hp) | hp
      · split at hp
        · simp at hp
        · simp at hp
          subst hp
          simp only at hx
          omega
      · subst hp
        simp only at hx
        omega
      · split at hp
        · simp at hp
        · simp at hp
          subst hp
          simp only at hx
          omega
    · intro hx
      simp only [DataAccessRegion.containsAddress, DataAccessRegion.getEndAddress,
        Bool.and_eq_true, decide_eq_true_eq] at hx
      by_cases h1 : x < t
      · refine ⟨⟨s, min (s + n) t - s⟩, ?_, ?_⟩
        · have : ¬ (min (s + n) t - s = 0) := by omega
          simp [fragmentRegions, DataAccessRegion.leftOf, DataAccessRegion.fromBounds,
            DataAccessRegion.empty, DataAccessRegion.getEndAddress, this]
        · simp only [DataAccessRegion.containsAddress, DataAccessRegion.getEndAddress,
            Bool.and_eq_true, decide_eq_true_eq]
          omega
      · by_cases h2 : x < t + m
        · refine ⟨⟨max s t, min (s + n) (t + m) - max s t⟩, ?_, ?_⟩
          · simp [fragmentRegions, DataAccessRegion.intersect, DataAccessRegion.fromBounds,
              DataAccessRegion.getEndAddress]
          · simp only [DataAccessRegion.containsAddress, DataAccessRegion.getEndAddress,
              Bool.and_eq_true, decide_eq_true_eq]
            omega
        · refine ⟨⟨max s (t + m), s + n - max s (t + m)⟩, ?_, ?_⟩
          · have : ¬ (s + n - max s (t + m) = 0) := by omega
            simp [fragmentRegions, DataAccessRegion.rightOf, DataAccessRegion.fromBounds,
              DataAccessRegion.empty, DataAccessRegion.getEndAddress, this]
          · simp only [DataAccessRegion.containsAddress, DataAccessRegion.getEndAddress,
              Bool.and_eq_true, decide_eq_true_eq]
            omega


theorem regions_fragmentPieces (dup : DataAccess → DataAccess) (R : DataAccessRegion)
    (a : DataAccess) :
    (fragmentPieces dup R a).map (fun b => b.region) = fragmentRegions a.region R := by
  unfold fragmentPieces
  cases h : fragmentRegions a.region R with
  | nil => rfl
  | cons r rest =>
    simp only [List.map_cons, List.map_map, List.cons.injEq, true_and]
    have hid : ((fun b : DataAccess => b.region) ∘ fun r => { dup a with region := r }) = id :=
      rfl
    rw [hid, List.map_id]

theorem fragmentIntersecting_spec (dup : DataAccess → DataAccess) (R : DataAccessRegion) :
    ∀ (l : List DataAccess),
      (l.map (fun a => a.region)).Pairwise (fun r s => r.getEndAddress ≤ s.startAddress) →
      (∀ a ∈ l, 0 < a.region.length) →
      ((fragmentIntersecting dup R l).map (fun a => a.region)).Pairwise
          (fun r s => r.getEndAddress ≤ s.startAddress)
        ∧ (∀ a ∈ fragmentIntersecting dup R l, 0 < a.region.length)
        ∧ (∀ q ∈ fragmentIntersecting dup R l, ∃ b ∈ l,
            b.region.startAddress ≤ q.region.startAddress
              ∧ q.region.getEndAddress ≤ b.region.getEndAddress)
        ∧ ∀ x, (∃ a ∈ fragmentIntersecting dup R l, a.region.containsAddress x = true)
            ↔ ∃ a ∈ l, a.region.containsAddress x = true
  | [], _, _ => by simp [fragmentIntersecting]
  | a :: rest, hs, hn => by
    rw [List.map_cons, List.pairwise_cons] at hs
    obtain ⟨ih1, ih2, ih3, ih4⟩ := fragmentIntersecting_spec dup R rest hs.2
      (fun b hb => hn b (List.mem_cons_of_mem _ hb))
    have ha := hn a (List.mem_cons_self _ _)
    unfold fragmentIntersecting
    by_cases hf : needsFragmenting R a = true
    · have hint : a.region.intersects R = true := by
        simp only [needsFragmenting, Bool.and_eq_true] at hf
        exact hf.1
      obtain ⟨f1, f2, f3⟩ := fragmentRegions_spec a.region R hint
      have hreg := regions_fragmentPieces dup R a
      have hmem : ∀ p ∈ fragmentPieces dup R a, p.region ∈ fragmentRegions a.region R := by
        intro p hp
        rw [← hreg]
        exact List.mem_map_of_mem _ hp
      simp only [hf, if_true]
      refine ⟨?_, ?_, ?_, ?_⟩
      · rw [List.map_append, List.pairwise_append, hreg]
        refine ⟨f2, ih1, ?_⟩
        intro p hp q hq
        obtain ⟨q', hq', rfl⟩ := List.mem_map.1 hq
        obtain ⟨b, hb, hb1, _⟩ := ih3 q' hq'
        have := hs.1 b.region (List.mem_map_of_mem _ hb)
        have := (f1 p hp).2.2
        omega
      · intro p hp
        rcases List.mem_append.1 hp with hp | hp
        · exact (f1 _ (hmem p hp)).1
        · exact ih2 p hp
      · intro q hq
        rcases List.mem_append.1 hq with hq | hq
        · exact ⟨a, List.mem_cons_self _ _, (f1 _ (hmem q hq)).2.1, (f1 _ (hmem q hq)).2.2⟩
        · obtain ⟨b, hb, h1, h2⟩ := ih3 q hq
          exact ⟨b, List.mem_cons_of_mem _ hb, h1, h2⟩
      · intro x
        constructor
        · rintro ⟨p, hp, hx⟩
          rcases List.mem_append.1 hp with hp | hp
          · exact ⟨a, List.mem_cons_self _ _, (f3 x).1 ⟨_, hmem p hp, hx⟩⟩
          · obtain ⟨b, hb, hbx⟩ := (ih4 x).1 ⟨p, hp, hx⟩
            exact ⟨b, List.mem_cons_of_mem _ hb, hbx⟩
        · rintro ⟨b, hb, hx⟩
          rcases List.mem_cons.1 hb with rfl | hb
          · obtain ⟨r, hr, hrx⟩ := (f3 x).2 hx
            rw [← hreg] at hr
            obtain ⟨p, hp, rfl⟩ := List.mem_map.1 hr
            exact ⟨p, List.mem_append_left _ hp, hrx⟩
          · obtain ⟨p, hp, hpx⟩ := (ih4 x).2 ⟨b, hb, hx⟩
            exact ⟨p, List.mem_append_right _ hp, hpx⟩
    · simp only [hf, Bool.false_eq_true, if_false, List.singleton_append]
      refine ⟨?_, ?_, ?_, ?_⟩
      · rw [List.map_cons, List.pairwise_cons]
        refine ⟨?_, ih1⟩
        intro q hq
        obtain ⟨q', hq', rfl⟩ := List.mem_map.1 hq
        obtain ⟨b, hb, hb1, _⟩ := ih3 q' hq'
        have := hs.1 b.region (List.mem_map_of_mem _ hb)
        omega
      · intro p hp
        rcases List.mem_cons.1 hp with rfl | hp
        · exact ha
        · exact ih2 p hp
      · intro q hq
        rcases List.mem_cons.1 hq with rfl | hq
        · exact ⟨q, List.mem_cons_self _ _, le_refl _, le_refl _⟩
        · obtain ⟨b, hb, h1, h2⟩ := ih3 q hq
          exact ⟨b, List.mem_cons_of_mem _ hb, h1, h2⟩
      · intro x
        constructor
        · rintro ⟨p, hp, hx⟩
          rcases List.mem_cons.1 hp with rfl | hp
          · exact ⟨p, List.mem_cons_self _ _, hx⟩
          · obtain ⟨b, hb, hbx⟩ := (ih4 x).1 ⟨p, hp, hx⟩
            exact ⟨b, List.mem_cons_of_mem _ hb, hbx⟩
        · rintro ⟨b, hb, hx⟩
          rcases List.mem_cons.1 hb with rfl | hb
          · exact ⟨b, List.mem_cons_self _ _, hx⟩
          · obtain ⟨p, hp, hpx⟩ := (ih4 x).2 ⟨b, hb, hx⟩
            exact ⟨p, List.mem_cons_of_mem _ hp, hpx⟩

theorem intersectingAndMissing_spec (regionEnd : Nat) :
    ∀ (keys : List DataAccessRegion) (cursor : Nat),
      keys.Pairwise (fun r s => r.getEndAddress ≤ s.startAddress) →
      (∀ k ∈ keys, 0 < k.length) →
      (∀ h, RegionMatch.missing h ∈ intersectingAndMissing cursor regionEnd keys →
          0 < h.length ∧ cursor ≤ h.startAddress ∧ h.getEndAddress ≤ regionEnd
            ∧ ∀ k ∈ keys, k.intersects h = false)
      ∧ (intersectingAndMissing cursor regionEnd keys).Pairwise
          (fun m m' => ∀ h h', m = .missing h → m' = .missing h' →
            h.getEndAddress ≤ h'.startAddress)
      ∧ ∀ x, cursor ≤ x → x < regionEnd →
          (∃ k ∈ keys, k.containsAddress x = true)
            ∨ ∃ h, RegionMatch.missing h ∈ intersectingAndMissing cursor regionEnd keys
                ∧ h.containsAddress x = true
  | [], cursor, _, _ => by
    unfold intersectingAndMissing
    by_cases hc : cursor < regionEnd
    · simp only [hc, if_true, List.mem_singleton, RegionMatch.missing.injEq,
        List.pairwise_singleton, true_and]
      refine ⟨?_, ?_⟩
      · rintro h rfl
        simp [DataAccessRegion.fromBounds, DataAccessRegion.getEndAddress]
        omega
      · intro x h1 h2
        right
        refine ⟨_, rfl, ?_⟩
        simp [DataAccessRegion.fromBounds, DataAccessRegion.getEndAddress,
          DataAccessRegion.containsAddress]
        omega
    · simp only [hc, if_false, List.not_mem_nil, false_implies, implies_true,
        List.Pairwise.nil, true_and]
      intro x h1 h2
      omega
  | k :: rest, cursor, hs, hn => by
    rw [List.pairwise_cons] at hs
    have hk := hn k (List.mem_cons_self _ _)
    have hn' : ∀ k' ∈ rest, 0 < k'.length := fun b hb => hn b (List.mem_cons_of_mem _ hb)
    unfold intersectingAndMissing
    by_cases hi : k.intersects (DataAccessRegion.fromBounds cursor regionEnd) = true
    · obtain ⟨ih1, ih2, ih3⟩ := intersectingAndMissing_spec regionEnd rest k.getEndAddress hs.2 hn'
      have hi' : max k.startAddress cursor < min k.getEndAddress regionEnd := by
        simp only [DataAccessRegion.intersects, DataAccessRegion.fromBounds,
          DataAccessRegion.getEndAddress, decide_eq_true_eq] at hi
        simp only [DataAccessRegion.getEndAddress]
        omega
      simp only [hi, if_true]
      refine ⟨?_, ?_, ?_⟩
      · intro h hh
        rcases List.mem_append.1 hh with hh | hh
        · split at hh
          · rename_i hlt
            simp only [List.mem_singleton, RegionMatch.missing.injEq] at hh
            subst hh
            refine ⟨?_, ?_, ?_, ?_⟩
            · simp [DataAccessRegion.fromBounds]; omega
            · simp [DataAccessRegion.fromBounds]
            · simp [DataAccessRegion.fromBounds, DataAccessRegion.getEndAddress]; omega
            · intro k' hk'
              rcases List.mem_cons.1 hk' with rfl | hk'
              · simp [DataAccessRegion.intersects, DataAccessRegion.fromBounds,
                  DataAccessRegion.getEndAddress]
                omega
              · have := hs.1 k' hk'
                simp only [DataAccessRegion.getEndAddress] at this
                simp [DataAccessRegion.intersects, DataAccessRegion.fromBounds,
                  DataAccessRegion.getEndAddress]
                omega
          · simp at hh
        · rcases List.mem_cons.1 hh with hh | hh
          · cases hh
          · obtain ⟨a1, a2, a3, a4⟩ := ih1 h hh
            refine ⟨a1, by omega, a3, ?_⟩
            intro k' hk'
            rcases List.mem_cons.1 hk' with rfl | hk'
            · simp only [DataAccessRegion.getEndAddress] at a2
              simp [DataAccessRegion.intersects, DataAccessRegion.getEndAddress]
              omega
            · exact a4 k' hk'
      · rw [List.pairwise_append]
        refine ⟨?_, ?_, ?_⟩
        · split <;> simp
        · rw [List.pairwise_cons]
          refine ⟨?_, ih2⟩
          intro m' _ h h' hm
          cases hm
        · intro m hm m' hm' h h' e1 e2
          subst e1 e2
          split at hm
          · simp only [List.mem_singleton, RegionMatch.missing.injEq] at hm
            subst hm
            rcases List.mem_cons.1 hm' with hm' | hm'
            · cases hm'
            · obtain ⟨_, a2, _, _⟩ := ih1 h' hm'
              simp only [DataAccessRegion.getEndAddress] at a2
              simp [DataAccessRegion.fromBounds, DataAccessRegion.getEndAddress]
              omega
          · simp at hm
      · intro x h1 h2
        by_cases hx1 : x < k.startAddress
        · right
          refine ⟨DataAccessRegion.fromBounds cursor k.startAddress, ?_, ?_⟩
          · have : cursor < k.startAddress := by omega
            simp [this]
          · simp [DataAccessRegion.fromBounds, DataAccessRegion.getEndAddress,
              DataAccessRegion.containsAddress]
            omega
        · by_cases hx2 : x < k.getEndAddress
          · left
            refine ⟨k, List.mem_cons_self _ _, ?_⟩
            simp only [DataAccessRegion.getEndAddress] at hx2
            simp [DataAccessRegion.containsAddress, DataAccessRegion.getEndAddress]
            omega
          · rcases ih3 x (by omega) h2 with ⟨k', hk', hx⟩ | ⟨h, hh, hx⟩
            · exact Or.inl ⟨k', List.mem_cons_of_mem _ hk', hx⟩
            · exact Or.inr ⟨h, List.mem_append_right _ (List.mem_cons_of_mem _ hh), hx⟩
    · obtain ⟨ih1, ih2, ih3⟩ := intersectingAndMissing_spec regionEnd rest cursor hs.2 hn'
      have hi' : ¬ (max k.startAddress cursor < min k.getEndAddress regionEnd) := by
        simp only [DataAccessRegion.intersects, DataAccessRegion.fromBounds,
          DataAccessRegion.getEndAddress, decide_eq_true_eq] at hi
        simp only [DataAccessRegion.getEndAddress]
        omega
      simp only [hi, Bool.false_eq_true, if_false]
      refine ⟨?_, ih2, ?_⟩
      · intro h hh
        obtain ⟨a1, a2, a3, a4⟩ := ih1 h hh
        refine ⟨a1, a2, a3, ?_⟩
        intro k' hk'
        rcases List.mem_cons.1 hk' with rfl | hk'
        · simp only [DataAccessRegion.getEndAddress] at a3 hi'
          simp [DataAccessRegion.intersects, DataAccessRegion.getEndAddress]
          omega
        · exact a4 k' hk'
      · intro x h1 h2
        rcases ih3 x h1 h2 with ⟨k', hk', hx⟩ | ⟨h, hh, hx⟩
        · exact Or.inl ⟨k', List.mem_cons_of_mem _ hk', hx⟩
        · exact Or.inr ⟨h, hh, hx⟩

theorem upgradeAccess_region (a b : DataAccess) (t : DataAccessType) (w : Bool) (i : Int)
    (h : upgradeAccess a t w i = .ok b) : b.region = a.region := by
  have := (upgradeAccess_ok a t w i b h).1
  rw [this]

theorem upgradeMatching_regions (k : DataAccessRegion) (t : DataAccessType) (w : Bool) (i : Int)
    (s : Nat) : ∀ (l l' : List DataAccess), upgradeMatching k t w i s l = .ok l' →
      l'.map (fun a => a.region) = l.map (fun a => a.region)
  | [], l', h => by
    simp only [upgradeMatching, Except.ok.injEq] at h
    subst h
    rfl
  | a :: rest, l', h => by
    unfold upgradeMatching at h
    by_cases hk : a.region = k
    · simp only [hk, if_true] at h
      cases hu : upgradeAccess a t w i with
      | error f => simp [hu] at h
      | ok b =>
        simp only [hu] at h
        cases hr : upgradeMatching k t w i s rest with
        | error f => simp [hr, Except.map] at h
        | ok l1 =>
          simp only [hr, Except.map, Except.ok.injEq] at h
          subst h
          simp [upgradeMatching_regions k t w i s rest l1 hr, DataAccess.addToSymbols,
            upgradeAccess_region a b t w i hu]
    · simp only [hk, if_false] at h
      cases hr : upgradeMatching k t w i s rest with
      | error f => simp [hr, Except.map] at h
      | ok l1 =>
        simp only [hr, Except.map, Except.ok.injEq] at h
        subst h
        simp [upgradeMatching_regions k t w i s rest l1 hr]

theorem mem_insertAccess (a b : DataAccess) :
    ∀ (l : List DataAccess), b ∈ insertAccess a l ↔ b = a ∨ b ∈ l
  | [] => by simp [insertAccess]
  | c :: rest => by
    unfold insertAccess
    split
    · simp
    · simp [mem_insertAccess a b rest]
      tauto

theorem pairwise_insertAccess (a : DataAccess) (ha : 0 < a.region.length) :
    ∀ (l : List DataAccess),
      (l.map (fun b => b.region)).Pairwise (fun r s => r.getEndAddress ≤ s.startAddress) →
      (∀ b ∈ l, 0 < b.region.length) →
      (∀ b ∈ l, b.region.intersects a.region = false) →
      ((insertAccess a l).map (fun b => b.region)).Pairwise
        (fun r s => r.getEndAddress ≤ s.startAddress)
  | [], _, _, _ => by simp [insertAccess]
  | c :: rest, hs, hn, hd => by
    have hc := hn c (List.mem_cons_self _ _)
    have hdc := hd c (List.mem_cons_self _ _)
    simp only [DataAccessRegion.intersects, DataAccessRegion.getEndAddress,
      decide_eq_false_iff_not] at hdc
    rw [List.map_cons, List.pairwise_cons] at hs
    unfold insertAccess
    split
    · rename_i hle
      rw [List.map_cons, List.pairwise_cons]
      refine ⟨?_, by rw [List.map_cons, List.pairwise_cons]; exact hs⟩
      intro r hr
      rcases List.mem_map.1 hr with ⟨b, hb, rfl⟩
      rcases List.mem_cons.1 hb with rfl | hb
      · simp only [DataAccessRegion.getEndAddress]
        omega
      · have := hs.1 b.region (List.mem_map_of_mem _ hb)
        simp only [DataAccessRegion.getEndAddress] at this ⊢
        omega
    · rename_i hle
      rw [List.map_cons, List.pairwise_cons]
      refine ⟨?_, pairwise_insertAccess a ha rest hs.2
        (fun b hb => hn b (List.mem_cons_of_mem _ hb))
        (fun b hb => hd b (List.mem_cons_of_mem _ hb))⟩
      intro r hr
      rcases List.mem_map.1 hr with ⟨b, hb, rfl⟩
      rcases (mem_insertAccess a b rest).1 hb with rfl | hb
      · simp only [DataAccessRegion.getEndAddress]
        omega
      · exact hs.1 b.region (List.mem_map_of_mem _ hb)

theorem registerMatches_spec (task : Nat) (t : DataAccessType) (w : Bool) (i j : Int)
    (s : Nat) :
    ∀ (ms : List RegionMatch) (l l' : List DataAccess),
      (l.map (fun a => a.region)).Pairwise (fun r s => r.getEndAddress ≤ s.startAddress) →
      (∀ a ∈ l, 0 < a.region.length) →
      (∀ h, RegionMatch.missing h ∈ ms →
        0 < h.length ∧ ∀ a ∈ l, a.region.intersects h = false) →
      ms.Pairwise (fun m m' => ∀ h h', m = .missing h → m' = .missing h' →
        h.getEndAddress ≤ h'.startAddress) →
      registerMatches task t w i j s ms l = .ok l' →
      (l'.map (fun a => a.region)).Pairwise (fun r s => r.getEndAddress ≤ s.startAddress)
        ∧ (∀ a ∈ l', 0 < a.region.length)
        ∧ ∀ x, (∃ a ∈ l', a.region.containsAddress x = true)
            ↔ (∃ a ∈ l, a.region.containsAddress x = true)
              ∨ ∃ h, RegionMatch.missing h ∈ ms ∧ h.containsAddress x = true
  | [], l, l', hs, hn, _, _, h => by
    simp only [registerMatches, Except.ok.injEq] at h
    subst h
    simp [hs]
    exact hn
  | m :: rest, l, l', hs, hn, hh, hp, h => by
    unfold registerMatches at h
    rw [List.pairwise_cons] at hp
    cases hm : registerMatch task t w i j s l m with
    | error f => simp [hm] at h
    | ok l1 =>
      simp only [hm] at h
      cases m with
      | intersecting k =>
        simp only [registerMatch] at hm
        have hreg := upgradeMatching_regions k t w i s l l1 hm
        have hn1 : ∀ a ∈ l1, 0 < a.region.length := by
          intro a ha
          have : a.region ∈ l.map (fun a => a.region) := by
            rw [← hreg]; exact List.mem_map_of_mem _ ha
          obtain ⟨b, hb, hb'⟩ := List.mem_map.1 this
          rw [← hb']; exact hn b hb
        have hcov : ∀ (P : DataAccessRegion → Prop),
            (∃ a ∈ l1, P a.region) ↔ ∃ a ∈ l, P a.region := by
          intro P
          constructor
          · rintro ⟨a, ha, hP⟩
            have : a.region ∈ l.map (fun a => a.region) := by
              rw [← hreg]; exact List.mem_map_of_mem _ ha
            obtain ⟨b, hb, hb'⟩ := List.mem_map.1 this
            exact ⟨b, hb, by rw [hb']; exact hP⟩
          · rintro ⟨a, ha, hP⟩
            have : a.region ∈ l1.map (fun a => a.region) := by
              rw [hreg]; exact List.mem_map_of_mem _ ha
            obtain ⟨b, hb, hb'⟩ := List.mem_map.1 this
            exact ⟨b, hb, by rw [hb']; exact hP⟩
        obtain ⟨r1, r2, r3⟩ := registerMatches_spec task t w i j s rest l1 l' (by rw [hreg]; exact hs)
          hn1 (by
            intro h' hh'
            obtain ⟨a1, a2⟩ := hh h' (List.mem_cons_of_mem _ hh')
            refine ⟨a1, ?_⟩
            intro a ha
            by_contra hcon
            obtain ⟨b, hb, hb'⟩ := (hcov (fun r => ¬ r.intersects h' = false)).1 ⟨a, ha, hcon⟩
            exact hb' (a2 b hb)) hp.2 h
        refine ⟨r1, r2, ?_⟩
        intro x
        rw [r3 x, hcov (fun r => r.containsAddress x = true)]
        constructor
        · rintro (h1 | ⟨h', hh', hx⟩)
          · exact Or.inl h1
          · exact Or.inr ⟨h', List.mem_cons_of_mem _ hh', hx⟩
        · rintro (h1 | ⟨h', hh', hx⟩)
          · exact Or.inl h1
          · rcases List.mem_cons.1 hh' with hh' | hh'
            · cases hh'
            · exact Or.inr ⟨h', hh', hx⟩
      | missing hole =>
        simp only [registerMatch, Except.ok.injEq] at hm
        obtain ⟨hl, hd⟩ := hh hole (List.mem_cons_self _ _)
        have hs1 := pairwise_insertAccess
          ((createAccess task access_type t w hole i j).addToSymbols s) hl l hs hn hd
        rw [hm] at hs1
        have hmem : ∀ b, b ∈ l1 ↔ b = (createAccess task access_type t w hole i j).addToSymbols s
            ∨ b ∈ l := by
          intro b
          rw [← hm]
          exact mem_insertAccess _ b l
        obtain ⟨r1, r2, r3⟩ := registerMatches_spec task t w i j s rest l1 l' hs1
          (by
            intro a ha
            rcases (hmem a).1 ha with rfl | ha
            · exact hl
            · exact hn a ha)
          (by
            intro h' hh'
            obtain ⟨a1, a2⟩ := hh h' (List.mem_cons_of_mem _ hh')
            refine ⟨a1, ?_⟩
            intro a ha
            rcases (hmem a).1 ha with rfl | ha
            · have := hp.1 (.missing h') hh' hole h' rfl rfl
              simp only [DataAccessRegion.getEndAddress] at this
              simp [DataAccessRegion.intersects, DataAccessRegion.getEndAddress, createAccess,
                DataAccess.addToSymbols]
              omega
            · exact a2 a ha) hp.2 h
        refine ⟨r1, r2, ?_⟩
        intro x
        rw [r3 x]
        constructor
        · rintro (⟨a, ha, hx⟩ | ⟨h', hh', hx⟩)
          · rcases (hmem a).1 ha with rfl | ha
            · exact Or.inr ⟨hole, List.mem_cons_self _ _, hx⟩
            · exact Or.inl ⟨a, ha, hx⟩
          · exact Or.inr ⟨h', List.mem_cons_of_mem _ hh', hx⟩
        · rintro (⟨a, ha, hx⟩ | ⟨h', hh', hx⟩)
          · exact Or.inl ⟨a, (hmem a).2 (Or.inr ha), hx⟩
          · rcases List.mem_cons.1 hh' with hh' | hh'
            · cases hh'
              exact Or.inl ⟨_, (hmem _).2 (Or.inl rfl), hx⟩
            · exact Or.inr ⟨h', hh', hx⟩

theorem registerInAccesses_spec (task : Nat) (t : DataAccessType) (w : Bool)
    (R : DataAccessRegion) (s i j : Int) (l l' : List DataAccess)
    (hs : (l.map (fun a => a.region)).Pairwise (fun r s => r.getEndAddress ≤ s.startAddress))
    (hn : ∀ a ∈ l, 0 < a.region.length)
    (h : registerInAccesses task t w R s i j l = .ok l') :
    (l'.map (fun a => a.region)).Pairwise (fun r s => r.getEndAddress ≤ s.startAddress)
      ∧ (∀ a ∈ l', 0 < a.region.length)
      ∧ ∀ x, (∃ a ∈ l', a.region.containsAddress x = true)
          ↔ (∃ a ∈ l, a.region.containsAddress x = true) ∨ R.containsAddress x = true := by
  unfold registerInAccesses assertThat regionMatches at h
  dsimp only at h
  by_cases hc : (l.all fun a => !needsFragmenting R a || !a.registered) = true
  · simp only [hc, if_true] at h
    obtain ⟨f1, f2, _, f4⟩ := fragmentIntersecting_spec duplicateDataAccess R l hs hn
    obtain ⟨m1, m2, m3⟩ := intersectingAndMissing_spec R.getEndAddress
      ((fragmentIntersecting duplicateDataAccess R l).map (fun a => a.region)) R.startAddress
      f1 (by
        intro k hk
        obtain ⟨a, ha, rfl⟩ := List.mem_map.1 hk
        exact f2 a ha)
    obtain ⟨r1, r2, r3⟩ := registerMatches_spec task t w i j _ _ _ _ f1 f2 (by
        intro hole hh
        obtain ⟨a1, _, _, a4⟩ := m1 hole hh
        exact ⟨a1, fun a ha => a4 a.region (List.mem_map_of_mem _ ha)⟩) m2 h
    refine ⟨r1, r2, ?_⟩
    intro x
    rw [r3 x, f4 x]
    constructor
    · rintro (h1 | ⟨hole, hh, hx⟩)
      · exact Or.inl h1
      · obtain ⟨_, a2, a3, _⟩ := m1 hole hh
        right
        simp only [DataAccessRegion.containsAddress, DataAccessRegion.getEndAddress,
          Bool.and_eq_true, decide_eq_true_eq] at hx a3 ⊢
        omega
    · rintro (h1 | hx)
      · exact Or.inl h1
      · simp only [DataAccessRegion.containsAddress, DataAccessRegion.getEndAddress,
          Bool.and_eq_true, decide_eq_true_eq] at hx
        rcases m3 x hx.1 hx.2 with ⟨k, hk, hkx⟩ | hole
        · left
          obtain ⟨a, ha, rfl⟩ := List.mem_map.1 hk
          exact (f4 x).1 ⟨a, ha, hkx⟩
        · exact Or.inr hole
  · simp only [hc, Bool.false_eq_true, if_false] at h
    cases h

theorem filter_containsAddress_length (x : Nat) :
    ∀ (l : List DataAccess),
      (l.map (fun a => a.region)).Pairwise (fun r s => r.getEndAddress ≤ s.startAddress) →
      (l.filter (fun a => a.region.containsAddress x)).length
        = if l.any (fun a => a.region.containsAddress x) then 1 else 0
  | [], _ => rfl
  | a :: rest, hs => by
    rw [List.map_cons, List.pairwise_cons] at hs
    have ih := filter_containsAddress_length x rest hs.2
    by_cases ha : a.region.containsAddress x = true
    · have hrest : rest.any (fun a => a.region.containsAddress x) = false := by
        rw [List.any_eq_false]
        intro b hb hbx
        have := hs.1 b.region (List.mem_map_of_mem _ hb)
        simp only [DataAccessRegion.containsAddress, DataAccessRegion.getEndAddress,
          Bool.and_eq_true, decide_eq_true_eq] at ha hbx this
        omega
      rw [hrest] at ih
      simp [List.filter_cons, ha, ih]
    · simp only [Bool.not_eq_true] at ha
      simp [List.filter_cons, ha, ih]

theorem pairwise_not_intersects :
    ∀ (l : List DataAccess),
      (l.map (fun a => a.region)).Pairwise (fun r s => r.getEndAddress ≤ s.startAddress) →
      l.Pairwise (fun a b => a.region.intersects b.region = false) := by
  intro l hs
  rw [List.pairwise_map] at hs
  refine hs.imp ?_
  intro a b hab
  simp only [DataAccessRegion.intersects, DataAccessRegion.getEndAddress,
    decide_eq_false_iff_not] at hab ⊢
  omega

theorem registerSequence_spec (task : Nat) :
    ∀ (ds : List AccessDeclaration) (e e' : Engine), task < e.tasks.length →
      ((e.getDataAccesses task).accesses.map (fun a => a.region)).Pairwise
        (fun r s => r.getEndAddress ≤ s.startAddress) →
      (∀ a ∈ (e.getDataAccesses task).accesses, 0 < a.region.length) →
      registerSequence task ds e = .ok e' →
      ((e'.getDataAccesses task).accesses.map (fun a => a.region)).Pairwise
          (fun r s => r.getEndAddress ≤ s.startAddress)
        ∧ ∀ x, (∃ a ∈ (e'.getDataAccesses task).accesses, a.region.containsAddress x = true)
          ↔ (∃ a ∈ (e.getDataAccesses task).accesses, a.region.containsAddress x = true)
            ∨ ∃ d ∈ ds, (⟨d.start, d.length⟩ : DataAccessRegion).containsAddress x = true
  | [], e, e', _, hs, _, h => by
    simp only [registerSequence, Except.ok.injEq] at h
    subst h
    simp [hs]
  | d :: rest, e, e', ht, hs, hn, h => by
    unfold registerSequence registerTaskDataAccess at h
    cases hr : registerInAccesses task d.accessType d.weak ⟨d.start, d.length⟩ d.symbolIndex
        d.reductionTypeAndOperatorIndex d.reductionIndex (e.getDataAccesses task).accesses with
    | error f => simp [hr] at h
    | ok l1 =>
      simp only [hr] at h
      obtain ⟨r1, r2, r3⟩ := registerInAccesses_spec _ _ _ _ _ _ _ _ _ hs hn hr
      have hget : ((e.modifyDataAccesses task
          (fun s => { s with accesses := l1 })).getDataAccesses task).accesses = l1 := by
        rw [Engine.getDataAccesses_modifyDataAccesses e task _ ht]
      obtain ⟨q1, q2⟩ := registerSequence_spec task rest _ e'
        (by rw [Engine.length_modifyDataAccesses]; exact ht)
        (by rw [hget]; exact r1) (by rw [hget]; exact r2) h
      refine ⟨q1, ?_⟩
      intro x
      rw [q2 x, hget, r3 x]
      simp only [List.mem_cons, exists_eq_or_imp, or_assoc]

/-- C7: after a sequence of successful calls of `registerTaskDataAccess` on a task that
starts without accesses, the accesses of the index are pairwise non-overlapping, and every
byte lies in exactly one of them if a declared region holds it and in none otherwise. -/
theorem registerSequence_nonOverlapping_covering (task : Nat) (ds : List AccessDeclaration)
    (e e' : Engine) (htask : task < e.tasks.length)
    (hfresh : (e.getDataAccesses task).accesses = [])
    (h : registerSequence task ds e = .ok e') :
    (e'.getDataAccesses task).accesses.Pairwise
        (fun a b => a.region.intersects b.region = false)
      ∧ ∀ x, ((e'.getDataAccesses task).accesses.filter
            (fun a => a.region.containsAddress x)).length
          = if ds.any (fun d => (⟨d.start, d.length⟩ : DataAccessRegion).containsAddress x)
            then 1 else 0 := by
  obtain ⟨q1, q2⟩ := registerSequence_spec task ds e e' htask (by simp [hfresh])
    (by simp [hfresh]) h
  refine ⟨pairwise_not_intersects _ q1, ?_⟩
  intro x
  rw [filter_containsAddress_length x _ q1]
  have hiff : (e'.getDataAccesses task).accesses.any (fun a => a.region.containsAddress x) = true
      ↔ ds.any (fun d => (⟨d.start, d.length⟩ : DataAccessRegion).containsAddress x) = true := by
    rw [List.any_eq_true, List.any_eq_true, q2 x]
    simp [hfresh]
  by_cases hx : ds.any (fun d => (⟨d.start, d.length⟩ : DataAccessRegion).containsAddress x) = true
  · simp [hx, hiff.2 hx]
  · have : ¬ (e'.getDataAccesses task).accesses.any (fun a => a.region.containsAddress x) = true :=
      fun hc => hx (hiff.1 hc)
    simp only [Bool.not_eq_true] at hx this
    simp [hx, this]

/-- A task declares a read access on `[100, 110)` and a readwrite access on `[105, 115)`: the
index ends with three accesses, on `[100, 105)`, `[105, 110)` and `[110, 115)`. -/
theorem registerSequence_nonOverlapping_covering_witness :
    ∃ e', registerSequence 1
        [{ accessType := READ_ACCESS_TYPE, weak := false, start := 100, length := 10 },
         { accessType := READWRITE_ACCESS_TYPE, weak := false, start := 105, length := 10 }]
        { tasks := [{}, { parent := some 0 }] } = .ok e'
      ∧ (e'.getDataAccesses 1).accesses.map (fun a => a.region)
        = [⟨100, 5⟩, ⟨105, 5⟩, ⟨110, 5⟩]
      ∧ (e'.getDataAccesses 1).accesses.Pairwise
        (fun a b => a.region.intersects b.region = false) :=
  ⟨_, rfl, rfl, (registerSequence_nonOverlapping_covering 1
    [{ accessType := READ_ACCESS_TYPE, weak := false, start := 100, length := 10 },
     { accessType := READWRITE_ACCESS_TYPE, weak := false, start := 105, length := 10 }]
    { tasks := [{}, { parent := some 0 }] } _ (by decide) rfl rfl).1⟩

/-! ## Walks over an index whose elements lie outside the region, and the bottom map -/

theorem processDelayedOperations_nil (handle : Handler) (steps : Nat) (e : Engine)
    (h : e.hpDependencyData.delayedOperations = []) :
    processDelayedOperations handle steps e = .ok e := by
  cases steps <;> simp [processDelayedOperations, h]

theorem intersectingAndMissing_of_disjoint (c e : Nat) (keys : List DataAccessRegion)
    (h : ∀ k ∈ keys, k.intersects (.fromBounds c e) = false) :
    intersectingAndMissing c e keys
      = if c < e then [.missing (.fromBounds c e)] else [] := by
  induction keys with
  | nil => rfl
  | cons k rest ih =>
    have hk := h k (List.mem_cons_self _ _)
    simp only [intersectingAndMissing, hk]
    exact ih (fun k hk => h k (List.mem_cons_of_mem _ hk))

theorem regionMatches_of_disjoint (R : DataAccessRegion) (keys : List DataAccessRegion)
    (hR : 0 < R.length) (h : ∀ k ∈ keys, k.intersects R = false) :
    regionMatches R keys = [.missing R] := by
  unfold regionMatches
  rw [intersectingAndMissing_of_disjoint]
  · simp [DataAccessRegion.getEndAddress, hR, DataAccessRegion.fromBounds]
  · simpa [DataAccessRegion.fromBounds_self] using h

theorem insertBottomMapEntry_eq (x : BottomMapEntry) (bm : List BottomMapEntry) :
    ∃ l1 l2, bm = l1 ++ l2 ∧ insertBottomMapEntry x bm = l1 ++ x :: l2 := by
  induction bm with
  | nil => exact ⟨[], [], rfl, rfl⟩
  | cons b rest ih =>
    by_cases h : x.region.startAddress ≤ b.region.startAddress
    · exact ⟨[], b :: rest, rfl, by simp [insertBottomMapEntry, h]⟩
    · obtain ⟨l1, l2, h1, h2⟩ := ih
      exact ⟨b :: l1, l2, by simp [h1], by simp [insertBottomMapEntry, h, h2]⟩

theorem findBottomMapEntry_insert (x : BottomMapEntry) (bm : List BottomMapEntry) (address : Nat)
    (hx : x.region.containsAddress address = true)
    (hbm : ∀ b ∈ bm, b.region.containsAddress address = false) :
    findBottomMapEntry address (insertBottomMapEntry x bm) = some x := by
  obtain ⟨l1, l2, h1, h2⟩ := insertBottomMapEntry_eq x bm
  subst h1
  rw [h2, findBottomMapEntry, List.find?_append]
  have : List.find? (fun b => b.region.containsAddress address) l1 = none := by
    simp only [List.find?_eq_none]
    intro b hb
    simp [hbm b (List.mem_append_left _ hb)]
  simp [this, hx]

theorem eraseBottomMapEntry_insert (x : BottomMapEntry) (bm : List BottomMapEntry) (address : Nat)
    (hx : x.region.containsAddress address = true)
    (hbm : ∀ b ∈ bm, b.region.containsAddress address = false) :
    eraseBottomMapEntry address (insertBottomMapEntry x bm) = bm := by
  obtain ⟨l1, l2, h1, h2⟩ := insertBottomMapEntry_eq x bm
  subst h1
  rw [h2, eraseBottomMapEntry]
  simp only [List.filter_append, List.filter_cons, hx, Bool.not_true, Bool.false_eq_true,
    if_false]
  congr 1 <;> (apply List.filter_eq_self.mpr; intro b hb; simp [hbm b (by simp [hb])])

theorem fragmentBottomMapEntry_insert (x : BottomMapEntry) (bm : List BottomMapEntry)
    (address : Nat) (region : DataAccessRegion) (removeIntersection : Bool)
    (hx : x.region.containsAddress address = true)
    (hfull : x.region.fullyContainedIn region = true)
    (hbm : ∀ b ∈ bm, b.region.containsAddress address = false) :
    fragmentBottomMapEntry address region removeIntersection (insertBottomMapEntry x bm)
      = insertBottomMapEntry x bm := by
  obtain ⟨l1, l2, h1, h2⟩ := insertBottomMapEntry_eq x bm
  subst h1
  rw [h2]
  have hl1 : ∀ b ∈ l1, b.region.containsAddress address = false :=
    fun b hb => hbm b (List.mem_append_left _ hb)
  clear h2 hbm
  induction l1 with
  | nil => simp [fragmentBottomMapEntry, hx, hfull]
  | cons b rest ih =>
    have hb := hl1 b (List.mem_cons_self _ _)
    have ih2 := ih (fun b hb => hl1 b (List.mem_cons_of_mem _ hb))
    simp only [List.cons_append, fragmentBottomMapEntry, hb, Bool.false_eq_true, if_false]
    exact congrArg _ ih2

theorem intersectingAndMissing_append_of_disjoint (c e : Nat) (l1 l2 : List DataAccessRegion)
    (h : ∀ k ∈ l1, k.intersects (.fromBounds c e) = false) :
    intersectingAndMissing c e (l1 ++ l2) = intersectingAndMissing c e l2 := by
  induction l1 with
  | nil => rfl
  | cons k rest ih =>
    have hk := h k (List.mem_cons_self _ _)
    simp only [List.cons_append, intersectingAndMissing, hk]
    exact ih (fun k hk => h k (List.mem_cons_of_mem _ hk))

theorem regionMatches_insert (x : BottomMapEntry) (bm : List BottomMapEntry)
    (hR : 0 < x.region.length)
    (hbm : ∀ b ∈ bm, b.region.intersects x.region = false) :
    regionMatches x.region ((insertBottomMapEntry x bm).map (fun b => b.region))
      = [.intersecting x.region] := by
  obtain ⟨l1, l2, h1, h2⟩ := insertBottomMapEntry_eq x bm
  subst h1
  rw [h2, regionMatches, List.map_append, intersectingAndMissing_append_of_disjoint]
  · simp only [List.map_cons, intersectingAndMissing, DataAccessRegion.fromBounds_self,
      DataAccessRegion.intersects_self _ hR, if_true, lt_irrefl, if_false, List.nil_append]
    rw [intersectingAndMissing_of_disjoint]
    · simp
    · intro k _
      simp [DataAccessRegion.intersects, DataAccessRegion.fromBounds,
        DataAccessRegion.getEndAddress]
  · intro k hk
    obtain ⟨b, hb, rfl⟩ := List.mem_map.mp hk
    rw [DataAccessRegion.fromBounds_self]
    exact hbm b (List.mem_append_left _ hb)

/-! ## The scenario S1: read after write -/

set_option maxHeartbeats 4000000 in
/-- The three calls of the scenario S1, with the states they lead to. -/
theorem rawScenario_stages (e : Engine) (P : Task) (R : DataAccessRegion) (L depth steps : Nat)
    (cp : ComputePlace) (cp2 : Option ComputePlace) (busy : Bool) (hR : 0 < R.length)
    (hA : ∀ a ∈ P.dataAccesses.accesses, a.region.intersects R = false)
    (hB : ∀ b ∈ P.dataAccesses.subaccessBottomMap, b.region.intersects R = false) :
    registerTaskDataAccesses ⟨depth + 1, steps + 1⟩ 1 cp (rawScenario e P R)
        = .ok (rawScenarioFirst e P R, true)
      ∧ registerTaskDataAccesses ⟨depth + 1, steps + 1⟩ 2 cp (rawScenarioFirst e P R)
        = .ok (rawScenarioSecond e P R, false)
      ∧ unregisterTaskDataAccesses ⟨depth + 1, steps + 1⟩ 1 cp2 (some L) busy
          (rawScenarioSecond e P R)
        = .ok (rawScenarioThird e P R L cp2 busy) := by
  have hA' : regionMatches R (P.dataAccesses.accesses.map (fun a => a.region)) = [.missing R] :=
    regionMatches_of_disjoint R _ hR (by simpa using hA)
  have hB' : regionMatches R (P.dataAccesses.subaccessBottomMap.map (fun a => a.region))
      = [.missing R] :=
    regionMatches_of_disjoint R _ hR (by simpa using hB)
  have hA2 : (∀ x ∈ P.dataAccesses.accesses, x.region.intersects R = false) = True :=
    eq_true hA
  have hB2 := hB
  have hB3 : ∀ b ∈ P.dataAccesses.subaccessBottomMap,
      b.region.containsAddress R.startAddress = false :=
    fun b hb => DataAccessRegion.containsAddress_of_not_intersects _ _ hR (hB2 b hb)
  have h1 := DataAccessRegion.intersects_self R hR
  have h2 := DataAccessRegion.intersect_self R
  have h3 := DataAccessRegion.fullyContainedIn_self R
  have h4 := DataAccessRegion.containsAddress_start R hR
  have k1 := fun l => regionMatches_insert ⟨R, l, NO_ACCESS_TYPE, -1⟩ _ hR hB2
  have k2 := fun l => findBottomMapEntry_insert ⟨R, l, NO_ACCESS_TYPE, -1⟩ _ _ h4 hB3
  have k3 := fun l => eraseBottomMapEntry_insert ⟨R, l, NO_ACCESS_TYPE, -1⟩ _ _ h4 hB3
  have k4 := fun l b => fragmentBottomMapEntry_insert ⟨R, l, NO_ACCESS_TYPE, -1⟩ _ _ R b h4 h3 hB3
  have c_schedulingHint := fun x0 x1 x2 t0 ts0 q1 q2 q3 q4 q5 q6 q7 q8 q9 q10 =>
    schedulingHint.eq_def (⟨t0 :: ts0, q1, q2, q3, q4, q5, q6, q7, q8, q9, q10⟩ : Engine) x0 x1 x2
  have c_Engine_getTask := fun x0 t0 ts0 q1 q2 q3 q4 q5 q6 q7 q8 q9 q10 =>
    Engine.getTask.eq_1 (⟨t0 :: ts0, q1, q2, q3, q4, q5, q6, q7, q8, q9, q10⟩ : Engine) x0
  have c_Engine_modifyTask := fun x0 x1 t0 ts0 q1 q2 q3 q4 q5 q6 q7 q8 q9 q10 =>
    Engine.modifyTask.eq_1 (⟨t0 :: ts0, q1, q2, q3, q4, q5, q6, q7, q8, q9, q10⟩ : Engine) x0 x1
  have c_Engine_getDataAccesses := fun x0 t0 ts0 q1 q2 q3 q4 q5 q6 q7 q8 q9 q10 =>
    Engine.getDataAccesses.eq_1 (⟨t0 :: ts0, q1, q2, q3, q4, q5, q6, q7, q8, q9, q10⟩ : Engine) x0
  have c_Engine_modifyDataAccesses := fun x0 x1 t0 ts0 q1 q2 q3 q4 q5 q6 q7 q8 q9 q10 =>
    Engine.modifyDataAccesses.eq_1 (⟨t0 :: ts0, q1, q2, q3, q4, q5, q6, q7, q8, q9, q10⟩ : Engine) x0 x1
  have c_Engine_getParent := fun x0 t0 ts0 q1 q2 q3 q4 q5 q6 q7 q8 q9 q10 =>
    Engine.getParent.eq_1 (⟨t0 :: ts0, q1, q2, q3, q4, q5, q6, q7, q8, q9, q10⟩ : Engine) x0
  have c_Engine_findAccess := fun x0 t0 ts0 q1 q2 q3 q4 q5 q6 q7 q8 q9 q10 =>
    Engine.findAccess.eq_1 (⟨t0 :: ts0, q1, q2, q3, q4, q5, q6, q7, q8, q9, q10⟩ : Engine) x0
  have c_Engine_modifyAccess := fun x0 x1 t0 ts0 q1 q2 q3 q4 q5 q6 q7 q8 q9 q10 =>
    Engine.modifyAccess.eq_1 (⟨t0 :: ts0, q1, q2, q3, q4, q5, q6, q7, q8, q9, q10⟩ : Engine) x0 x1
  have c_Engine_increasePredecessors := fun x0 x1 t0 ts0 q1 q2 q3 q4 q5 q6 q7 q8 q9 q10 =>
    Engine.increasePredecessors.eq_1 (⟨t0 :: ts0, q1, q2, q3, q4, q5, q6, q7, q8, q9, q10⟩ : Engine) x0 x1
  have c_Engine_decreasePredecessors := fun x0 x1 t0 ts0 q1 q2 q3 q4 q5 q6 q7 q8 q9 q10 =>
    Engine.decreasePredecessors.eq_1 (⟨t0 :: ts0, q1, q2, q3, q4, q5, q6, q7, q8, q9, q10⟩ : Engine) x0 x1
  have c_Engine_increaseRemovalBlockingCount := fun x0 t0 ts0 q1 q2 q3 q4 q5 q6 q7 q8 q9 q10 =>
    Engine.increaseRemovalBlockingCount.eq_1 (⟨t0 :: ts0, q1, q2, q3, q4, q5, q6, q7, q8, q9, q10⟩ : Engine) x0
  have c_Engine_decreaseRemovalBlockingCount := fun x0 t0 ts0 q1 q2 q3 q4 q5 q6 q7 q8 q9 q10 =>
    Engine.decreaseRemovalBlockingCount.eq_1 (⟨t0 :: ts0, q1, q2, q3, q4, q5, q6, q7, q8, q9, q10⟩ : Engine) x0
  have c_Engine_modifyHp := fun x0 t0 ts0 q1 q2 q3 q4 q5 q6 q7 q8 q9 q10 =>
    Engine.modifyHp.eq_1 (⟨t0 :: ts0, q1, q2, q3, q4, q5, q6, q7, q8, q9, q10⟩ : Engine) x0
  have c_registerTaskDataAccess := fun x0 x1 x2 x3 x4 x5 x6 t0 ts0 q1 q2 q3 q4 q5 q6 q7 q8 q9 q10 =>
    registerTaskDataAccess.eq_1 (⟨t0 :: ts0, q1, q2, q3, q4, q5, q6, q7, q8, q9, q10⟩ : Engine) x0 x1 x2 x3 x4 x5 x6
  have c_registerDependencies := fun x0 t0 ts0 q1 q2 q3 q4 q5 q6 q7 q8 q9 q10 =>
    registerDependencies.eq_1 (⟨t0 :: ts0, q1, q2, q3, q4, q5, q6, q7, q8, q9, q10⟩ : Engine) x0
  have c_domainParentOf := fun x0 t0 ts0 q1 q2 q3 q4 q5 q6 q7 q8 q9 q10 =>
    domainParentOf.eq_1 (⟨t0 :: ts0, q1, q2, q3, q4, q5, q6, q7, q8, q9, q10⟩ : Engine) x0
  have c_nextDomainParentOf := fun x0 t0 ts0 q1 q2 q3 q4 q5 q6 q7 q8 q9 q10 =>
    nextDomainParentOf.eq_1 (⟨t0 :: ts0, q1, q2, q3, q4, q5, q6, q7, q8, q9, q10⟩ : Engine) x0
  have c_statusEffectsOf := fun x0 t0 ts0 q1 q2 q3 q4 q5 q6 q7 q8 q9 q10 =>
    statusEffectsOf.eq_1 (⟨t0 :: ts0, q1, q2, q3, q4, q5, q6, q7, q8, q9, q10⟩ : Engine) x0
  have c_statusEffectsAssertions := fun x0 x1 t0 ts0 q1 q2 q3 q4 q5 q6 q7 q8 q9 q10 =>
    @statusEffectsAssertions.eq_1 Engine (⟨t0 :: ts0, q1, q2, q3, q4, q5, q6, q7, q8, q9, q10⟩ : Engine) x0 x1
  have c_withStatusEffects := fun x0 x1 t0 ts0 q1 q2 q3 q4 q5 q6 q7 q8 q9 q10 =>
    @withStatusEffects.eq_1 Engine (⟨t0 :: ts0, q1, q2, q3, q4, q5, q6, q7, q8, q9, q10⟩ : Engine) x0 x1
  have c_intersectingRefs := fun x0 x1 t0 ts0 q1 q2 q3 q4 q5 q6 q7 q8 q9 q10 =>
    intersectingRefs.eq_1 (⟨t0 :: ts0, q1, q2, q3, q4, q5, q6, q7, q8, q9, q10⟩ : Engine) x0 x1
  have c_allRefs := fun x0 t0 ts0 q1 q2 q3 q4 q5 q6 q7 q8 q9 q10 =>
    allRefs.eq_1 (⟨t0 :: ts0, q1, q2, q3, q4, q5, q6, q7, q8, q9, q10⟩ : Engine) x0
  have c_fragmentObject := fun x0 x1 x2 t0 ts0 q1 q2 q3 q4 q5 q6 q7 q8 q9 q10 =>
    fragmentObject.eq_1 x0 x1 x2 (⟨t0 :: ts0, q1, q2, q3, q4, q5, q6, q7, q8, q9, q10⟩ : Engine)
  have c_fragmentAccess := fun x0 x1 x2 t0 ts0 q1 q2 q3 q4 q5 q6 q7 q8 q9 q10 =>
    fragmentAccess.eq_1 x0 x1 x2 (⟨t0 :: ts0, q1, q2, q3, q4, q5, q6, q7, q8, q9, q10⟩ : Engine)
  have c_followLink := fun x0 x1 x2 x3 t0 ts0 q1 q2 q3 q4 q5 q6 q7 q8 q9 q10 =>
    followLink.eq_1 x0 x1 x2 x3 (⟨t0 :: ts0, q1, q2, q3, q4, q5, q6, q7, q8, q9, q10⟩ : Engine)
  have c_handleRegistration := fun x0 x1 x2 x3 t0 ts0 q1 q2 q3 q4 q5 q6 q7 q8 q9 q10 =>
    handleRegistration.eq_1 x0 x1 x2 x3 (⟨t0 :: ts0, q1, q2, q3, q4, q5, q6, q7, q8, q9, q10⟩ : Engine)
  have c_handleDependencyUpdate := fun x0 x1 x2 t0 ts0 q1 q2 q3 q4 q5 q6 q7 q8 q9 q10 =>
    handleDependencyUpdate.eq_1 x0 x1 x2 (⟨t0 :: ts0, q1, q2, q3, q4, q5, q6, q7, q8, q9, q10⟩ : Engine)
  have c_handleReductionChanges := fun x0 x1 x2 t0 ts0 q1 q2 q3 q4 q5 q6 q7 q8 q9 q10 =>
    handleReductionChanges.eq_1 x0 x1 x2 (⟨t0 :: ts0, q1, q2, q3, q4, q5, q6, q7, q8, q9, q10⟩ : Engine)
  have c_handlePropagation := fun x0 x1 x2 x3 t0 ts0 q1 q2 q3 q4 q5 q6 q7 q8 q9 q10 =>
    handlePropagation.eq_1 x0 x1 x2 x3 (⟨t0 :: ts0, q1, q2, q3, q4, q5, q6, q7, q8, q9, q10⟩ : Engine)
  have c_handleBottomMapUpdate := fun x0 x1 x2 x3 x4 t0 ts0 q1 q2 q3 q4 q5 q6 q7 q8 q9 q10 =>
    handleBottomMapUpdate.eq_1 x0 x1 x2 x3 x4 (⟨t0 :: ts0, q1, q2, q3, q4, q5, q6, q7, q8, q9, q10⟩ : Engine)
  have c_handleTriggers := fun x0 x1 x2 x3 t0 ts0 q1 q2 q3 q4 q5 q6 q7 q8 q9 q10 =>
    handleTriggers.eq_1 x0 x1 x2 x3 (⟨t0 :: ts0, q1, q2, q3, q4, q5, q6, q7, q8, q9, q10⟩ : Engine)
  have c_handleRemoval := fun x0 x1 x2 x3 x4 t0 ts0 q1 q2 q3 q4 q5 q6 q7 q8 q9 q10 =>
    handleRemoval.eq_1 x0 x1 x2 x3 x4 (⟨t0 :: ts0, q1, q2, q3, q4, q5, q6, q7, q8, q9, q10⟩ : Engine)
  have c_handleDataAccessStatusChangesBody := fun x0 x1 x2 x3 t0 ts0 q1 q2 q3 q4 q5 q6 q7 q8 q9 q10 =>
    handleDataAccessStatusChangesBody.eq_1 x0 x1 x2 x3 (⟨t0 :: ts0, q1, q2, q3, q4, q5, q6, q7, q8, q9, q10⟩ : Engine)
  have c_applyUpdateOperationBits := fun x0 x1 t0 ts0 q1 q2 q3 q4 q5 q6 q7 q8 q9 q10 =>
    applyUpdateOperationBits.eq_1 (⟨t0 :: ts0, q1, q2, q3, q4, q5, q6, q7, q8, q9, q10⟩ : Engine) x0 x1
  have c_applyUpdateOperationOnAccess := fun x0 x1 x2 t0 ts0 q1 q2 q3 q4 q5 q6 q7 q8 q9 q10 =>
    applyUpdateOperationOnAccess.eq_1 x0 x1 x2 (⟨t0 :: ts0, q1, q2, q3, q4, q5, q6, q7, q8, q9, q10⟩ : Engine)
  have c_processUpdateOperation := fun x0 x1 t0 ts0 q1 q2 q3 q4 q5 q6 q7 q8 q9 q10 =>
    processUpdateOperation.eq_1 x0 x1 (⟨t0 :: ts0, q1, q2, q3, q4, q5, q6, q7, q8, q9, q10⟩ : Engine)
  have c_processReleasedCommutativeRegions := fun  t0 ts0 q1 q2 q3 q4 q5 q6 q7 q8 q9 q10 =>
    processReleasedCommutativeRegions.eq_1 (⟨t0 :: ts0, q1, q2, q3, q4, q5, q6, q7, q8, q9, q10⟩ : Engine)
  have c_processSatisfiedCommutativeOriginators := fun  t0 ts0 q1 q2 q3 q4 q5 q6 q7 q8 q9 q10 =>
    processSatisfiedCommutativeOriginators.eq_1 (⟨t0 :: ts0, q1, q2, q3, q4, q5, q6, q7, q8, q9, q10⟩ : Engine)
  have c_processSatisfiedOriginators := fun x0 x1 t0 ts0 q1 q2 q3 q4 q5 q6 q7 q8 q9 q10 =>
    processSatisfiedOriginators.eq_1 x0 x1 (⟨t0 :: ts0, q1, q2, q3, q4, q5, q6, q7, q8, q9, q10⟩ : Engine)
  have c_handleCompletedTaskwaits := fun  t0 ts0 q1 q2 q3 q4 q5 q6 q7 q8 q9 q10 =>
    handleCompletedTaskwaits.eq_1 (⟨t0 :: ts0, q1, q2, q3, q4, q5, q6, q7, q8, q9, q10⟩ : Engine)
  have c_handleRemovableTasks := fun  t0 ts0 q1 q2 q3 q4 q5 q6 q7 q8 q9 q10 =>
    handleRemovableTasks.eq_1 (⟨t0 :: ts0, q1, q2, q3, q4, q5, q6, q7, q8, q9, q10⟩ : Engine)
  have c_processDelayedOperationsSatisfiedOriginatorsAndRemovableTasks := fun x0 x1 x2 x3 t0 ts0 q1 q2 q3 q4 q5 q6 q7 q8 q9 q10 =>
    processDelayedOperationsSatisfiedOriginatorsAndRemovableTasks.eq_1 x0 x1 x2 x3 (⟨t0 :: ts0, q1, q2, q3, q4, q5, q6, q7, q8, q9, q10⟩ : Engine)
  have c_processBottomMapMatch := fun x0 x1 x2 x3 x4 t0 ts0 q1 q2 q3 q4 q5 q6 q7 q8 q9 q10 =>
    processBottomMapMatch.eq_1 x0 x1 x2 x3 x4 (⟨t0 :: ts0, q1, q2, q3, q4, q5, q6, q7, q8, q9, q10⟩ : Engine)
  have c_processBottomMapHole := fun x0 x1 x2 x3 x4 t0 ts0 q1 q2 q3 q4 q5 q6 q7 q8 q9 q10 =>
    processBottomMapHole.eq_1 x0 x1 x2 x3 x4 (⟨t0 :: ts0, q1, q2, q3, q4, q5, q6, q7, q8, q9, q10⟩ : Engine)
  have c_foreachBottomMapMatchPossiblyCreatingInitialFragmentsAndMissingRegion := fun x0 x1 x2 x3 x4 t0 ts0 q1 q2 q3 q4 q5 q6 q7 q8 q9 q10 =>
    foreachBottomMapMatchPossiblyCreatingInitialFragmentsAndMissingRegion.eq_1 x0 x1 x2 x3 x4 (⟨t0 :: ts0, q1, q2, q3, q4, q5, q6, q7, q8, q9, q10⟩ : Engine)
  have c_assertSameLocality := fun x0 t0 ts0 q1 q2 q3 q4 q5 q6 q7 q8 q9 q10 =>
    assertSameLocality.eq_1 (⟨t0 :: ts0, q1, q2, q3, q4, q5, q6, q7, q8, q9, q10⟩ : Engine) x0
  have c_linkMatchingProcessor := fun x0 x1 x2 x3 x4 x5 t0 ts0 q1 q2 q3 q4 q5 q6 q7 q8 q9 q10 =>
    linkMatchingProcessor.eq_1 x0 x1 x2 x3 x4 x5 (⟨t0 :: ts0, q1, q2, q3, q4, q5, q6, q7, q8, q9, q10⟩ : Engine)
  have c_linkMissingProcessor := fun x0 x1 x2 x3 x4 t0 ts0 q1 q2 q3 q4 q5 q6 q7 q8 q9 q10 =>
    linkMissingProcessor.eq_1 x0 x1 x2 x3 x4 (⟨t0 :: ts0, q1, q2, q3, q4, q5, q6, q7, q8, q9, q10⟩ : Engine)
  have c_replaceMatchingInBottomMapLinkAndPropagate := fun x0 x1 x2 x3 t0 ts0 q1 q2 q3 q4 q5 q6 q7 q8 q9 q10 =>
    replaceMatchingInBottomMapLinkAndPropagate.eq_1 x0 x1 x2 x3 (⟨t0 :: ts0, q1, q2, q3, q4, q5, q6, q7, q8, q9, q10⟩ : Engine)
  have c_linkTaskAccess := fun x0 x1 x2 x3 t0 ts0 q1 q2 q3 q4 q5 q6 q7 q8 q9 q10 =>
    linkTaskAccess.eq_1 x0 x1 x2 x3
      (⟨t0 :: ts0, q1, q2, q3, q4, q5, q6, q7, q8, q9, q10⟩ : Engine)
  have c_linkTaskAccesses := fun x0 x1 t0 ts0 q1 q2 q3 q4 q5 q6 q7 q8 q9 q10 =>
    linkTaskAccesses.eq_1 x0 x1 (⟨t0 :: ts0, q1, q2, q3, q4, q5, q6, q7, q8, q9, q10⟩ : Engine)
  have c_drain := fun x0 x1 x2 t0 ts0 q1 q2 q3 q4 q5 q6 q7 q8 q9 q10 =>
    drain.eq_1 x0 x1 x2 (⟨t0 :: ts0, q1, q2, q3, q4, q5, q6, q7, q8, q9, q10⟩ : Engine)
  have c_registerTaskDataAccesses := fun x0 x1 x2 t0 ts0 q1 q2 q3 q4 q5 q6 q7 q8 q9 q10 =>
    registerTaskDataAccesses.eq_1 x0 x1 x2 (⟨t0 :: ts0, q1, q2, q3, q4, q5, q6, q7, q8, q9, q10⟩ : Engine)
  have c_allEntries := fun x0 t0 ts0 q1 q2 q3 q4 q5 q6 q7 q8 q9 q10 =>
    allEntries.eq_1 (⟨t0 :: ts0, q1, q2, q3, q4, q5, q6, q7, q8, q9, q10⟩ : Engine) x0
  have c_createTopLevelSink := fun x0 x1 t0 ts0 q1 q2 q3 q4 q5 q6 q7 q8 q9 q10 =>
    createTopLevelSink.eq_1 x0 x1 (⟨t0 :: ts0, q1, q2, q3, q4, q5, q6, q7, q8, q9, q10⟩ : Engine)
  have c_applyToAccessAndFragments := fun x0 x1 x2 x3 t0 ts0 q1 q2 q3 q4 q5 q6 q7 q8 q9 q10 =>
    applyToAccessAndFragments.eq_1 x0 x1 x2 x3 (⟨t0 :: ts0, q1, q2, q3, q4, q5, q6, q7, q8, q9, q10⟩ : Engine)
  have c_finalizeAccess := fun x0 x1 x2 x3 x4 t0 ts0 q1 q2 q3 q4 q5 q6 q7 q8 q9 q10 =>
    finalizeAccess.eq_1 x0 x1 x2 x3 x4 (⟨t0 :: ts0, q1, q2, q3, q4, q5, q6, q7, q8, q9, q10⟩ : Engine)
  have c_unregisterTaskDataAccesses := fun x0 x1 x2 x3 x4 t0 ts0 q1 q2 q3 q4 q5 q6 q7 q8 q9 q10 =>
    unregisterTaskDataAccesses.eq_1 x0 x1 x2 x3 x4 (⟨t0 :: ts0, q1, q2, q3, q4, q5, q6, q7, q8, q9, q10⟩ : Engine)
  have c_forEachRef := fun x0 x1 x2 t0 ts0 q1 q2 q3 q4 q5 q6 q7 q8 q9 q10 =>
    forEachRef.eq_2 x0 (⟨t0 :: ts0, q1, q2, q3, q4, q5, q6, q7, q8, q9, q10⟩ : Engine) x1 x2
  have c_forEachMatch := fun x0 x1 x2 t0 ts0 q1 q2 q3 q4 q5 q6 q7 q8 q9 q10 =>
    forEachMatch.eq_2 x0 (⟨t0 :: ts0, q1, q2, q3, q4, q5, q6, q7, q8, q9, q10⟩ : Engine) x1 x2
  have c_forEachEntry := fun x0 x1 x2 t0 ts0 q1 q2 q3 q4 q5 q6 q7 q8 q9 q10 =>
    forEachEntry.eq_2 x0 (⟨t0 :: ts0, q1, q2, q3, q4, q5, q6, q7, q8, q9, q10⟩ : Engine) x1 x2
  have c_registerSequence := fun x0 x1 x2 t0 ts0 q1 q2 q3 q4 q5 q6 q7 q8 q9 q10 =>
    registerSequence.eq_2 x0 (⟨t0 :: ts0, q1, q2, q3, q4, q5, q6, q7, q8, q9, q10⟩ : Engine) x1 x2
  have c_processDelayedOperations := fun x0 x1 t0 ts0 q1 q2 q3 q4 q5 q6 q7 q8 q9 q10 =>
    processDelayedOperations.eq_2 x0 (⟨t0 :: ts0, q1, q2, q3, q4, q5, q6, q7, q8, q9, q10⟩ : Engine) x1
  obtain ⟨s, n⟩ := R
  simp only at hR h4 k1 k2 k3 k4
  have hn : n ≠ 0 := by omega
  refine ⟨?_, ?_, ?_⟩
  · 
    simp [c_schedulingHint, c_Engine_getTask, c_Engine_modifyTask, c_Engine_getDataAccesses,
    c_Engine_modifyDataAccesses, c_Engine_getParent, c_Engine_findAccess, c_Engine_modifyAccess,
    c_Engine_increasePredecessors, c_Engine_decreasePredecessors,
    c_Engine_increaseRemovalBlockingCount, c_Engine_decreaseRemovalBlockingCount,
    c_Engine_modifyHp, c_registerTaskDataAccess, c_registerDependencies, c_domainParentOf,
    c_nextDomainParentOf, c_statusEffectsOf, c_statusEffectsAssertions, c_withStatusEffects,
    c_intersectingRefs, c_allRefs, c_fragmentObject, c_fragmentAccess, c_followLink,
    c_handleRegistration, c_handleDependencyUpdate, c_handleReductionChanges,
    c_handlePropagation, c_handleBottomMapUpdate, c_handleTriggers, c_handleRemoval,
    c_handleDataAccessStatusChangesBody, c_applyUpdateOperationBits,
    c_applyUpdateOperationOnAccess, c_processUpdateOperation,
    c_processReleasedCommutativeRegions, c_processSatisfiedCommutativeOriginators,
    c_processSatisfiedOriginators, c_handleCompletedTaskwaits, c_handleRemovableTasks,
    c_processDelayedOperationsSatisfiedOriginatorsAndRemovableTasks, c_processBottomMapMatch,
    c_processBottomMapHole,
    c_foreachBottomMapMatchPossiblyCreatingInitialFragmentsAndMissingRegion,
    c_assertSameLocality, c_linkMatchingProcessor, c_linkMissingProcessor,
    c_replaceMatchingInBottomMapLinkAndPropagate, c_linkTaskAccess, c_linkTaskAccesses, c_drain,
    c_registerTaskDataAccesses, c_allEntries, c_createTopLevelSink, c_applyToAccessAndFragments,
    c_finalizeAccess, c_unregisterTaskDataAccesses, c_forEachRef, forEachRef.eq_1,
    c_forEachMatch, forEachMatch.eq_1, c_forEachEntry, forEachEntry.eq_1, c_registerSequence,
    registerSequence.eq_1, c_processDelayedOperations, rawScenarioFirst, rawScenarioSecond,
    rawScenarioThird, withEntry, linkedWrite, linkedRead, hn, rawScenario, newTask, strongAccess,
    registerInAccesses_nil, hR, TaskDataAccesses.index, TaskDataAccesses.setIndex, createAccess,
    DataAccess.addToSymbols, assertThat, failIf, DataAccess.hasBeenDiscounted,
    DataAccess.hasNext, handleDataAccessStatusChanges, DataAccess.satisfied,
    DataAccess.hasDataReleaseStep, DataAccess.hasDataLinkStep, DataAccess.hasOutputLocation,
    DataAccess.hasLocation, checkDataRelease, hA', hB', hA2, h1, h2, h3, h4, k1, k2, k3, k4,
    effectsToNextOfLeafAccess, updateOperationToNext, UpdateOperation.empty, intersectingKeys,
    DataAccess.setReadSatisfied, directoryMemoryPlace, processDelayedOperations_nil,
    DataAccessRegion.empty, no_reduction_type_and_operator]
  · 
    simp [c_schedulingHint, c_Engine_getTask, c_Engine_modifyTask, c_Engine_getDataAccesses,
    c_Engine_modifyDataAccesses, c_Engine_getParent, c_Engine_findAccess, c_Engine_modifyAccess,
    c_Engine_increasePredecessors, c_Engine_decreasePredecessors,
    c_Engine_increaseRemovalBlockingCount, c_Engine_decreaseRemovalBlockingCount,
    c_Engine_modifyHp, c_registerTaskDataAccess, c_registerDependencies, c_domainParentOf,
    c_nextDomainParentOf, c_statusEffectsOf, c_statusEffectsAssertions, c_withStatusEffects,
    c_intersectingRefs, c_allRefs, c_fragmentObject, c_fragmentAccess, c_followLink,
    c_handleRegistration, c_handleDependencyUpdate, c_handleReductionChanges,
    c_handlePropagation, c_handleBottomMapUpdate, c_handleTriggers, c_handleRemoval,
    c_handleDataAccessStatusChangesBody, c_applyUpdateOperationBits,
    c_applyUpdateOperationOnAccess, c_processUpdateOperation,
    c_processReleasedCommutativeRegions, c_processSatisfiedCommutativeOriginators,
    c_processSatisfiedOriginators, c_handleCompletedTaskwaits, c_handleRemovableTasks,
    c_processDelayedOperationsSatisfiedOriginatorsAndRemovableTasks, c_processBottomMapMatch,
    c_processBottomMapHole,
    c_foreachBottomMapMatchPossiblyCreatingInitialFragmentsAndMissingRegion,
    c_assertSameLocality, c_linkMatchingProcessor, c_linkMissingProcessor,
    c_replaceMatchingInBottomMapLinkAndPropagate, c_linkTaskAccess, c_linkTaskAccesses, c_drain,
    c_registerTaskDataAccesses, c_allEntries, c_createTopLevelSink, c_applyToAccessAndFragments,
    c_finalizeAccess, c_unregisterTaskDataAccesses, c_forEachRef, forEachRef.eq_1,
    c_forEachMatch, forEachMatch.eq_1, c_forEachEntry, forEachEntry.eq_1, c_registerSequence,
    registerSequence.eq_1, c_processDelayedOperations, rawScenarioFirst, rawScenarioSecond,
    rawScenarioThird, withEntry, linkedWrite, linkedRead, hn, rawScenario, newTask, strongAccess,
    registerInAccesses_nil, hR, TaskDataAccesses.index, TaskDataAccesses.setIndex, createAccess,
    DataAccess.addToSymbols, assertThat, failIf, DataAccess.hasBeenDiscounted,
    DataAccess.hasNext, handleDataAccessStatusChanges, DataAccess.satisfied,
    DataAccess.hasDataReleaseStep, DataAccess.hasDataLinkStep, DataAccess.hasOutputLocation,
    DataAccess.hasLocation, checkDataRelease, hA', hB', hA2, h1, h2, h3, h4, k1, k2, k3, k4,
    effectsToNextOfLeafAccess, updateOperationToNext, UpdateOperation.empty, intersectingKeys,
    DataAccess.setReadSatisfied, directoryMemoryPlace, processDelayedOperations_nil,
    DataAccessRegion.empty, no_reduction_type_and_operator]
  · 
    simp [c_schedulingHint, c_Engine_getTask, c_Engine_modifyTask, c_Engine_getDataAccesses,
    c_Engine_modifyDataAccesses, c_Engine_getParent, c_Engine_findAccess, c_Engine_modifyAccess,
    c_Engine_increasePredecessors, c_Engine_decreasePredecessors,
    c_Engine_increaseRemovalBlockingCount, c_Engine_decreaseRemovalBlockingCount,
    c_Engine_modifyHp, c_registerTaskDataAccess, c_registerDependencies, c_domainParentOf,
    c_nextDomainParentOf, c_statusEffectsOf, c_statusEffectsAssertions, c_withStatusEffects,
    c_intersectingRefs, c_allRefs, c_fragmentObject, c_fragmentAccess, c_followLink,
    c_handleRegistration, c_handleDependencyUpdate, c_handleReductionChanges,
    c_handlePropagation, c_handleBottomMapUpdate, c_handleTriggers, c_handleRemoval,
    c_handleDataAccessStatusChangesBody, c_applyUpdateOperationBits,
    c_applyUpdateOperationOnAccess, c_processUpdateOperation,
    c_processReleasedCommutativeRegions, c_processSatisfiedCommutativeOriginators,
    c_processSatisfiedOriginators, c_handleCompletedTaskwaits, c_handleRemovableTasks,
    c_processDelayedOperationsSatisfiedOriginatorsAndRemovableTasks, c_processBottomMapMatch,
    c_processBottomMapHole,
    c_foreachBottomMapMatchPossiblyCreatingInitialFragmentsAndMissingRegion,
    c_assertSameLocality, c_linkMatchingProcessor, c_linkMissingProcessor,
    c_replaceMatchingInBottomMapLinkAndPropagate, c_linkTaskAccess, c_linkTaskAccesses, c_drain,
    c_registerTaskDataAccesses, c_allEntries, c_createTopLevelSink, c_applyToAccessAndFragments,
    c_finalizeAccess, c_unregisterTaskDataAccesses, c_forEachRef, forEachRef.eq_1,
    c_forEachMatch, forEachMatch.eq_1, c_forEachEntry, forEachEntry.eq_1, c_registerSequence,
    registerSequence.eq_1, c_processDelayedOperations, rawScenarioFirst, rawScenarioSecond,
    rawScenarioThird, withEntry, linkedWrite, linkedRead, hn, rawScenario, newTask, strongAccess,
    registerInAccesses_nil, hR, TaskDataAccesses.index, TaskDataAccesses.setIndex, createAccess,
    DataAccess.addToSymbols, assertThat, failIf, DataAccess.hasBeenDiscounted,
    DataAccess.hasNext, handleDataAccessStatusChanges, DataAccess.satisfied,
    DataAccess.hasDataReleaseStep, DataAccess.hasDataLinkStep, DataAccess.hasOutputLocation,
    DataAccess.hasLocation, checkDataRelease, hA', hB', hA2, h1, h2, h3, h4, k1, k2, k3, k4,
    effectsToNextOfLeafAccess, updateOperationToNext, UpdateOperation.empty, intersectingKeys,
    DataAccess.setReadSatisfied, directoryMemoryPlace, processDelayedOperations_nil,
    DataAccessRegion.empty, no_reduction_type_and_operator]

/-- C1 (RAW ordering, scenario S1).  Task 0 is any parent `P` whose accesses and bottom map lie
outside the non-empty region `R`; T1 (task 1) declares a strong write on `R` and T2 (task 2),
registered after T1, a strong read on `R`; T1 is not remote.  Then
`registerTaskDataAccesses` returns true for T1 and false for T2; up to the end of the
registration of T2 no task has been published, no originator is left in
`satisfiedOriginators`, and the access of T1 is not complete; and
`unregisterTaskDataAccesses` of T1 with the location `L` publishes exactly one task, T2, and
leaves the access of T2 read satisfied and write satisfied with the location `L`. -/
theorem raw_ordering (e : Engine) (P : Task) (R : DataAccessRegion) (L depth steps : Nat)
    (cp : ComputePlace) (cp2 : Option ComputePlace) (busy : Bool) (hR : 0 < R.length)
    (hA : ∀ a ∈ P.dataAccesses.accesses, a.region.intersects R = false)
    (hB : ∀ b ∈ P.dataAccesses.subaccessBottomMap, b.region.intersects R = false) :
    ∃ e1 e2 e3 a1 a2 hint,
      registerTaskDataAccesses ⟨depth + 1, steps + 1⟩ 1 cp (rawScenario e P R) = .ok (e1, true)
      ∧ e1.readyTasks = e.readyTasks
      ∧ registerTaskDataAccesses ⟨depth + 1, steps + 1⟩ 2 cp e1 = .ok (e2, false)
      ∧ e2.readyTasks = e.readyTasks
      ∧ e2.hpDependencyData.satisfiedOriginators = []
      ∧ (e2.getDataAccesses 1).accesses = [a1] ∧ a1.complete = false
      ∧ unregisterTaskDataAccesses ⟨depth + 1, steps + 1⟩ 1 cp2 (some L) busy e2 = .ok e3
      ∧ e3.readyTasks = e.readyTasks ++ [(2, hint)]
      ∧ (e3.getDataAccesses 2).accesses = [a2]
      ∧ a2.readSatisfied = true ∧ a2.writeSatisfied = true ∧ a2.location = some L := by
  obtain ⟨h1, h2, h3⟩ := rawScenario_stages e P R L depth steps cp cp2 busy hR hA hB
  exact ⟨_, _, _, _, _, _, h1, rfl, h2, rfl, rfl, rfl, rfl, h3, rfl, rfl, rfl, rfl, rfl⟩

theorem raw_ordering_witness :
    ∃ e1 e2 e3 a1 a2 hint,
      registerTaskDataAccesses ⟨1, 1⟩ 1 ⟨0, true, true, 0⟩ (rawScenario {} {} ⟨100, 1⟩)
        = .ok (e1, true)
      ∧ e1.readyTasks = []
      ∧ registerTaskDataAccesses ⟨1, 1⟩ 2 ⟨0, true, true, 0⟩ e1 = .ok (e2, false)
      ∧ e2.readyTasks = []
      ∧ e2.hpDependencyData.satisfiedOriginators = []
      ∧ (e2.getDataAccesses 1).accesses = [a1] ∧ a1.complete = false
      ∧ unregisterTaskDataAccesses ⟨1, 1⟩ 1 none (some 42) false e2 = .ok e3
      ∧ e3.readyTasks = [] ++ [(2, hint)]
      ∧ (e3.getDataAccesses 2).accesses = [a2]
      ∧ a2.readSatisfied = true ∧ a2.writeSatisfied = true ∧ a2.location = some 42 :=
  raw_ordering {} {} ⟨100, 1⟩ 42 0 0 ⟨0, true, true, 0⟩ none false (by decide)
    (by simp) (by simp)

/-! ## The scenario S2: fragmentation -/

/-- C2 (fragmentation, scenario S2).  With the sibling tasks T1 read-write on `[0, 64)`, T2
read on `[0, 32)` and T3 write on `[32, 64)`, registered in that order: T1 is ready at once and
neither T2 nor T3 is; after the three registrations the accesses of T1 are exactly the two parts
`[0, 32)`, whose next link leads to the accesses of T2, and `[32, 64)`, whose next link leads to
the accesses of T3, and no task has been published; and the unregistration of T1 publishes
exactly T2 and T3, each once. -/
theorem fragmentation_splits_and_publishes :
    ∃ e3 e4 hint2 hint3,
      fragmentationRun ⟨1, 2⟩ ⟨0, true, true, 0⟩ 7 = .ok (true, false, false, e3, e4)
      ∧ (e3.getDataAccesses 1).accesses.map (fun a => (a.region, a.next))
        = [(⟨0, 32⟩, some ⟨2, access_type⟩), (⟨32, 32⟩, some ⟨3, access_type⟩)]
      ∧ e3.readyTasks = []
      ∧ e4.readyTasks = [(2, hint2), (3, hint3)] := by
  have h : (match fragmentationRun ⟨1, 2⟩ ⟨0, true, true, 0⟩ 7 with
      | .ok (r1, r2, r3, e3, e4) =>
        decide (r1 = true ∧ r2 = false ∧ r3 = false
          ∧ (e3.getDataAccesses 1).accesses.map (fun a => (a.region, a.next))
            = [(⟨0, 32⟩, some ⟨2, access_type⟩), (⟨32, 32⟩, some ⟨3, access_type⟩)]
          ∧ e3.readyTasks = []
          ∧ e4.readyTasks.map (fun p => p.1) = [2, 3])
      | .error _ => false) = true := by decide!
  cases hrun : fragmentationRun ⟨1, 2⟩ ⟨0, true, true, 0⟩ 7 with
  | error f => rw [hrun] at h; simp at h
  | ok x =>
    obtain ⟨r1, r2, r3, e3, e4⟩ := x
    rw [hrun] at h
    simp only [decide_eq_true_eq] at h
    obtain ⟨rfl, rfl, rfl, h4, h5, h6⟩ := h
    match hr : e4.readyTasks, h6 with
    | [(_, hint2), (_, hint3)], h6 =>
      simp only [List.map_cons, List.map_nil, List.cons.injEq, and_true] at h6
      obtain ⟨rfl, rfl⟩ := h6
      exact ⟨e3, e4, hint2, hint3, rfl, h4, h5, hr⟩

/-! ## The release of a region -/

theorem DataAccess.declared_region (a : DataAccess) (r : DataAccessRegion) (h : a.declared) :
    ({ a with region := r } : DataAccess).declared := by
  obtain ⟨h1, h2, h3⟩ := h
  refine ⟨?_, h2, h3⟩
  conv_lhs => rw [h1]
  rfl

theorem DataAccess.declared_duplicate (a : DataAccess) (r : DataAccessRegion) (h : a.declared) :
    ({ duplicateDataAccess a with region := r } : DataAccess).declared := by
  obtain ⟨h1, h2, h3⟩ := h
  refine ⟨?_, h2, h3⟩
  conv_lhs => rw [h1]
  rfl

theorem fragmentPieces_declared (R : DataAccessRegion) (a : DataAccess) (h : a.declared) :
    ∀ b ∈ fragmentPieces duplicateDataAccess R a, b.declared := by
  intro b hb
  cases hfr : fragmentRegions a.region R with
  | nil => simp [fragmentPieces, hfr] at hb
  | cons r rest =>
    simp only [fragmentPieces, hfr] at hb
    rcases List.mem_cons.1 hb with rfl | hb
    · exact DataAccess.declared_region a _ h
    · obtain ⟨r, _, rfl⟩ := List.mem_map.1 hb
      exact DataAccess.declared_duplicate a r h

theorem fragmentIntersecting_declared (R : DataAccessRegion) :
    ∀ (l : List DataAccess), (∀ a ∈ l, a.declared) →
      ∀ b ∈ fragmentIntersecting duplicateDataAccess R l, b.declared
  | [], _, b, hb => by simp [fragmentIntersecting] at hb
  | a :: rest, h, b, hb => by
    unfold fragmentIntersecting at hb
    rcases List.mem_append.1 hb with hb | hb
    · split at hb
      · exact fragmentPieces_declared R a (h a (List.mem_cons_self _ _)) b hb
      · rw [List.mem_singleton] at hb
        rw [hb]
        exact h a (List.mem_cons_self _ _)
    · exact fragmentIntersecting_declared R rest
        (fun a ha => h a (List.mem_cons_of_mem _ ha)) b hb

theorem upgradeAccess_declared (a b : DataAccess) (t : DataAccessType) (w : Bool) (i : Int)
    (s : Nat) (h : a.declared) (ht1 : t ≠ COMMUTATIVE_ACCESS_TYPE) (ht2 : t ≠ NO_ACCESS_TYPE)
    (hb : upgradeAccess a t w i = .ok b) : (b.addToSymbols s).declared := by
  obtain ⟨h1, h2, h3⟩ := h
  obtain ⟨u1, u2⟩ := upgradeAccess_ok a t w i b hb
  have hty : b.type ≠ COMMUTATIVE_ACCESS_TYPE ∧ b.type ≠ NO_ACCESS_TYPE := by
    rw [u2]
    split
    · exact ⟨ht1, ht2⟩
    · split
      · rename_i hc
        rcases hc with ⟨_, hc⟩ | ⟨hc, _⟩
        · exact absurd hc ht1
        · exact absurd hc h2
      · exact ⟨by decide, by decide⟩
  generalize b.type = t1 at u1 hty
  subst u1
  refine ⟨?_, hty.1, hty.2⟩
  conv_lhs => rw [h1]
  rfl

theorem upgradeMatching_declared (k : DataAccessRegion) (t : DataAccessType) (w : Bool)
    (i : Int) (s : Nat) (ht1 : t ≠ COMMUTATIVE_ACCESS_TYPE) (ht2 : t ≠ NO_ACCESS_TYPE) :
    ∀ (l l' : List DataAccess), (∀ a ∈ l, a.declared) →
      upgradeMatching k t w i s l = .ok l' → ∀ b ∈ l', b.declared
  | [], l', _, h => by
    simp only [upgradeMatching, Except.ok.injEq] at h
    subst h
    simp
  | a :: rest, l', hl, h => by
    unfold upgradeMatching at h
    have ha := hl a (List.mem_cons_self _ _)
    have hrest : ∀ a ∈ rest, a.declared := fun a ha => hl a (List.mem_cons_of_mem _ ha)
    by_cases hk : a.region = k
    · simp only [hk, if_true] at h
      cases hu : upgradeAccess a t w i with
      | error f => simp [hu] at h
      | ok b =>
        simp only [hu] at h
        cases hr : upgradeMatching k t w i s rest with
        | error f => simp [hr, Except.map] at h
        | ok l1 =>
          simp only [hr, Except.map, Except.ok.injEq] at h
          subst h
          intro c hc
          rcases List.mem_cons.1 hc with rfl | hc
          · exact upgradeAccess_declared a b t w i s ha ht1 ht2 hu
          · exact upgradeMatching_declared k t w i s ht1 ht2 rest l1 hrest hr c hc
    · simp only [hk, if_false] at h
      cases hr : upgradeMatching k t w i s rest with
      | error f => simp [hr, Except.map] at h
      | ok l1 =>
        simp only [hr, Except.map, Except.ok.injEq] at h
        subst h
        intro c hc
        rcases List.mem_cons.1 hc with rfl | hc
        · exact ha
        · exact upgradeMatching_declared k t w i s ht1 ht2 rest l1 hrest hr c hc

theorem registerMatches_declared (t : DataAccessType) (w : Bool) (i j : Int) (s : Nat)
    (ht1 : t ≠ COMMUTATIVE_ACCESS_TYPE) (ht2 : t ≠ NO_ACCESS_TYPE) :
    ∀ (ms : List RegionMatch) (l l' : List DataAccess), (∀ a ∈ l, a.declared) →
      registerMatches 1 t w i j s ms l = .ok l' → ∀ b ∈ l', b.declared
  | [], l, l', hl, h => by
    simp only [registerMatches, Except.ok.injEq] at h
    subst h
    exact hl
  | m :: rest, l, l', hl, h => by
    unfold registerMatches at h
    cases hm : registerMatch 1 t w i j s l m with
    | error f => simp [hm] at h
    | ok l1 =>
      simp only [hm] at h
      refine registerMatches_declared t w i j s ht1 ht2 rest l1 l' ?_ h
      cases m with
      | intersecting k =>
        exact upgradeMatching_declared k t w i s ht1 ht2 l l1 hl hm
      | missing r =>
        simp only [registerMatch, Except.ok.injEq] at hm
        subst hm
        intro b hb
        rcases (mem_insertAccess _ b l).1 hb with rfl | hb
        · exact ⟨rfl, ht1, ht2⟩
        · exact hl b hb

theorem registerInAccesses_declared (t : DataAccessType) (w : Bool) (R : DataAccessRegion)
    (s i j : Int) (l l' : List DataAccess) (ht1 : t ≠ COMMUTATIVE_ACCESS_TYPE)
    (ht2 : t ≠ NO_ACCESS_TYPE) (hl : ∀ a ∈ l, a.declared)
    (h : registerInAccesses 1 t w R s i j l = .ok l') : ∀ b ∈ l', b.declared := by
  unfold registerInAccesses assertThat at h
  dsimp only at h
  split at h
  · exact registerMatches_declared t w i j _ ht1 ht2 _ _ l'
      (fragmentIntersecting_declared R l hl) h
  · cases h

theorem registerTaskDataAccess_registeredState (e : Engine) (P T : Task) (l : List DataAccess) (t : DataAccessType) (w : Bool)
    (R : DataAccessRegion) (s i j : Int) :
    registerTaskDataAccess (registeredState e P T l) 1 t w R s i j
      = (registerInAccesses 1 t w R s i j l).map (registeredState e P T) := by
  unfold registerTaskDataAccess
  have hget : ((registeredState e P T l).getDataAccesses 1).accesses = l := rfl
  rw [hget]
  cases registerInAccesses 1 t w R s i j l with
  | error f => rfl
  | ok l1 => rfl

theorem registerSequence_registeredState (e : Engine) (P T : Task) :
    ∀ (rest : List AccessDeclaration) (l : List DataAccess) (e1 : Engine),
      (∀ d ∈ rest, d.accessType ≠ COMMUTATIVE_ACCESS_TYPE ∧ d.accessType ≠ NO_ACCESS_TYPE) →
      (∀ a ∈ l, a.declared) →
      (l.map (fun a => a.region)).Pairwise (fun r s => r.getEndAddress ≤ s.startAddress) →
      (∀ a ∈ l, 0 < a.region.length) →
      registerSequence 1 rest (registeredState e P T l) = .ok e1 →
      ∃ l1, e1 = registeredState e P T l1
        ∧ (∀ a ∈ l1, a.declared)
        ∧ (l1.map (fun a => a.region)).Pairwise (fun r s => r.getEndAddress ≤ s.startAddress)
        ∧ (∀ a ∈ l1, 0 < a.region.length)
        ∧ ∀ x, (∃ a ∈ l1, a.region.containsAddress x = true)
          ↔ (∃ a ∈ l, a.region.containsAddress x = true)
            ∨ ∃ d ∈ rest, (⟨d.start, d.length⟩ : DataAccessRegion).containsAddress x = true
  | [], l, e1, _, hd, hs, hn, h => by
    simp only [registerSequence, Except.ok.injEq] at h
    exact ⟨l, h.symm, hd, hs, hn, by simp⟩
  | d :: rest, l, e1, hds, hd, hs, hn, h => by
    unfold registerSequence at h
    rw [registerTaskDataAccess_registeredState] at h
    cases hr : registerInAccesses 1 d.accessType d.weak ⟨d.start, d.length⟩ d.symbolIndex
        d.reductionTypeAndOperatorIndex d.reductionIndex l with
    | error f => simp [hr, Except.map] at h
    | ok l1 =>
      simp only [hr, Except.map] at h
      have hd0 := hds d (List.mem_cons_self _ _)
      obtain ⟨r1, r2, r3⟩ := registerInAccesses_spec _ _ _ _ _ _ _ _ _ hs hn hr
      have r4 := registerInAccesses_declared _ _ _ _ _ _ _ _ hd0.1 hd0.2 hd hr
      obtain ⟨l2, q1, q2, q3, q4, q5⟩ := registerSequence_registeredState e P T rest l1 e1
        (fun d hd => hds d (List.mem_cons_of_mem _ hd)) r4 r1 r2 h
      refine ⟨l2, q1, q2, q3, q4, ?_⟩
      intro x
      rw [q5 x, r3 x]
      simp only [List.mem_cons, exists_eq_or_imp, or_assoc]

theorem List.modify_self {α : Type} (l : List α) (n : Nat) : List.modify (fun x => x) n l = l := by
  induction l generalizing n with
  | nil => cases n <;> rfl
  | cons a rest ih =>
    cases n with
    | zero => rfl
    | succ n => simp [List.modify_succ_cons, ih]

theorem ite_increaseRemovalBlockingCount (c : Prop) [Decidable c] (e : Engine) (t : Nat) :
    (if c then e.increaseRemovalBlockingCount t else e)
      = e.modifyTask t (fun task =>
          { task with
            removalBlockingCount :=
              if c then task.removalBlockingCount + 1 else task.removalBlockingCount }) := by
  by_cases h : c
  · simp [h, Engine.increaseRemovalBlockingCount]
  · simp only [h, if_false, Engine.modifyTask]
    exact (congrArg (fun l => ({ e with tasks := l } : Engine)) (List.modify_self e.tasks t)).symm

set_option maxHeartbeats 4000000 in
theorem linkTaskAccess_declared (e : Engine) (P T : Task)
    (bm : List BottomMapEntry) (done rest : List DataAccess) (c m : Int)
    (ri : List ReductionInfo) (lk : LinkingFrame) (depth : Nat)
    (k : DataAccessType) (w : Bool) (R : DataAccessRegion) (rti rdi : Int) (sy : Nat)
    (hT1 : T.parent = some 0) (hT2 : T.remote = false) (hR : 0 < R.length)
    (hk2 : k ≠ COMMUTATIVE_ACCESS_TYPE) (hk3 : k ≠ NO_ACCESS_TYPE)
    (hA : ∀ a ∈ P.dataAccesses.accesses, a.region.intersects R = false)
    (hB : ∀ b ∈ bm, b.region.intersects R = false)
    (hdc : ∀ y ∈ done, y.region.containsAddress R.startAddress = false)
    (hrc : ∀ y ∈ rest, y.region.containsAddress R.startAddress = false)
    (hdi : ∀ y ∈ done, y.region.intersects R = false)
    (hri : ∀ y ∈ rest, y.region.intersects R = false) :
    ∃ linked reductionInfos,
      linkTaskAccess (handleDataAccessStatusChanges (depth + 1)) 1 0
          ⟨1, access_type, R.startAddress⟩
          (linkingState e P T bm (done ++ declaredAccess k w R rti rdi sy :: rest) c m ri lk)
        = .ok (linkingState e P T
            (insertBottomMapEntry ⟨R, ⟨1, access_type⟩, NO_ACCESS_TYPE, -1⟩ bm)
            (done ++ linked :: rest) (if m = 0 then c + 1 else c) (m + 1) reductionInfos {})
      ∧ linked.region = R
      ∧ (linked.concurrentSatisfied, linked.commutativeSatisfied, linked.receivedReductionInfo,
          linked.topmost, linked.topLevel, linked.readSatisfied, linked.writeSatisfied,
          linked.location)
        = (true, true, true, true, true, true, true, some directoryMemoryPlace) := by
  have hA' : regionMatches R (P.dataAccesses.accesses.map (fun a => a.region)) = [.missing R] :=
    regionMatches_of_disjoint R _ hR (by simpa using hA)
  have hB' : regionMatches R (bm.map (fun a => a.region)) = [.missing R] :=
    regionMatches_of_disjoint R _ hR (by simpa using hB)
  have hA2 : (∀ x ∈ P.dataAccesses.accesses, x.region.intersects R = false) = True :=
    eq_true hA
  have h1 := DataAccessRegion.intersects_self R hR
  have h2 := DataAccessRegion.intersect_self R
  have h3 := DataAccessRegion.fullyContainedIn_self R
  have h4 := DataAccessRegion.containsAddress_start R hR
  have fd : List.find? (fun y : DataAccess => y.region.containsAddress R.startAddress) done
      = none := by
    simp only [List.find?_eq_none]
    intro y hy
    simp [hdc y hy]
  have md : ∀ f : DataAccess → DataAccess,
      List.map (fun y => if y.region.containsAddress R.startAddress = true then f y else y) done
        = done := by
    intro f
    conv_rhs => rw [← List.map_id done]
    apply List.map_congr_left
    intro y hy
    simp [hdc y hy]
  have mr : ∀ f : DataAccess → DataAccess,
      List.map (fun y => if y.region.containsAddress R.startAddress = true then f y else y) rest
        = rest := by
    intro f
    conv_rhs => rw [← List.map_id rest]
    apply List.map_congr_left
    intro y hy
    simp [hrc y hy]
  have ik : intersectingKeys R
      (List.map (fun a : DataAccess => a.region) done ++ R
        :: List.map (fun a : DataAccess => a.region) rest) = [R] := by
    have e1 : List.filter (fun k : DataAccessRegion => k.intersects R)
        (List.map (fun a : DataAccess => a.region) done) = [] := by
      simp only [List.filter_eq_nil_iff, List.mem_map]
      rintro k ⟨y, hy, rfl⟩
      simp [hdi y hy]
    have e2 : List.filter (fun k : DataAccessRegion => k.intersects R)
        (List.map (fun a : DataAccess => a.region) rest) = [] := by
      simp only [List.filter_eq_nil_iff, List.mem_map]
      rintro k ⟨y, hy, rfl⟩
      simp [hri y hy]
    simp [intersectingKeys, List.filter_append, List.filter_cons, e1, e2, h1]
  have c_Engine_getTask := fun x0 t0 ts0 q1 q2 q3 q4 q5 q6 q7 q8 q9 q10 =>
    Engine.getTask.eq_1 (⟨t0 :: ts0, q1, q2, q3, q4, q5, q6, q7, q8, q9, q10⟩ : Engine) x0
  have c_Engine_modifyTask := fun x0 x1 t0 ts0 q1 q2 q3 q4 q5 q6 q7 q8 q9 q10 =>
    Engine.modifyTask.eq_1 (⟨t0 :: ts0, q1, q2, q3, q4, q5, q6, q7, q8, q9, q10⟩ : Engine) x0 x1
  have c_Engine_getDataAccesses := fun x0 t0 ts0 q1 q2 q3 q4 q5 q6 q7 q8 q9 q10 =>
    Engine.getDataAccesses.eq_1 (⟨t0 :: ts0, q1, q2, q3, q4, q5, q6, q7, q8, q9, q10⟩ : Engine) x0
  have c_Engine_modifyDataAccesses := fun x0 x1 t0 ts0 q1 q2 q3 q4 q5 q6 q7 q8 q9 q10 =>
    Engine.modifyDataAccesses.eq_1 (⟨t0 :: ts0, q1, q2, q3, q4, q5, q6, q7, q8, q9, q10⟩ : Engine) x0 x1
  have c_Engine_getParent := fun x0 t0 ts0 q1 q2 q3 q4 q5 q6 q7 q8 q9 q10 =>
    Engine.getParent.eq_1 (⟨t0 :: ts0, q1, q2, q3, q4, q5, q6, q7, q8, q9, q10⟩ : Engine) x0
  have c_Engine_findAccess := fun x0 t0 ts0 q1 q2 q3 q4 q5 q6 q7 q8 q9 q10 =>
    Engine.findAccess.eq_1 (⟨t0 :: ts0, q1, q2, q3, q4, q5, q6, q7, q8, q9, q10⟩ : Engine) x0
  have c_Engine_modifyAccess := fun x0 x1 t0 ts0 q1 q2 q3 q4 q5 q6 q7 q8 q9 q10 =>
    Engine.modifyAccess.eq_1 (⟨t0 :: ts0, q1, q2, q3, q4, q5, q6, q7, q8, q9, q10⟩ : Engine) x0 x1
  have c_Engine_increasePredecessors := fun x0 x1 t0 ts0 q1 q2 q3 q4 q5 q6 q7 q8 q9 q10 =>
    Engine.increasePredecessors.eq_1 (⟨t0 :: ts0, q1, q2, q3, q4, q5, q6, q7, q8, q9, q10⟩ : Engine) x0 x1
  have c_Engine_decreasePredecessors := fun x0 x1 t0 ts0 q1 q2 q3 q4 q5 q6 q7 q8 q9 q10 =>
    Engine.decreasePredecessors.eq_1 (⟨t0 :: ts0, q1, q2, q3, q4, q5, q6, q7, q8, q9, q10⟩ : Engine) x0 x1
  have c_Engine_modifyHp := fun x0 t0 ts0 q1 q2 q3 q4 q5 q6 q7 q8 q9 q10 =>
    Engine.modifyHp.eq_1 (⟨t0 :: ts0, q1, q2, q3, q4, q5, q6, q7, q8, q9, q10⟩ : Engine) x0
  have c_domainParentOf := fun x0 t0 ts0 q1 q2 q3 q4 q5 q6 q7 q8 q9 q10 =>
    domainParentOf.eq_1 (⟨t0 :: ts0, q1, q2, q3, q4, q5, q6, q7, q8, q9, q10⟩ : Engine) x0
  have c_statusEffectsOf := fun x0 t0 ts0 q1 q2 q3 q4 q5 q6 q7 q8 q9 q10 =>
    statusEffectsOf.eq_1 (⟨t0 :: ts0, q1, q2, q3, q4, q5, q6, q7, q8, q9, q10⟩ : Engine) x0
  have c_statusEffectsAssertions := fun x0 x1 t0 ts0 q1 q2 q3 q4 q5 q6 q7 q8 q9 q10 =>
    @statusEffectsAssertions.eq_1 Engine (⟨t0 :: ts0, q1, q2, q3, q4, q5, q6, q7, q8, q9, q10⟩ : Engine) x0 x1
  have c_withStatusEffects := fun x0 x1 t0 ts0 q1 q2 q3 q4 q5 q6 q7 q8 q9 q10 =>
    @withStatusEffects.eq_1 Engine (⟨t0 :: ts0, q1, q2, q3, q4, q5, q6, q7, q8, q9, q10⟩ : Engine) x0 x1
  have c_intersectingRefs := fun x0 x1 t0 ts0 q1 q2 q3 q4 q5 q6 q7 q8 q9 q10 =>
    intersectingRefs.eq_1 (⟨t0 :: ts0, q1, q2, q3, q4, q5, q6, q7, q8, q9, q10⟩ : Engine) x0 x1
  have c_fragmentAccess := fun x0 x1 x2 t0 ts0 q1 q2 q3 q4 q5 q6 q7 q8 q9 q10 =>
    fragmentAccess.eq_1 x0 x1 x2 (⟨t0 :: ts0, q1, q2, q3, q4, q5, q6, q7, q8, q9, q10⟩ : Engine)
  have c_handleRegistration := fun x0 x1 x2 x3 t0 ts0 q1 q2 q3 q4 q5 q6 q7 q8 q9 q10 =>
    handleRegistration.eq_1 x0 x1 x2 x3 (⟨t0 :: ts0, q1, q2, q3, q4, q5, q6, q7, q8, q9, q10⟩ : Engine)
  have c_handleDependencyUpdate := fun x0 x1 x2 t0 ts0 q1 q2 q3 q4 q5 q6 q7 q8 q9 q10 =>
    handleDependencyUpdate.eq_1 x0 x1 x2 (⟨t0 :: ts0, q1, q2, q3, q4, q5, q6, q7, q8, q9, q10⟩ : Engine)
  have c_handleReductionChanges := fun x0 x1 x2 t0 ts0 q1 q2 q3 q4 q5 q6 q7 q8 q9 q10 =>
    handleReductionChanges.eq_1 x0 x1 x2 (⟨t0 :: ts0, q1, q2, q3, q4, q5, q6, q7, q8, q9, q10⟩ : Engine)
  have c_handlePropagation := fun x0 x1 x2 x3 t0 ts0 q1 q2 q3 q4 q5 q6 q7 q8 q9 q10 =>
    handlePropagation.eq_1 x0 x1 x2 x3 (⟨t0 :: ts0, q1, q2, q3, q4, q5, q6, q7, q8, q9, q10⟩ : Engine)
  have c_handleBottomMapUpdate := fun x0 x1 x2 x3 x4 t0 ts0 q1 q2 q3 q4 q5 q6 q7 q8 q9 q10 =>
    handleBottomMapUpdate.eq_1 x0 x1 x2 x3 x4 (⟨t0 :: ts0, q1, q2, q3, q4, q5, q6, q7, q8, q9, q10⟩ : Engine)
  have c_handleTriggers := fun x0 x1 x2 x3 t0 ts0 q1 q2 q3 q4 q5 q6 q7 q8 q9 q10 =>
    handleTriggers.eq_1 x0 x1 x2 x3 (⟨t0 :: ts0, q1, q2, q3, q4, q5, q6, q7, q8, q9, q10⟩ : Engine)
  have c_handleRemoval := fun x0 x1 x2 x3 x4 t0 ts0 q1 q2 q3 q4 q5 q6 q7 q8 q9 q10 =>
    handleRemoval.eq_1 x0 x1 x2 x3 x4 (⟨t0 :: ts0, q1, q2, q3, q4, q5, q6, q7, q8, q9, q10⟩ : Engine)
  have c_handleDataAccessStatusChangesBody := fun x0 x1 x2 x3 t0 ts0 q1 q2 q3 q4 q5 q6 q7 q8 q9 q10 =>
    handleDataAccessStatusChangesBody.eq_1 x0 x1 x2 x3 (⟨t0 :: ts0, q1, q2, q3, q4, q5, q6, q7, q8, q9, q10⟩ : Engine)
  have c_processBottomMapHole := fun x0 x1 x2 x3 x4 t0 ts0 q1 q2 q3 q4 q5 q6 q7 q8 q9 q10 =>
    processBottomMapHole.eq_1 x0 x1 x2 x3 x4 (⟨t0 :: ts0, q1, q2, q3, q4, q5, q6, q7, q8, q9, q10⟩ : Engine)
  have c_foreachBottomMapMatchPossiblyCreatingInitialFragmentsAndMissingRegion := fun x0 x1 x2 x3 x4 t0 ts0 q1 q2 q3 q4 q5 q6 q7 q8 q9 q10 =>
    foreachBottomMapMatchPossiblyCreatingInitialFragmentsAndMissingRegion.eq_1 x0 x1 x2 x3 x4 (⟨t0 :: ts0, q1, q2, q3, q4, q5, q6, q7, q8, q9, q10⟩ : Engine)
  have c_allocateReductionInfo := fun x0 t0 ts0 q1 q2 q3 q4 q5 q6 q7 q8 q9 q10 =>
    allocateReductionInfo.eq_1 x0 (⟨t0 :: ts0, q1, q2, q3, q4, q5, q6, q7, q8, q9, q10⟩ : Engine)
  have c_allocateAndHandle := fun x0 x1 t0 ts0 q1 q2 q3 q4 q5 q6 q7 q8 q9 q10 =>
    allocateAndHandle.eq_1 x0 x1 (⟨t0 :: ts0, q1, q2, q3, q4, q5, q6, q7, q8, q9, q10⟩ : Engine)
  have c_assertSameLocality := fun x0 t0 ts0 q1 q2 q3 q4 q5 q6 q7 q8 q9 q10 =>
    assertSameLocality.eq_1 (⟨t0 :: ts0, q1, q2, q3, q4, q5, q6, q7, q8, q9, q10⟩ : Engine) x0
  have c_linkMissingProcessor := fun x0 x1 x2 x3 x4 t0 ts0 q1 q2 q3 q4 q5 q6 q7 q8 q9 q10 =>
    linkMissingProcessor.eq_1 x0 x1 x2 x3 x4 (⟨t0 :: ts0, q1, q2, q3, q4, q5, q6, q7, q8, q9, q10⟩ : Engine)
  have c_replaceMatchingInBottomMapLinkAndPropagate := fun x0 x1 x2 x3 t0 ts0 q1 q2 q3 q4 q5 q6 q7 q8 q9 q10 =>
    replaceMatchingInBottomMapLinkAndPropagate.eq_1 x0 x1 x2 x3 (⟨t0 :: ts0, q1, q2, q3, q4, q5, q6, q7, q8, q9, q10⟩ : Engine)
  have c_linkTaskAccess := fun x0 x1 x2 x3 t0 ts0 q1 q2 q3 q4 q5 q6 q7 q8 q9 q10 =>
    linkTaskAccess.eq_1 x0 x1 x2 x3 (⟨t0 :: ts0, q1, q2, q3, q4, q5, q6, q7, q8, q9, q10⟩ : Engine)
  have c_forEachRef := fun x0 x1 x2 t0 ts0 q1 q2 q3 q4 q5 q6 q7 q8 q9 q10 =>
    forEachRef.eq_2 x0 (⟨t0 :: ts0, q1, q2, q3, q4, q5, q6, q7, q8, q9, q10⟩ : Engine) x1 x2
  have c_forEachMatch := fun x0 x1 x2 t0 ts0 q1 q2 q3 q4 q5 q6 q7 q8 q9 q10 =>
    forEachMatch.eq_2 x0 (⟨t0 :: ts0, q1, q2, q3, q4, q5, q6, q7, q8, q9, q10⟩ : Engine) x1 x2
  by_cases hk1 : k = REDUCTION_ACCESS_TYPE
  · subst hk1
    cases w
    · refine ⟨{ declaredAccess REDUCTION_ACCESS_TYPE false R rti rdi sy with
          location := some 0, registered := true, readSatisfied := true,
          writeSatisfied := true, concurrentSatisfied := true, commutativeSatisfied := true,
          receivedReductionInfo := true, topmost := true, topLevel := true,
          inBottomMap := true, reachable := true,
          allocatedReductionInfo := true, reductionInfo := some ri.length },
        (List.modify
          (fun info : ReductionInfo =>
            { info with availableBytes := info.availableBytes + R.getSize })
          ri.length
          (ri ++ [{ region := R, typeAndOperatorIndex := rti, combinationCounter := R.getSize }])),
        ?_, rfl, rfl⟩
      simp [c_Engine_getTask, c_Engine_modifyTask, c_Engine_getDataAccesses,
        c_Engine_modifyDataAccesses, c_Engine_getParent, c_Engine_findAccess,
        c_Engine_modifyAccess, c_Engine_increasePredecessors, c_Engine_decreasePredecessors,
        c_Engine_modifyHp, c_domainParentOf, c_statusEffectsOf, c_statusEffectsAssertions,
        c_withStatusEffects, c_intersectingRefs, c_fragmentAccess, c_handleRegistration,
        c_handleDependencyUpdate, c_handleReductionChanges, c_handlePropagation,
        c_handleBottomMapUpdate, c_handleTriggers, c_handleRemoval,
        c_handleDataAccessStatusChangesBody, c_processBottomMapHole,
        c_foreachBottomMapMatchPossiblyCreatingInitialFragmentsAndMissingRegion,
        c_allocateReductionInfo, c_allocateAndHandle, c_assertSameLocality,
        c_linkMissingProcessor, c_replaceMatchingInBottomMapLinkAndPropagate, c_linkTaskAccess,
        c_forEachRef, forEachRef.eq_1, c_forEachMatch, forEachMatch.eq_1, fd, md, mr, ik,
        ite_increaseRemovalBlockingCount, linkingState, declaredAccess, createAccess, hT1, hT2,
        TaskDataAccesses.index, TaskDataAccesses.setIndex, assertThat, failIf,
        DataAccess.hasBeenDiscounted, DataAccess.hasNext, handleDataAccessStatusChanges,
        DataAccess.satisfied, DataAccess.hasDataReleaseStep, DataAccess.hasDataLinkStep,
        DataAccess.hasOutputLocation, DataAccess.hasLocation, checkDataRelease, hA', hB', hA2,
        h1, h2, h3, h4, DataAccess.setReadSatisfied, directoryMemoryPlace,
        no_reduction_type_and_operator]
    · refine ⟨{ declaredAccess REDUCTION_ACCESS_TYPE true R rti rdi sy with
          location := some 0, registered := true, readSatisfied := true,
          writeSatisfied := true, concurrentSatisfied := true, commutativeSatisfied := true,
          receivedReductionInfo := true, topmost := true, topLevel := true,
          inBottomMap := true, reachable := true,
          allocatedReductionInfo := true, reductionInfo := some ri.length },
        (List.modify
          (fun info : ReductionInfo =>
            { info with availableBytes := info.availableBytes + R.getSize })
          ri.length
          (ri ++ [{ region := R, typeAndOperatorIndex := rti, combinationCounter := R.getSize }])),
        ?_, rfl, rfl⟩
      simp [c_Engine_getTask, c_Engine_modifyTask, c_Engine_getDataAccesses,
        c_Engine_modifyDataAccesses, c_Engine_getParent, c_Engine_findAccess,
        c_Engine_modifyAccess, c_Engine_increasePredecessors, c_Engine_decreasePredecessors,
        c_Engine_modifyHp, c_domainParentOf, c_statusEffectsOf, c_statusEffectsAssertions,
        c_withStatusEffects, c_intersectingRefs, c_fragmentAccess, c_handleRegistration,
        c_handleDependencyUpdate, c_handleReductionChanges, c_handlePropagation,
        c_handleBottomMapUpdate, c_handleTriggers, c_handleRemoval,
        c_handleDataAccessStatusChangesBody, c_processBottomMapHole,
        c_foreachBottomMapMatchPossiblyCreatingInitialFragmentsAndMissingRegion,
        c_allocateReductionInfo, c_allocateAndHandle, c_assertSameLocality,
        c_linkMissingProcessor, c_replaceMatchingInBottomMapLinkAndPropagate, c_linkTaskAccess,
        c_forEachRef, forEachRef.eq_1, c_forEachMatch, forEachMatch.eq_1, fd, md, mr, ik,
        ite_increaseRemovalBlockingCount, linkingState, declaredAccess, createAccess, hT1, hT2,
        TaskDataAccesses.index, TaskDataAccesses.setIndex, assertThat, failIf,
        DataAccess.hasBeenDiscounted, DataAccess.hasNext, handleDataAccessStatusChanges,
        DataAccess.satisfied, DataAccess.hasDataReleaseStep, DataAccess.hasDataLinkStep,
        DataAccess.hasOutputLocation, DataAccess.hasLocation, checkDataRelease, hA', hB', hA2,
        h1, h2, h3, h4, DataAccess.setReadSatisfied, directoryMemoryPlace,
        no_reduction_type_and_operator]
  · cases w
    · refine ⟨{ declaredAccess k false R rti rdi sy with
          location := some 0, registered := true, readSatisfied := true,
          writeSatisfied := true, concurrentSatisfied := true, commutativeSatisfied := true,
          receivedReductionInfo := true, topmost := true, topLevel := true,
          inBottomMap := true, reachable := true }, ri, ?_, rfl, rfl⟩
      simp [c_Engine_getTask, c_Engine_modifyTask, c_Engine_getDataAccesses,
        c_Engine_modifyDataAccesses, c_Engine_getParent, c_Engine_findAccess,
        c_Engine_modifyAccess, c_Engine_increasePredecessors, c_Engine_decreasePredecessors,
        c_Engine_modifyHp, c_domainParentOf, c_statusEffectsOf, c_statusEffectsAssertions,
        c_withStatusEffects, c_intersectingRefs, c_fragmentAccess, c_handleRegistration,
        c_handleDependencyUpdate, c_handleReductionChanges, c_handlePropagation,
        c_handleBottomMapUpdate, c_handleTriggers, c_handleRemoval,
        c_handleDataAccessStatusChangesBody, c_processBottomMapHole,
        c_foreachBottomMapMatchPossiblyCreatingInitialFragmentsAndMissingRegion,
        c_allocateReductionInfo, c_allocateAndHandle, c_assertSameLocality,
        c_linkMissingProcessor, c_replaceMatchingInBottomMapLinkAndPropagate, c_linkTaskAccess,
        c_forEachRef, forEachRef.eq_1, c_forEachMatch, forEachMatch.eq_1, hk1, hk2, hk3, fd, md,
        mr, ik, ite_increaseRemovalBlockingCount, linkingState, declaredAccess, createAccess,
        hT1, hT2, TaskDataAccesses.index, TaskDataAccesses.setIndex, assertThat, failIf,
        DataAccess.hasBeenDiscounted, DataAccess.hasNext, handleDataAccessStatusChanges,
        DataAccess.satisfied, DataAccess.hasDataReleaseStep, DataAccess.hasDataLinkStep,
        DataAccess.hasOutputLocation, DataAccess.hasLocation, checkDataRelease, hA', hB', hA2,
        h1, h2, h3, h4, DataAccess.setReadSatisfied, directoryMemoryPlace,
        no_reduction_type_and_operator]
    · refine ⟨{ declaredAccess k true R rti rdi sy with
          location := some 0, registered := true, readSatisfied := true,
          writeSatisfied := true, concurrentSatisfied := true, commutativeSatisfied := true,
          receivedReductionInfo := true, topmost := true, topLevel := true,
          inBottomMap := true, reachable := true }, ri, ?_, rfl, rfl⟩
      simp [c_Engine_getTask, c_Engine_modifyTask, c_Engine_getDataAccesses,
        c_Engine_modifyDataAccesses, c_Engine_getParent, c_Engine_findAccess,
        c_Engine_modifyAccess, c_Engine_increasePredecessors, c_Engine_decreasePredecessors,
        c_Engine_modifyHp, c_domainParentOf, c_statusEffectsOf, c_statusEffectsAssertions,
        c_withStatusEffects, c_intersectingRefs, c_fragmentAccess, c_handleRegistration,
        c_handleDependencyUpdate, c_handleReductionChanges, c_handlePropagation,
        c_handleBottomMapUpdate, c_handleTriggers, c_handleRemoval,
        c_handleDataAccessStatusChangesBody, c_processBottomMapHole,
        c_foreachBottomMapMatchPossiblyCreatingInitialFragmentsAndMissingRegion,
        c_allocateReductionInfo, c_allocateAndHandle, c_assertSameLocality,
        c_linkMissingProcessor, c_replaceMatchingInBottomMapLinkAndPropagate, c_linkTaskAccess,
        c_forEachRef, forEachRef.eq_1, c_forEachMatch, forEachMatch.eq_1, hk1, hk2, hk3, fd, md,
        mr, ik, ite_increaseRemovalBlockingCount, linkingState, declaredAccess, createAccess,
        hT1, hT2, TaskDataAccesses.index, TaskDataAccesses.setIndex, assertThat, failIf,
        DataAccess.hasBeenDiscounted, DataAccess.hasNext, handleDataAccessStatusChanges,
        DataAccess.satisfied, DataAccess.hasDataReleaseStep, DataAccess.hasDataLinkStep,
        DataAccess.hasOutputLocation, DataAccess.hasLocation, checkDataRelease, hA', hB', hA2,
        h1, h2, h3, h4, DataAccess.setReadSatisfied, directoryMemoryPlace,
        no_reduction_type_and_operator]

theorem mem_insertBottomMapEntry (x b : BottomMapEntry) (bm : List BottomMapEntry)
    (h : b ∈ insertBottomMapEntry x bm) : b = x ∨ b ∈ bm := by
  obtain ⟨l1, l2, h1, h2⟩ := insertBottomMapEntry_eq x bm
  rw [h2] at h
  rw [h1]
  simp only [List.mem_append, List.mem_cons] at h ⊢
  tauto

theorem drain_linkingState (e : Engine) (P T : Task)
    (bm : List BottomMapEntry) (l : List DataAccess) (c m : Int) (ri : List ReductionInfo)
    (lk : LinkingFrame) (fuel : Fuel) (computePlace : Option ComputePlace)
    (fromBusyThread : Bool) :
    drain fuel computePlace fromBusyThread (linkingState e P T bm l c m ri lk)
      = .ok (linkingState e P T bm l c m ri lk) := by
  have hp : (linkingState e P T bm l c m ri lk).hpDependencyData = {} := rfl
  simp [drain, processDelayedOperationsSatisfiedOriginatorsAndRemovableTasks,
    processReleasedCommutativeRegions, processDelayedOperations_nil, handleCompletedTaskwaits,
    processSatisfiedOriginators, processSatisfiedCommutativeOriginators, handleRemovableTasks,
    assertThat, hp]
  simp [linkingState]

theorem linkTaskAccess_loop (e : Engine) (P T : Task) (depth : Nat)
    (hT1 : T.parent = some 0) (hT2 : T.remote = false) :
    ∀ (rest done : List DataAccess) (bm : List BottomMapEntry) (c m : Int)
      (ri : List ReductionInfo) (lk : LinkingFrame),
      (∀ a ∈ rest, a.declared ∧ 0 < a.region.length) →
      (rest.map (fun a => a.region)).Pairwise (fun r s => r.getEndAddress ≤ s.startAddress) →
      (∀ y ∈ done, ∀ a ∈ rest, y.region.getEndAddress ≤ a.region.startAddress) →
      (∀ a ∈ rest, ∀ p ∈ P.dataAccesses.accesses, p.region.intersects a.region = false) →
      (∀ a ∈ rest, ∀ b ∈ bm, b.region.intersects a.region = false) →
      ∃ bm1 l1 c1 m1 ri1 lk1,
        forEachRef (linkTaskAccess (handleDataAccessStatusChanges (depth + 1)) 1 0)
            (rest.map (fun a => ⟨1, access_type, a.region.startAddress⟩))
            (linkingState e P T bm (done ++ rest) c m ri lk)
          = .ok (linkingState e P T bm1 l1 c1 m1 ri1 lk1)
  | [], done, bm, c, m, ri, lk, _, _, _, _, _ => ⟨bm, done ++ [], c, m, ri, lk, rfl⟩
  | a :: rest, done, bm, c, m, ri, lk, hd, hs, ho, hA, hB => by
    obtain ⟨⟨hdecl, hk2, hk3⟩, hlen⟩ := hd a (List.mem_cons_self _ _)
    rw [List.map_cons, List.pairwise_cons] at hs
    have hafter : ∀ y ∈ rest, a.region.getEndAddress ≤ y.region.startAddress :=
      fun y hy => hs.1 y.region (List.mem_map_of_mem _ hy)
    have hbefore : ∀ y ∈ done, y.region.getEndAddress ≤ a.region.startAddress :=
      fun y hy => ho y hy a (List.mem_cons_self _ _)
    obtain ⟨linked, ri1, hstep, hregion, _⟩ := linkTaskAccess_declared e P T bm done rest c m ri lk
      depth a.type a.weak a.region a.reductionTypeAndOperatorIndex a.reductionIndex a.symbols
      hT1 hT2 hlen hk2 hk3 (hA a (List.mem_cons_self _ _)) (hB a (List.mem_cons_self _ _))
      (by
        intro y hy
        have := hbefore y hy
        simp only [DataAccessRegion.containsAddress, DataAccessRegion.getEndAddress,
          Bool.and_eq_false_iff, decide_eq_false_iff_not] at this ⊢
        omega)
      (by
        intro y hy
        have := hafter y hy
        simp only [DataAccessRegion.containsAddress, DataAccessRegion.getEndAddress,
          Bool.and_eq_false_iff, decide_eq_false_iff_not] at this ⊢
        omega)
      (by
        intro y hy
        have := hbefore y hy
        simp only [DataAccessRegion.intersects, DataAccessRegion.getEndAddress,
          decide_eq_false_iff_not] at this ⊢
        omega)
      (by
        intro y hy
        have := hafter y hy
        simp only [DataAccessRegion.intersects, DataAccessRegion.getEndAddress,
          decide_eq_false_iff_not] at this ⊢
        omega)
    rw [← hdecl] at hstep
    rw [List.map_cons, forEachRef, hstep]
    have happ : done ++ linked :: rest = (done ++ [linked]) ++ rest := by simp
    rw [happ]
    refine linkTaskAccess_loop e P T depth hT1 hT2 rest (done ++ [linked]) _ _ _ ri1 {}
      (fun y hy => hd y (List.mem_cons_of_mem _ hy)) hs.2 ?_
      (fun y hy => hA y (List.mem_cons_of_mem _ hy)) ?_
    · intro y hy b hb
      rcases List.mem_append.1 hy with hy | hy
      · exact ho y hy b (List.mem_cons_of_mem _ hb)
      · rw [List.mem_singleton] at hy
        rw [hy, hregion]
        exact hafter b hb
    · intro y hy b hb
      rcases mem_insertBottomMapEntry _ b bm hb with hb | hb
      · rw [hb]
        have := hafter y hy
        simp only [DataAccessRegion.intersects, DataAccessRegion.getEndAddress,
          decide_eq_false_iff_not] at this ⊢
        omega
      · exact hB y (List.mem_cons_of_mem _ hy) b hb

theorem DataAccessRegion.intersects_of_containsAddress (a b : DataAccessRegion) (x : Nat)
    (ha : a.containsAddress x = true) (hb : b.containsAddress x = true) :
    a.intersects b = true := by
  simp only [DataAccessRegion.containsAddress, DataAccessRegion.intersects,
    DataAccessRegion.getEndAddress, Bool.and_eq_true, decide_eq_true_eq] at ha hb ⊢
  omega

theorem DataAccessRegion.containsAddress_of_intersects (a b : DataAccessRegion)
    (h : a.intersects b = true) :
    a.containsAddress (max a.startAddress b.startAddress) = true
      ∧ b.containsAddress (max a.startAddress b.startAddress) = true := by
  simp only [DataAccessRegion.containsAddress, DataAccessRegion.intersects,
    DataAccessRegion.getEndAddress, Bool.and_eq_true, decide_eq_true_eq] at h ⊢
  omega

theorem not_intersects_of_covered (q a : DataAccessRegion) (ds : List AccessDeclaration)
    (hcover : ∀ x, a.containsAddress x = true →
      ∃ d ∈ ds, (⟨d.start, d.length⟩ : DataAccessRegion).containsAddress x = true)
    (hq : ∀ d ∈ ds, q.intersects ⟨d.start, d.length⟩ = false) :
    q.intersects a = false := by
  cases h : q.intersects a with
  | false => rfl
  | true =>
    obtain ⟨h1, h2⟩ := DataAccessRegion.containsAddress_of_intersects q a h
    obtain ⟨d, hd, hx⟩ := hcover _ h2
    have := DataAccessRegion.intersects_of_containsAddress q _ _ h1 hx
    rw [hq d hd] at this
    cases this

theorem registerTaskDataAccesses_of_registered (e : Engine) (P T : Task) (depth steps : Nat)
    (computePlace : ComputePlace) (registered : Engine)
    (hparent : T.parent = some 0) (hremote : T.remote = false)
    (hcount : T.predecessorCount = 0) (hnew : T.dataAccesses = {})
    (hkind : ∀ d ∈ T.dependencies,
      d.accessType ≠ COMMUTATIVE_ACCESS_TYPE ∧ d.accessType ≠ NO_ACCESS_TYPE)
    (hA : ∀ d ∈ T.dependencies, ∀ a ∈ P.dataAccesses.accesses,
      a.region.intersects ⟨d.start, d.length⟩ = false)
    (hB : ∀ d ∈ T.dependencies, ∀ b ∈ P.dataAccesses.subaccessBottomMap,
      b.region.intersects ⟨d.start, d.length⟩ = false)
    (hreg : registerDependencies (newTaskScenario e P T) 1 = .ok registered) :
    ∃ e1, registerTaskDataAccesses ⟨depth + 1, steps⟩ 1 computePlace (newTaskScenario e P T)
        = .ok (e1, true)
      ∧ (e1.getTask 1).predecessorCount = 0 := by
  have hstart : newTaskScenario e P T = registeredState e P T [] := by
    cases T
    simp only at hnew
    subst hnew
    rfl
  have hdeps : ((registeredState e P T []).getTask 1).dependencies = T.dependencies := rfl
  unfold registerTaskDataAccesses
  rw [hreg]
  unfold registerDependencies at hreg
  rw [hstart, hdeps] at hreg
  obtain ⟨l, rfl, q1, q2, q3, q4⟩ := registerSequence_registeredState e P T T.dependencies []
    registered hkind (by simp) (by simp) (by simp) hreg
  have hget : ((registeredState e P T l).getDataAccesses 1).accesses = l := rfl
  simp only [hget]
  cases l with
  | nil => exact ⟨_, rfl, hcount⟩
  | cons a l =>
    have hlink : (registeredState e P T (a :: l)).increasePredecessors 1 2
        = linkingState e P T P.dataAccesses.subaccessBottomMap ([] ++ a :: l)
            T.removalBlockingCount 0 e.reductionInfos e.linking := by
      simp [registeredState, linkingState, Engine.increasePredecessors, Engine.modifyTask,
        hcount]
    have hcover : ∀ b ∈ a :: l, ∀ x, b.region.containsAddress x = true →
        ∃ d ∈ T.dependencies,
          (⟨d.start, d.length⟩ : DataAccessRegion).containsAddress x = true := by
      intro b hb x hx
      simpa using (q4 x).1 ⟨b, hb, hx⟩
    obtain ⟨bm1, l1, c1, m1, ri1, lk1, hloop⟩ := linkTaskAccess_loop e P T depth hparent hremote
      (a :: l) [] P.dataAccesses.subaccessBottomMap T.removalBlockingCount 0 e.reductionInfos
      e.linking (fun b hb => ⟨q1 b hb, q3 b hb⟩) q2 (by simp)
      (fun b hb p hp => not_intersects_of_covered p.region b.region T.dependencies
        (hcover b hb) (fun d hd => hA d hd p hp))
      (fun b hb p hp => not_intersects_of_covered p.region b.region T.dependencies
        (hcover b hb) (fun d hd => hB d hd p hp))
    have hrefs : allRefs (linkingState e P T P.dataAccesses.subaccessBottomMap ([] ++ a :: l)
        T.removalBlockingCount 0 e.reductionInfos e.linking) ⟨1, access_type⟩
        = (a :: l).map (fun a => ⟨1, access_type, a.region.startAddress⟩) := rfl
    have hlinked : linkTaskAccesses (handleDataAccessStatusChanges (depth + 1)) 1
        (linkingState e P T P.dataAccesses.subaccessBottomMap ([] ++ a :: l)
          T.removalBlockingCount 0 e.reductionInfos e.linking)
        = .ok (linkingState e P T bm1 l1 c1 m1 ri1 lk1) := by
      have hacc : ((linkingState e P T P.dataAccesses.subaccessBottomMap ([] ++ a :: l)
          T.removalBlockingCount 0 e.reductionInfos e.linking).getDataAccesses 1).accesses
          = a :: l := rfl
      have hpar : (linkingState e P T P.dataAccesses.subaccessBottomMap ([] ++ a :: l)
          T.removalBlockingCount 0 e.reductionInfos e.linking).getParent 1 = some 0 := hparent
      unfold linkTaskAccesses
      rw [hacc, hpar, hrefs]
      exact hloop
    have hready : ((linkingState e P T bm1 l1 c1 m1 ri1 lk1).decreasePredecessors 1 2).2
        = true := by
      simp [linkingState, Engine.decreasePredecessors, Engine.getTask]
    have hbytes : (((linkingState e P T bm1 l1 c1 m1 ri1 lk1).decreasePredecessors 1
        2).1.getDataAccesses 1).totalCommutativeBytes = 0 := rfl
    have hzero : (((linkingState e P T bm1 l1 c1 m1 ri1 lk1).decreasePredecessors 1
        2).1.getTask 1).predecessorCount = 0 := by
      simp [linkingState, Engine.decreasePredecessors, Engine.getTask, Engine.modifyTask]
    refine ⟨((linkingState e P T bm1 l1 c1 m1 ri1 lk1).decreasePredecessors 1 2).1, ?_, hzero⟩
    simp only [List.isEmpty_cons, Bool.not_false, if_true, hlink, hlinked, drain_linkingState,
      hready, hbytes]
    simp

/-! ## A task that is ready at once -/

/-- C3, the claim as it stands fails: the new task 1 is not remote, its parent has neither
accesses nor bottom-map entries, and its callback declares two strong reduction accesses, of
the operators 1 and 2, on the region `[100, 108)`, so every access it declares is
non-commutative; `registerTaskDataAccesses` does not return true, the registration of the second
declaration ends in the fatal error of overlapping reductions with different operators. -/
theorem registerTaskDataAccesses_fatal_on_declarations :
    (newTask
        [{ accessType := REDUCTION_ACCESS_TYPE, weak := false, start := 100, length := 8,
           reductionTypeAndOperatorIndex := 1 },
         { accessType := REDUCTION_ACCESS_TYPE, weak := false, start := 100, length := 8,
           reductionTypeAndOperatorIndex := 2 }]).remote = false
      ∧ ((newTaskScenario {} {} (newTask [])).getDataAccesses 0).accesses = []
      ∧ ((newTaskScenario {} {} (newTask [])).getDataAccesses 0).subaccessBottomMap = []
      ∧ registerTaskDataAccesses ⟨1, 1⟩ 1 ⟨0, true, true, 0⟩
          (newTaskScenario {} {} (newTask
            [{ accessType := REDUCTION_ACCESS_TYPE, weak := false, start := 100, length := 8,
               reductionTypeAndOperatorIndex := 1 },
             { accessType := REDUCTION_ACCESS_TYPE, weak := false, start := 100, length := 8,
               reductionTypeAndOperatorIndex := 2 }]))
        = .error (.fatal .overlappingReductionsDiffer) :=
  ⟨rfl, rfl, rfl, rfl⟩

/-- C3, as amended: `registerTaskDataAccesses` returns true, leaving the engine as it is, for
a task whose callback declares no access; and for the new task 1, child of task 0, that is not
remote and has no predecessor, when registering its declarations raises no fatal error, every
access it declares is of a kind other than commutative and no declared region intersects an
access or a bottom-map entry of the parent, the call returns true and the predecessor count of
the task after the call is its value before the call. -/
theorem registerTaskDataAccesses_ready_without_predecessors (e : Engine) (P T : Task)
    (depth steps : Nat) (computePlace : ComputePlace) (registered : Engine)
    (hparent : T.parent = some 0) (hremote : T.remote = false)
    (hcount : T.predecessorCount = 0) (hnew : T.dataAccesses = {})
    (hkind : ∀ d ∈ T.dependencies,
      d.accessType ≠ COMMUTATIVE_ACCESS_TYPE ∧ d.accessType ≠ NO_ACCESS_TYPE)
    (hA : ∀ d ∈ T.dependencies, ∀ a ∈ P.dataAccesses.accesses,
      a.region.intersects ⟨d.start, d.length⟩ = false)
    (hB : ∀ d ∈ T.dependencies, ∀ b ∈ P.dataAccesses.subaccessBottomMap,
      b.region.intersects ⟨d.start, d.length⟩ = false)
    (hreg : registerDependencies (newTaskScenario e P T) 1 = .ok registered) :
    (∀ (e0 : Engine) (task : Nat) (fuel : Fuel) (place : ComputePlace),
        (e0.getTask task).dependencies = [] → (e0.getDataAccesses task).accesses = [] →
        registerTaskDataAccesses fuel task place e0 = .ok (e0, true))
      ∧ ∃ e1, registerTaskDataAccesses ⟨depth + 1, steps⟩ 1 computePlace
            (newTaskScenario e P T) = .ok (e1, true)
          ∧ (e1.getTask 1).predecessorCount
            = ((newTaskScenario e P T).getTask 1).predecessorCount := by
  refine ⟨?_, ?_⟩
  · intro e0 task fuel place h1 h2
    simp [registerTaskDataAccesses, registerDependencies, registerSequence, h1, h2]
  · obtain ⟨e1, h1, h2⟩ := registerTaskDataAccesses_of_registered e P T depth steps
      computePlace registered hparent hremote hcount hnew hkind hA hB hreg
    refine ⟨e1, h1, ?_⟩
    have hbefore : ((newTaskScenario e P T).getTask 1).predecessorCount = T.predecessorCount :=
      rfl
    rw [h2, hbefore, hcount]

/-- A parent with a read access and a bottom-map entry on `[0, 64)`, and a new task that
declares a strong write on `[100, 108)`, a weak reduction on `[200, 216)` and a strong
readwrite on `[104, 112)`: the task is ready at once, with no predecessor. -/
theorem registerTaskDataAccesses_ready_without_predecessors_witness :
    ∃ e1, registerTaskDataAccesses ⟨1, 0⟩ 1 ⟨0, true, true, 0⟩
          (newTaskScenario {}
            { dataAccesses :=
                { accesses := [createAccess 0 access_type READ_ACCESS_TYPE false ⟨0, 64⟩ (-1) (-1)],
                  subaccessBottomMap := [⟨⟨0, 64⟩, ⟨0, access_type⟩, READ_ACCESS_TYPE, -1⟩] } }
            (newTask
              [{ accessType := WRITE_ACCESS_TYPE, weak := false, start := 100, length := 8 },
               { accessType := REDUCTION_ACCESS_TYPE, weak := true, start := 200, length := 16,
                 reductionTypeAndOperatorIndex := 3 },
               { accessType := READWRITE_ACCESS_TYPE, weak := false, start := 104,
                 length := 8 }])) = .ok (e1, true)
      ∧ (e1.getTask 1).predecessorCount = 0 :=
  (registerTaskDataAccesses_ready_without_predecessors {}
    { dataAccesses :=
        { accesses := [createAccess 0 access_type READ_ACCESS_TYPE false ⟨0, 64⟩ (-1) (-1)],
          subaccessBottomMap := [⟨⟨0, 64⟩, ⟨0, access_type⟩, READ_ACCESS_TYPE, -1⟩] } }
    (newTask
      [{ accessType := WRITE_ACCESS_TYPE, weak := false, start := 100, length := 8 },
       { accessType := REDUCTION_ACCESS_TYPE, weak := true, start := 200, length := 16,
         reductionTypeAndOperatorIndex := 3 },
       { accessType := READWRITE_ACCESS_TYPE, weak := false, start := 104, length := 8 }])
    0 0 ⟨0, true, true, 0⟩ _ rfl rfl rfl rfl (by decide) (by decide) (by decide) rfl).2

/-! ## The calculator of the status effects -/

/-- C13: the predicate `enforcesDependency` that the constructor of `DataAccessStatusEffects`
computes for an access holds iff the access is not weak, is not satisfied, is of the object
kind access, and is not a reduction access that has received or allocated a reduction info. -/
theorem enforcesDependency_iff (e : Engine) (access : DataAccess) :
    (statusEffectsOf e access).enforcesDependency = true
      ↔ access.weak = false ∧ access.satisfied = false ∧ access.objectType = access_type
        ∧ ¬ (access.type = REDUCTION_ACCESS_TYPE
          ∧ (access.receivedReductionInfo = true ∨ access.allocatedReductionInfo = true)) := by
  have h : (statusEffectsOf e access).enforcesDependency
      = (!access.weak && !access.satisfied
          && !(access.type = REDUCTION_ACCESS_TYPE
            && (access.receivedReductionInfo || access.allocatedReductionInfo))
          && access.objectType = access_type) := by
    unfold statusEffectsOf
    dsimp only
    split
    · split
      · rfl
      · split <;> rfl
    · rfl
  rw [h]
  simp only [Bool.and_eq_true, Bool.not_eq_true', decide_eq_true_eq, Bool.or_eq_true,
    Bool.not_eq_true, Bool.and_eq_false_iff, decide_eq_false_iff_not, Bool.or_eq_false_iff]
  constructor
  · rintro ⟨⟨⟨h1, h2⟩, h3⟩, h4⟩
    refine ⟨h1, h2, h4, ?_⟩
    rintro ⟨h5, h6⟩
    rcases h3 with h3 | h3
    · exact h3 h5
    · rcases h6 with h6 | h6
      · rw [h3.1] at h6
        cases h6
      · rw [h3.2] at h6
        cases h6
  · rintro ⟨h1, h2, h3, h4⟩
    refine ⟨⟨⟨h1, h2⟩, ?_⟩, h3⟩
    by_cases h5 : access.type = REDUCTION_ACCESS_TYPE
    · right
      constructor
      · cases h6 : access.receivedReductionInfo
        · rfl
        · exact absurd ⟨h5, Or.inl h6⟩ h4
      · cases h6 : access.allocatedReductionInfo
        · rfl
        · exact absurd ⟨h5, Or.inr h6⟩ h4
    · exact Or.inl h5

/-- C14: the predicate `isRemovable` that the constructor of `DataAccessStatusEffects` computes
for an access holds iff the access is topmost, read and write satisfied, has received the
reduction info, is not a reduction or has allocated a reduction info or received the reduction
slot set, is complete, and is out of the bottom map or has a next or is of the kind
`NO_ACCESS_TYPE` or is a taskwait or a top-level sink; and `makesNextTopmost` holds only for an
access that is removable and has a next. -/
theorem isRemovable_iff (e : Engine) (access : DataAccess) :
    ((statusEffectsOf e access).isRemovable = true
      ↔ access.topmost = true ∧ access.readSatisfied = true ∧ access.writeSatisfied = true
        ∧ access.receivedReductionInfo = true
        ∧ (access.type ≠ REDUCTION_ACCESS_TYPE ∨ access.allocatedReductionInfo = true
          ∨ access.receivedReductionSlotSet = true)
        ∧ access.complete = true
        ∧ (access.inBottomMap = false ∨ access.hasNext = true ∨ access.type = NO_ACCESS_TYPE
          ∨ access.objectType = taskwait_type ∨ access.objectType = top_level_sink_type))
    ∧ ((statusEffectsOf e access).makesNextTopmost = true
      → (statusEffectsOf e access).isRemovable = true ∧ access.hasNext = true) := by
  constructor
  · unfold statusEffectsOf
    simp only [Bool.and_eq_true, Bool.or_eq_true, decide_eq_true_eq, Bool.not_eq_true',
      Bool.decide_or, Bool.decide_eq_true, ne_eq, decide_not, decide_eq_false_iff_not]
    tauto
  · unfold statusEffectsOf
    simp only [DataAccess.hasNext]
    cases access.next with
    | none => simp
    | some next =>
      simp only [Option.isSome_some, Bool.and_eq_true]
      intro h
      exact ⟨h.1, trivial⟩

/-! ## An update operation applied twice -/

/-- C11, the claim as it stands fails: a reduction access of the type and operator 5 that has
no reduction info takes the reduction info 0, of the same type and operator, from an update
operation; the same operation applied to the result does not leave it as it is, it fails the
assertion of line 1500, the access holding a reduction info that it has not allocated. -/
theorem applyUpdateOperationBits_second_application_fails :
    applyUpdateOperationBits
        { reductionInfos := [{ region := ⟨100, 8⟩, typeAndOperatorIndex := 5,
                               combinationCounter := 8 }] }
        { target := ⟨1, access_type⟩, region := ⟨100, 8⟩, setReductionInfo := true,
          reductionInfo := some 0 }
        (createAccess 1 access_type REDUCTION_ACCESS_TYPE false ⟨100, 8⟩ 5 0)
      = .ok { createAccess 1 access_type REDUCTION_ACCESS_TYPE false ⟨100, 8⟩ 5 0 with
              receivedReductionInfo := true, reductionInfo := some 0,
              previousReductionInfo := some 0 }
    ∧ applyUpdateOperationBits
        { reductionInfos := [{ region := ⟨100, 8⟩, typeAndOperatorIndex := 5,
                               combinationCounter := 8 }] }
        { target := ⟨1, access_type⟩, region := ⟨100, 8⟩, setReductionInfo := true,
          reductionInfo := some 0 }
        { createAccess 1 access_type REDUCTION_ACCESS_TYPE false ⟨100, 8⟩ 5 0 with
          receivedReductionInfo := true, reductionInfo := some 0,
          previousReductionInfo := some 0 }
      = .error (.assertion 1500) :=
  ⟨rfl, rfl⟩

set_option maxHeartbeats 1600000 in
/-- C11, as amended: the changes that `applyUpdateOperationOnAccess` makes to the access only
turn status bits on: each of read, write, concurrent and commutative satisfied, received
reduction info, received reduction slot set, topmost and top level that is set before is set
after.  The same operation applied again to the result leaves the access as it is, status bits
and reduction slot set included, unless the operation sets the reduction info and the first
application stored it in a reduction access that had none and has allocated none: then the
second application fails the assertion of line 1500. -/
theorem applyUpdateOperationBits_monotone_idempotent (e : Engine)
    (updateOperation : UpdateOperation) (a b : DataAccess)
    (h : applyUpdateOperationBits e updateOperation a = .ok b) :
    ((a.readSatisfied = true → b.readSatisfied = true)
      ∧ (a.writeSatisfied = true → b.writeSatisfied = true)
      ∧ (a.concurrentSatisfied = true → b.concurrentSatisfied = true)
      ∧ (a.commutativeSatisfied = true → b.commutativeSatisfied = true)
      ∧ (a.receivedReductionInfo = true → b.receivedReductionInfo = true)
      ∧ (a.receivedReductionSlotSet = true → b.receivedReductionSlotSet = true)
      ∧ (a.topmost = true → b.topmost = true)
      ∧ (a.topLevel = true → b.topLevel = true))
    ∧ (applyUpdateOperationBits e updateOperation b = .ok b
      ∨ (applyUpdateOperationBits e updateOperation b = .error (.assertion 1500)
        ∧ updateOperation.setReductionInfo = true ∧ a.type = REDUCTION_ACCESS_TYPE
        ∧ a.reductionInfo = none ∧ a.allocatedReductionInfo = false
        ∧ b.reductionInfo = updateOperation.reductionInfo
        ∧ b.reductionInfo.isSome = true)) := by
  obtain ⟨target, region, mr, mw, mc, mm, loc, sri, rinfo, slots, step, mt, ml⟩ := updateOperation
  cases a with
  | mk objectType type weak originator region1 rti rdi location outputLocation dataReleaseStep
      dataLinkStep next registered readSatisfied writeSatisfied concurrentSatisfied
      commutativeSatisfied receivedReductionInfo allocatedReductionInfo receivedReductionSlotSet
      closesReduction complete topmost topLevel inBottomMap hasSubaccesses discounted reachable
      cprs cpcs cpms cpri reductionInfo previousReductionInfo reductionSlotSet symbols =>
  unfold applyUpdateOperationBits at h
  simp only [assertThat, DataAccess.setReadSatisfied] at h
  cases mr <;> cases sri <;> cases slots <;> cases reductionInfo <;> simp at h <;>
    split_ifs at h <;> (try simp at h) <;> (try split_ifs at h) <;> (try simp at h) <;>
    subst h <;>
    simp [applyUpdateOperationBits, assertThat, DataAccess.setReadSatisfied, Nat.or_assoc, *] <;>
    cases rinfo <;> cases allocatedReductionInfo <;> simp_all [Nat.or_assoc]

/-- A read access that is linked and topmost becomes write satisfied by an operation; the
operation applied again leaves it as it is. -/
theorem applyUpdateOperationBits_monotone_idempotent_witness :
    ((linkedRead ⟨100, 1⟩).topmost = true
      → ({ linkedRead ⟨100, 1⟩ with writeSatisfied := true } : DataAccess).topmost = true)
    ∧ applyUpdateOperationBits {}
        { target := ⟨2, access_type⟩, region := ⟨100, 1⟩, makeWriteSatisfied := true }
        { linkedRead ⟨100, 1⟩ with writeSatisfied := true }
      = .ok { linkedRead ⟨100, 1⟩ with writeSatisfied := true } :=
  have h := applyUpdateOperationBits_monotone_idempotent {}
    { target := ⟨2, access_type⟩, region := ⟨100, 1⟩, makeWriteSatisfied := true }
    (linkedRead ⟨100, 1⟩) { linkedRead ⟨100, 1⟩ with writeSatisfied := true } rfl
  ⟨h.1.2.2.2.2.2.2.1, h.2.resolve_right (fun h2 => by simp at h2)⟩

/-! ## Read satisfiability without a location -/

theorem updateOperationToNext_read_without_location
    (initialStatus updatedStatus : DataAccessStatusEffects) (access : DataAccess)
    (taskIsFinal : Bool) (next : DataAccessLink) (hlocation : access.location = none)
    (h1 : initialStatus.propagatesReadSatisfiabilityToNext = false)
    (h2 : updatedStatus.propagatesReadSatisfiabilityToNext = true) :
    updateOperationToNext initialStatus updatedStatus access taskIsFinal next
      = .error (.assertion 698) := by
  simp [updateOperationToNext, assertThat, h1, h2, DataAccess.hasLocation, hlocation]

theorem updateOperationToFragments_read_without_location
    (initialStatus updatedStatus : DataAccessStatusEffects) (access : DataAccess) (task : Nat)
    (hlocation : access.location = none)
    (h1 : initialStatus.propagatesReadSatisfiabilityToFragments = false)
    (h2 : updatedStatus.propagatesReadSatisfiabilityToFragments = true) :
    updateOperationToFragments initialStatus updatedStatus access task
      = .error (.assertion 771) := by
  simp [updateOperationToFragments, assertThat, h1, h2, DataAccess.hasLocation, hlocation]

theorem handlePropagation_read_without_location
    (initialStatus updatedStatus : DataAccessStatusEffects) (access : DataAccess)
    (r : AccessRef) (e : Engine) (hlocation : access.location = none)
    (hflip : (access.hasNext = true
        ∧ initialStatus.propagatesReadSatisfiabilityToNext = false
        ∧ updatedStatus.propagatesReadSatisfiabilityToNext = true)
      ∨ (access.hasSubaccesses = true
        ∧ initialStatus.propagatesReadSatisfiabilityToFragments = false
        ∧ updatedStatus.propagatesReadSatisfiabilityToFragments = true)) :
    ∃ f, handlePropagation initialStatus updatedStatus access r e = .error f := by
  unfold handlePropagation
  dsimp only
  split
  · exact ⟨_, rfl⟩
  · rename_i e1 _
    rcases hflip with ⟨hn, h1, h2⟩ | ⟨hs, h1, h2⟩
    · cases hnext : access.next with
      | none => simp [DataAccess.hasNext, hnext] at hn
      | some next =>
        simp only [updateOperationToNext_read_without_location _ _ _ _ _ hlocation h1 h2]
        exact ⟨_, rfl⟩
    · split
      · exact ⟨_, rfl⟩
      · simp only [hs, if_true,
          updateOperationToFragments_read_without_location _ _ _ _ hlocation h1 h2]
        exact ⟨_, rfl⟩

/-- C20, the claim as it stands fails: a remote task and its sibling declare a strong read on
the same region, so that the access of the second is the next of the access of the first, which
is registered and has no location; when read and write satisfiability arrive for it without a
location, its propagation of read satisfiability to the next access flips on and the call
fails the check of line 698, `assert(access->hasLocation())`. -/
theorem readWithoutLocation_fails_assertion :
    readWithoutLocationRun ⟨2, 4⟩ ⟨0, true, true, 0⟩ = .error (.assertion 698) := by
  have h : (match readWithoutLocationRun ⟨2, 4⟩ ⟨0, true, true, 0⟩ with
      | .error (.assertion n) => n
      | .error _ => 1
      | .ok _ => 0) = 698 := by decide!
  revert h
  cases readWithoutLocationRun ⟨2, 4⟩ ⟨0, true, true, 0⟩ with
  | ok x => simp
  | error f =>
    cases f with
    | assertion n =>
      intro h
      simp only at h
      rw [h]
    | _ => simp

/-- C20, as amended: the propagation of read satisfiability requires a location.  For a
registered access that has no location, when its propagation of read satisfiability to the
next access, or to its fragments, flips on, `handleDataAccessStatusChanges` does not complete:
the update operation for the next access fails the check of line 698 and the one for the
fragments the check of line 771, and the call ends in a failure, so that no update operation
is emitted. -/
theorem handleDataAccessStatusChanges_read_without_location
    (initialStatus updatedStatus : DataAccessStatusEffects) (r : AccessRef) (e : Engine)
    (access : DataAccess) (hfind : e.findAccess r = some access)
    (hregistered : updatedStatus.isRegistered = true) (hlocation : access.location = none)
    (hflip : (access.hasNext = true
        ∧ initialStatus.propagatesReadSatisfiabilityToNext = false
        ∧ updatedStatus.propagatesReadSatisfiabilityToNext = true)
      ∨ (access.hasSubaccesses = true
        ∧ initialStatus.propagatesReadSatisfiabilityToFragments = false
        ∧ updatedStatus.propagatesReadSatisfiabilityToFragments = true)) :
    (∀ taskIsFinal next, initialStatus.propagatesReadSatisfiabilityToNext = false →
        updatedStatus.propagatesReadSatisfiabilityToNext = true →
        updateOperationToNext initialStatus updatedStatus access taskIsFinal next
          = .error (.assertion 698))
    ∧ (∀ task, initialStatus.propagatesReadSatisfiabilityToFragments = false →
        updatedStatus.propagatesReadSatisfiabilityToFragments = true →
        updateOperationToFragments initialStatus updatedStatus access task
          = .error (.assertion 771))
    ∧ ∀ depth, ∃ f,
        handleDataAccessStatusChanges depth initialStatus updatedStatus r e = .error f := by
  refine ⟨fun _ _ h1 h2 => updateOperationToNext_read_without_location _ _ _ _ _ hlocation h1 h2,
    fun _ h1 h2 => updateOperationToFragments_read_without_location _ _ _ _ hlocation h1 h2,
    ?_⟩
  intro depth
  cases depth with
  | zero => exact ⟨_, rfl⟩
  | succ depth =>
    unfold handleDataAccessStatusChanges handleDataAccessStatusChangesBody
    simp only [hfind]
    split
    · exact ⟨_, rfl⟩
    · rename_i e1 _
      simp only [hregistered, Bool.not_true, Bool.false_eq_true, if_false, assertThat]
      split
      · split
        · split
          · exact ⟨_, rfl⟩
          · split
            · exact ⟨_, rfl⟩
            · rename_i e3 _
              obtain ⟨f, hf⟩ := handlePropagation_read_without_location initialStatus
                updatedStatus access r e3 hlocation hflip
              simp only [hf]
              exact ⟨_, rfl⟩
        · exact ⟨_, rfl⟩
      · exact ⟨_, rfl⟩

/-- A read access that has a next access and no location becomes read satisfied: the call of
`handleDataAccessStatusChanges` for the change fails. -/
theorem handleDataAccessStatusChanges_read_without_location_witness :
    ∃ f, handleDataAccessStatusChanges 1
        (statusEffectsOf {}
          { remoteAccess READ_ACCESS_TYPE ⟨100, 8⟩ with
            next := some ⟨2, access_type⟩, writeSatisfied := true })
        (statusEffectsOf {}
          { remoteAccess READ_ACCESS_TYPE ⟨100, 8⟩ with
            next := some ⟨2, access_type⟩, writeSatisfied := true, readSatisfied := true })
        ⟨1, access_type, 100⟩
        { tasks := [{}, { dataAccesses := { accesses :=
            [{ remoteAccess READ_ACCESS_TYPE ⟨100, 8⟩ with
               next := some ⟨2, access_type⟩, writeSatisfied := true,
               readSatisfied := true }] } }] }
      = .error f :=
  (handleDataAccessStatusChanges_read_without_location
    (statusEffectsOf {}
      { remoteAccess READ_ACCESS_TYPE ⟨100, 8⟩ with
        next := some ⟨2, access_type⟩, writeSatisfied := true })
    (statusEffectsOf {}
      { remoteAccess READ_ACCESS_TYPE ⟨100, 8⟩ with
        next := some ⟨2, access_type⟩, writeSatisfied := true, readSatisfied := true })
    ⟨1, access_type, 100⟩
    { tasks := [{}, { dataAccesses := { accesses :=
        [{ remoteAccess READ_ACCESS_TYPE ⟨100, 8⟩ with
           next := some ⟨2, access_type⟩, writeSatisfied := true,
           readSatisfied := true }] } }] }
    { remoteAccess READ_ACCESS_TYPE ⟨100, 8⟩ with
      next := some ⟨2, access_type⟩, writeSatisfied := true, readSatisfied := true }
    rfl rfl rfl (Or.inl ⟨rfl, rfl, rfl⟩)).2.2 1

/-! ## No taskwait fragment and no top-level sink has a next access

Every function of the engine keeps the invariant `Engine.sinksUnlinked`, the handler by
induction on the bound of its depth. -/

theorem List.mem_modify_cases {α : Type} (f : α → α) (l : List α) (n : Nat) (x : α)
    (h : x ∈ List.modify f n l) : x ∈ l ∨ ∃ y ∈ l, x = f y := by
  induction l generalizing n with
  | nil => cases n <;> simp [List.modify] at h
  | cons a rest ih =>
    cases n with
    | zero =>
      simp only [List.modify_zero_cons, List.mem_cons] at h
      rcases h with h | h
      · exact Or.inr ⟨a, List.mem_cons_self _ _, h⟩
      · exact Or.inl (List.mem_cons_of_mem _ h)
    | succ n =>
      simp only [List.modify_succ_cons, List.mem_cons] at h
      rcases h with h | h
      · exact Or.inl (h ▸ List.mem_cons_self _ _)
      · rcases ih n h with h | ⟨y, hy, hxy⟩
        · exact Or.inl (List.mem_cons_of_mem _ h)
        · exact Or.inr ⟨y, List.mem_cons_of_mem _ hy, hxy⟩

theorem Engine.sinksUnlinked_of_tasks {e e1 : Engine} (h : e1.tasks = e.tasks)
    (hi : e.sinksUnlinked) : e1.sinksUnlinked := by
  unfold Engine.sinksUnlinked at *; rw [h]; exact hi

theorem Engine.sinksUnlinked_modifyTask {e : Engine} (t : Nat) (f : Task → Task)
    (hf : ∀ x, x.dataAccesses.sinksUnlinked → (f x).dataAccesses.sinksUnlinked)
    (hi : e.sinksUnlinked) : (e.modifyTask t f).sinksUnlinked := by
  intro x hx
  simp only [Engine.modifyTask] at hx
  rcases List.mem_modify_cases _ _ _ _ hx with hx | ⟨y, hy, rfl⟩
  · exact hi x hx
  · exact hf y (hi y hy)

theorem Engine.sinksUnlinked_modifyDataAccesses {e : Engine} (t : Nat)
    (f : TaskDataAccesses → TaskDataAccesses)
    (hf : ∀ s, s.sinksUnlinked → (f s).sinksUnlinked)
    (hi : e.sinksUnlinked) : (e.modifyDataAccesses t f).sinksUnlinked :=
  Engine.sinksUnlinked_modifyTask t _ (fun _ hx => hf _ hx) hi

theorem TaskDataAccesses.sinksUnlinked_setIndex {s : TaskDataAccesses}
    (k : DataAccessObjectType) (l : List DataAccess) (hl : ∀ a ∈ l, kindOk k a)
    (hs : s.sinksUnlinked) : (s.setIndex k l).sinksUnlinked := by
  intro k1 a ha
  cases k <;> cases k1 <;>
    first
    | exact hl a ha
    | exact hs _ a ha

theorem Engine.sinksUnlinked_getTask {e : Engine} (hi : e.sinksUnlinked) (t : Nat) :
    (e.getDataAccesses t).sinksUnlinked := by
  unfold Engine.getDataAccesses Engine.getTask
  rw [List.getD_eq_getElem?_getD]
  cases h : e.tasks[t]? with
  | none => intro k a ha; cases k <;> simp [TaskDataAccesses.index] at ha <;> cases ha
  | some x => exact hi x (List.mem_iff_getElem?.2 ⟨t, h⟩)

theorem Engine.sinksUnlinked_modifyAccess {e : Engine} (r : AccessRef)
    (f : DataAccess → DataAccess)
    (hf : ∀ a, kindOk r.objectType a → kindOk r.objectType (f a))
    (hi : e.sinksUnlinked) : (e.modifyAccess r f).sinksUnlinked := by
  refine Engine.sinksUnlinked_modifyDataAccesses _ _ (fun s hs => ?_) hi
  refine TaskDataAccesses.sinksUnlinked_setIndex _ _ (fun a ha => ?_) hs
  simp only [List.mem_map] at ha
  obtain ⟨b, hb, rfl⟩ := ha
  split
  · exact hf b (hs _ b hb)
  · exact hs _ b hb

theorem Engine.sinksUnlinked_eraseAccess {e : Engine} (r : AccessRef)
    (hi : e.sinksUnlinked) : (e.eraseAccess r).sinksUnlinked := by
  refine Engine.sinksUnlinked_modifyDataAccesses _ _ (fun s hs => ?_) hi
  refine TaskDataAccesses.sinksUnlinked_setIndex _ _ (fun a ha => ?_) hs
  exact hs _ a (List.mem_of_mem_filter ha)

theorem Engine.kindOk_of_findAccess {e : Engine} (hi : e.sinksUnlinked) {r : AccessRef}
    {a : DataAccess} (h : e.findAccess r = some a) : kindOk r.objectType a :=
  Engine.sinksUnlinked_getTask hi r.task _ a (List.mem_of_find?_eq_some h)

theorem forEachRef_keeps {P : Engine → Prop}
    (process : AccessRef → Engine → Except Failure Engine)
    (hp : ∀ r e e1, process r e = .ok e1 → P e → P e1)
    (refs : List AccessRef) (e e1 : Engine) (h : forEachRef process refs e = .ok e1)
    (hi : P e) : P e1 := by
  induction refs generalizing e with
  | nil => simp only [forEachRef, Except.ok.injEq] at h; exact h ▸ hi
  | cons r rest ih =>
    simp only [forEachRef] at h
    split at h
    · cases h
    · next e2 h2 => exact ih e2 h (hp r e e2 h2 hi)

theorem assertThat_ok {α : Type} {c : Bool} {n : Nat} {k : Except Failure α} {x : α}
    (h : assertThat c n k = .ok x) : c = true ∧ k = .ok x := by
  unfold assertThat at h
  split at h
  · exact ⟨by assumption, h⟩
  · cases h

theorem failIf_ok {α : Type} {c : Bool} {f : FatalError} {k : Except Failure α} {x : α}
    (h : failIf c f k = .ok x) : c = false ∧ k = .ok x := by
  unfold failIf at h
  split at h
  · cases h
  · exact ⟨by simpa using ‹¬ c = true›, h⟩

theorem withStatusEffects_ok {α : Type} {e : Engine} {r : AccessRef}
    {rest : DataAccess → DataAccessStatusEffects → Except Failure α} {x : α}
    (h : withStatusEffects e r rest = .ok x) :
    ∃ a, e.findAccess r = some a
      ∧ (a.next.isSome = true →
          a.objectType ≠ taskwait_type ∧ a.objectType ≠ top_level_sink_type)
      ∧ rest a (statusEffectsOf e a) = .ok x := by
  unfold withStatusEffects at h
  split at h
  · cases h
  · next a ha =>
    unfold statusEffectsAssertions at h
    obtain ⟨h1, h⟩ := assertThat_ok h
    obtain ⟨h2, h⟩ := assertThat_ok h
    obtain ⟨_, h⟩ := assertThat_ok h
    obtain ⟨_, h⟩ := assertThat_ok h
    obtain ⟨_, h⟩ := assertThat_ok h
    refine ⟨a, ha, fun hn => ?_, h⟩
    simp only [DataAccess.hasNext, hn, Bool.not_true, Bool.false_or, decide_eq_true_eq] at h1 h2
    exact ⟨h1, h2⟩

theorem withLocalDependencyData_keeps {P : Engine → Prop} (line : Nat)
    (body : Engine → Except Failure Engine)
    (hq : ∀ e d, P e → P { e with hpDependencyData := d })
    (hb : ∀ e e1, body e = .ok e1 → P e → P e1)
    (e e1 : Engine) (h : withLocalDependencyData line body e = .ok e1) (hi : P e) : P e1 := by
  unfold withLocalDependencyData at h
  split at h
  · cases h
  · next e2 h2 =>
    obtain ⟨_, h⟩ := assertThat_ok h
    cases h
    exact hq _ _ (hb _ _ h2 (hq _ _ hi))

theorem Engine.sinksUnlinked_hp (e : Engine) (d : CPUDependencyData) (hi : e.sinksUnlinked) :
    ({ e with hpDependencyData := d } : Engine).sinksUnlinked := hi

theorem kindOk_registered {k : DataAccessObjectType} {a : DataAccess} (b : Bool)
    (h : kindOk k a) : kindOk k { a with registered := b } := by
  cases k <;> exact h

theorem setUpNewFragment_keeps (handle : Handler) (hh : handle.keepsSinksUnlinked)
    (fragment : AccessRef) (e e1 : Engine) (h : setUpNewFragment handle fragment e = .ok e1)
    (hi : e.sinksUnlinked) : e1.sinksUnlinked := by
  refine withLocalDependencyData_keeps 1225 _ Engine.sinksUnlinked_hp (fun e e1 h hi => ?_)
    e e1 h hi
  obtain ⟨_, _, _, h⟩ := withStatusEffects_ok h
  obtain ⟨_, _, _, h⟩ := withStatusEffects_ok h
  exact hh _ _ _ _ _ h (Engine.sinksUnlinked_modifyAccess _ _ (fun a ha => kindOk_registered _ ha) hi)

theorem kindOk_congr {k : DataAccessObjectType} {a b : DataAccess}
    (h1 : b.objectType = a.objectType) (h2 : b.next = a.next) (h : kindOk k a) : kindOk k b := by
  cases k <;> simp only [kindOk, h1, h2] at * <;> exact h

theorem kindOk_of_objectType {k : DataAccessObjectType} {a b : DataAccess}
    (h1 : b.objectType = a.objectType)
    (h2 : a.objectType ≠ taskwait_type ∧ a.objectType ≠ top_level_sink_type)
    (h : kindOk k a) : kindOk k b := by
  cases k <;> simp only [kindOk, h1] at * <;> first | exact h | exact absurd h.1 (by simp [h2])

theorem mem_replaceByPieces {address : Nat} {pieces l : List DataAccess} {x : DataAccess}
    (h : x ∈ replaceByPieces address pieces l) : x ∈ pieces ∨ x ∈ l := by
  induction l with
  | nil => simp [replaceByPieces] at h
  | cons a rest ih =>
    simp only [replaceByPieces] at h
    split at h
    · rcases List.mem_append.1 h with h | h
      · exact Or.inl h
      · exact Or.inr (List.mem_cons_of_mem _ h)
    · rcases List.mem_cons.1 h with h | h
      · exact Or.inr (h ▸ List.mem_cons_self _ _)
      · rcases ih h with h | h
        · exact Or.inl h
        · exact Or.inr (List.mem_cons_of_mem _ h)

theorem kindOk_fragmentPieces {k : DataAccessObjectType} {a x : DataAccess}
    (region : DataAccessRegion) (ha : kindOk k a)
    (h : x ∈ fragmentPieces duplicateDataAccess region a) : kindOk k x := by
  unfold fragmentPieces at h
  split at h
  · cases h
  · rcases List.mem_cons.1 h with h | h
    · subst h; exact kindOk_congr (a := a) rfl rfl ha
    · obtain ⟨r, _, rfl⟩ := List.mem_map.1 h
      exact kindOk_congr (a := a) rfl rfl ha

theorem fragmentObject_keeps (handle : Handler) (hh : handle.keepsSinksUnlinked)
    (r : AccessRef) (region : DataAccessRegion) (e e1 : Engine)
    (h : fragmentObject handle r region e = .ok e1) (hi : e.sinksUnlinked) :
    e1.sinksUnlinked := by
  unfold fragmentObject at h
  split at h
  · cases h
  · next a ha =>
    obtain ⟨_, h⟩ := assertThat_ok h
    split at h
    · cases h; exact hi
    · obtain ⟨_, h⟩ := assertThat_ok h
      obtain ⟨_, h⟩ := assertThat_ok h
      refine forEachRef_keeps _ (setUpNewFragment_keeps handle hh) _ _ _ h ?_
      refine Engine.sinksUnlinked_modifyDataAccesses _ _ (fun s hs => ?_) hi
      refine TaskDataAccesses.sinksUnlinked_setIndex _ _ (fun x hx => ?_) hs
      rcases mem_replaceByPieces hx with hx | hx
      · exact kindOk_fragmentPieces region (Engine.kindOk_of_findAccess hi ha) hx
      · exact hs _ x hx

theorem fragmentAccess_keeps (handle : Handler) (hh : handle.keepsSinksUnlinked)
    (r : AccessRef) (region : DataAccessRegion) (e e1 : Engine)
    (h : fragmentAccess handle r region e = .ok e1) (hi : e.sinksUnlinked) :
    e1.sinksUnlinked := by
  unfold fragmentAccess at h
  split at h
  · cases h
  · split at h
    · cases h; exact hi
    · exact fragmentObject_keeps handle hh _ _ _ _ h hi

theorem followLink_keeps (handle : Handler) (hh : handle.keepsSinksUnlinked)
    (link : DataAccessLink) (region : DataAccessRegion)
    (processor : AccessRef → Engine → Except Failure Engine)
    (hp : ∀ r e e1, processor r e = .ok e1 → e.sinksUnlinked → e1.sinksUnlinked)
    (e e1 : Engine) (h : followLink handle link region processor e = .ok e1)
    (hi : e.sinksUnlinked) : e1.sinksUnlinked := by
  refine forEachRef_keeps _ (fun r e e1 h hi => ?_) _ _ _ h hi
  split at h
  · cases h
  · obtain ⟨_, h⟩ := assertThat_ok h
    split at h
    · cases h
    · next e2 h2 => exact hp _ _ _ h (fragmentObject_keeps handle hh _ _ _ _ h2 hi)

theorem kindOk_next_none {k : DataAccessObjectType} {a b : DataAccess}
    (h1 : b.objectType = a.objectType) (h2 : b.next = none) (h : kindOk k a) : kindOk k b := by
  cases k <;> simp only [kindOk, h1, h2] at * <;> first | exact h | exact ⟨h.1, trivial⟩

theorem TaskDataAccesses.sinksUnlinked_of_index {s s1 : TaskDataAccesses}
    (h : ∀ k, s1.index k = s.index k) (hs : s.sinksUnlinked) : s1.sinksUnlinked := by
  intro k a ha
  rw [h k] at ha
  exact hs k a ha

theorem Engine.sinksUnlinked_modifyTask_same {e : Engine} (t : Nat) (f : Task → Task)
    (hf : ∀ x, (f x).dataAccesses = x.dataAccesses) (hi : e.sinksUnlinked) :
    (e.modifyTask t f).sinksUnlinked :=
  Engine.sinksUnlinked_modifyTask t f (fun x hx => by rw [hf x]; exact hx) hi

theorem Engine.sinksUnlinked_modifyDataAccesses_index {e : Engine} (t : Nat)
    (f : TaskDataAccesses → TaskDataAccesses) (hf : ∀ s k, (f s).index k = s.index k)
    (hi : e.sinksUnlinked) : (e.modifyDataAccesses t f).sinksUnlinked :=
  Engine.sinksUnlinked_modifyDataAccesses t f
    (fun s hs => TaskDataAccesses.sinksUnlinked_of_index (hf s) hs) hi

theorem find?_map_ite (p : DataAccess → Bool) (f : DataAccess → DataAccess)
    (hp : ∀ a, p (f a) = p a) (l : List DataAccess) :
    (l.map (fun a => if p a then f a else a)).find? p = (l.find? p).map f := by
  induction l with
  | nil => rfl
  | cons a rest ih =>
    by_cases ha : p a
    · simp [List.find?, ha, hp]
    · simp [List.find?, ha, ih]

theorem TaskDataAccesses.index_setIndex (s : TaskDataAccesses) (k : DataAccessObjectType)
    (l : List DataAccess) : (s.setIndex k l).index k = l := by
  cases k <;> rfl

theorem Engine.findAccess_modifyAccess (e : Engine) (r : AccessRef)
    (f : DataAccess → DataAccess) (hreg : ∀ a, (f a).region = a.region) :
    (e.modifyAccess r f).findAccess r = (e.findAccess r).map f := by
  by_cases ht : r.task < e.tasks.length
  · unfold Engine.findAccess Engine.modifyAccess
    rw [Engine.getDataAccesses_modifyDataAccesses _ _ _ ht, TaskDataAccesses.index_setIndex]
    exact find?_map_ite (fun a => a.region.containsAddress r.address) f
      (fun a => by simp only [hreg]) _
  · have h1 : ∀ e1 : Engine, ¬ r.task < e1.tasks.length → e1.findAccess r = none := by
      intro e1 h
      simp [Engine.findAccess, Engine.getDataAccesses, Engine.getTask,
        List.getD_eq_getElem?_getD, List.getElem?_eq_none (Nat.le_of_not_lt h)]
      intro x hx
      cases hk : r.objectType <;> rw [hk] at hx <;> cases hx
    rw [h1 e ht, h1 _ (by
      simpa [Engine.modifyAccess, Engine.length_modifyDataAccesses] using ht)]
    rfl

theorem Engine.sinksUnlinked_modifyAccess_link {e : Engine} (r : AccessRef)
    (f : DataAccess → DataAccess) (n : Option DataAccessLink)
    (hobj : ∀ a, (f a).objectType = a.objectType) (hreg : ∀ a, (f a).region = a.region)
    (hnext : ∀ a, (f a).next = n) (hi : e.sinksUnlinked) {a1 : DataAccess}
    (hfind : (e.modifyAccess r f).findAccess r = some a1)
    (hok : a1.next.isSome = true →
      a1.objectType ≠ taskwait_type ∧ a1.objectType ≠ top_level_sink_type) :
    (e.modifyAccess r f).sinksUnlinked := by
  cases n with
  | none =>
    exact Engine.sinksUnlinked_modifyAccess r f
      (fun a ha => kindOk_next_none (hobj a) (hnext a) ha) hi
  | some n =>
    rw [Engine.findAccess_modifyAccess e r f hreg] at hfind
    cases hb : e.findAccess r with
    | none => rw [hb] at hfind; cases hfind
    | some b =>
      rw [hb] at hfind
      simp only [Option.map_some', Option.some.injEq] at hfind
      subst hfind
      have hk := Engine.kindOk_of_findAccess hi hb
      have ho := hok (by rw [hnext b]; rfl)
      rw [hobj b] at ho
      refine Engine.sinksUnlinked_modifyAccess r f (fun a ha => ?_) hi
      have hr : r.objectType = access_type ∨ r.objectType = fragment_type := by
        cases hr : r.objectType <;> rw [hr] at hk <;> simp [kindOk] at hk ⊢ <;>
          exact absurd hk.1 (by simp [ho])
      rcases hr with hr | hr <;> rw [hr] at ha ⊢ <;> simp only [kindOk, hobj] at ha ⊢ <;> exact ha

theorem forEachEntry_keeps {P : Engine → Prop}
    (process : Nat → Engine → Except Failure Engine)
    (hp : ∀ r e e1, process r e = .ok e1 → P e → P e1)
    (refs : List Nat) (e e1 : Engine) (h : forEachEntry process refs e = .ok e1)
    (hi : P e) : P e1 := by
  induction refs generalizing e with
  | nil => simp only [forEachEntry, Except.ok.injEq] at h; exact h ▸ hi
  | cons r rest ih =>
    simp only [forEachEntry] at h
    split at h
    · cases h
    · next e2 h2 => exact ih e2 h (hp r e e2 h2 hi)

theorem removeBottomMapTaskwaitOrTopLevelSink_keeps (handle : Handler)
    (hh : handle.keepsSinksUnlinked) (r : AccessRef) (e e1 : Engine)
    (h : removeBottomMapTaskwaitOrTopLevelSink handle r e = .ok e1) (hi : e.sinksUnlinked) :
    e1.sinksUnlinked := by
  unfold removeBottomMapTaskwaitOrTopLevelSink at h
  split at h
  · cases h
  · next access _ =>
    obtain ⟨_, h⟩ := assertThat_ok h
    obtain ⟨_, h⟩ := assertThat_ok h
    split at h
    · cases h
    · next e2 h2 =>
      have hi2 : e2.sinksUnlinked := by
        refine forEachEntry_keeps _ (fun a e e1 h hi => ?_) _ _ _ h2 hi
        split at h
        · cases h
        · obtain ⟨_, h⟩ := assertThat_ok h
          obtain ⟨_, h⟩ := assertThat_ok h
          obtain ⟨_, h⟩ := assertThat_ok h
          cases h
          exact Engine.sinksUnlinked_modifyDataAccesses_index _ _
            (fun s k => by cases k <;> rfl) hi
      dsimp only at h
      split at h
      · cases h
      · next e4 h4 =>
        cases h
        refine Engine.sinksUnlinked_of_tasks rfl (Engine.sinksUnlinked_eraseAccess r ?_)
        refine forEachRef_keeps _ (fun a e e1 h hi => ?_) _ _ _ h4
          (Engine.sinksUnlinked_modifyAccess _ _ (fun a ha => kindOk_congr (a := a) rfl rfl ha)
            hi2)
        split at h
        · cases h
        · obtain ⟨_, h⟩ := assertThat_ok h
          split at h
          · cases h
          · next e3 h3 =>
            cases h
            exact Engine.sinksUnlinked_modifyAccess _ _
              (fun a ha => kindOk_congr (a := a) rfl rfl ha)
              (fragmentAccess_keeps handle hh _ _ _ _ h3 hi)

theorem foreachBottomMapMatch_keeps (handle : Handler) (hh : handle.keepsSinksUnlinked)
    (region : DataAccessRegion) (task : Nat)
    (processor : AccessRef → Engine → Except Failure Engine)
    (hp : ∀ r e e1, processor r e = .ok e1 → e.sinksUnlinked → e1.sinksUnlinked)
    (e e1 : Engine) (h : foreachBottomMapMatch handle region task processor e = .ok e1)
    (hi : e.sinksUnlinked) : e1.sinksUnlinked := by
  refine forEachEntry_keeps _ (fun a e e1 h hi => ?_) _ _ _ h hi
  split at h
  · cases h
  · obtain ⟨_, h⟩ := assertThat_ok h
    refine followLink_keeps handle hh _ _ _ (fun r e e1 h hi => ?_) _ _ h hi
    split at h
    · cases h
    · obtain ⟨_, h⟩ := assertThat_ok h
      obtain ⟨_, h⟩ := assertThat_ok h
      exact hp _ _ _ h hi

theorem processBottomMapUpdate_keeps (handle : Handler) (hh : handle.keepsSinksUnlinked)
    (operation : BottomMapUpdateOperation) (task : Nat) (e e1 : Engine)
    (h : processBottomMapUpdate handle operation task e = .ok e1) (hi : e.sinksUnlinked) :
    e1.sinksUnlinked := by
  unfold processBottomMapUpdate at h
  obtain ⟨_, h⟩ := assertThat_ok h
  obtain ⟨_, h⟩ := assertThat_ok h
  refine foreachBottomMapMatch_keeps handle hh _ _ _ (fun r e e1 h hi => ?_) _ _ h hi
  split at h
  · cases h
  · obtain ⟨_, h⟩ := failIf_ok h
    obtain ⟨_, _, _, h⟩ := withStatusEffects_ok h
    obtain ⟨_, h⟩ := failIf_ok h
    obtain ⟨_, h⟩ := assertThat_ok h
    obtain ⟨a1, hfind, hok, h⟩ := withStatusEffects_ok h
    exact hh _ _ _ _ _ h
      (Engine.sinksUnlinked_modifyAccess_link r _ operation.next (fun _ => rfl) (fun _ => rfl)
        (fun _ => rfl) hi hfind hok)

theorem Engine.sinksUnlinked_iff_getElem (e : Engine) :
    e.sinksUnlinked ↔ ∀ (i : Nat) (x : Task), e.tasks[i]? = some x → x.dataAccesses.sinksUnlinked := by
  constructor
  · intro h i x hx
    exact h x (List.mem_iff_getElem?.2 ⟨i, hx⟩)
  · intro h x hx
    obtain ⟨i, hi⟩ := List.mem_iff_getElem?.1 hx
    exact h i x hi

theorem Engine.sinksUnlinked_modifyTask_iff (e : Engine) (t : Nat) (f : Task → Task)
    (hf : ∀ x, (f x).dataAccesses.sinksUnlinked ↔ x.dataAccesses.sinksUnlinked) :
    (e.modifyTask t f).sinksUnlinked ↔ e.sinksUnlinked := by
  rw [Engine.sinksUnlinked_iff_getElem, Engine.sinksUnlinked_iff_getElem]
  simp only [Engine.modifyTask, List.getElem?_modify]
  constructor
  · intro h i x hx
    by_cases hti : t = i
    · exact (hf x).1 (h i (f x) (by simp [hti, hx]))
    · exact h i x (by simp [hti, hx])
  · intro h i y hy
    by_cases hti : t = i
    · cases hx : e.tasks[i]? with
      | none => simp [hti, hx] at hy
      | some x =>
        simp only [hti, hx, if_true, Option.map_eq_map, Option.map_some', Option.some.injEq] at hy
        subst hy
        exact (hf x).2 (h i x hx)
    · cases hx : e.tasks[i]? with
      | none => simp [hti, hx] at hy
      | some x =>
        simp only [hti, hx, if_false, Option.map_eq_map, Option.map_some', Option.some.injEq,
          id_eq] at hy
        subst hy
        exact h i _ hx

@[simp] theorem Engine.sinksUnlinked_modifyTask_dataAccesses (e : Engine) (t : Nat)
    (f : Task → Task) (hf : ∀ x, (f x).dataAccesses = x.dataAccesses) :
    (e.modifyTask t f).sinksUnlinked ↔ e.sinksUnlinked :=
  Engine.sinksUnlinked_modifyTask_iff e t f (fun x => by rw [hf x])

@[simp] theorem Engine.sinksUnlinked_modifyDataAccesses_fields (e : Engine) (t : Nat)
    (f : TaskDataAccesses → TaskDataAccesses) (h1 : ∀ s, (f s).accesses = s.accesses)
    (h2 : ∀ s, (f s).accessFragments = s.accessFragments)
    (h3 : ∀ s, (f s).taskwaitFragments = s.taskwaitFragments) :
    (e.modifyDataAccesses t f).sinksUnlinked ↔ e.sinksUnlinked := by
  refine Engine.sinksUnlinked_modifyTask_iff e t _ (fun x => ?_)
  have hk : ∀ k, (f x.dataAccesses).index k = x.dataAccesses.index k := by
    intro k; cases k <;> simp [TaskDataAccesses.index, h1, h2, h3]
  simp only [TaskDataAccesses.sinksUnlinked, hk]

@[simp] theorem Engine.sinksUnlinked_increasePredecessors (e : Engine) (t : Nat) (n : Int) :
    (e.increasePredecessors t n).sinksUnlinked ↔ e.sinksUnlinked :=
  Engine.sinksUnlinked_modifyTask_dataAccesses e t _ (fun _ => rfl)

@[simp] theorem Engine.sinksUnlinked_decreasePredecessors (e : Engine) (t : Nat) (n : Int) :
    (e.decreasePredecessors t n).1.sinksUnlinked ↔ e.sinksUnlinked :=
  Engine.sinksUnlinked_modifyTask_dataAccesses e t _ (fun _ => rfl)

@[simp] theorem Engine.sinksUnlinked_increaseBlockingCount (e : Engine) (t : Nat) :
    (e.increaseBlockingCount t).sinksUnlinked ↔ e.sinksUnlinked :=
  Engine.sinksUnlinked_modifyTask_dataAccesses e t _ (fun _ => rfl)

@[simp] theorem Engine.sinksUnlinked_decreaseBlockingCount (e : Engine) (t : Nat) :
    (e.decreaseBlockingCount t).1.sinksUnlinked ↔ e.sinksUnlinked :=
  Engine.sinksUnlinked_modifyTask_dataAccesses e t _ (fun _ => rfl)

@[simp] theorem Engine.sinksUnlinked_increaseRemovalBlockingCount (e : Engine) (t : Nat) :
    (e.increaseRemovalBlockingCount t).sinksUnlinked ↔ e.sinksUnlinked :=
  Engine.sinksUnlinked_modifyTask_dataAccesses e t _ (fun _ => rfl)

@[simp] theorem Engine.sinksUnlinked_decreaseRemovalBlockingCount (e : Engine) (t : Nat) :
    (e.decreaseRemovalBlockingCount t).1.sinksUnlinked ↔ e.sinksUnlinked :=
  Engine.sinksUnlinked_modifyTask_dataAccesses e t _ (fun _ => rfl)

@[simp] theorem Engine.sinksUnlinked_modifyHp (e : Engine)
    (f : CPUDependencyData → CPUDependencyData) :
    (e.modifyHp f).sinksUnlinked ↔ e.sinksUnlinked := Iff.rfl

@[simp] theorem Engine.sinksUnlinked_mk (tasks : List Task) (a : List ReductionInfo)
    (b : CommutativeScoreboard) (c : CPUDependencyData) (d : LinkingFrame)
    (f : List (Nat × ReadyTaskHint)) (g : List Nat) (i : List AccessRef)
    (j : List LinkedRegion) (k : List ReleasedRegion) (l : List DataAccess) (e : Engine)
    (h : tasks = e.tasks) :
    (Engine.mk tasks a b c d f g i j k l).sinksUnlinked ↔ e.sinksUnlinked := by
  subst h; rfl

theorem Engine.sinksUnlinked_ite (c : Prop) [Decidable c] (a b : Engine) :
    (if c then a else b).sinksUnlinked ↔ (if c then a.sinksUnlinked else b.sinksUnlinked) := by
  split <;> rfl

theorem handleRegistration_keeps (i u : DataAccessStatusEffects) (access : DataAccess)
    (task : Nat) (e e1 : Engine) (h : handleRegistration i u access task e = .ok e1)
    (hi : e.sinksUnlinked) : e1.sinksUnlinked := by
  unfold handleRegistration at h
  split at h
  · obtain ⟨_, h⟩ := assertThat_ok h
    cases h
    simp [Engine.sinksUnlinked_ite, hi]
  · cases h; exact hi

theorem handleDependencyUpdate_keeps (i u : DataAccessStatusEffects) (task : Nat)
    (e e1 : Engine) (h : handleDependencyUpdate i u task e = .ok e1) (hi : e.sinksUnlinked) :
    e1.sinksUnlinked := by
  unfold handleDependencyUpdate assertThat at h
  dsimp only at h
  repeat' split at h
  all_goals cases h
  all_goals simp [hi]

theorem Engine.sinksUnlinked_combineRegion (e : Engine) (i : Nat) (region : DataAccessRegion)
    (b : Bool) : (combineRegion e i region b).1.sinksUnlinked ↔ e.sinksUnlinked := by
  unfold combineRegion
  split <;> rfl

theorem handleReductionChanges_keeps (i u : DataAccessStatusEffects) (access : DataAccess)
    (e e1 : Engine) (h : handleReductionChanges i u access e = .ok e1) (hi : e.sinksUnlinked) :
    e1.sinksUnlinked := by
  unfold handleReductionChanges at h
  dsimp only at h
  split at h
  · cases h
  · next e2 h2 =>
    have hi2 : e2.sinksUnlinked := by
      split at h2
      · obtain ⟨_, h2⟩ := assertThat_ok h2
        obtain ⟨_, h2⟩ := assertThat_ok h2
        split at h2
        · cases h2
        · cases h2; exact hi
      · cases h2; exact hi
    split at h
    · cases h
    · next e3 h3 =>
      have hi3 : e3.sinksUnlinked := by
        split at h3
        · obtain ⟨_, h3⟩ := assertThat_ok h3
          obtain ⟨_, h3⟩ := assertThat_ok h3
          obtain ⟨_, h3⟩ := assertThat_ok h3
          obtain ⟨_, h3⟩ := assertThat_ok h3
          obtain ⟨_, h3⟩ := assertThat_ok h3
          split at h3
          · cases h3
          · obtain ⟨_, h3⟩ := assertThat_ok h3
            cases h3
            exact (Engine.sinksUnlinked_combineRegion _ _ _ _).2 hi2
        · cases h3; exact hi2
      split at h
      · obtain ⟨_, h⟩ := assertThat_ok h
        obtain ⟨_, h⟩ := assertThat_ok h
        obtain ⟨_, h⟩ := assertThat_ok h
        obtain ⟨_, h⟩ := assertThat_ok h
        obtain ⟨_, h⟩ := assertThat_ok h
        obtain ⟨_, h⟩ := assertThat_ok h
        split at h
        · cases h
        · cases h
          simp only [Engine.sinksUnlinked_ite]
          split
          · exact Engine.sinksUnlinked_of_tasks rfl
              ((Engine.sinksUnlinked_combineRegion _ _ _ _).2 hi3)
          · exact (Engine.sinksUnlinked_combineRegion _ _ _ _).2 hi3
      · cases h; exact hi3

theorem handlePropagation_keeps (i u : DataAccessStatusEffects) (access : DataAccess)
    (r : AccessRef) (e e1 : Engine) (h : handlePropagation i u access r e = .ok e1)
    (hi : e.sinksUnlinked) : e1.sinksUnlinked := by
  unfold handlePropagation at h
  dsimp only at h
  split at h
  · cases h
  · next e2 h2 =>
    have hi2 : e2.sinksUnlinked := by
      split at h2
      · obtain ⟨_, h2⟩ := assertThat_ok h2
        cases h2; exact hi
      · cases h2; exact hi
    split at h
    · cases h
    · next e3 h3 =>
      have hi3 : e3.sinksUnlinked := by
        split at h3
        · cases h3; exact hi2
        · split at h3
          · cases h3
          · cases h3
            have hi4 : (if i.propagatesDataReleaseStepToNext ≠ u.propagatesDataReleaseStepToNext
                then e2.modifyAccess r fun a => { a with dataReleaseStep := none }
                else e2).sinksUnlinked := by
              split
              · exact Engine.sinksUnlinked_modifyAccess _ _
                  (fun a ha => kindOk_congr (a := a) rfl rfl ha) hi2
              · exact hi2
            split
            · exact hi4
            · exact hi4
      split at h
      · split at h
        · cases h
        · cases h
          split
          · exact hi3
          · exact hi3
      · cases h; exact hi3

theorem handleBottomMapUpdate_keeps (handle : Handler) (hh : handle.keepsSinksUnlinked)
    (i u : DataAccessStatusEffects) (access : DataAccess) (task : Nat) (e e1 : Engine)
    (h : handleBottomMapUpdate handle i u access task e = .ok e1) (hi : e.sinksUnlinked) :
    e1.sinksUnlinked := by
  unfold handleBottomMapUpdate at h
  split at h
  · obtain ⟨_, h⟩ := assertThat_ok h
    exact processBottomMapUpdate_keeps handle hh _ _ _ _ h hi
  · cases h; exact hi

theorem handleTriggers_keeps (i u : DataAccessStatusEffects) (access : DataAccess)
    (r : AccessRef) (e e1 : Engine) (h : handleTriggers i u access r e = .ok e1)
    (hi : e.sinksUnlinked) : e1.sinksUnlinked := by
  unfold handleTriggers at h
  dsimp only at h
  split at h
  · cases h
  · next e2 h2 =>
    have hi2 : e2.sinksUnlinked := by
      split at h2
      · obtain ⟨_, h2⟩ := assertThat_ok h2
        obtain ⟨_, h2⟩ := assertThat_ok h2
        obtain ⟨_, h2⟩ := assertThat_ok h2
        obtain ⟨_, h2⟩ := assertThat_ok h2
        obtain ⟨_, h2⟩ := assertThat_ok h2
        obtain ⟨_, h2⟩ := assertThat_ok h2
        obtain ⟨_, h2⟩ := assertThat_ok h2
        cases h2; exact hi
      · cases h2; exact hi
    split at h
    · cases h
    · next e3 h3 =>
      have hi3 : e3.sinksUnlinked := by
        split at h3
        · obtain ⟨_, h3⟩ := assertThat_ok h3
          split at h3
          · cases h3
          · cases h3
            exact Engine.sinksUnlinked_of_tasks rfl (Engine.sinksUnlinked_modifyAccess _ _
              (fun a ha => kindOk_congr (a := a) rfl rfl ha) hi2)
        · cases h3; exact hi2
      split at h
      · split at h
        · cases h
        · cases h
          split
          · exact Engine.sinksUnlinked_modifyAccess _ _
              (fun a ha => kindOk_congr (a := a) rfl rfl ha)
              (Engine.sinksUnlinked_of_tasks rfl hi3)
          · exact Engine.sinksUnlinked_of_tasks rfl hi3
      · cases h; exact hi3

theorem handleRemoval_keeps (handle : Handler) (hh : handle.keepsSinksUnlinked)
    (i u : DataAccessStatusEffects) (access : DataAccess) (r : AccessRef) (e e1 : Engine)
    (h : handleRemoval handle i u access r e = .ok e1) (hi : e.sinksUnlinked) :
    e1.sinksUnlinked := by
  unfold handleRemoval at h
  split at h
  · obtain ⟨_, h⟩ := assertThat_ok h
    obtain ⟨_, h⟩ := assertThat_ok h
    dsimp only at h
    have hi1 : ((e.modifyDataAccesses r.task fun s =>
        { s with removalBlockers := s.removalBlockers - 1 }).modifyAccess r
          fun a => { a with discounted := true }).sinksUnlinked :=
      Engine.sinksUnlinked_modifyAccess _ _ (fun a ha => kindOk_congr (a := a) rfl rfl ha)
        (by simp [hi])
    split at h
    · cases h
    · next e2 h2 =>
      have hi2 : e2.sinksUnlinked := by
        split at h2
        · split at h2
          · cases h2
          · next e3 h3 =>
            have hi3 : e3.sinksUnlinked := by
              split at h3
              · refine forEachRef_keeps _ (fun a e e1 h hi => ?_) _ _ _ h3 hi1
                split at h
                · cases h
                · obtain ⟨_, h⟩ := assertThat_ok h
                  obtain ⟨_, h⟩ := assertThat_ok h
                  obtain ⟨_, h⟩ := assertThat_ok h
                  obtain ⟨_, h⟩ := assertThat_ok h
                  obtain ⟨_, h⟩ := assertThat_ok h
                  obtain ⟨_, h⟩ := assertThat_ok h
                  cases h
                  exact Engine.sinksUnlinked_modifyAccess _ _
                    (fun a ha => kindOk_congr (a := a) rfl rfl ha) hi
              · cases h3; exact hi1
            obtain ⟨_, h2⟩ := assertThat_ok h2
            split at h2
            · cases h2
              split <;> simp [hi3]
            · cases h2; simp [hi3]
        · cases h2; exact hi1
      split at h
      · cases h
      · next e3 h3 =>
        have hi3 : e3.sinksUnlinked := by
          split at h3
          · cases h3; exact hi2
          · split at h3
            · exact removeBottomMapTaskwaitOrTopLevelSink_keeps handle hh _ _ _ h3 hi2
            · obtain ⟨_, h3⟩ := assertThat_ok h3
              cases h3
              exact Engine.sinksUnlinked_of_tasks rfl (Engine.sinksUnlinked_eraseAccess r hi2)
        split at h
        · cases h
          split <;> simp [hi3]
        · cases h; exact hi3
  · cases h; exact hi

theorem handleDataAccessStatusChangesBody_keeps (handle : Handler)
    (hh : handle.keepsSinksUnlinked) :
    (handleDataAccessStatusChangesBody handle).keepsSinksUnlinked := by
  intro i u r e e1 h hi
  unfold handleDataAccessStatusChangesBody at h
  split at h
  · cases h
  · split at h
    · cases h
    · next e2 h2 =>
      have hi2 := handleRegistration_keeps _ _ _ _ _ _ h2 hi
      split at h
      · cases h; exact hi2
      · obtain ⟨_, h⟩ := assertThat_ok h
        obtain ⟨_, h⟩ := assertThat_ok h
        split at h
        · cases h
        · next e3 h3 =>
          have hi3 := handleDependencyUpdate_keeps _ _ _ _ _ h3 hi2
          split at h
          · cases h
          · next e4 h4 =>
            have hi4 := handleReductionChanges_keeps _ _ _ _ _ h4 hi3
            split at h
            · cases h
            · next e5 h5 =>
              have hi5 := handlePropagation_keeps _ _ _ _ _ _ h5 hi4
              split at h
              · cases h
              · next e6 h6 =>
                have hi6 := handleBottomMapUpdate_keeps handle hh _ _ _ _ _ _ h6 hi5
                split at h
                · cases h
                · split at h
                  · cases h
                  · next e7 h7 =>
                    have hi7 := handleTriggers_keeps _ _ _ _ _ _ h7 hi6
                    split at h
                    · cases h
                    · exact handleRemoval_keeps handle hh _ _ _ _ _ _ h hi7

theorem handleDataAccessStatusChanges_keeps (depth : Nat) :
    (handleDataAccessStatusChanges depth).keepsSinksUnlinked := by
  induction depth with
  | zero => intro i u r e e1 h _; cases h
  | succ depth ih => exact handleDataAccessStatusChangesBody_keeps _ ih

theorem applyUpdateOperationBits_kind (e : Engine) (op : UpdateOperation) (a b : DataAccess)
    (h : applyUpdateOperationBits e op a = .ok b) :
    b.objectType = a.objectType ∧ b.next = a.next := by
  unfold applyUpdateOperationBits at h
  dsimp only at h
  generalize hg : (if op.makeReadSatisfied = true then a.setReadSatisfied op.location else a)
    = a1 at h
  have k1 : a1.objectType = a.objectType ∧ a1.next = a.next := by
    subst hg; split <;> exact ⟨rfl, rfl⟩
  clear hg
  generalize (if op.releaseStep.isSome = true then op.releaseStep else a1.dataReleaseStep)
    = step at h
  split at h
  · cases h
  · next a3 h3 =>
    have k3 : a3.objectType = a.objectType ∧ a3.next = a.next := by
      split at h3
      · split at h3
        · obtain ⟨_, h3⟩ := assertThat_ok h3
          obtain ⟨_, h3⟩ := assertThat_ok h3
          cases h3
          exact k1
        · split at h3 <;> cases h3 <;> exact k1
      · cases h3
        exact k1
    split at h
    · cases h
    · next a4 h4 =>
      have k4 : a4.objectType = a.objectType ∧ a4.next = a.next := by
        split at h4
        · obtain ⟨_, h4⟩ := assertThat_ok h4
          obtain ⟨_, h4⟩ := assertThat_ok h4
          cases h4
          exact k3
        · cases h4; exact k3
      cases h
      exact k4

theorem applyUpdateOperationOnAccess_keeps (handle : Handler) (hh : handle.keepsSinksUnlinked)
    (op : UpdateOperation) (r : AccessRef) (e e1 : Engine)
    (h : applyUpdateOperationOnAccess handle op r e = .ok e1) (hi : e.sinksUnlinked) :
    e1.sinksUnlinked := by
  unfold applyUpdateOperationOnAccess at h
  split at h
  · cases h
  · next e2 h2 =>
    have hi2 := fragmentAccess_keeps handle hh _ _ _ _ h2 hi
    obtain ⟨a, ha, _, h⟩ := withStatusEffects_ok h
    split at h
    · cases h
    · next updated hu =>
      obtain ⟨_, _, _, h⟩ := withStatusEffects_ok h
      obtain ⟨k1, k2⟩ := applyUpdateOperationBits_kind _ _ _ _ hu
      exact hh _ _ _ _ _ h (Engine.sinksUnlinked_modifyAccess _ _
        (fun _ _ => kindOk_congr k1 k2 (Engine.kindOk_of_findAccess hi2 ha)) hi2)

theorem processUpdateOperation_keeps (handle : Handler) (hh : handle.keepsSinksUnlinked)
    (op : UpdateOperation) (e e1 : Engine)
    (h : processUpdateOperation handle op e = .ok e1) (hi : e.sinksUnlinked) :
    e1.sinksUnlinked := by
  unfold processUpdateOperation at h
  obtain ⟨_, h⟩ := assertThat_ok h
  exact forEachRef_keeps _ (applyUpdateOperationOnAccess_keeps handle hh op) _ _ _ h hi

theorem processDelayedOperations_keeps (handle : Handler) (hh : handle.keepsSinksUnlinked)
    (steps : Nat) (e e1 : Engine)
    (h : processDelayedOperations handle steps e = .ok e1) (hi : e.sinksUnlinked) :
    e1.sinksUnlinked := by
  induction steps generalizing e with
  | zero =>
    unfold processDelayedOperations at h
    split at h
    · cases h; exact hi
    · cases h
  | succ steps ih =>
    unfold processDelayedOperations at h
    split at h
    · cases h; exact hi
    · split at h
      · cases h
      · next e2 h2 =>
        exact ih _ h ((Engine.sinksUnlinked_modifyHp _ _).2
          (processUpdateOperation_keeps handle hh _ _ _ h2 hi))

theorem Engine.sinksUnlinked_addAndEvaluateTask (e : Engine) (task : Nat) :
    (addAndEvaluateTask e task).1.sinksUnlinked ↔ e.sinksUnlinked := by
  unfold addAndEvaluateTask
  dsimp only
  split <;> rfl

theorem Engine.sinksUnlinked_reevaluateWaiting (l : List Nat) (e : Engine) :
    (reevaluateWaiting l e).sinksUnlinked ↔ e.sinksUnlinked := by
  induction l generalizing e with
  | nil => rfl
  | cons t rest ih =>
    unfold reevaluateWaiting
    dsimp only
    rw [ih]
    split
    · exact (Engine.sinksUnlinked_modifyHp _ _).trans
        (Engine.sinksUnlinked_addAndEvaluateTask e t)
    · exact Engine.sinksUnlinked_addAndEvaluateTask e t

theorem Engine.sinksUnlinked_evaluateCommutativeOriginators (l : List Nat) (e : Engine) :
    (evaluateCommutativeOriginators l e).sinksUnlinked ↔ e.sinksUnlinked := by
  induction l generalizing e with
  | nil => rfl
  | cons t rest ih =>
    unfold evaluateCommutativeOriginators
    dsimp only
    rw [ih]
    split
    · exact (Engine.sinksUnlinked_modifyHp _ _).trans
        (Engine.sinksUnlinked_addAndEvaluateTask e t)
    · exact Engine.sinksUnlinked_addAndEvaluateTask e t

theorem Engine.sinksUnlinked_processReleasedCommutativeRegions (e : Engine) :
    (processReleasedCommutativeRegions e).sinksUnlinked ↔ e.sinksUnlinked := by
  unfold processReleasedCommutativeRegions scoreboardProcessReleasedCommutativeRegions
  split
  · exact (Engine.sinksUnlinked_reevaluateWaiting _ _).trans Iff.rfl
  · rfl

theorem Engine.sinksUnlinked_processSatisfiedCommutativeOriginators (e : Engine) :
    (processSatisfiedCommutativeOriginators e).sinksUnlinked ↔ e.sinksUnlinked := by
  unfold processSatisfiedCommutativeOriginators
  split
  · rw [Engine.sinksUnlinked_modifyHp]
    exact Engine.sinksUnlinked_evaluateCommutativeOriginators _ _
  · rfl

theorem Engine.sinksUnlinked_processSatisfiedOriginators (cp : Option ComputePlace) (b : Bool)
    (e : Engine) : (processSatisfiedOriginators cp b e).sinksUnlinked ↔ e.sinksUnlinked := by
  have h : (processSatisfiedOriginators cp b e).tasks
      = (processSatisfiedCommutativeOriginators e).tasks := rfl
  unfold Engine.sinksUnlinked
  rw [h]
  exact Engine.sinksUnlinked_processSatisfiedCommutativeOriginators e

theorem drainStep_keeps (handle : Handler) (hh : handle.keepsSinksUnlinked) (steps : Nat)
    (cp : Option ComputePlace) (b : Bool) (e e1 : Engine)
    (h : processDelayedOperationsSatisfiedOriginatorsAndRemovableTasks handle steps cp b e
      = .ok e1) (hi : e.sinksUnlinked) : e1.sinksUnlinked := by
  unfold processDelayedOperationsSatisfiedOriginatorsAndRemovableTasks at h
  split at h
  · cases h
  · next e2 h2 =>
    have hi2 := processDelayedOperations_keeps handle hh _ _ _ h2
      ((Engine.sinksUnlinked_processReleasedCommutativeRegions e).2 hi)
    split at h
    · cases h
    · next e3 h3 =>
      unfold handleCompletedTaskwaits at h3
      obtain ⟨_, h3⟩ := assertThat_ok h3
      cases h3
      obtain ⟨_, h⟩ := assertThat_ok h
      cases h
      have hi3 : ({ e2 with
          taskwaitWorkflows := e2.taskwaitWorkflows ++ e2.hpDependencyData.completedTaskwaits
          hpDependencyData := { e2.hpDependencyData with completedTaskwaits := [] } }
          : Engine).sinksUnlinked := hi2
      exact Engine.sinksUnlinked_of_tasks rfl
        ((Engine.sinksUnlinked_processSatisfiedOriginators cp b _).2 hi3)

theorem forEachMatch_keeps {P : Engine → Prop}
    (process : RegionMatch → Engine → Except Failure Engine)
    (hp : ∀ r e e1, process r e = .ok e1 → P e → P e1)
    (refs : List RegionMatch) (e e1 : Engine) (h : forEachMatch process refs e = .ok e1)
    (hi : P e) : P e1 := by
  induction refs generalizing e with
  | nil => simp only [forEachMatch, Except.ok.injEq] at h; exact h ▸ hi
  | cons r rest ih =>
    simp only [forEachMatch] at h
    split at h
    · cases h
    · next e2 h2 => exact ih e2 h (hp r e e2 h2 hi)

theorem TaskDataAccesses.sinksUnlinked_insert {s : TaskDataAccesses}
    (k : DataAccessObjectType) (x : DataAccess) (hx : kindOk k x) (hs : s.sinksUnlinked) :
    (s.setIndex k (insertAccess x (s.index k))).sinksUnlinked :=
  TaskDataAccesses.sinksUnlinked_setIndex k _
    (fun a ha => by
      rcases (mem_insertAccess x a _).1 ha with ha | ha
      · exact ha ▸ hx
      · exact hs k a ha) hs

theorem createInitialFragment_keeps (parent : Nat) (superaccess : AccessRef)
    (subregion : DataAccessRegion) (e e1 : Engine)
    (h : createInitialFragment parent superaccess subregion e = .ok e1)
    (hi : e.sinksUnlinked) : e1.sinksUnlinked := by
  unfold createInitialFragment at h
  split at h
  · cases h
  · obtain ⟨_, h⟩ := assertThat_ok h
    cases h
    refine Engine.sinksUnlinked_modifyDataAccesses_index _ _ (fun s k => by cases k <;> rfl) ?_
    refine Engine.sinksUnlinked_modifyAccess _ _
      (fun a ha => kindOk_congr (a := a) rfl rfl ha) ?_
    exact Engine.sinksUnlinked_modifyDataAccesses _ _
      (fun s hs => TaskDataAccesses.sinksUnlinked_insert fragment_type _ rfl hs) hi

theorem processBottomMapMatch_keeps (handle : Handler) (hh : handle.keepsSinksUnlinked)
    (parent : Nat) (region : DataAccessRegion)
    (matchingProcessor : AccessRef → BottomMapEntryContents → Engine → Except Failure Engine)
    (hp : ∀ r c e e1, matchingProcessor r c e = .ok e1 → e.sinksUnlinked → e1.sinksUnlinked)
    (entryRegion : DataAccessRegion) (e e1 : Engine)
    (h : processBottomMapMatch handle parent region matchingProcessor entryRegion e = .ok e1)
    (hi : e.sinksUnlinked) : e1.sinksUnlinked := by
  unfold processBottomMapMatch at h
  dsimp only at h
  split at h
  · cases h
  · obtain ⟨_, h⟩ := assertThat_ok h
    split at h
    · cases h
    · next e2 h2 =>
      cases h
      refine Engine.sinksUnlinked_modifyDataAccesses_index _ _
        (fun s k => by cases k <;> rfl) ?_
      refine followLink_keeps handle hh _ _ _ (fun r e e1 h hi => ?_) _ _ h2 hi
      split at h
      · cases h
      · obtain ⟨_, h⟩ := assertThat_ok h
        obtain ⟨_, h⟩ := assertThat_ok h
        exact hp _ _ _ _ h hi

theorem processBottomMapHole_keeps (handle : Handler) (hh : handle.keepsSinksUnlinked)
    (parent : Nat)
    (matchingProcessor : AccessRef → BottomMapEntryContents → Engine → Except Failure Engine)
    (hp : ∀ r c e e1, matchingProcessor r c e = .ok e1 → e.sinksUnlinked → e1.sinksUnlinked)
    (missingProcessor : DataAccessRegion → Engine → Except Failure Engine)
    (hm : ∀ r e e1, missingProcessor r e = .ok e1 → e.sinksUnlinked → e1.sinksUnlinked)
    (missingRegion : DataAccessRegion) (e e1 : Engine)
    (h : processBottomMapHole handle parent matchingProcessor missingProcessor missingRegion e
      = .ok e1) (hi : e.sinksUnlinked) : e1.sinksUnlinked := by
  refine forEachMatch_keeps _ (fun m e e1 h hi => ?_) _ _ _ h hi
  split at h
  · dsimp only at h
    split at h
    · cases h
    · next e2 h2 =>
      have hi2 := createInitialFragment_keeps _ _ _ _ _ h2 hi
      obtain ⟨_, _, _, h⟩ := withStatusEffects_ok h
      split at h
      · cases h
      · next e3 h3 =>
        have hi4 := withLocalDependencyData_keeps 1937 _ Engine.sinksUnlinked_hp
          (fun e e1 h hi => hh _ _ _ _ _ h hi) _ _ h3
          (Engine.sinksUnlinked_modifyAccess _ _
            (fun a ha => kindOk_congr (a := a) rfl rfl ha) hi2)
        split at h
        · cases h
        · next e4 h4 =>
          exact hp _ _ _ _ h (fragmentAccess_keeps handle hh _ _ _ _ h4 hi4)
  · exact hm _ _ _ h hi

theorem foreachBottomMapMatchPossiblyCreatingInitialFragmentsAndMissingRegion_keeps
    (handle : Handler) (hh : handle.keepsSinksUnlinked) (parent : Nat)
    (region : DataAccessRegion)
    (matchingProcessor : AccessRef → BottomMapEntryContents → Engine → Except Failure Engine)
    (hp : ∀ r c e e1, matchingProcessor r c e = .ok e1 → e.sinksUnlinked → e1.sinksUnlinked)
    (missingProcessor : DataAccessRegion → Engine → Except Failure Engine)
    (hm : ∀ r e e1, missingProcessor r e = .ok e1 → e.sinksUnlinked → e1.sinksUnlinked)
    (e e1 : Engine)
    (h : foreachBottomMapMatchPossiblyCreatingInitialFragmentsAndMissingRegion handle parent
      region matchingProcessor missingProcessor e = .ok e1)
    (hi : e.sinksUnlinked) : e1.sinksUnlinked := by
  refine forEachMatch_keeps _ (fun m e e1 h hi => ?_) _ _ _ h hi
  split at h
  · exact processBottomMapMatch_keeps handle hh _ _ _ hp _ _ _ h hi
  · exact processBottomMapHole_keeps handle hh _ _ hp _ hm _ _ _ h hi

theorem allocateAndHandle_keeps (handle : Handler) (hh : handle.keepsSinksUnlinked)
    (dataAccess : AccessRef) (e e1 : Engine)
    (h : allocateAndHandle handle dataAccess e = .ok e1) (hi : e.sinksUnlinked) :
    e1.sinksUnlinked := by
  unfold allocateAndHandle at h
  obtain ⟨_, _, _, h⟩ := withStatusEffects_ok h
  split at h
  · cases h
  · next e2 h2 =>
    have hi2 : e2.sinksUnlinked := by
      unfold allocateReductionInfo at h2
      split at h2
      · cases h2
      · obtain ⟨_, h2⟩ := assertThat_ok h2
        cases h2
        exact Engine.sinksUnlinked_modifyAccess _ _
          (fun a ha => kindOk_congr (a := a) rfl rfl ha) (Engine.sinksUnlinked_of_tasks rfl hi)
    obtain ⟨_, _, _, h⟩ := withStatusEffects_ok h
    exact hh _ _ _ _ _ h (Engine.sinksUnlinked_of_tasks rfl hi2)

theorem linkMatchingProcessor_keeps (handle : Handler) (hh : handle.keepsSinksUnlinked)
    (next : DataAccessLink) (dataAccess : AccessRef) (region : DataAccessRegion)
    (previous : AccessRef) (c : BottomMapEntryContents) (e e1 : Engine)
    (h : linkMatchingProcessor handle next dataAccess region previous c e = .ok e1)
    (hi : e.sinksUnlinked) : e1.sinksUnlinked := by
  unfold linkMatchingProcessor at h
  split at h
  · obtain ⟨_, h⟩ := assertThat_ok h
    obtain ⟨_, h⟩ := assertThat_ok h
    obtain ⟨_, h⟩ := assertThat_ok h
    dsimp only at h
    split at h
    · cases h
    · next e2 h2 =>
      have hi2 : e2.sinksUnlinked := by
        split at h2
        · split at h2
          · exact allocateAndHandle_keeps handle hh _ _ _ h2 (Engine.sinksUnlinked_of_tasks rfl hi)
          · split at h2
            · cases h2; exact Engine.sinksUnlinked_of_tasks rfl hi
            · split at h2
              · exact allocateAndHandle_keeps handle hh _ _ _ h2
                  (Engine.sinksUnlinked_of_tasks rfl hi)
              · cases h2; exact Engine.sinksUnlinked_of_tasks rfl hi
        · cases h2; exact Engine.sinksUnlinked_of_tasks rfl hi
      unfold assertSameLocality at h
      obtain ⟨_, h⟩ := assertThat_ok h
      obtain ⟨_, h⟩ := assertThat_ok h
      obtain ⟨_, _, _, h⟩ := withStatusEffects_ok h
      dsimp only at h
      split at h
      · cases h
      · next e4 h4 =>
        have hi4 : e4.sinksUnlinked := by
          split at h4
          · split at h4
            · cases h4
              exact Engine.sinksUnlinked_modifyAccess _ _
                (fun a ha => kindOk_congr (a := a) rfl rfl ha)
                (Engine.sinksUnlinked_of_tasks rfl hi2)
            · obtain ⟨_, h4⟩ := assertThat_ok h4
              cases h4
              exact Engine.sinksUnlinked_of_tasks rfl hi2
          · cases h4; exact Engine.sinksUnlinked_of_tasks rfl hi2
        obtain ⟨a1, hfind, hok, h⟩ := withStatusEffects_ok h
        exact hh _ _ _ _ _ h
          (Engine.sinksUnlinked_modifyAccess_link previous _ (some next) (fun _ => rfl)
            (fun _ => rfl) (fun _ => rfl) hi4 hfind hok)
  · cases h

theorem linkMissingProcessor_keeps (handle : Handler) (hh : handle.keepsSinksUnlinked)
    (next : DataAccessLink) (dataAccess : AccessRef) (parent : Nat)
    (missingRegion : DataAccessRegion) (e e1 : Engine)
    (h : linkMissingProcessor handle next dataAccess parent missingRegion e = .ok e1)
    (hi : e.sinksUnlinked) : e1.sinksUnlinked := by
  unfold linkMissingProcessor at h
  obtain ⟨_, h⟩ := assertThat_ok h
  unfold assertSameLocality at h
  obtain ⟨_, h⟩ := assertThat_ok h
  refine forEachRef_keeps _ (fun r e e1 h hi => ?_) _ _ _ h (Engine.sinksUnlinked_of_tasks rfl hi)
  split at h
  · obtain ⟨_, h⟩ := assertThat_ok h
    dsimp only at h
    split at h
    · cases h
    · next e2 h2 =>
      have hi2 : e2.sinksUnlinked := by
        split at h2
        · exact allocateAndHandle_keeps handle hh _ _ _ h2 hi
        · cases h2; exact hi
      split at h
      · cases h
      · next e3 h3 =>
        have hi3 := fragmentAccess_keeps handle hh _ _ _ _ h3 hi2
        obtain ⟨_, _, _, h⟩ := withStatusEffects_ok h
        obtain ⟨_, _, _, h⟩ := withStatusEffects_ok h
        refine hh _ _ _ _ _ h (Engine.sinksUnlinked_modifyAccess _ _ (fun a ha => ?_) hi3)
        refine kindOk_congr (a := a) ?_ ?_ ha
        · dsimp only; split <;> rfl
        · dsimp only; split <;> rfl
  · cases h

theorem Engine.sinksUnlinked_foldl_modifyAccess (f : DataAccess → DataAccess)
    (hf : ∀ k a, kindOk k a → kindOk k (f a)) (l : List AccessRef) (e : Engine)
    (hi : e.sinksUnlinked) :
    (l.foldl (fun e r => e.modifyAccess r f) e).sinksUnlinked := by
  induction l generalizing e with
  | nil => exact hi
  | cons r rest ih =>
    exact ih _ (Engine.sinksUnlinked_modifyAccess r f (fun a ha => hf _ a ha) hi)

theorem replaceMatchingInBottomMapLinkAndPropagate_keeps (handle : Handler)
    (hh : handle.keepsSinksUnlinked) (next : DataAccessLink) (dataAccess : AccessRef)
    (parent : Nat) (e e1 : Engine)
    (h : replaceMatchingInBottomMapLinkAndPropagate handle next dataAccess parent e = .ok e1)
    (hi : e.sinksUnlinked) : e1.sinksUnlinked := by
  unfold replaceMatchingInBottomMapLinkAndPropagate at h
  split at h
  · cases h
  · dsimp only at h
    split at h
    · cases h
    · next e2 h2 =>
      have hi2 := foreachBottomMapMatchPossiblyCreatingInitialFragmentsAndMissingRegion_keeps
        handle hh _ _ _ (linkMatchingProcessor_keeps handle hh _ _ _) _
        (linkMissingProcessor_keeps handle hh _ _ _) _ _ h2
        (Engine.sinksUnlinked_of_tasks rfl hi)
      cases h
      have key : ∀ x : Engine, x.sinksUnlinked → ({ x with linking := {} } : Engine).sinksUnlinked :=
        fun _ hx => hx
      refine Engine.sinksUnlinked_modifyDataAccesses_index _ _
        (fun s k => by cases k <;> rfl) (key _ ?_)
      split
      · refine Engine.sinksUnlinked_foldl_modifyAccess _ ?_ _ _ hi2
        exact fun k a ha => kindOk_congr (a := a) rfl rfl ha
      · exact hi2

theorem linkTaskAccess_keeps (handle : Handler) (hh : handle.keepsSinksUnlinked)
    (task parent : Nat) (dataAccess : AccessRef) (e e1 : Engine)
    (h : linkTaskAccess handle task parent dataAccess e = .ok e1) (hi : e.sinksUnlinked) :
    e1.sinksUnlinked := by
  unfold linkTaskAccess at h
  split at h
  · cases h
  · obtain ⟨_, h⟩ := assertThat_ok h
    obtain ⟨_, _, _, h⟩ := withStatusEffects_ok h
    obtain ⟨_, _, _, h⟩ := withStatusEffects_ok h
    split at h
    · cases h
    · next e2 h2 =>
      exact replaceMatchingInBottomMapLinkAndPropagate_keeps handle hh _ _ _ _ _ h
        (hh _ _ _ _ _ h2 (Engine.sinksUnlinked_modifyAccess _ _
          (fun a ha => kindOk_congr (a := a) rfl rfl ha) hi))

theorem linkTaskAccesses_keeps (handle : Handler) (hh : handle.keepsSinksUnlinked)
    (task : Nat) (e e1 : Engine) (h : linkTaskAccesses handle task e = .ok e1)
    (hi : e.sinksUnlinked) : e1.sinksUnlinked := by
  unfold linkTaskAccesses at h
  split at h
  · cases h; exact hi
  · split at h
    · cases h
    · exact forEachRef_keeps _ (linkTaskAccess_keeps handle hh _ _) _ _ _ h hi

theorem finalizeFragments_keeps (handle : Handler) (hh : handle.keepsSinksUnlinked)
    (task : Nat) (e e1 : Engine) (h : finalizeFragments handle task e = .ok e1)
    (hi : e.sinksUnlinked) : e1.sinksUnlinked := by
  refine forEachRef_keeps _ (fun r e e1 h hi => ?_) _ _ _ h hi
  split at h
  · cases h
  · obtain ⟨_, h⟩ := assertThat_ok h
    split at h
    · cases h; exact hi
    · obtain ⟨_, _, _, h⟩ := withStatusEffects_ok h
      obtain ⟨_, _, _, h⟩ := withStatusEffects_ok h
      exact hh _ _ _ _ _ h (Engine.sinksUnlinked_modifyAccess _ _
        (fun a ha => kindOk_congr (a := a) rfl rfl ha) hi)

theorem applyToAccessAndFragments_keeps (handle : Handler) (hh : handle.keepsSinksUnlinked)
    (dataAccess : AccessRef) (region : DataAccessRegion)
    (processor : AccessRef → Engine → Except Failure Engine)
    (hp : ∀ r e e1, processor r e = .ok e1 → e.sinksUnlinked → e1.sinksUnlinked)
    (e e1 : Engine) (h : applyToAccessAndFragments handle dataAccess region processor e = .ok e1)
    (hi : e.sinksUnlinked) : e1.sinksUnlinked := by
  unfold applyToAccessAndFragments at h
  split at h
  · cases h
  · next e2 h2 =>
    have hi2 := fragmentAccess_keeps handle hh _ _ _ _ h2 hi
    split at h
    · cases h
    · dsimp only at h
      split at h
      · cases h
      · next e3 h3 =>
        have hi3 := hp _ _ _ h3 hi2
        split at h
        · refine forEachRef_keeps _ (fun r e e1 h hi => ?_) _ _ _ h hi3
          split at h
          · cases h
          · obtain ⟨_, h⟩ := assertThat_ok h
            split at h
            · cases h
            · next e4 h4 =>
              exact hp _ _ _ h (fragmentAccess_keeps handle hh _ _ _ _ h4 hi)
        · cases h; exact hi3

theorem finalizeAccess_keeps (handle : Handler) (hh : handle.keepsSinksUnlinked)
    (finishedTask : Nat) (dataAccess : AccessRef) (region : DataAccessRegion)
    (location : Option Nat) (e e1 : Engine)
    (h : finalizeAccess handle finishedTask dataAccess region location e = .ok e1)
    (hi : e.sinksUnlinked) : e1.sinksUnlinked := by
  unfold finalizeAccess at h
  split at h
  · cases h
  · obtain ⟨_, h⟩ := assertThat_ok h
    obtain ⟨_, h⟩ := assertThat_ok h
    obtain ⟨_, h⟩ := assertThat_ok h
    split at h
    · cases h; exact hi
    · obtain ⟨_, h⟩ := assertThat_ok h
      refine applyToAccessAndFragments_keeps handle hh _ _ _ (fun r e e1 h hi => ?_) _ _ h hi
      obtain ⟨_, _, _, h⟩ := withStatusEffects_ok h
      obtain ⟨_, h⟩ := assertThat_ok h
      obtain ⟨_, h⟩ := assertThat_ok h
      obtain ⟨_, _, _, h⟩ := withStatusEffects_ok h
      exact hh _ _ _ _ _ h (Engine.sinksUnlinked_modifyAccess _ _
        (fun a ha => kindOk_congr (a := a) rfl rfl ha) hi)

theorem linkPreviousToSink_keeps (handle : Handler) (hh : handle.keepsSinksUnlinked)
    (previous : DataAccessLink) (region : DataAccessRegion) (closes : DataAccess → Bool)
    (next : DataAccessLink) (e e1 : Engine)
    (h : linkPreviousToSink handle previous region closes next e = .ok e1)
    (hi : e.sinksUnlinked) : e1.sinksUnlinked := by
  refine followLink_keeps handle hh _ _ _ (fun r e e1 h hi => ?_) _ _ h hi
  obtain ⟨_, _, _, h⟩ := withStatusEffects_ok h
  obtain ⟨a1, hfind, hok, h⟩ := withStatusEffects_ok h
  exact hh _ _ _ _ _ h
    (Engine.sinksUnlinked_modifyAccess_link r _ (some next) (fun _ => rfl) (fun _ => rfl)
      (fun _ => rfl) hi hfind hok)

theorem statusEffectsAssertions_ok {α : Type} {e : Engine} {a : DataAccess}
    {rest : Except Failure α} {x : α} (h : statusEffectsAssertions e a rest = .ok x) :
    rest = .ok x := by
  unfold statusEffectsAssertions at h
  obtain ⟨_, h⟩ := assertThat_ok h
  obtain ⟨_, h⟩ := assertThat_ok h
  obtain ⟨_, h⟩ := assertThat_ok h
  obtain ⟨_, h⟩ := assertThat_ok h
  obtain ⟨_, h⟩ := assertThat_ok h
  exact h

theorem TaskDataAccesses.sinksUnlinked_of_mem {s s1 : TaskDataAccesses}
    (h : ∀ k a, a ∈ s1.index k → a ∈ s.index k ∨ kindOk k a) (hs : s.sinksUnlinked) :
    s1.sinksUnlinked := by
  intro k a ha
  rcases h k a ha with h | h
  · exact hs k a h
  · exact h

theorem createTaskwait_keeps (handle : Handler) (hh : handle.keepsSinksUnlinked) (task : Nat)
    (computePlace : Option ComputePlace) (e e1 : Engine)
    (h : createTaskwait handle task computePlace e = .ok e1) (hi : e.sinksUnlinked) :
    e1.sinksUnlinked := by
  unfold createTaskwait at h
  split at h
  · cases h; exact hi
  · dsimp only at h
    obtain ⟨_, h⟩ := assertThat_ok h
    refine forEachEntry_keeps _ (fun a e e1 h hi => ?_) _ _ _ h
      ((Engine.sinksUnlinked_increaseBlockingCount _ _).2 hi)
    split at h
    · cases h
    · have h := statusEffectsAssertions_ok h
      obtain ⟨_, _, _, h⟩ := withStatusEffects_ok h
      split at h
      · cases h
      · next e2 h2 =>
        refine linkPreviousToSink_keeps handle hh _ _ _ _ _ _ h (hh _ _ _ _ _ h2 ?_)
        refine Engine.sinksUnlinked_modifyDataAccesses _ _ (fun s hs => ?_) hi
        refine TaskDataAccesses.sinksUnlinked_of_mem (fun k x hx => ?_) hs
        cases k
        · exact Or.inl hx
        · exact Or.inl hx
        · rcases (mem_insertAccess _ x _).1 hx with hx | hx
          · exact Or.inr (hx ▸ ⟨Or.inl rfl, rfl⟩)
          · exact Or.inl hx
        · rcases (mem_insertAccess _ x _).1 hx with hx | hx
          · exact Or.inr (hx ▸ ⟨Or.inl rfl, rfl⟩)
          · exact Or.inl hx

theorem createTopLevelSink_keeps (handle : Handler) (hh : handle.keepsSinksUnlinked)
    (task : Nat) (e e1 : Engine) (h : createTopLevelSink handle task e = .ok e1)
    (hi : e.sinksUnlinked) : e1.sinksUnlinked := by
  refine forEachEntry_keeps _ (fun a e e1 h hi => ?_) _ _ _ h hi
  split at h
  · cases h
  · split at h
    · cases h; exact hi
    · dsimp only at h
      obtain ⟨_, h⟩ := assertThat_ok h
      have h := statusEffectsAssertions_ok h
      obtain ⟨_, _, _, h⟩ := withStatusEffects_ok h
      split at h
      · cases h
      · next e2 h2 =>
        refine linkPreviousToSink_keeps handle hh _ _ _ _ _ _ h (hh _ _ _ _ _ h2 ?_)
        refine Engine.sinksUnlinked_modifyDataAccesses _ _ (fun s hs => ?_) hi
        refine TaskDataAccesses.sinksUnlinked_of_mem (fun k x hx => ?_) hs
        cases k
        · exact Or.inl hx
        · exact Or.inl hx
        · rcases (mem_insertAccess _ x _).1 hx with hx | hx
          · exact Or.inr (hx ▸ ⟨Or.inr rfl, rfl⟩)
          · exact Or.inl hx
        · rcases (mem_insertAccess _ x _).1 hx with hx | hx
          · exact Or.inr (hx ▸ ⟨Or.inr rfl, rfl⟩)
          · exact Or.inl hx

theorem drain_keeps (fuel : Fuel) (cp : Option ComputePlace) (b : Bool) (e e1 : Engine)
    (h : drain fuel cp b e = .ok e1) (hi : e.sinksUnlinked) : e1.sinksUnlinked :=
  drainStep_keeps _ (handleDataAccessStatusChanges_keeps fuel.depth) _ _ _ _ _ h hi

theorem upgradeAccess_kindOk (a b : DataAccess) (t : DataAccessType) (w : Bool) (r : Int)
    (h : upgradeAccess a t w r = .ok b) (ha : kindOk access_type a) : kindOk access_type b := by
  unfold upgradeAccess at h
  obtain ⟨_, h⟩ := assertThat_ok h
  dsimp only at h
  split at h
  · obtain ⟨_, h⟩ := failIf_ok h
    split at h <;> cases h <;> exact ha
  · obtain ⟨_, h⟩ := failIf_ok h
    cases h; exact ha

theorem Except.map_ok {α β : Type} {f : α → β} {x : Except Failure α} {y : β}
    (h : x.map f = .ok y) : ∃ a, x = .ok a ∧ y = f a := by
  cases x with
  | error e => cases h
  | ok a => exact ⟨a, rfl, by cases h; rfl⟩

theorem upgradeMatching_kindOk (k : DataAccessRegion) (t : DataAccessType) (w : Bool) (r : Int)
    (s : Nat) (l l1 : List DataAccess) (h : upgradeMatching k t w r s l = .ok l1)
    (hl : ∀ a ∈ l, kindOk access_type a) : ∀ a ∈ l1, kindOk access_type a := by
  induction l generalizing l1 with
  | nil => cases h; exact hl
  | cons a rest ih =>
    unfold upgradeMatching at h
    split at h
    · split at h
      · cases h
      · next b hb =>
        obtain ⟨l0, h0, rfl⟩ := Except.map_ok h
        intro x hx
        rcases List.mem_cons.1 hx with hx | hx
        · subst hx
          exact kindOk_congr (a := b) rfl rfl
            (upgradeAccess_kindOk _ _ _ _ _ hb (hl a (List.mem_cons_self _ _)))
        · exact ih l0 h0 (fun y hy => hl y (List.mem_cons_of_mem _ hy)) x hx
    · obtain ⟨l0, h0, rfl⟩ := Except.map_ok h
      intro x hx
      rcases List.mem_cons.1 hx with hx | hx
      · subst hx; exact hl _ (List.mem_cons_self _ _)
      · exact ih l0 h0 (fun y hy => hl y (List.mem_cons_of_mem _ hy)) x hx

theorem fragmentIntersecting_kindOk (region : DataAccessRegion) (l : List DataAccess)
    (hl : ∀ a ∈ l, kindOk access_type a) :
    ∀ a ∈ fragmentIntersecting duplicateDataAccess region l, kindOk access_type a := by
  induction l with
  | nil => intro a ha; cases ha
  | cons b rest ih =>
    intro a ha
    unfold fragmentIntersecting at ha
    rcases List.mem_append.1 ha with ha | ha
    · split at ha
      · exact kindOk_fragmentPieces region (hl b (List.mem_cons_self _ _)) ha
      · rw [List.mem_singleton] at ha
        subst ha; exact hl _ (List.mem_cons_self _ _)
    · exact ih (fun y hy => hl y (List.mem_cons_of_mem _ hy)) a ha

theorem registerMatches_kindOk (task : Nat) (t : DataAccessType) (w : Bool) (r i : Int)
    (s : Nat) (ms : List RegionMatch) (l l1 : List DataAccess)
    (h : registerMatches task t w r i s ms l = .ok l1)
    (hl : ∀ a ∈ l, kindOk access_type a) : ∀ a ∈ l1, kindOk access_type a := by
  induction ms generalizing l with
  | nil => cases h; exact hl
  | cons m rest ih =>
    unfold registerMatches at h
    split at h
    · cases h
    · next updated hu =>
      refine ih updated h ?_
      unfold registerMatch at hu
      split at hu
      · exact upgradeMatching_kindOk _ _ _ _ _ _ _ hu hl
      · cases hu
        intro a ha
        rcases (mem_insertAccess _ a _).1 ha with ha | ha
        · subst ha; rfl
        · exact hl a ha

theorem registerTaskDataAccess_keeps (e e1 : Engine) (task : Nat) (t : DataAccessType)
    (w : Bool) (region : DataAccessRegion) (symbolIndex r i : Int)
    (h : registerTaskDataAccess e task t w region symbolIndex r i = .ok e1)
    (hi : e.sinksUnlinked) : e1.sinksUnlinked := by
  unfold registerTaskDataAccess at h
  split at h
  · cases h
  · next l hl =>
    cases h
    have hk : ∀ a ∈ l, kindOk access_type a := by
      unfold registerInAccesses at hl
      obtain ⟨_, hl⟩ := assertThat_ok hl
      exact registerMatches_kindOk _ _ _ _ _ _ _ _ _ hl
        (fragmentIntersecting_kindOk region _
          (Engine.sinksUnlinked_getTask hi task access_type))
    exact Engine.sinksUnlinked_modifyDataAccesses _ _
      (fun s hs => TaskDataAccesses.sinksUnlinked_setIndex access_type l hk hs) hi

theorem registerSequence_keeps (task : Nat) (ds : List AccessDeclaration) (e e1 : Engine)
    (h : registerSequence task ds e = .ok e1) (hi : e.sinksUnlinked) : e1.sinksUnlinked := by
  induction ds generalizing e with
  | nil => cases h; exact hi
  | cons d rest ih =>
    unfold registerSequence at h
    split at h
    · cases h
    · next e2 h2 => exact ih e2 h (registerTaskDataAccess_keeps _ _ _ _ _ _ _ _ _ h2 hi)

theorem registerTaskDataAccesses_keeps (fuel : Fuel) (task : Nat) (cp : ComputePlace)
    (e e1 : Engine) (ready : Bool)
    (h : registerTaskDataAccesses fuel task cp e = .ok (e1, ready)) (hi : e.sinksUnlinked) :
    e1.sinksUnlinked := by
  unfold registerTaskDataAccesses at h
  split at h
  · cases h
  · next e2 h2 =>
    have hi2 := registerSequence_keeps _ _ _ _ h2 hi
    split at h
    · dsimp only at h
      split at h
      · cases h
      · next e3 h3 =>
        have hi3 := linkTaskAccesses_keeps _ (handleDataAccessStatusChanges_keeps fuel.depth)
          _ _ _ h3 ((Engine.sinksUnlinked_increasePredecessors _ _ _).2 hi2)
        split at h
        · cases h
        · next e4 h4 =>
          have hi4 := (Engine.sinksUnlinked_decreasePredecessors e4 task 2).2
            (drain_keeps _ _ _ _ _ h4 hi3)
          split at h
          · obtain ⟨_, h⟩ := assertThat_ok h
            obtain ⟨_, h⟩ := assertThat_ok h
            have hi6 := (Engine.sinksUnlinked_processSatisfiedCommutativeOriginators _).2
              ((Engine.sinksUnlinked_modifyHp _
                (fun d => { d with satisfiedCommutativeOriginators := [task] })).2 hi4)
            split at h
            · obtain ⟨_, h⟩ := assertThat_ok h
              cases h
              exact hi6
            · cases h; exact hi6
          · cases h; exact hi4
    · cases h; exact hi2

theorem register_access_keeps (e e1 : Engine) (task : Nat) (d : AccessDeclaration)
    (h : register_access e task d = .ok e1) (hi : e.sinksUnlinked) : e1.sinksUnlinked := by
  unfold register_access at h
  split at h
  · cases h; exact hi
  · split at h
    · cases h; exact hi
    · exact registerTaskDataAccess_keeps _ _ _ _ _ _ _ _ _ h hi

theorem releaseReductionStorage_frame (finishedTask : Nat) (dataAccess : DataAccess)
    (region : DataAccessRegion) (cp : Option ComputePlace) (e e0 : Engine)
    (h : releaseReductionStorage finishedTask dataAccess region cp e = .ok e0) :
    e0.tasks = e.tasks ∧ e0.hpDependencyData = e.hpDependencyData := by
  unfold releaseReductionStorage at h
  split at h
  · cases h
  · obtain ⟨_, h⟩ := assertThat_ok h
    obtain ⟨_, h⟩ := assertThat_ok h
    split at h
    · obtain ⟨_, h⟩ := assertThat_ok h
      split at h
      · cases h
      · cases h; exact ⟨rfl, rfl⟩
    · cases h; exact ⟨rfl, rfl⟩

theorem releaseAccessRegion_keeps (fuel : Fuel) (task : Nat) (region : DataAccessRegion)
    (t : DataAccessType) (w : Bool) (cp : Option ComputePlace) (location : Option Nat)
    (e e1 : Engine) (h : releaseAccessRegion fuel task region t w cp location e = .ok e1)
    (hi : e.sinksUnlinked) : e1.sinksUnlinked := by
  have hh := handleDataAccessStatusChanges_keeps fuel.depth
  unfold releaseAccessRegion at h
  split at h
  · cases h
  · next e2 h2 =>
    refine drain_keeps _ _ _ _ _ h (forEachRef_keeps _ (fun r e e1 h hi => ?_) _ _ _ h2 hi)
    split at h
    · cases h
    · obtain ⟨_, h⟩ := assertThat_ok h
      obtain ⟨_, h⟩ := failIf_ok h
      split at h
      · cases h
      · next e0 h0 =>
        have hi0 : e0.sinksUnlinked := by
          split at h0
          · exact Engine.sinksUnlinked_of_tasks
              (releaseReductionStorage_frame _ _ _ _ _ _ h0).1 hi
          · cases h0; exact hi
        obtain ⟨_, h⟩ := assertThat_ok h
        dsimp only at h
        split at h
        · cases h
        · next e3 h3 =>
          exact finalizeAccess_keeps _ hh _ _ _ _ _ _ h
            (fragmentAccess_keeps _ hh _ _ _ _ h3 hi0)

theorem releaseTaskwaitFragment_keeps (fuel : Fuel) (task : Nat) (region : DataAccessRegion)
    (cp : Option ComputePlace) (e e1 : Engine)
    (h : releaseTaskwaitFragment fuel task region cp e = .ok e1) (hi : e.sinksUnlinked) :
    e1.sinksUnlinked := by
  have hh := handleDataAccessStatusChanges_keeps fuel.depth
  unfold releaseTaskwaitFragment at h
  split at h
  · cases h
  · next e2 h2 =>
    refine drain_keeps _ _ _ _ _ h (forEachRef_keeps _ (fun r e e1 h hi => ?_) _ _ _ h2 hi)
    obtain ⟨_, _, _, h⟩ := withStatusEffects_ok h
    obtain ⟨_, h⟩ := assertThat_ok h
    obtain ⟨_, _, _, h⟩ := withStatusEffects_ok h
    exact hh _ _ _ _ _ h (Engine.sinksUnlinked_modifyAccess _ _
      (fun a ha => kindOk_congr (a := a) rfl rfl ha) hi)

theorem updateTaskDataAccessLocation_keeps (fuel : Fuel) (task : Nat)
    (region : DataAccessRegion) (location : Option Nat) (isTaskwait : Bool) (e e1 : Engine)
    (h : updateTaskDataAccessLocation fuel task region location isTaskwait e = .ok e1)
    (hi : e.sinksUnlinked) : e1.sinksUnlinked := by
  have hh := handleDataAccessStatusChanges_keeps fuel.depth
  refine forEachRef_keeps _ (fun r e e1 h hi => ?_) _ _ _ h hi
  split at h
  · cases h
  · next e3 h3 =>
    cases h
    exact Engine.sinksUnlinked_modifyAccess _ _
      (fun a ha => kindOk_congr (a := a) rfl rfl ha) (fragmentAccess_keeps _ hh _ _ _ _ h3 hi)

theorem registerLocalAccess_keeps (fuel : Fuel) (task : Nat) (region : DataAccessRegion)
    (e e1 : Engine) (h : registerLocalAccess fuel task region e = .ok e1)
    (hi : e.sinksUnlinked) : e1.sinksUnlinked := by
  have hh := handleDataAccessStatusChanges_keeps fuel.depth
  unfold registerLocalAccess at h
  dsimp only at h
  have h := statusEffectsAssertions_ok h
  have h := statusEffectsAssertions_ok h
  split at h
  · cases h
  · refine withLocalDependencyData_keeps 3388 _ Engine.sinksUnlinked_hp
      (fun e e1 h hi => hh _ _ _ _ _ h hi) _ _ h ?_
    exact Engine.sinksUnlinked_modifyDataAccesses _ _
      (fun s hs => TaskDataAccesses.sinksUnlinked_insert access_type _ rfl hs) hi

theorem completeLocalObjects_keeps (fuel : Fuel) (link : DataAccessLink)
    (region : DataAccessRegion) (e e1 : Engine)
    (h : completeLocalObjects fuel link region e = .ok e1) (hi : e.sinksUnlinked) :
    e1.sinksUnlinked := by
  have hh := handleDataAccessStatusChanges_keeps fuel.depth
  refine forEachRef_keeps _ (fun r e e1 h hi => ?_) _ _ _ h hi
  split at h
  · cases h
  · obtain ⟨_, h⟩ := assertThat_ok h
    obtain ⟨_, h⟩ := assertThat_ok h
    split at h
    · cases h
    · next e3 h3 =>
      obtain ⟨_, _, _, h⟩ := withStatusEffects_ok h
      obtain ⟨_, _, _, h⟩ := withStatusEffects_ok h
      exact withLocalDependencyData_keeps _ _ Engine.sinksUnlinked_hp
        (fun e e1 h hi => hh _ _ _ _ _ h hi) _ _ h
        (Engine.sinksUnlinked_modifyAccess _ _
          (fun a ha => kindOk_congr (a := a) rfl rfl ha)
          (fragmentAccess_keeps _ hh _ _ _ _ h3 hi))

theorem unregisterLocalAccess_keeps (fuel : Fuel) (task : Nat) (region : DataAccessRegion)
    (e e1 : Engine) (h : unregisterLocalAccess fuel task region e = .ok e1)
    (hi : e.sinksUnlinked) : e1.sinksUnlinked := by
  unfold unregisterLocalAccess at h
  split at h
  · cases h
  · next e2 h2 =>
    obtain ⟨_, h⟩ := assertThat_ok h
    split at h
    · cases h
    · next e3 h3 =>
      obtain ⟨_, h⟩ := assertThat_ok h
      cases h
      exact completeLocalObjects_keeps _ _ _ _ _ h3
        (completeLocalObjects_keeps _ _ _ _ _ h2 hi)

theorem unregisterTaskDataAccesses_keeps (fuel : Fuel) (task : Nat)
    (cp : Option ComputePlace) (location : Option Nat) (busy : Bool) (e e1 : Engine)
    (h : unregisterTaskDataAccesses fuel task cp location busy e = .ok e1)
    (hi : e.sinksUnlinked) : e1.sinksUnlinked := by
  have hh := handleDataAccessStatusChanges_keeps fuel.depth
  unfold unregisterTaskDataAccesses at h
  obtain ⟨_, h⟩ := assertThat_ok h
  dsimp only at h
  split at h
  · cases h
  · next e2 h2 =>
    have hi2 := createTopLevelSink_keeps _ hh _ _ _ h2 hi
    split at h
    · cases h
    · next e3 h3 =>
      refine drain_keeps _ _ _ _ _ h (forEachRef_keeps _ (fun r e e1 h hi => ?_) _ _ _ h3 hi2)
      split at h
      · cases h
      · exact finalizeAccess_keeps _ hh _ _ _ _ _ _ h hi

theorem propagateSatisfiability_keeps (fuel : Fuel) (task : Nat) (region : DataAccessRegion)
    (cp : Option ComputePlace) (r w : Bool) (location : Option Nat) (e e1 : Engine)
    (h : propagateSatisfiability fuel task region cp r w location e = .ok e1)
    (hi : e.sinksUnlinked) : e1.sinksUnlinked := by
  have hh := handleDataAccessStatusChanges_keeps fuel.depth
  unfold propagateSatisfiability at h
  obtain ⟨_, h⟩ := assertThat_ok h
  dsimp only at h
  split at h
  · cases h
  · next e2 h2 =>
    exact drain_keeps _ _ _ _ _ h (processUpdateOperation_keeps _ hh _ _ _ h2 hi)

theorem handleEnterTaskwait_keeps (fuel : Fuel) (task : Nat) (cp : Option ComputePlace)
    (e e1 : Engine) (h : handleEnterTaskwait fuel task cp e = .ok e1)
    (hi : e.sinksUnlinked) : e1.sinksUnlinked := by
  have hh := handleDataAccessStatusChanges_keeps fuel.depth
  unfold handleEnterTaskwait at h
  split at h
  · cases h
  · next e2 h2 =>
    split at h
    · cases h
    · next e3 h3 =>
      exact drain_keeps _ _ _ _ _ h
        (finalizeFragments_keeps _ hh _ _ _ h3 (createTaskwait_keeps _ hh _ _ _ _ h2 hi))

theorem handleExitTaskwait_keeps (task : Nat) (e e1 : Engine)
    (h : handleExitTaskwait task e = .ok e1) (hi : e.sinksUnlinked) : e1.sinksUnlinked := by
  unfold handleExitTaskwait at h
  dsimp only at h
  obtain ⟨_, h⟩ := assertThat_ok h
  obtain ⟨_, h⟩ := assertThat_ok h
  obtain ⟨_, h⟩ := assertThat_ok h
  cases h
  refine Engine.sinksUnlinked_modifyDataAccesses _ _ (fun s hs => ?_) hi
  refine TaskDataAccesses.sinksUnlinked_of_mem (fun k x hx => ?_) hs
  split at hx
  · cases k
    · obtain ⟨y, hy, rfl⟩ := List.mem_map.1 hx
      exact Or.inr (kindOk_congr (a := y) rfl rfl (hs access_type y hy))
    · cases hx
    · cases hx
    · cases hx
  · cases k <;> exact Or.inl hx

theorem Reachable.sinksUnlinked {e : Engine} (h : Reachable e) : e.sinksUnlinked := by
  induction h with
  | initial e h =>
    intro t ht k a ha
    obtain ⟨h1, h2, h3⟩ := h t ht
    cases k <;> simp [TaskDataAccesses.index, h1, h2, h3] at ha
  | createTask e t h _ ih =>
    intro x hx k a ha
    rcases List.mem_append.1 hx with hx | hx
    · exact ih x hx k a ha
    · rw [List.mem_singleton] at hx
      subst hx
      obtain ⟨h1, h2, h3⟩ := h
      cases k <;> simp [TaskDataAccesses.index, h1, h2, h3] at ha
  | registerAccess e e1 task d _ h ih => exact register_access_keeps _ _ _ _ h ih
  | registerTaskDataAccesses e e1 fuel task cp ready _ h ih =>
    exact registerTaskDataAccesses_keeps _ _ _ _ _ _ h ih
  | releaseAccessRegion e e1 fuel task region t w cp location _ h ih =>
    exact releaseAccessRegion_keeps _ _ _ _ _ _ _ _ _ h ih
  | releaseTaskwaitFragment e e1 fuel task region cp _ h ih =>
    exact releaseTaskwaitFragment_keeps _ _ _ _ _ _ h ih
  | updateTaskDataAccessLocation e e1 fuel task region location isTaskwait _ h ih =>
    exact updateTaskDataAccessLocation_keeps _ _ _ _ _ _ _ h ih
  | registerLocalAccess e e1 fuel task region _ h ih =>
    exact registerLocalAccess_keeps _ _ _ _ _ h ih
  | unregisterLocalAccess e e1 fuel task region _ h ih =>
    exact unregisterLocalAccess_keeps _ _ _ _ _ h ih
  | unregisterTaskDataAccesses e e1 fuel task cp location busy _ h ih =>
    exact unregisterTaskDataAccesses_keeps _ _ _ _ _ _ _ h ih
  | propagateSatisfiability e e1 fuel task region cp r w location _ h ih =>
    exact propagateSatisfiability_keeps _ _ _ _ _ _ _ _ _ h ih
  | handleEnterTaskwait e e1 fuel task cp _ h ih =>
    exact handleEnterTaskwait_keeps _ _ _ _ _ h ih
  | handleExitTaskwait e e1 task _ h ih => exact handleExitTaskwait_keeps _ _ _ h ih

theorem finalizeAccess_complete (handle : Handler) (finishedTask : Nat) (dataAccess : AccessRef)
    (region : DataAccessRegion) (location : Option Nat) (e : Engine) (access : DataAccess)
    (hfind : e.findAccess dataAccess = some access) (hcomplete : access.complete = true)
    (hlocation : (location.isSome || access.weak) = true)
    (horiginator : access.originator = finishedTask) (hregion : region.empty = false) :
    finalizeAccess handle finishedTask dataAccess region location e = .ok e := by
  unfold finalizeAccess
  rw [hfind]
  simp [assertThat, hcomplete, hlocation, horiginator, hregion]

/-- A second release of a region.  T1 holds a strong write on `[100, 108)` with a fragment, its child
having registered a read on the region (the state is `nestedState`).  T1 releases
`[100, 104)` with the location 5 and then, again, with the location 7.  Both calls succeed,
and after the second one the access of T1 inside the released region and the fragment that
intersects it are complete but their location is 5, the location of the first release, and
not 7, the release location, which is present. -/
theorem second_release_keeps_first_location :
    ∃ e1 e3, nestedRun ⟨2, 4⟩ ⟨0, true, true, 0⟩ = .ok e1
      ∧ e1 = nestedState {} {} ⟨100, 8⟩
      ∧ doubleReleaseRun ⟨2, 4⟩ ⟨0, true, true, 0⟩ 5 7 = .ok e3
      ∧ ((e3.getDataAccesses 1).accesses.filter (fun a => a.region.fullyContainedIn ⟨100, 4⟩)).map
          (fun a => (a.region, a.complete, a.location)) = [(⟨100, 4⟩, true, some 5)]
      ∧ ((e3.getDataAccesses 1).accessFragments.filter (fun a => a.region.intersects ⟨100, 4⟩)).map
          (fun a => (a.region, a.complete, a.location)) = [(⟨100, 4⟩, true, some 5)] := by
  have h : (match nestedRun ⟨2, 4⟩ ⟨0, true, true, 0⟩ with
      | .ok e1 =>
        decide (e1 = nestedState {} {} ⟨100, 8⟩)
        && (match doubleReleaseRun ⟨2, 4⟩ ⟨0, true, true, 0⟩ 5 7 with
          | .ok e3 =>
            decide ((((e3.getDataAccesses 1).accesses.filter
                (fun a => a.region.fullyContainedIn ⟨100, 4⟩)).map
                  (fun a => (a.region, a.complete, a.location)) = [(⟨100, 4⟩, true, some 5)])
              ∧ (((e3.getDataAccesses 1).accessFragments.filter
                (fun a => a.region.intersects ⟨100, 4⟩)).map
                  (fun a => (a.region, a.complete, a.location)) = [(⟨100, 4⟩, true, some 5)]))
          | .error _ => false)
      | .error _ => false) = true := by decide!
  cases hrun : nestedRun ⟨2, 4⟩ ⟨0, true, true, 0⟩ with
  | error f => rw [hrun] at h; simp at h
  | ok e1 =>
    rw [hrun] at h
    dsimp only at h
    cases hrel : doubleReleaseRun ⟨2, 4⟩ ⟨0, true, true, 0⟩ 5 7 with
    | error f => rw [hrel] at h; simp at h
    | ok e3 =>
      rw [hrel] at h
      simp only [Bool.and_eq_true, decide_eq_true_eq] at h
      exact ⟨e1, e3, rfl, h.1, rfl, h.2.1, h.2.2⟩

/-! ## The registration edge and the dependency edge -/

theorem List.modify_modify {α : Type} (l : List α) (n : Nat) (f g : α → α) :
    List.modify g n (List.modify f n l) = List.modify (fun x => g (f x)) n l := by
  induction l generalizing n with
  | nil => cases n <;> rfl
  | cons a rest ih =>
    cases n with
    | zero => rfl
    | succ n => simp [List.modify_succ_cons, ih]

theorem Engine.modifyTask_modifyTask (e : Engine) (t : Nat) (f g : Task → Task) :
    (e.modifyTask t f).modifyTask t g = e.modifyTask t (fun x => g (f x)) := by
  simp [Engine.modifyTask, List.modify_modify]

theorem Engine.ite_modifyTask (c : Prop) [Decidable c] (e : Engine) (t : Nat) (f : Task → Task) :
    (if c then e.modifyTask t f else e) = e.modifyTask t (fun x => if c then f x else x) := by
  by_cases h : c
  · simp [h]
  · simp only [h, if_false, Engine.modifyTask]
    exact (congrArg (fun l => ({ e with tasks := l } : Engine)) (List.modify_self e.tasks t)).symm

theorem Engine.ite_modifyTask_modifyTask (c : Prop) [Decidable c] (e : Engine) (t : Nat)
    (f g : Task → Task) :
    (if c then e.modifyTask t f else e.modifyTask t g)
      = e.modifyTask t (fun x => if c then f x else g x) := by
  by_cases h : c <;> simp [h]

theorem handleRegistration_eq (initialStatus updatedStatus : DataAccessStatusEffects)
    (access : DataAccess) (task : Nat) (e : Engine)
    (hinitial : initialStatus.isRegistered = false) (hupdated : updatedStatus.isRegistered = true) :
    ∃ f : Task → Task, handleRegistration initialStatus updatedStatus access task e
        = .ok (e.modifyTask task f)
      ∧ ∀ x, (f x).predecessorCount
          = x.predecessorCount + (if updatedStatus.enforcesDependency = true then 1 else 0)
        ∧ (f x).removalBlockingCount = x.removalBlockingCount
            + (if initialStatus.isRemovable = false
                ∧ (e.getDataAccesses task).removalBlockers = 0 then 1 else 0)
        ∧ (f x).dataAccesses.removalBlockers = x.dataAccesses.removalBlockers
            + (if initialStatus.isRemovable = true then 0 else 1)
        ∧ (f x).dataAccesses.totalCommutativeBytes = x.dataAccesses.totalCommutativeBytes
            + (if access.weak = false ∧ access.type = COMMUTATIVE_ACCESS_TYPE
                then access.region.getSize else 0)
        ∧ (f x).dataAccesses.accesses = x.dataAccesses.accesses
        ∧ (f x).dataAccesses.accessFragments = x.dataAccesses.accessFragments
        ∧ (f x).dataAccesses.taskwaitFragments = x.dataAccesses.taskwaitFragments
        ∧ (f x).dataAccesses.subaccessBottomMap = x.dataAccesses.subaccessBottomMap
        ∧ (f x).final = x.final ∧ (f x).parent = x.parent := by
  unfold handleRegistration
  rw [if_pos (by simp [hinitial, hupdated])]
  simp only [hinitial, assertThat, Bool.not_false, if_true, Engine.increasePredecessors,
    Engine.modifyDataAccesses, Engine.increaseRemovalBlockingCount, Engine.ite_modifyTask,
    Engine.modifyTask_modifyTask, Engine.ite_modifyTask_modifyTask]
  refine ⟨_, rfl, fun x => ?_⟩
  cases initialStatus.isRemovable <;> cases updatedStatus.enforcesDependency <;>
    cases access.weak <;>
    by_cases h3 : (e.getDataAccesses task).removalBlockers = 0 <;>
    by_cases h4 : access.type = COMMUTATIVE_ACCESS_TYPE <;>
    simp [h3, h4]

theorem Engine.getTask_modifyTask_proj {α : Type} (e : Engine) (t u : Nat) (f : Task → Task)
    (p : Task → α) (hp : ∀ x, p (f x) = p x) :
    p ((e.modifyTask t f).getTask u) = p (e.getTask u) := by
  simp only [Engine.getTask, Engine.modifyTask, List.getD_eq_getElem?_getD,
    List.getElem?_modify]
  cases e.tasks[u]? with
  | none => rfl
  | some a =>
    simp only [Option.map_some', Option.getD_some]
    split
    · exact hp a
    · rfl

theorem handleRegistration_edge (initialStatus updatedStatus : DataAccessStatusEffects)
    (access : DataAccess) (task : Nat) (e : Engine)
    (hinitial : initialStatus.isRegistered = false) (hupdated : updatedStatus.isRegistered = true)
    (htask : task < e.tasks.length) :
    ∃ e1, handleRegistration initialStatus updatedStatus access task e = .ok e1
      ∧ (e1.getDataAccesses task).removalBlockers
          = (e.getDataAccesses task).removalBlockers
            + (if initialStatus.isRemovable = true then 0 else 1)
      ∧ (e1.getTask task).removalBlockingCount
          = (e.getTask task).removalBlockingCount
            + (if initialStatus.isRemovable = false
                ∧ (e.getDataAccesses task).removalBlockers = 0 then 1 else 0)
      ∧ (e1.getTask task).predecessorCount
          = (e.getTask task).predecessorCount
            + (if updatedStatus.enforcesDependency = true then 1 else 0)
      ∧ (e1.getDataAccesses task).totalCommutativeBytes
          = (e.getDataAccesses task).totalCommutativeBytes
            + (if access.weak = false ∧ access.type = COMMUTATIVE_ACCESS_TYPE
                then access.region.getSize else 0) := by
  obtain ⟨f, hf, hx⟩ := handleRegistration_eq initialStatus updatedStatus access task e hinitial
    hupdated
  obtain ⟨h1, h2, h3, h4, _⟩ := hx (e.getTask task)
  refine ⟨_, hf, ?_, ?_, ?_, ?_⟩
  · simp only [Engine.getDataAccesses, Engine.getTask_modifyTask e task f htask]; exact h3
  · simp only [Engine.getTask_modifyTask e task f htask]; exact h2
  · simp only [Engine.getTask_modifyTask e task f htask]; exact h1
  · simp only [Engine.getDataAccesses, Engine.getTask_modifyTask e task f htask]; exact h4

theorem handleRegistration_frame (initialStatus updatedStatus : DataAccessStatusEffects)
    (access : DataAccess) (task : Nat) (e e1 : Engine)
    (h : handleRegistration initialStatus updatedStatus access task e = .ok e1) :
    (∀ t, (e1.getDataAccesses t).accesses = (e.getDataAccesses t).accesses
        ∧ (e1.getDataAccesses t).accessFragments = (e.getDataAccesses t).accessFragments
        ∧ (e1.getDataAccesses t).taskwaitFragments = (e.getDataAccesses t).taskwaitFragments
        ∧ (e1.getDataAccesses t).subaccessBottomMap = (e.getDataAccesses t).subaccessBottomMap)
      ∧ (∀ r, e1.findAccess r = e.findAccess r) ∧ e1.hpDependencyData = e.hpDependencyData
      ∧ (∀ t, (e1.getTask t).final = (e.getTask t).final) := by
  have key : (∀ t, (e1.getDataAccesses t).accesses = (e.getDataAccesses t).accesses
        ∧ (e1.getDataAccesses t).accessFragments = (e.getDataAccesses t).accessFragments
        ∧ (e1.getDataAccesses t).taskwaitFragments = (e.getDataAccesses t).taskwaitFragments
        ∧ (e1.getDataAccesses t).subaccessBottomMap = (e.getDataAccesses t).subaccessBottomMap)
      ∧ e1.hpDependencyData = e.hpDependencyData
      ∧ (∀ t, (e1.getTask t).final = (e.getTask t).final) := by
    cases hi : initialStatus.isRegistered with
    | true =>
      unfold handleRegistration at h
      cases hu : updatedStatus.isRegistered with
      | true =>
        simp only [hi, hu, ne_eq, not_true_eq_false, if_false, Except.ok.injEq] at h
        subst h
        exact ⟨fun _ => ⟨rfl, rfl, rfl, rfl⟩, rfl, fun _ => rfl⟩
      | false => simp [hi, hu, assertThat] at h
    | false =>
      cases hu : updatedStatus.isRegistered with
      | false =>
        unfold handleRegistration at h
        simp only [hi, hu, ne_eq, not_true_eq_false, if_false, Except.ok.injEq] at h
        subst h
        exact ⟨fun _ => ⟨rfl, rfl, rfl, rfl⟩, rfl, fun _ => rfl⟩
      | true =>
        obtain ⟨f, hf, hx⟩ := handleRegistration_eq initialStatus updatedStatus access task e hi hu
        rw [hf] at h
        simp only [Except.ok.injEq] at h
        subst h
        refine ⟨fun t => ⟨?_, ?_, ?_, ?_⟩, rfl, fun t => ?_⟩
        · exact Engine.getTask_modifyTask_proj e task t f (fun x => x.dataAccesses.accesses)
            (fun x => (hx x).2.2.2.2.1)
        · exact Engine.getTask_modifyTask_proj e task t f (fun x => x.dataAccesses.accessFragments)
            (fun x => (hx x).2.2.2.2.2.1)
        · exact Engine.getTask_modifyTask_proj e task t f
            (fun x => x.dataAccesses.taskwaitFragments) (fun x => (hx x).2.2.2.2.2.2.1)
        · exact Engine.getTask_modifyTask_proj e task t f
            (fun x => x.dataAccesses.subaccessBottomMap) (fun x => (hx x).2.2.2.2.2.2.2.1)
        · exact Engine.getTask_modifyTask_proj e task t f (fun x => x.final)
            (fun x => (hx x).2.2.2.2.2.2.2.2.1)
  refine ⟨key.1, fun r => ?_, key.2.1, key.2.2⟩
  simp only [Engine.findAccess]
  cases r.objectType <;> simp only [TaskDataAccesses.index, (key.1 r.task).1,
    (key.1 r.task).2.1, (key.1 r.task).2.2.1]

theorem handleDependencyUpdate_registration (initialStatus : DataAccessStatusEffects)
    (s b : Bool) (task : Nat) (e : Engine) (hinitial : initialStatus.isRegistered = false)
    (henf : initialStatus.enforcesDependency = true → b = true) :
    handleDependencyUpdate initialStatus
      { initialStatus with isRegistered := true, isSatisfied := s, enforcesDependency := b }
      task e = .ok e := by
  unfold handleDependencyUpdate
  cases hb : b <;> cases hi : initialStatus.enforcesDependency <;>
    simp_all [assertThat]

theorem handleReductionChanges_quiet (initialStatus : DataAccessStatusEffects)
    (g s b : Bool) (access : DataAccess) (e : Engine) :
    handleReductionChanges initialStatus
      { initialStatus with isRegistered := g, isSatisfied := s, enforcesDependency := b }
      access e = .ok e := by
  simp [handleReductionChanges]

theorem updateOperationToNext_quiet (initialStatus : DataAccessStatusEffects)
    (g s b : Bool) (access : DataAccess) (final : Bool) (next : DataAccessLink) :
    ∃ o, updateOperationToNext initialStatus
      { initialStatus with isRegistered := g, isSatisfied := s, enforcesDependency := b }
      access final next = .ok o ∧ o.empty = true := by
  simp [updateOperationToNext, assertThat, UpdateOperation.empty]

theorem updateOperationToFragments_quiet (initialStatus : DataAccessStatusEffects)
    (g s b : Bool) (access : DataAccess) (task : Nat) :
    ∃ o, updateOperationToFragments initialStatus
      { initialStatus with isRegistered := g, isSatisfied := s, enforcesDependency := b }
      access task = .ok o ∧ o.empty = true := by
  simp [updateOperationToFragments, assertThat, UpdateOperation.empty]

theorem handlePropagation_quiet (initialStatus : DataAccessStatusEffects)
    (g s b : Bool) (access : DataAccess) (r : AccessRef) (e : Engine) :
    handlePropagation initialStatus
      { initialStatus with isRegistered := g, isSatisfied := s, enforcesDependency := b }
      access r e = .ok e := by
  unfold handlePropagation
  simp only [ne_eq, not_true_eq_false, if_false]
  cases hn : access.next with
  | none =>
    simp only []
    split
    · obtain ⟨o, ho, he⟩ := updateOperationToFragments_quiet initialStatus g s b access r.task
      simp [ho, he]
    · rfl
  | some next =>
    obtain ⟨o, ho, he⟩ := updateOperationToNext_quiet initialStatus g s b access
      (e.getTask r.task).final next
    simp only [ho, he]
    simp only [Bool.not_true, Bool.false_eq_true, if_false]
    split
    · obtain ⟨o, ho, he⟩ := updateOperationToFragments_quiet initialStatus g s b access r.task
      simp [ho, he]
    · rfl

theorem handleBottomMapUpdate_quiet (handle : Handler)
    (initialStatus : DataAccessStatusEffects) (g s b : Bool) (access : DataAccess) (task : Nat)
    (e : Engine) :
    handleBottomMapUpdate handle initialStatus
      { initialStatus with isRegistered := g, isSatisfied := s, enforcesDependency := b }
      access task e = .ok e := by
  simp [handleBottomMapUpdate]

theorem handleTriggers_quiet (initialStatus : DataAccessStatusEffects)
    (g s b : Bool) (access : DataAccess) (r : AccessRef) (e : Engine) :
    handleTriggers initialStatus
      { initialStatus with isRegistered := g, isSatisfied := s, enforcesDependency := b }
      access r e = .ok e := by
  simp [handleTriggers]

theorem handleRemoval_quiet (handle : Handler) (initialStatus : DataAccessStatusEffects)
    (g s b : Bool) (access : DataAccess) (r : AccessRef) (e : Engine) :
    handleRemoval handle initialStatus
      { initialStatus with isRegistered := g, isSatisfied := s, enforcesDependency := b }
      access r e = .ok e := by
  simp [handleRemoval]

theorem handleDataAccessStatusChanges_registration (depth : Nat)
    (initialStatus : DataAccessStatusEffects) (s b : Bool) (r : AccessRef) (e : Engine)
    (access : DataAccess) (hfind : e.findAccess r = some access)
    (hinitial : initialStatus.isRegistered = false)
    (hsat : initialStatus.isSatisfied = true → s = true)
    (henf : initialStatus.enforcesDependency = true → b = true) :
    handleDataAccessStatusChanges (depth + 1) initialStatus
        { initialStatus with isRegistered := true, isSatisfied := s, enforcesDependency := b }
        r e
      = handleRegistration initialStatus
        { initialStatus with isRegistered := true, isSatisfied := s, enforcesDependency := b }
        access r.task e := by
  simp only [handleDataAccessStatusChanges, handleDataAccessStatusChangesBody, hfind]
  cases hreg : handleRegistration initialStatus
      { initialStatus with isRegistered := true, isSatisfied := s, enforcesDependency := b }
      access r.task e with
  | error f => rfl
  | ok e1 =>
    obtain ⟨_, hf, _, _⟩ := handleRegistration_frame _ _ _ _ _ _ hreg
    have h587 : (decide (initialStatus.isSatisfied = s) || !initialStatus.isSatisfied) = true := by
      cases hi : initialStatus.isSatisfied <;> simp_all
    simp only [Bool.not_true, Bool.false_eq_true, if_false, assertThat, h587, if_true,
      decide_True, Bool.true_or,
      handleDependencyUpdate_registration initialStatus s b r.task e1 hinitial henf,
      handleReductionChanges_quiet, handlePropagation_quiet,
      handleBottomMapUpdate_quiet, hf, hfind, handleTriggers_quiet,
      handleRemoval_quiet]

theorem handleDependencyUpdate_edge (initialStatus updatedStatus : DataAccessStatusEffects)
    (task : Nat) (e : Engine) (htask : task < e.tasks.length)
    (hupdated : updatedStatus.isRegistered = true) :
    (initialStatus.enforcesDependency = true → updatedStatus.enforcesDependency = false →
      ∃ e1, handleDependencyUpdate initialStatus updatedStatus task e = .ok e1
        ∧ (e1.getTask task).predecessorCount = (e.getTask task).predecessorCount - 1
        ∧ (∀ u, u ≠ task → (e1.getTask u).predecessorCount = (e.getTask u).predecessorCount)
        ∧ ((e.getTask task).predecessorCount - 1 = 0
            → (e.getDataAccesses task).totalCommutativeBytes ≠ 0
            → e1.hpDependencyData.satisfiedCommutativeOriginators
                = e.hpDependencyData.satisfiedCommutativeOriginators ++ [task]
              ∧ e1.hpDependencyData.satisfiedOriginators
                = e.hpDependencyData.satisfiedOriginators)
        ∧ ((e.getTask task).predecessorCount - 1 = 0
            → (e.getDataAccesses task).totalCommutativeBytes = 0
            → e1.hpDependencyData.satisfiedOriginators
                = e.hpDependencyData.satisfiedOriginators ++ [task]
              ∧ e1.hpDependencyData.satisfiedCommutativeOriginators
                = e.hpDependencyData.satisfiedCommutativeOriginators)
        ∧ ((e.getTask task).predecessorCount - 1 ≠ 0
            → e1.hpDependencyData = e.hpDependencyData))
    ∧ (¬(initialStatus.enforcesDependency = true ∧ updatedStatus.enforcesDependency = false) →
        handleDependencyUpdate initialStatus updatedStatus task e
          = if updatedStatus.enforcesDependency = true
              ∧ initialStatus.enforcesDependency = false ∧ initialStatus.isRegistered = true
            then .error (.assertion 611) else .ok e) := by
  constructor
  · intro hi hu
    have h1 : (e.modifyTask task fun task =>
        { task with predecessorCount := task.predecessorCount - 1 }).getDataAccesses task
        = e.getDataAccesses task := by
      simp [Engine.getDataAccesses, Engine.getTask_modifyTask e task _ htask]
    have h2 : ((e.modifyTask task fun task =>
        { task with predecessorCount := task.predecessorCount - 1 }).getTask task).predecessorCount
        = (e.getTask task).predecessorCount - 1 := by
      simp [Engine.getTask_modifyTask e task _ htask]
    have h3 : ∀ u, u ≠ task → ((e.modifyTask task fun task =>
        { task with predecessorCount := task.predecessorCount - 1 }).getTask u).predecessorCount
        = (e.getTask u).predecessorCount := by
      intro u hu
      rw [Engine.getTask_modifyTask_of_ne e task u _ (Ne.symm hu)]
    unfold handleDependencyUpdate
    simp only [hi, hu, ne_eq, Bool.true_eq_false, not_false_eq_true, if_true,
      Bool.false_eq_true, if_false, Engine.decreasePredecessors]
    by_cases hz : (e.getTask task).predecessorCount - 1 = 0
    · by_cases hc : (e.getDataAccesses task).totalCommutativeBytes = 0
      · rw [if_pos (by simp [hz]), h1, if_neg (by simp [hc])]
        exact ⟨_, rfl, h2, h3, fun _ h => absurd hc h, fun _ _ => ⟨rfl, rfl⟩,
          fun h => absurd hz h⟩
      · rw [if_pos (by simp [hz]), h1, if_pos (by simp [hc])]
        exact ⟨_, rfl, h2, h3, fun _ _ => ⟨rfl, rfl⟩, fun _ h => absurd h hc,
          fun h => absurd hz h⟩
    · rw [if_neg (by simp [hz])]
      exact ⟨_, rfl, h2, h3, fun h => absurd h hz, fun h => absurd h hz, fun _ => rfl⟩
  · intro h
    unfold handleDependencyUpdate
    cases hi : initialStatus.enforcesDependency <;> cases hu : updatedStatus.enforcesDependency <;>
      cases hr : initialStatus.isRegistered <;>
      simp_all [assertThat]

theorem handleDependencyUpdate_frame (initialStatus updatedStatus : DataAccessStatusEffects)
    (task : Nat) (e e1 : Engine)
    (h : handleDependencyUpdate initialStatus updatedStatus task e = .ok e1) :
    (∀ r, e1.findAccess r = e.findAccess r)
      ∧ (∀ t, (e1.getTask t).final = (e.getTask t).final) := by
  have key : ∀ x : Engine, (x = e ∨ x = (e.decreasePredecessors task 1).1
      ∨ (∃ g, x = ((e.decreasePredecessors task 1).1).modifyHp g)) →
      (∀ r, x.findAccess r = e.findAccess r) ∧ (∀ t, (x.getTask t).final = (e.getTask t).final) := by
    have h1 : (∀ r, ((e.decreasePredecessors task 1).1).findAccess r = e.findAccess r)
        ∧ (∀ t, (((e.decreasePredecessors task 1).1).getTask t).final = (e.getTask t).final) := by
      refine ⟨fun r => ?_, fun t => ?_⟩
      · simp only [Engine.findAccess, Engine.decreasePredecessors, Engine.getDataAccesses]
        rw [Engine.getTask_modifyTask_proj e task r.task
          (fun task => { task with predecessorCount := task.predecessorCount - 1 })
          (fun x => x.dataAccesses.index r.objectType) (fun _ => rfl)]
      · exact Engine.getTask_modifyTask_proj e task t _ (fun x => x.final) (fun _ => rfl)
    rintro x (rfl | rfl | ⟨g, rfl⟩)
    · exact ⟨fun _ => rfl, fun _ => rfl⟩
    · exact h1
    · exact h1
  unfold handleDependencyUpdate at h
  split at h
  · split at h
    · simp only [assertThat] at h
      split at h
      · cases h; exact key _ (Or.inl rfl)
      · cases h
    · dsimp only at h
      split at h
      · split at h
        · cases h; exact key _ (Or.inr (Or.inr ⟨_, rfl⟩))
        · cases h; exact key _ (Or.inr (Or.inr ⟨_, rfl⟩))
      · cases h; exact key _ (Or.inr (Or.inl rfl))
  · cases h; exact key _ (Or.inl rfl)

theorem handleDataAccessStatusChanges_dependency (depth : Nat)
    (initialStatus : DataAccessStatusEffects) (s b : Bool) (r : AccessRef) (e : Engine)
    (access : DataAccess) (hfind : e.findAccess r = some access)
    (hinitial : initialStatus.isRegistered = true)
    (hsat : initialStatus.isSatisfied = true → s = true) :
    handleDataAccessStatusChanges (depth + 1) initialStatus
        { initialStatus with isRegistered := true, isSatisfied := s, enforcesDependency := b }
        r e
      = handleDependencyUpdate initialStatus
        { initialStatus with isRegistered := true, isSatisfied := s, enforcesDependency := b }
        r.task e := by
  have hreg : handleRegistration initialStatus
      { initialStatus with isRegistered := true, isSatisfied := s, enforcesDependency := b }
      access r.task e = .ok e := by
    simp [handleRegistration, hinitial]
  simp only [handleDataAccessStatusChanges, handleDataAccessStatusChangesBody, hfind, hreg]
  have h587 : (decide (initialStatus.isSatisfied = s) || !initialStatus.isSatisfied) = true := by
    cases hi : initialStatus.isSatisfied <;> simp_all
  cases hdep : handleDependencyUpdate initialStatus
      { initialStatus with isRegistered := true, isSatisfied := s, enforcesDependency := b }
      r.task e with
  | error f =>
    simp only [Bool.not_true, Bool.false_eq_true, if_false, assertThat, h587, if_true,
      decide_True, Bool.true_or]
  | ok e1 =>
    obtain ⟨hf, _⟩ := handleDependencyUpdate_frame _ _ _ _ _ hdep
    simp only [Bool.not_true, Bool.false_eq_true, if_false, assertThat, h587, if_true,
      decide_True, Bool.true_or, handleReductionChanges_quiet, handlePropagation_quiet,
      handleBottomMapUpdate_quiet, hf, hfind, handleTriggers_quiet, handleRemoval_quiet]

theorem find?_insertAccess (a : DataAccess) (l : List DataAccess) (p : DataAccess → Bool)
    (ha : p a = true) (hl : ∀ x ∈ l, p x = false) : (insertAccess a l).find? p = some a := by
  induction l with
  | nil => simp [insertAccess, ha]
  | cons b rest ih =>
    simp only [insertAccess]
    split
    · simp [ha]
    · rw [List.find?_cons_of_neg _ (by simp [hl b (List.mem_cons_self _ _)])]
      exact ih (fun x hx => hl x (List.mem_cons_of_mem _ hx))

theorem registerLocalAccess_result (depth steps task : Nat) (region : DataAccessRegion)
    (e : Engine) (htask : task < e.tasks.length) (hregion : 0 < region.length)
    (hfree : ∀ a ∈ (e.getDataAccesses task).accesses,
      a.region.containsAddress region.startAddress = false) :
    ∃ e1, registerLocalAccess ⟨depth + 1, steps⟩ task region e = .ok e1
      ∧ (e1.getTask task).predecessorCount = (e.getTask task).predecessorCount + 1
      ∧ (e1.getDataAccesses task).accesses
          = insertAccess (localAccess task region) (e.getDataAccesses task).accesses
      ∧ (e1.getDataAccesses task).removalBlockers = (e.getDataAccesses task).removalBlockers + 1
      ∧ e1.hpDependencyData = e.hpDependencyData := by
  have hstatus : (statusEffectsOf e (localAccess task region)).setEnforcesDependency
      = .ok { statusEffectsOf e (createAccess task access_type NO_ACCESS_TYPE false region
          no_reduction_type_and_operator (-1)) with
          isRegistered := true, isSatisfied := true, enforcesDependency := true } := by
    simp [statusEffectsOf, localAccess, createAccess, DataAccessStatusEffects.setEnforcesDependency,
      assertThat, DataAccess.satisfied, DataAccess.hasNext, DataAccess.hasDataReleaseStep,
      DataAccess.hasDataLinkStep, DataAccess.hasOutputLocation]
  have hla : ({ (createAccess task access_type NO_ACCESS_TYPE false region
      no_reduction_type_and_operator (-1)).setReadSatisfied (some directoryMemoryPlace) with
      writeSatisfied := true, concurrentSatisfied := true, commutativeSatisfied := true,
      receivedReductionInfo := true, registered := true, topmost := true, topLevel := true,
      reachable := true } : DataAccess) = localAccess task region := rfl
  have ha1 : ∀ {α : Type} (rest : Except Failure α), statusEffectsAssertions e
      (createAccess task access_type NO_ACCESS_TYPE false region
        no_reduction_type_and_operator (-1)) rest = rest := by
    intro α rest
    simp [statusEffectsAssertions, assertThat, createAccess, DataAccess.hasNext, domainParentOf]
  have ha2 : ∀ {α : Type} (rest : Except Failure α), statusEffectsAssertions e
      (localAccess task region) rest = rest := by
    intro α rest
    simp [statusEffectsAssertions, assertThat, createAccess, DataAccess.hasNext, domainParentOf,
      localAccess]
  simp only [registerLocalAccess, hla, ha1, ha2, hstatus]
  have hd : ((e.modifyDataAccesses task fun s =>
        { s with accesses := insertAccess (localAccess task region) s.accesses }).getDataAccesses
        task) = { e.getDataAccesses task with
          accesses := insertAccess (localAccess task region) (e.getDataAccesses task).accesses } :=
    Engine.getDataAccesses_modifyDataAccesses e task _ htask
  have hfind : ({ (e.modifyDataAccesses task fun s =>
        { s with accesses := insertAccess (localAccess task region) s.accesses }) with
        hpDependencyData := {} } : Engine).findAccess ⟨task, access_type, region.startAddress⟩
      = some (localAccess task region) := by
    simp only [Engine.findAccess]
    rw [show (({ (e.modifyDataAccesses task fun s =>
        { s with accesses := insertAccess (localAccess task region) s.accesses }) with
        hpDependencyData := {} } : Engine).getDataAccesses task)
      = (e.modifyDataAccesses task fun s =>
        { s with accesses := insertAccess (localAccess task region) s.accesses }).getDataAccesses
        task from rfl, hd]
    exact find?_insertAccess _ _ _
      (DataAccessRegion.containsAddress_start region hregion) hfree
  have hi : (statusEffectsOf e (createAccess task access_type NO_ACCESS_TYPE false region
      no_reduction_type_and_operator (-1))).isRegistered = false := rfl
  have hs : (statusEffectsOf e (createAccess task access_type NO_ACCESS_TYPE false region
      no_reduction_type_and_operator (-1))).isSatisfied = true → true = true := fun _ => rfl
  unfold withLocalDependencyData
  rw [handleDataAccessStatusChanges_registration depth _ true true _ _ _ hfind hi hs
    (fun _ => rfl)]
  obtain ⟨e1, h1, hb, hc, hp, _⟩ := handleRegistration_edge
    (statusEffectsOf e (createAccess task access_type NO_ACCESS_TYPE false region
      no_reduction_type_and_operator (-1)))
    { statusEffectsOf e (createAccess task access_type NO_ACCESS_TYPE false region
        no_reduction_type_and_operator (-1)) with
      isRegistered := true, isSatisfied := true, enforcesDependency := true }
    (localAccess task region) task
    ({ (e.modifyDataAccesses task fun s =>
        { s with accesses := insertAccess (localAccess task region) s.accesses }) with
        hpDependencyData := {} } : Engine) hi rfl
    (by simpa [Engine.length_modifyDataAccesses] using htask)
  obtain ⟨hidx, _, hhp, _⟩ := handleRegistration_frame _ _ _ _ _ _ h1
  have hempty : e1.hpDependencyData.empty = true := by rw [hhp]; rfl
  simp only [h1, assertThat, hempty, if_true]
  have hg : ∀ x : Engine, ({ x with hpDependencyData := e.hpDependencyData } : Engine).getTask task
      = x.getTask task := fun _ => rfl
  have hg0 : ∀ x : Engine, ({ x with hpDependencyData := {} } : Engine).getTask task
      = x.getTask task := fun _ => rfl
  have hgd0 : ∀ x : Engine, ({ x with hpDependencyData := {} } : Engine).getDataAccesses task
      = x.getDataAccesses task := fun _ => rfl
  have ht : (e.modifyDataAccesses task fun s =>
        { s with accesses := insertAccess (localAccess task region) s.accesses }).getTask task
      = { e.getTask task with dataAccesses := { e.getDataAccesses task with
          accesses := insertAccess (localAccess task region) (e.getDataAccesses task).accesses } } :=
    Engine.getTask_modifyTask e task _ htask
  refine ⟨_, rfl, ?_, ?_, ?_, rfl⟩
  · show (e1.getTask task).predecessorCount = _
    rw [hp, hg0, ht]
    rfl
  · have := (hidx task).1
    show (e1.getDataAccesses task).accesses = _
    rw [this, hgd0, hd]
  · show (e1.getDataAccesses task).removalBlockers = _
    rw [hb, hgd0, hd]
    simp [statusEffectsOf, createAccess]

/-- C21, counterexample: the registration of an access whose initial status is removable is not
counted. In `removableEdgeState` the statuses of `removableAccess` before and after its
registered flag is set form a registration edge, the task has no removal blocker, and after
`handleDataAccessStatusChanges` it still has none and its removal blocking count is the same. -/
theorem registration_of_removable_not_counted :
    ∃ e1, handleDataAccessStatusChanges 1 (statusEffectsOf removableEdgeState removableAccess)
        (statusEffectsOf removableEdgeState { removableAccess with registered := true })
        ⟨0, access_type, 100⟩ removableEdgeState = .ok e1
      ∧ (statusEffectsOf removableEdgeState removableAccess).isRegistered = false
      ∧ (statusEffectsOf removableEdgeState
          { removableAccess with registered := true }).isRegistered = true
      ∧ (removableEdgeState.getDataAccesses 0).removalBlockers = 0
      ∧ (e1.getDataAccesses 0).removalBlockers = 0
      ∧ (e1.getTask 0).removalBlockingCount
          = (removableEdgeState.getTask 0).removalBlockingCount := by
  have h : (match handleDataAccessStatusChanges 1
        (statusEffectsOf removableEdgeState removableAccess)
        (statusEffectsOf removableEdgeState { removableAccess with registered := true })
        ⟨0, access_type, 100⟩ removableEdgeState with
      | .ok e1 => decide ((e1.getDataAccesses 0).removalBlockers = 0
          ∧ (e1.getTask 0).removalBlockingCount
            = (removableEdgeState.getTask 0).removalBlockingCount)
      | .error _ => false) = true := by decide!
  cases hrun : handleDataAccessStatusChanges 1
      (statusEffectsOf removableEdgeState removableAccess)
      (statusEffectsOf removableEdgeState { removableAccess with registered := true })
      ⟨0, access_type, 100⟩ removableEdgeState with
  | error f => rw [hrun] at h; simp at h
  | ok e1 =>
    rw [hrun] at h
    simp only [decide_eq_true_eq] at h
    exact ⟨e1, rfl, rfl, rfl, rfl, h.1, h.2⟩

/-- C21: on a registration edge (initial status not registered, updated status registered) the
registration block of `handleDataAccessStatusChanges` returns, increments the removal blockers of
the task by one when the initial status is not removable and leaves them as they are when it is
removable, increases the removal blocking count of the task exactly when the initial status is
not removable and there was no removal blocker, and increments the predecessor count by one
exactly when the updated status enforces a dependency. When the updated status differs from the
initial one in nothing but the registration, the satisfiability and the enforced dependency, the
whole of `handleDataAccessStatusChanges` is this block. -/
theorem registration_edge_counts (depth : Nat)
    (initialStatus updatedStatus : DataAccessStatusEffects) (s b : Bool) (r : AccessRef)
    (e : Engine) (access : DataAccess) (hfind : e.findAccess r = some access)
    (htask : r.task < e.tasks.length)
    (hinitial : initialStatus.isRegistered = false) (hupdated : updatedStatus.isRegistered = true)
    (hsat : initialStatus.isSatisfied = true → s = true)
    (henf : initialStatus.enforcesDependency = true → b = true) :
    (∃ e1, handleRegistration initialStatus updatedStatus access r.task e = .ok e1
      ∧ (e1.getDataAccesses r.task).removalBlockers
          = (e.getDataAccesses r.task).removalBlockers
            + (if initialStatus.isRemovable = true then 0 else 1)
      ∧ (e1.getTask r.task).removalBlockingCount
          = (e.getTask r.task).removalBlockingCount
            + (if initialStatus.isRemovable = false
                ∧ (e.getDataAccesses r.task).removalBlockers = 0 then 1 else 0)
      ∧ (e1.getTask r.task).predecessorCount
          = (e.getTask r.task).predecessorCount
            + (if updatedStatus.enforcesDependency = true then 1 else 0))
    ∧ handleDataAccessStatusChanges (depth + 1) initialStatus
        { initialStatus with isRegistered := true, isSatisfied := s, enforcesDependency := b }
        r e
      = handleRegistration initialStatus
        { initialStatus with isRegistered := true, isSatisfied := s, enforcesDependency := b }
        access r.task e := by
  obtain ⟨e1, h1, h2, h3, h4, _⟩ := handleRegistration_edge initialStatus updatedStatus access
    r.task e hinitial hupdated htask
  exact ⟨⟨e1, h1, h2, h3, h4⟩,
    handleDataAccessStatusChanges_registration depth initialStatus s b r e access hfind hinitial
      hsat henf⟩

/-- C21, at a concrete input: the registration of a strong write that enforces a dependency, in
a task without removal blockers. -/
theorem registration_edge_counts_witness :
    ∃ e1, handleDataAccessStatusChanges 1 {} { isRegistered := true, enforcesDependency := true }
        ⟨0, access_type, 100⟩ registrationEdgeState = .ok e1
      ∧ (e1.getDataAccesses 0).removalBlockers = 1
      ∧ (e1.getTask 0).removalBlockingCount
          = (registrationEdgeState.getTask 0).removalBlockingCount + 1
      ∧ (e1.getTask 0).predecessorCount = 1 := by
  obtain ⟨⟨e1, h1, h2, h3, h4⟩, h5⟩ := registration_edge_counts 0 {}
    { isRegistered := true, enforcesDependency := true } false true ⟨0, access_type, 100⟩
    registrationEdgeState
    { createAccess 0 access_type WRITE_ACCESS_TYPE false ⟨100, 8⟩ (-1) (-1) with
      registered := true }
    rfl (by decide) rfl rfl (fun h => absurd h (by decide)) (fun _ => rfl)
  exact ⟨e1, h5.trans h1, h2, h3, h4⟩

/-- C22: in `handleDataAccessStatusChanges` for a registered access, when the enforced
dependency goes from true to false the dependency block returns and decrements the predecessor
count of the task by one, and of no other task; when the count reaches zero the task is appended
to `satisfiedCommutativeOriginators` alone if the total commutative bytes of the task are not
zero and to `satisfiedOriginators` alone if they are zero; when the count does not reach zero the
lists are left as they are. On every other pair of statuses the block leaves the state as it is,
or fails the assertion of line 611. When the updated status differs from the initial one in
nothing but the satisfiability and the enforced dependency, the whole of
`handleDataAccessStatusChanges` is this block. -/
theorem dependency_edge_releases_once (depth : Nat)
    (initialStatus updatedStatus : DataAccessStatusEffects) (s b : Bool) (r : AccessRef)
    (e : Engine) (access : DataAccess) (hfind : e.findAccess r = some access)
    (htask : r.task < e.tasks.length)
    (hinitial : initialStatus.isRegistered = true) (hupdated : updatedStatus.isRegistered = true)
    (hsat : initialStatus.isSatisfied = true → s = true) :
    (initialStatus.enforcesDependency = true → updatedStatus.enforcesDependency = false →
      ∃ e1, handleDependencyUpdate initialStatus updatedStatus r.task e = .ok e1
        ∧ (e1.getTask r.task).predecessorCount = (e.getTask r.task).predecessorCount - 1
        ∧ (∀ u, u ≠ r.task → (e1.getTask u).predecessorCount = (e.getTask u).predecessorCount)
        ∧ ((e.getTask r.task).predecessorCount - 1 = 0
            → (e.getDataAccesses r.task).totalCommutativeBytes ≠ 0
            → e1.hpDependencyData.satisfiedCommutativeOriginators
                = e.hpDependencyData.satisfiedCommutativeOriginators ++ [r.task]
              ∧ e1.hpDependencyData.satisfiedOriginators
                = e.hpDependencyData.satisfiedOriginators)
        ∧ ((e.getTask r.task).predecessorCount - 1 = 0
            → (e.getDataAccesses r.task).totalCommutativeBytes = 0
            → e1.hpDependencyData.satisfiedOriginators
                = e.hpDependencyData.satisfiedOriginators ++ [r.task]
              ∧ e1.hpDependencyData.satisfiedCommutativeOriginators
                = e.hpDependencyData.satisfiedCommutativeOriginators)
        ∧ ((e.getTask r.task).predecessorCount - 1 ≠ 0
            → e1.hpDependencyData = e.hpDependencyData))
    ∧ (¬(initialStatus.enforcesDependency = true ∧ updatedStatus.enforcesDependency = false) →
        handleDependencyUpdate initialStatus updatedStatus r.task e
          = if updatedStatus.enforcesDependency = true
              ∧ initialStatus.enforcesDependency = false
            then .error (.assertion 611) else .ok e)
    ∧ handleDataAccessStatusChanges (depth + 1) initialStatus
        { initialStatus with isRegistered := true, isSatisfied := s, enforcesDependency := b }
        r e
      = handleDependencyUpdate initialStatus
        { initialStatus with isRegistered := true, isSatisfied := s, enforcesDependency := b }
        r.task e := by
  obtain ⟨h1, h2⟩ := handleDependencyUpdate_edge initialStatus updatedStatus r.task e htask
    hupdated
  refine ⟨h1, fun h => ?_,
    handleDataAccessStatusChanges_dependency depth initialStatus s b r e access hfind hinitial
      hsat⟩
  rw [h2 h]
  simp only [hinitial, and_true]

/-- C22, at a concrete input: the last dependency of a task without commutative bytes is
released, and the task is appended to the satisfied originators. -/
theorem dependency_edge_releases_once_witness :
    ∃ e1, handleDataAccessStatusChanges 1 { isRegistered := true, enforcesDependency := true }
        { isRegistered := true } ⟨0, access_type, 100⟩ dependencyEdgeState = .ok e1
      ∧ (e1.getTask 0).predecessorCount = 0
      ∧ e1.hpDependencyData.satisfiedOriginators = [0]
      ∧ e1.hpDependencyData.satisfiedCommutativeOriginators = [] := by
  obtain ⟨h1, _, h3⟩ := dependency_edge_releases_once 0
    { isRegistered := true, enforcesDependency := true } { isRegistered := true } false false
    ⟨0, access_type, 100⟩ dependencyEdgeState
    { createAccess 0 access_type WRITE_ACCESS_TYPE false ⟨100, 8⟩ (-1) (-1) with
      registered := true }
    rfl (by decide) rfl rfl (fun h => absurd h (by decide))
  obtain ⟨e1, h4, h5, _, _, h6, _⟩ := h1 rfl rfl
  exact ⟨e1, h3.trans h4, h5, (h6 (by decide) (by decide)).1, (h6 (by decide) (by decide)).2⟩

/-- C29, counterexample: `registerLocalAccess` on `[100, 108)` for the only task of
`localAccessState`, which has no predecessor, returns a state in which the task has one. -/
theorem local_access_increments_predecessors :
    ∃ e1, registerLocalAccess ⟨1, 0⟩ 0 ⟨100, 8⟩ localAccessState = .ok e1
      ∧ (localAccessState.getTask 0).predecessorCount = 0
      ∧ (e1.getTask 0).predecessorCount = 1 := by
  have h : (match registerLocalAccess ⟨1, 0⟩ 0 ⟨100, 8⟩ localAccessState with
      | .ok e1 => decide ((e1.getTask 0).predecessorCount = 1)
      | .error _ => false) = true := by decide!
  cases hrun : registerLocalAccess ⟨1, 0⟩ 0 ⟨100, 8⟩ localAccessState with
  | error f => rw [hrun] at h; simp at h
  | ok e1 =>
    rw [hrun] at h
    simp only [decide_eq_true_eq] at h
    exact ⟨e1, rfl, rfl, h⟩

/-- C29: `registerLocalAccess` on a non-empty region whose start no access of the task contains
returns, and increments the predecessor count of the task by one: its registration edge runs
with an updated status that enforces a dependency. It inserts one access into the accesses of
the task, which the index finds at the start of the region; this access is on the region, of
type `NO_ACCESS_TYPE`, not weak, registered, read, write, concurrent and commutative satisfied,
has received its reduction information, is topmost and top level; the removal blockers of the
task grow by one; and the queues of the call are left as they are, the private
`hpDependencyData` being empty at the end. -/
theorem registerLocalAccess_registers_local_access (depth steps task : Nat)
    (region : DataAccessRegion) (e : Engine) (htask : task < e.tasks.length)
    (hregion : 0 < region.length)
    (hfree : ∀ a ∈ (e.getDataAccesses task).accesses,
      a.region.containsAddress region.startAddress = false) :
    ∃ e1 a, registerLocalAccess ⟨depth + 1, steps⟩ task region e = .ok e1
      ∧ (e1.getTask task).predecessorCount = (e.getTask task).predecessorCount + 1
      ∧ (e1.getDataAccesses task).accesses = insertAccess a (e.getDataAccesses task).accesses
      ∧ e1.findAccess ⟨task, access_type, region.startAddress⟩ = some a
      ∧ a.region = region ∧ a.type = NO_ACCESS_TYPE ∧ a.objectType = access_type
      ∧ a.weak = false ∧ a.registered = true
      ∧ a.readSatisfied = true ∧ a.writeSatisfied = true ∧ a.concurrentSatisfied = true
      ∧ a.commutativeSatisfied = true ∧ a.receivedReductionInfo = true
      ∧ a.topmost = true ∧ a.topLevel = true
      ∧ (e1.getDataAccesses task).removalBlockers = (e.getDataAccesses task).removalBlockers + 1
      ∧ e1.hpDependencyData = e.hpDependencyData := by
  obtain ⟨e1, h1, h2, h3, h4, h5⟩ := registerLocalAccess_result depth steps task region e htask
    hregion hfree
  refine ⟨e1, localAccess task region, h1, h2, h3, ?_, rfl, rfl, rfl, rfl, rfl, rfl, rfl, rfl,
    rfl, rfl, rfl, rfl, h4, h5⟩
  show List.find? _ (e1.getDataAccesses task).accesses = _
  rw [h3]
  exact find?_insertAccess (localAccess task region) _ _
    (DataAccessRegion.containsAddress_start region hregion) hfree

/-- C29, at a concrete input: a local access on `[100, 108)` for a task without accesses. -/
theorem registerLocalAccess_registers_local_access_witness :
    ∃ e1 a, registerLocalAccess ⟨1, 0⟩ 0 ⟨100, 8⟩ localAccessState = .ok e1
      ∧ (e1.getTask 0).predecessorCount = (localAccessState.getTask 0).predecessorCount + 1
      ∧ (e1.getDataAccesses 0).accesses = [a]
      ∧ a.type = NO_ACCESS_TYPE ∧ a.registered = true := by
  obtain ⟨e1, a, h1, h2, h3, _, _, h4, _, _, h5, _⟩ :=
    registerLocalAccess_registers_local_access 0 0 0 ⟨100, 8⟩ localAccessState (by decide)
      (by decide) (fun a ha => absurd ha (List.not_mem_nil a))
  exact ⟨e1, a, h1, h2, h3, h4, h5⟩

/-- C23, counterexample: an access that propagates its reduction slot set to the next access
without having received its reduction information. After `weakReductionRun` the only access of
T2, the weak reduction, passes the assertions of the status constructor, its status has
`propagatesReductionSlotSetToNext`, and its `receivedReductionInfo` flag is not set. -/
theorem leaf_reduction_propagates_slot_set_without_info :
    ∃ e a, weakReductionRun ⟨2, 6⟩ ⟨0, true, true, 0⟩ = .ok e
      ∧ (e.getDataAccesses 2).accesses = [a]
      ∧ statusEffectsAssertions e a (.ok ()) = .ok ()
      ∧ (statusEffectsOf e a).propagatesReductionSlotSetToNext = true
      ∧ a.receivedReductionInfo = false := by
  have h : (match weakReductionRun ⟨2, 6⟩ ⟨0, true, true, 0⟩ with
      | .ok e =>
        (match (e.getDataAccesses 2).accesses with
          | [a] => (match statusEffectsAssertions e a (.ok ()) with
              | .ok _ => true
              | .error _ => false)
            && (statusEffectsOf e a).propagatesReductionSlotSetToNext
            && !a.receivedReductionInfo
          | _ => false)
      | .error _ => false) = true := by decide!
  cases hrun : weakReductionRun ⟨2, 6⟩ ⟨0, true, true, 0⟩ with
  | error f => rw [hrun] at h; simp at h
  | ok e =>
    rw [hrun] at h
    dsimp only at h
    cases hl : (e.getDataAccesses 2).accesses with
    | nil => rw [hl] at h; simp at h
    | cons a rest =>
      cases rest with
      | cons b rest2 => rw [hl] at h; simp at h
      | nil =>
        rw [hl] at h
        dsimp only at h
        cases ha : statusEffectsAssertions e a (.ok ()) with
        | error f => rw [ha] at h; simp at h
        | ok u =>
          rw [ha] at h
          simp only [Bool.true_and, Bool.and_eq_true, Bool.not_eq_true'] at h
          exact ⟨e, a, rfl, hl, ha, h.1, h.2⟩

/-- C23: for every access, the status constructor reports `propagatesReductionSlotSetToNext`
exactly when the access has a next access and no subaccesses, is a reduction, is complete, does
not close its reduction, has allocated a reduction information or received a reduction slot set,
and, when it is a fragment, a taskwait or a top level sink, has received its reduction
information; for an access of a task itself the received reduction information is not asked
for. -/
theorem propagatesReductionSlotSetToNext_iff (e : Engine) (access : DataAccess) :
    (statusEffectsOf e access).propagatesReductionSlotSetToNext = true
      ↔ access.hasNext = true ∧ access.hasSubaccesses = false
        ∧ access.type = REDUCTION_ACCESS_TYPE ∧ access.complete = true
        ∧ access.closesReduction = false
        ∧ (access.allocatedReductionInfo = true ∨ access.receivedReductionSlotSet = true)
        ∧ (access.objectType ≠ access_type → access.receivedReductionInfo = true) := by
  cases hn : access.hasNext <;> cases hs : access.hasSubaccesses <;>
    cases hk : access.objectType <;>
    simp [statusEffectsOf, effectsToNextWithSubaccesses, effectsToNextOfFragment,
      effectsToNextOfLeafAccess, hn, hs, hk] <;> tauto

/-- C27, the code at the failing input: the next link that `createTopLevelSink` writes into a
predecessor is not of kind top level sink. After `finishingParentRun` task 0 has a top level
sink on `[100, 108)` and its bottom map entry links to `(0, top_level_sink_type)`, while the
next link of the access of T1 is `(0, taskwait_type)`. -/
theorem top_level_sink_is_linked_as_taskwait :
    ∃ e, finishingParentRun ⟨1, 1⟩ ⟨0, true, true, 0⟩ = .ok e
      ∧ (e.getDataAccesses 0).taskwaitFragments.map (fun a => (a.objectType, a.region))
          = [(top_level_sink_type, ⟨100, 8⟩)]
      ∧ (e.getDataAccesses 0).subaccessBottomMap.map (fun b => (b.region, b.link))
          = [(⟨100, 8⟩, ⟨0, top_level_sink_type⟩)]
      ∧ (e.getDataAccesses 1).accesses.map (fun a => (a.region, a.next))
          = [(⟨100, 8⟩, some ⟨0, taskwait_type⟩)] := by
  have h : (match finishingParentRun ⟨1, 1⟩ ⟨0, true, true, 0⟩ with
      | .ok e => decide (
          (e.getDataAccesses 0).taskwaitFragments.map (fun a => (a.objectType, a.region))
            = [(top_level_sink_type, ⟨100, 8⟩)]
          ∧ (e.getDataAccesses 0).subaccessBottomMap.map (fun b => (b.region, b.link))
            = [(⟨100, 8⟩, ⟨0, top_level_sink_type⟩)]
          ∧ (e.getDataAccesses 1).accesses.map (fun a => (a.region, a.next))
            = [(⟨100, 8⟩, some ⟨0, taskwait_type⟩)])
      | .error _ => false) = true := by decide!
  cases hrun : finishingParentRun ⟨1, 1⟩ ⟨0, true, true, 0⟩ with
  | error f => rw [hrun] at h; simp at h
  | ok e =>
    rw [hrun] at h
    simp only [decide_eq_true_eq] at h
    exact ⟨e, rfl, h.1, h.2.1, h.2.2⟩

/-- C28, the code at the failing input: the data of a read-only access of a task are
transferred, and those of a write-only access are not. With a cluster node as source,
`clusterFetchData` creates for a strong read on `[100, 108)` a data copy step with
`needsTransfer` set, and for a strong write on the same region a data copy step with
`needsTransfer` cleared. -/
theorem read_access_needs_transfer :
    clusterFetchData ⟨.nanos6_host_device, 1⟩ (fun _ => false)
        (some ⟨.nanos6_cluster_device, 2⟩) ⟨.nanos6_host_device, 1⟩ ⟨100, 8⟩
        (createAccess 1 access_type READ_ACCESS_TYPE false ⟨100, 8⟩ (-1) (-1))
      = .ok (.clusterDataCopyStep ⟨.nanos6_cluster_device, 2⟩ ⟨.nanos6_host_device, 1⟩ ⟨100, 8⟩ 1
          false true)
    ∧ clusterFetchData ⟨.nanos6_host_device, 1⟩ (fun _ => false)
        (some ⟨.nanos6_cluster_device, 2⟩) ⟨.nanos6_host_device, 1⟩ ⟨100, 8⟩
        (createAccess 1 access_type WRITE_ACCESS_TYPE false ⟨100, 8⟩ (-1) (-1))
      = .ok (.clusterDataCopyStep ⟨.nanos6_cluster_device, 2⟩ ⟨.nanos6_host_device, 1⟩ ⟨100, 8⟩ 1
          false false) := by
  constructor <;> rfl

/-- The value of `needsTransfer` that `clusterFetchData` computes. With a cluster node that is
not the directory as source and the current memory node as target, the function creates a data
copy step from the source to the target on the region given, for the originator of the access,
whose `isTaskwait` tells whether the object is a taskwait. For an object of kind access its
`needsTransfer` is true exactly when the type of the access is not `WRITE_ACCESS_TYPE`; for an
object of kind taskwait it is true exactly when the type is not `READ_ACCESS_TYPE` and either
the type is not `NO_ACCESS_TYPE` or the region of the access is not a distributed region; for a
fragment and for a top level sink it is false. -/
theorem clusterFetchData_needsTransfer (currentMemoryNode : MemoryPlace)
    (isDistributedRegion : DataAccessRegion → Bool) (source target : MemoryPlace)
    (inregion : DataAccessRegion) (access : DataAccess)
    (hsource : source.type = .nanos6_cluster_device)
    (hdirectory : source.isDirectoryMemoryPlace = false)
    (htarget : target = currentMemoryNode) :
    ∃ needsTransfer,
      clusterFetchData currentMemoryNode isDistributedRegion (some source) target inregion access
        = .ok (.clusterDataCopyStep source target inregion access.originator
            (access.objectType = taskwait_type) needsTransfer)
      ∧ (access.objectType = access_type →
          (needsTransfer = true ↔ access.type ≠ WRITE_ACCESS_TYPE))
      ∧ (access.objectType = taskwait_type →
          (needsTransfer = true ↔ access.type ≠ READ_ACCESS_TYPE
            ∧ (access.type ≠ NO_ACCESS_TYPE ∨ isDistributedRegion access.region = false)))
      ∧ (access.objectType = fragment_type ∨ access.objectType = top_level_sink_type →
          needsTransfer = false) := by
  refine ⟨(access.objectType = taskwait_type && access.type ≠ READ_ACCESS_TYPE
      && (access.type ≠ NO_ACCESS_TYPE || !isDistributedRegion access.region))
    || (access.objectType = access_type && access.type ≠ WRITE_ACCESS_TYPE), ?_, ?_, ?_, ?_⟩
  · simp only [clusterFetchData, assertThat, hsource, hdirectory, htarget, decide_True,
      Bool.not_false, if_true]
    rw [if_neg (by decide)]
  · intro h
    simp [h]
  · intro h
    simp [h]
  · intro h
    rcases h with h | h <;> simp [h]

/-- C30, counterexample: fragmentation counts the bytes of a strong commutative access again.
When T1 is registered with its strong commutative access on `[100, 108)` its total commutative
bytes are 8, the size of the access. After `commutativeSplitRun` the access is split into the
registered parts `[100, 104)` and `[104, 108)`, whose sizes add up to 8, and the total
commutative bytes of T1 are 12. -/
theorem split_counts_commutative_bytes_again :
    ∃ e0 ready e, registerTaskDataAccesses ⟨2, 4⟩ 1 ⟨0, true, true, 0⟩
          { tasks := [{}, newTask [strongAccess COMMUTATIVE_ACCESS_TYPE ⟨100, 8⟩]] }
          = .ok (e0, ready)
      ∧ (e0.getDataAccesses 1).totalCommutativeBytes = 8
      ∧ registeredCommutativeBytes e0 1 = 8
      ∧ commutativeSplitRun ⟨2, 4⟩ ⟨0, true, true, 0⟩ = .ok e
      ∧ (e.getDataAccesses 1).accesses.map (fun a => (a.region, a.registered))
          = [(⟨100, 4⟩, true), (⟨104, 4⟩, true)]
      ∧ registeredCommutativeBytes e 1 = 8
      ∧ (e.getDataAccesses 1).totalCommutativeBytes = 12 := by
  have h0 : (match registerTaskDataAccesses ⟨2, 4⟩ 1 ⟨0, true, true, 0⟩
        { tasks := [{}, newTask [strongAccess COMMUTATIVE_ACCESS_TYPE ⟨100, 8⟩]] } with
      | .ok (e0, _) => decide ((e0.getDataAccesses 1).totalCommutativeBytes = 8
          ∧ registeredCommutativeBytes e0 1 = 8)
      | .error _ => false) = true := by decide!
  have h : (match commutativeSplitRun ⟨2, 4⟩ ⟨0, true, true, 0⟩ with
      | .ok e => decide ((e.getDataAccesses 1).accesses.map (fun a => (a.region, a.registered))
            = [(⟨100, 4⟩, true), (⟨104, 4⟩, true)]
          ∧ registeredCommutativeBytes e 1 = 8
          ∧ (e.getDataAccesses 1).totalCommutativeBytes = 12)
      | .error _ => false) = true := by decide!
  cases hreg : registerTaskDataAccesses ⟨2, 4⟩ 1 ⟨0, true, true, 0⟩
      { tasks := [{}, newTask [strongAccess COMMUTATIVE_ACCESS_TYPE ⟨100, 8⟩]] } with
  | error f => rw [hreg] at h0; simp at h0
  | ok p =>
    obtain ⟨e0, ready⟩ := p
    rw [hreg] at h0
    simp only [decide_eq_true_eq] at h0
    cases hrun : commutativeSplitRun ⟨2, 4⟩ ⟨0, true, true, 0⟩ with
    | error f => rw [hrun] at h; simp at h
    | ok e =>
      rw [hrun] at h
      simp only [decide_eq_true_eq] at h
      exact ⟨e0, ready, e, rfl, h0.1, h0.2, rfl, h.1, h.2.1, h.2.2⟩

theorem statusEffectsOf_congr (e e1 : Engine) (a : DataAccess)
    (hp : ∀ t, e1.getParent t = e.getParent t)
    (hs : ∀ t, (e1.getTask t).spawned = (e.getTask t).spawned) :
    statusEffectsOf e1 a = statusEffectsOf e a := by
  simp only [statusEffectsOf, domainParentOf, nextDomainParentOf, hp, hs]

theorem statusEffectsOf_registered (e : Engine) (a : DataAccess) :
    statusEffectsOf e { a with registered := true }
      = { statusEffectsOf e a with isRegistered := true } := by
  cases a
  unfold statusEffectsOf
  dsimp only [DataAccess.hasNext]
  split
  · split
    · rfl
    · split <;> rfl
  · rfl

theorem statusEffectsAssertions_pass {α : Type} (e : Engine) (a : DataAccess)
    (h : statusEffectsAssertions e a (.ok ()) = .ok ()) (rest : Except Failure α) :
    statusEffectsAssertions e a rest = rest := by
  unfold statusEffectsAssertions at h ⊢
  obtain ⟨h1, h⟩ := assertThat_ok h
  obtain ⟨h2, h⟩ := assertThat_ok h
  obtain ⟨h3, h⟩ := assertThat_ok h
  obtain ⟨h4, h⟩ := assertThat_ok h
  obtain ⟨h5, h⟩ := assertThat_ok h
  simp only [assertThat, h1, h2, h3, h4, h5, if_true]

theorem statusEffectsAssertions_congr {α : Type} (e e1 : Engine) (a : DataAccess)
    (hp : ∀ t, e1.getParent t = e.getParent t)
    (hs : ∀ t, (e1.getTask t).spawned = (e.getTask t).spawned) (rest : Except Failure α) :
    statusEffectsAssertions e1 { a with registered := true } rest
      = statusEffectsAssertions e a rest := by
  unfold statusEffectsAssertions
  rw [statusEffectsOf_congr e e1 _ hp hs, statusEffectsOf_registered]
  simp only [domainParentOf, nextDomainParentOf, hp, DataAccess.hasNext]

theorem TaskDataAccesses.totalCommutativeBytes_setIndex (s : TaskDataAccesses)
    (k : DataAccessObjectType) (l : List DataAccess) :
    (s.setIndex k l).totalCommutativeBytes = s.totalCommutativeBytes := by
  cases k <;> rfl

theorem setUpNewFragment_counts (depth : Nat) (r : AccessRef) (e : Engine) (a : DataAccess)
    (htask : r.task < e.tasks.length) (hfind : e.findAccess r = some a)
    (hregistered : a.registered = false)
    (hassert : statusEffectsAssertions e a (.ok ()) = .ok ()) :
    ∃ e1, setUpNewFragment (handleDataAccessStatusChanges (depth + 1)) r e = .ok e1
      ∧ e1.findAccess r = some { a with registered := true }
      ∧ (e1.getDataAccesses r.task).totalCommutativeBytes
          = (e.getDataAccesses r.task).totalCommutativeBytes
            + (if a.weak = false ∧ a.type = COMMUTATIVE_ACCESS_TYPE
                then a.region.getSize else 0) := by
  obtain ⟨e0, he0⟩ : ∃ e0 : Engine, e0 = { e with hpDependencyData := {} } := ⟨_, rfl⟩
  have hfind0 : e0.findAccess r = some a := by rw [he0]; exact hfind
  have htask0 : r.task < e0.tasks.length := by rw [he0]; exact htask
  have hfind1 : (e0.modifyAccess r fun a => { a with registered := true }).findAccess r
      = some { a with registered := true } := by
    rw [Engine.findAccess_modifyAccess e0 r (fun a => { a with registered := true })
      (fun _ => rfl), hfind0]
    rfl
  have hp : ∀ t, (e0.modifyAccess r fun a => { a with registered := true }).getParent t
      = e.getParent t := by
    intro t
    rw [he0]
    exact Engine.getTask_modifyTask_proj _ r.task t _ (fun x => x.parent) (fun _ => rfl)
  have hs : ∀ t, ((e0.modifyAccess r fun a => { a with registered := true }).getTask t).spawned
      = (e.getTask t).spawned := by
    intro t
    rw [he0]
    exact Engine.getTask_modifyTask_proj _ r.task t _ (fun x => x.spawned) (fun _ => rfl)
  have hb : ((e0.modifyAccess r fun a => { a with registered := true }).getDataAccesses
      r.task).totalCommutativeBytes = (e.getDataAccesses r.task).totalCommutativeBytes := by
    rw [he0]
    exact Engine.getTask_modifyTask_proj _ r.task r.task _
      (fun x => x.dataAccesses.totalCommutativeBytes)
      (fun x => TaskDataAccesses.totalCommutativeBytes_setIndex _ _ _)
  obtain ⟨st, hst⟩ : ∃ st, st = statusEffectsOf e a := ⟨_, rfl⟩
  have hinitial : st.isRegistered = false := by
    rw [hst, ← hregistered]
    cases a
    unfold statusEffectsOf
    dsimp only [DataAccess.hasNext]
    split
    · split
      · rfl
      · split <;> rfl
    · rfl
  have hhandle := handleDataAccessStatusChanges_registration depth st
    st.isSatisfied st.enforcesDependency r
    (e0.modifyAccess r fun a => { a with registered := true }) { a with registered := true }
    hfind1 hinitial (fun h => h) (fun h => h)
  obtain ⟨e2, h2, _, _, _, hbytes⟩ := handleRegistration_edge st
    { st with isRegistered := true, isSatisfied := st.isSatisfied, enforcesDependency := st.enforcesDependency }
    { a with registered := true } r.task
    (e0.modifyAccess r fun a => { a with registered := true }) hinitial rfl
    (by simpa [Engine.modifyAccess, Engine.length_modifyDataAccesses] using htask0)
  obtain ⟨_, hfr, hhp, _⟩ := handleRegistration_frame _ _ _ _ _ _ h2
  have hempty : e2.hpDependencyData.empty = true := by
    rw [hhp, he0]
    rfl
  have hrun : setUpNewFragment (handleDataAccessStatusChanges (depth + 1)) r e
      = .ok { e2 with hpDependencyData := e.hpDependencyData } := by
    unfold setUpNewFragment withLocalDependencyData
    rw [← he0]
    have he : statusEffectsOf e0 a = st := by
      rw [he0, hst]
      exact statusEffectsOf_congr e _ a (fun _ => rfl) (fun _ => rfl)
    have ha0 : ∀ (rest : Except Failure Engine),
        statusEffectsAssertions e0 a rest = rest := by
      intro rest
      rw [he0]
      exact statusEffectsAssertions_pass _ a hassert rest
    have h1 : statusEffectsOf (e0.modifyAccess r fun a => { a with registered := true })
        { a with registered := true } = { st with isRegistered := true } := by
      rw [statusEffectsOf_congr e _ _ hp hs, statusEffectsOf_registered, hst]
    simp only [withStatusEffects, hfind0, hfind1,
      statusEffectsAssertions_congr e _ a hp hs,
      statusEffectsAssertions_pass e a hassert, ha0, he, h1]
    rw [show handleDataAccessStatusChanges (depth + 1) st
        { st with isRegistered := true } r
        (e0.modifyAccess r fun a => { a with registered := true }) = .ok e2 from
      hhandle.trans h2]
    simp only [assertThat, hempty, if_true]
  refine ⟨_, hrun, ?_, ?_⟩
  · show e2.findAccess r = _
    rw [hfr, hfind1]
  · show (e2.getDataAccesses r.task).totalCommutativeBytes = _
    rw [hbytes, hb]

/-- C30: the total commutative bytes of a task grow with every registration of a strong
commutative access, the registration of a part that fragmentation has split off included. On a
registration edge the registration block of `handleDataAccessStatusChanges` returns and adds the
size of the region of the access to the total commutative bytes of the task when the access is a
strong commutative access, and leaves them as they are for any other access. For a part that is
not registered and that passes the assertions of the status constructor, `setUpNewFragment`
returns, registers the part, and adds the size of the region of the part to the total
commutative bytes of the task when the part is a strong commutative one, and leaves them as they
are for any other part. -/
theorem commutative_bytes_count_registrations (depth : Nat)
    (initialStatus updatedStatus : DataAccessStatusEffects) (access : DataAccess) (task : Nat)
    (e : Engine) (r : AccessRef) (part : DataAccess)
    (hinitial : initialStatus.isRegistered = false) (hupdated : updatedStatus.isRegistered = true)
    (htask : task < e.tasks.length) (hpart : r.task < e.tasks.length)
    (hfind : e.findAccess r = some part) (hregistered : part.registered = false)
    (hassert : statusEffectsAssertions e part (.ok ()) = .ok ()) :
    (∃ e1, handleRegistration initialStatus updatedStatus access task e = .ok e1
      ∧ (e1.getDataAccesses task).totalCommutativeBytes
          = (e.getDataAccesses task).totalCommutativeBytes
            + (if access.weak = false ∧ access.type = COMMUTATIVE_ACCESS_TYPE
                then access.region.getSize else 0))
    ∧ (∃ e1, setUpNewFragment (handleDataAccessStatusChanges (depth + 1)) r e = .ok e1
      ∧ e1.findAccess r = some { part with registered := true }
      ∧ (e1.getDataAccesses r.task).totalCommutativeBytes
          = (e.getDataAccesses r.task).totalCommutativeBytes
            + (if part.weak = false ∧ part.type = COMMUTATIVE_ACCESS_TYPE
                then part.region.getSize else 0)) := by
  obtain ⟨e1, h1, _, _, _, h2⟩ := handleRegistration_edge initialStatus updatedStatus access
    task e hinitial hupdated htask
  exact ⟨⟨e1, h1, h2⟩, setUpNewFragment_counts depth r e part hpart hfind hregistered hassert⟩

/-- C30, at a concrete input: the part `[104, 108)` of `commutativeSplitState` is set up. -/
theorem commutative_bytes_count_registrations_witness :
    ∃ e1, setUpNewFragment (handleDataAccessStatusChanges 1) ⟨1, access_type, 104⟩
          commutativeSplitState = .ok e1
      ∧ (commutativeSplitState.getDataAccesses 1).totalCommutativeBytes = 8
      ∧ (e1.getDataAccesses 1).totalCommutativeBytes = 12 := by
  obtain ⟨_, e1, h1, _, h2⟩ := commutative_bytes_count_registrations 0 {}
    { isRegistered := true } (createAccess 1 access_type READ_ACCESS_TYPE false ⟨0, 8⟩ (-1) (-1))
    1 commutativeSplitState ⟨1, access_type, 104⟩
    (createAccess 1 access_type COMMUTATIVE_ACCESS_TYPE false ⟨104, 4⟩ (-1) (-1))
    rfl rfl (by decide) (by decide) rfl rfl rfl
  exact ⟨e1, h1, rfl, h2⟩

theorem Engine.queueFrom_combineRegion (q : List UpdateOperation) (e : Engine) (i : Nat)
    (region : DataAccessRegion) (b : Bool) :
    (combineRegion e i region b).1.queueFrom q ↔ e.queueFrom q := by
  unfold combineRegion
  split <;> rfl

theorem setUpNewFragment_queue (q : List UpdateOperation) (handle : Handler)
    (fragment : AccessRef) (e e1 : Engine) (h : setUpNewFragment handle fragment e = .ok e1)
    (hi : e.queueFrom q) : e1.queueFrom q := by
  unfold setUpNewFragment withLocalDependencyData at h
  split at h
  · cases h
  · obtain ⟨_, h⟩ := assertThat_ok h
    cases h
    exact hi

theorem fragmentObject_queue (q : List UpdateOperation) (handle : Handler)
    (r : AccessRef) (region : DataAccessRegion) (e e1 : Engine)
    (h : fragmentObject handle r region e = .ok e1) (hi : e.queueFrom q) :
    e1.queueFrom q := by
  unfold fragmentObject at h
  split at h
  · cases h
  · next a ha =>
    obtain ⟨_, h⟩ := assertThat_ok h
    split at h
    · cases h; exact hi
    · obtain ⟨_, h⟩ := assertThat_ok h
      obtain ⟨_, h⟩ := assertThat_ok h
      exact forEachRef_keeps (P := fun e => e.queueFrom q) _ (setUpNewFragment_queue q handle) _ _ _ h (id hi)

theorem fragmentAccess_queue (q : List UpdateOperation) (handle : Handler)
    (r : AccessRef) (region : DataAccessRegion) (e e1 : Engine)
    (h : fragmentAccess handle r region e = .ok e1) (hi : e.queueFrom q) :
    e1.queueFrom q := by
  unfold fragmentAccess at h
  split at h
  · cases h
  · split at h
    · cases h; exact hi
    · exact fragmentObject_queue q handle _ _ _ _ h hi

theorem followLink_queue (q : List UpdateOperation) (handle : Handler) (hh : handle.emitsAtBack)
    (link : DataAccessLink) (region : DataAccessRegion)
    (processor : AccessRef → Engine → Except Failure Engine)
    (hp : ∀ r e e1, processor r e = .ok e1 → e.queueFrom q → e1.queueFrom q)
    (e e1 : Engine) (h : followLink handle link region processor e = .ok e1)
    (hi : e.queueFrom q) : e1.queueFrom q := by
  refine forEachRef_keeps (P := fun e => e.queueFrom q) _ (fun r e e1 h hi => ?_) _ _ _ h hi
  split at h
  · cases h
  · obtain ⟨_, h⟩ := assertThat_ok h
    split at h
    · cases h
    · next e2 h2 => exact hp _ _ _ h (fragmentObject_queue q handle _ _ _ _ h2 hi)

theorem removeBottomMapTaskwaitOrTopLevelSink_queue (q : List UpdateOperation) (handle : Handler)
    (hh : handle.emitsAtBack) (r : AccessRef) (e e1 : Engine)
    (h : removeBottomMapTaskwaitOrTopLevelSink handle r e = .ok e1) (hi : e.queueFrom q) :
    e1.queueFrom q := by
  unfold removeBottomMapTaskwaitOrTopLevelSink at h
  split at h
  · cases h
  · next access _ =>
    obtain ⟨_, h⟩ := assertThat_ok h
    obtain ⟨_, h⟩ := assertThat_ok h
    split at h
    · cases h
    · next e2 h2 =>
      have hi2 : e2.queueFrom q := by
        refine forEachEntry_keeps (P := fun e => e.queueFrom q) _ (fun a e e1 h hi => ?_) _ _ _ h2 hi
        split at h
        · cases h
        · obtain ⟨_, h⟩ := assertThat_ok h
          obtain ⟨_, h⟩ := assertThat_ok h
          obtain ⟨_, h⟩ := assertThat_ok h
          cases h
          exact id hi
      dsimp only at h
      split at h
      · cases h
      · next e4 h4 =>
        cases h
        show e4.queueFrom q
        refine forEachRef_keeps (P := fun e => e.queueFrom q) _ (fun a e e1 h hi => ?_) _ _ _ h4
          (id hi2)
        split at h
        · cases h
        · obtain ⟨_, h⟩ := assertThat_ok h
          split at h
          · cases h
          · next e3 h3 =>
            cases h
            have hx := fragmentAccess_queue q handle _ _ _ _ h3 hi
            exact hx

theorem foreachBottomMapMatch_queue (q : List UpdateOperation) (handle : Handler) (hh : handle.emitsAtBack)
    (region : DataAccessRegion) (task : Nat)
    (processor : AccessRef → Engine → Except Failure Engine)
    (hp : ∀ r e e1, processor r e = .ok e1 → e.queueFrom q → e1.queueFrom q)
    (e e1 : Engine) (h : foreachBottomMapMatch handle region task processor e = .ok e1)
    (hi : e.queueFrom q) : e1.queueFrom q := by
  refine forEachEntry_keeps (P := fun e => e.queueFrom q) _ (fun a e e1 h hi => ?_) _ _ _ h hi
  split at h
  · cases h
  · obtain ⟨_, h⟩ := assertThat_ok h
    refine followLink_queue q handle hh _ _ _ (fun r e e1 h hi => ?_) _ _ h hi
    split at h
    · cases h
    · obtain ⟨_, h⟩ := assertThat_ok h
      obtain ⟨_, h⟩ := assertThat_ok h
      exact hp _ _ _ h hi

theorem processBottomMapUpdate_queue (q : List UpdateOperation) (handle : Handler) (hh : handle.emitsAtBack)
    (operation : BottomMapUpdateOperation) (task : Nat) (e e1 : Engine)
    (h : processBottomMapUpdate handle operation task e = .ok e1) (hi : e.queueFrom q) :
    e1.queueFrom q := by
  unfold processBottomMapUpdate at h
  obtain ⟨_, h⟩ := assertThat_ok h
  obtain ⟨_, h⟩ := assertThat_ok h
  refine foreachBottomMapMatch_queue q handle hh _ _ _ (fun r e e1 h hi => ?_) _ _ h hi
  split at h
  · cases h
  · obtain ⟨_, h⟩ := failIf_ok h
    obtain ⟨_, _, _, h⟩ := withStatusEffects_ok h
    obtain ⟨_, h⟩ := failIf_ok h
    obtain ⟨_, h⟩ := assertThat_ok h
    obtain ⟨a1, hfind, hok, h⟩ := withStatusEffects_ok h
    exact hh q _ _ _ _ _ h
      (id hi)

theorem handleRegistration_queue (q : List UpdateOperation) (i u : DataAccessStatusEffects) (access : DataAccess)
    (task : Nat) (e e1 : Engine) (h : handleRegistration i u access task e = .ok e1)
    (hi : e.queueFrom q) : e1.queueFrom q := by
  unfold handleRegistration at h
  split at h
  · obtain ⟨_, h⟩ := assertThat_ok h
    cases h
    repeat' split
    all_goals exact hi
  · cases h; exact hi

theorem handleDependencyUpdate_queue (q : List UpdateOperation) (i u : DataAccessStatusEffects) (task : Nat)
    (e e1 : Engine) (h : handleDependencyUpdate i u task e = .ok e1) (hi : e.queueFrom q) :
    e1.queueFrom q := by
  unfold handleDependencyUpdate assertThat at h
  dsimp only at h
  repeat' split at h
  all_goals cases h
  all_goals exact hi

theorem handleReductionChanges_queue (q : List UpdateOperation) (i u : DataAccessStatusEffects) (access : DataAccess)
    (e e1 : Engine) (h : handleReductionChanges i u access e = .ok e1) (hi : e.queueFrom q) :
    e1.queueFrom q := by
  unfold handleReductionChanges at h
  dsimp only at h
  split at h
  · cases h
  · next e2 h2 =>
    have hi2 : e2.queueFrom q := by
      split at h2
      · obtain ⟨_, h2⟩ := assertThat_ok h2
        obtain ⟨_, h2⟩ := assertThat_ok h2
        split at h2
        · cases h2
        · cases h2; exact hi
      · cases h2; exact hi
    split at h
    · cases h
    · next e3 h3 =>
      have hi3 : e3.queueFrom q := by
        split at h3
        · obtain ⟨_, h3⟩ := assertThat_ok h3
          obtain ⟨_, h3⟩ := assertThat_ok h3
          obtain ⟨_, h3⟩ := assertThat_ok h3
          obtain ⟨_, h3⟩ := assertThat_ok h3
          obtain ⟨_, h3⟩ := assertThat_ok h3
          split at h3
          · cases h3
          · obtain ⟨_, h3⟩ := assertThat_ok h3
            cases h3
            exact (Engine.queueFrom_combineRegion q _ _ _ _).2 hi2
        · cases h3; exact hi2
      split at h
      · obtain ⟨_, h⟩ := assertThat_ok h
        obtain ⟨_, h⟩ := assertThat_ok h
        obtain ⟨_, h⟩ := assertThat_ok h
        obtain ⟨_, h⟩ := assertThat_ok h
        obtain ⟨_, h⟩ := assertThat_ok h
        obtain ⟨_, h⟩ := assertThat_ok h
        split at h
        · cases h
        · cases h
          split
          · exact (Engine.queueFrom_combineRegion q _ _ _ _).2 hi3
          · exact (Engine.queueFrom_combineRegion q _ _ _ _).2 hi3
      · cases h; exact hi3

theorem handlePropagation_queue (q : List UpdateOperation) (i u : DataAccessStatusEffects) (access : DataAccess)
    (r : AccessRef) (e e1 : Engine) (h : handlePropagation i u access r e = .ok e1)
    (hi : e.queueFrom q) : e1.queueFrom q := by
  unfold handlePropagation at h
  dsimp only at h
  split at h
  · cases h
  · next e2 h2 =>
    have hi2 : e2.queueFrom q := by
      split at h2
      · obtain ⟨_, h2⟩ := assertThat_ok h2
        cases h2; exact hi
      · cases h2; exact hi
    split at h
    · cases h
    · next e3 h3 =>
      have hi3 : e3.queueFrom q := by
        split at h3
        · cases h3; exact hi2
        · split at h3
          · cases h3
          · cases h3
            have hi4 : (if i.propagatesDataReleaseStepToNext ≠ u.propagatesDataReleaseStepToNext
                then e2.modifyAccess r fun a => { a with dataReleaseStep := none }
                else e2).queueFrom q := by
              split
              · exact id hi2
              · exact hi2
            split
            · exact hi4.trans (List.prefix_append _ _)
            · exact hi4
      split at h
      · split at h
        · cases h
        · cases h
          split
          · exact hi3.trans (List.prefix_append _ _)
          · exact hi3
      · cases h; exact hi3

theorem handleBottomMapUpdate_queue (q : List UpdateOperation) (handle : Handler) (hh : handle.emitsAtBack)
    (i u : DataAccessStatusEffects) (access : DataAccess) (task : Nat) (e e1 : Engine)
    (h : handleBottomMapUpdate handle i u access task e = .ok e1) (hi : e.queueFrom q) :
    e1.queueFrom q := by
  unfold handleBottomMapUpdate at h
  split at h
  · obtain ⟨_, h⟩ := assertThat_ok h
    exact processBottomMapUpdate_queue q handle hh _ _ _ _ h hi
  · cases h; exact hi

theorem handleTriggers_queue (q : List UpdateOperation) (i u : DataAccessStatusEffects) (access : DataAccess)
    (r : AccessRef) (e e1 : Engine) (h : handleTriggers i u access r e = .ok e1)
    (hi : e.queueFrom q) : e1.queueFrom q := by
  unfold handleTriggers at h
  dsimp only at h
  split at h
  · cases h
  · next e2 h2 =>
    have hi2 : e2.queueFrom q := by
      split at h2
      · obtain ⟨_, h2⟩ := assertThat_ok h2
        obtain ⟨_, h2⟩ := assertThat_ok h2
        obtain ⟨_, h2⟩ := assertThat_ok h2
        obtain ⟨_, h2⟩ := assertThat_ok h2
        obtain ⟨_, h2⟩ := assertThat_ok h2
        obtain ⟨_, h2⟩ := assertThat_ok h2
        obtain ⟨_, h2⟩ := assertThat_ok h2
        cases h2; exact hi
      · cases h2; exact hi
    split at h
    · cases h
    · next e3 h3 =>
      have hi3 : e3.queueFrom q := by
        split at h3
        · obtain ⟨_, h3⟩ := assertThat_ok h3
          split at h3
          · cases h3
          · cases h3
            exact id (id hi2)
        · cases h3; exact hi2
      split at h
      · split at h
        · cases h
        · cases h
          split
          · exact id (id hi3)
          · exact id hi3
      · cases h; exact hi3

theorem handleRemoval_queue (q : List UpdateOperation) (handle : Handler) (hh : handle.emitsAtBack)
    (i u : DataAccessStatusEffects) (access : DataAccess) (r : AccessRef) (e e1 : Engine)
    (h : handleRemoval handle i u access r e = .ok e1) (hi : e.queueFrom q) :
    e1.queueFrom q := by
  unfold handleRemoval at h
  split at h
  · obtain ⟨_, h⟩ := assertThat_ok h
    obtain ⟨_, h⟩ := assertThat_ok h
    dsimp only at h
    have hi1 : ((e.modifyDataAccesses r.task fun s =>
        { s with removalBlockers := s.removalBlockers - 1 }).modifyAccess r
          fun a => { a with discounted := true }).queueFrom q :=
      hi
    split at h
    · cases h
    · next e2 h2 =>
      have hi2 : e2.queueFrom q := by
        split at h2
        · split at h2
          · cases h2
          · next e3 h3 =>
            have hi3 : e3.queueFrom q := by
              split at h3
              · refine forEachRef_keeps (P := fun e => e.queueFrom q) _ (fun a e e1 h hi => ?_) _ _ _ h3 hi1
                split at h
                · cases h
                · obtain ⟨_, h⟩ := assertThat_ok h
                  obtain ⟨_, h⟩ := assertThat_ok h
                  obtain ⟨_, h⟩ := assertThat_ok h
                  obtain ⟨_, h⟩ := assertThat_ok h
                  obtain ⟨_, h⟩ := assertThat_ok h
                  obtain ⟨_, h⟩ := assertThat_ok h
                  cases h
                  exact id hi
              · cases h3; exact hi1
            obtain ⟨_, h2⟩ := assertThat_ok h2
            split at h2
            · cases h2
              split <;> exact hi3
            · cases h2; exact hi3
        · cases h2; exact hi1
      split at h
      · cases h
      · next e3 h3 =>
        have hi3 : e3.queueFrom q := by
          split at h3
          · cases h3; exact hi2
          · split at h3
            · exact removeBottomMapTaskwaitOrTopLevelSink_queue q handle hh _ _ _ h3 hi2
            · obtain ⟨_, h3⟩ := assertThat_ok h3
              cases h3
              exact id (id hi2)
        split at h
        · cases h
          split <;> exact hi3
        · cases h; exact hi3
  · cases h; exact hi

theorem handleDataAccessStatusChangesBody_queue (handle : Handler)
    (hh : handle.emitsAtBack) :
    (handleDataAccessStatusChangesBody handle).emitsAtBack := by
  intro q i u r e e1 h hi
  unfold handleDataAccessStatusChangesBody at h
  split at h
  · cases h
  · split at h
    · cases h
    · next e2 h2 =>
      have hi2 := handleRegistration_queue q _ _ _ _ _ _ h2 hi
      split at h
      · cases h; exact hi2
      · obtain ⟨_, h⟩ := assertThat_ok h
        obtain ⟨_, h⟩ := assertThat_ok h
        split at h
        · cases h
        · next e3 h3 =>
          have hi3 := handleDependencyUpdate_queue q _ _ _ _ _ h3 hi2
          split at h
          · cases h
          · next e4 h4 =>
            have hi4 := handleReductionChanges_queue q _ _ _ _ _ h4 hi3
            split at h
            · cases h
            · next e5 h5 =>
              have hi5 := handlePropagation_queue q _ _ _ _ _ _ h5 hi4
              split at h
              · cases h
              · next e6 h6 =>
                have hi6 := handleBottomMapUpdate_queue q handle hh _ _ _ _ _ _ h6 hi5
                split at h
                · cases h
                · split at h
                  · cases h
                  · next e7 h7 =>
                    have hi7 := handleTriggers_queue q _ _ _ _ _ _ h7 hi6
                    split at h
                    · cases h
                    · exact handleRemoval_queue q handle hh _ _ _ _ _ _ h hi7

theorem handleDataAccessStatusChanges_queue (depth : Nat) :
    (handleDataAccessStatusChanges depth).emitsAtBack := by
  induction depth with
  | zero => intro q i u r e e1 h _; cases h
  | succ depth ih => exact handleDataAccessStatusChangesBody_queue _ ih

theorem applyUpdateOperationOnAccess_queue (q : List UpdateOperation) (handle : Handler) (hh : handle.emitsAtBack)
    (op : UpdateOperation) (r : AccessRef) (e e1 : Engine)
    (h : applyUpdateOperationOnAccess handle op r e = .ok e1) (hi : e.queueFrom q) :
    e1.queueFrom q := by
  unfold applyUpdateOperationOnAccess at h
  split at h
  · cases h
  · next e2 h2 =>
    have hi2 := fragmentAccess_queue q handle _ _ _ _ h2 hi
    obtain ⟨a, ha, _, h⟩ := withStatusEffects_ok h
    split at h
    · cases h
    · next updated hu =>
      obtain ⟨_, _, _, h⟩ := withStatusEffects_ok h
      exact hh q _ _ _ _ _ h (id hi2)

theorem processUpdateOperation_queue (q : List UpdateOperation) (handle : Handler) (hh : handle.emitsAtBack)
    (op : UpdateOperation) (e e1 : Engine)
    (h : processUpdateOperation handle op e = .ok e1) (hi : e.queueFrom q) :
    e1.queueFrom q := by
  unfold processUpdateOperation at h
  obtain ⟨_, h⟩ := assertThat_ok h
  exact forEachRef_keeps (P := fun e => e.queueFrom q) _ (applyUpdateOperationOnAccess_queue q handle hh op) _ _ _ h hi

theorem processDelayedOperationsLocking_fst (handle : Handler) (steps : Nat)
    (lastLocked : Option Nat) (e : Engine) :
    (processDelayedOperationsLocking handle steps lastLocked e).1
      = processDelayedOperations handle steps e := by
  induction steps generalizing lastLocked e with
  | zero =>
    simp only [processDelayedOperationsLocking, processDelayedOperations]
    split <;> rfl
  | succ n ih =>
    simp only [processDelayedOperationsLocking, processDelayedOperations]
    split
    · next hq => simp only [hq]
    · next op tl hq =>
      simp only [hq]
      cases processUpdateOperation handle op e with
      | error f => rfl
      | ok e1 => exact ih _ _

theorem lockHeldAfter_append (held : Option Nat) (a b : List DrainEvent) :
    lockHeldAfter held (a ++ b) = (lockHeldAfter held a).bind fun h => lockHeldAfter h b := by
  induction a generalizing held with
  | nil => rfl
  | cons x rest ih =>
    cases x <;> simp only [List.cons_append, lockHeldAfter]
    · split
      · exact ih _
      · rfl
    · split
      · exact ih _
      · rfl
    · split
      · exact ih _
      · rfl
    · exact ih _

theorem lockHeldAfter_unlockLast (held : Option Nat) :
    lockHeldAfter held (unlockLast held) = some none := by
  cases held <;> simp [unlockLast, lockHeldAfter]

theorem lockHeldAfter_lockTarget (lastLocked : Option Nat) (target : Nat) :
    lockHeldAfter lastLocked (lockTarget lastLocked target) = some (some target) := by
  unfold lockTarget
  split
  · rw [lockHeldAfter_append, lockHeldAfter_unlockLast]
    simp [lockHeldAfter]
  · next h =>
    have : lastLocked = some target := by
      by_contra hc
      exact h (fun hh => hc hh.symm)
    simp [lockHeldAfter, this]

theorem processDelayedOperationsLocking_locks (handle : Handler) (steps : Nat)
    (lastLocked : Option Nat) (e : Engine) :
    ∃ held, lockHeldAfter lastLocked (processDelayedOperationsLocking handle steps lastLocked e).2
        = some held
      ∧ ∀ e1, (processDelayedOperationsLocking handle steps lastLocked e).1 = .ok e1 →
          held = none := by
  induction steps generalizing lastLocked e with
  | zero =>
    simp only [processDelayedOperationsLocking]
    split
    · exact ⟨none, lockHeldAfter_unlockLast _, fun _ _ => rfl⟩
    · exact ⟨lastLocked, rfl, fun _ h => by cases h⟩
  | succ n ih =>
    simp only [processDelayedOperationsLocking]
    split
    · exact ⟨none, lockHeldAfter_unlockLast _, fun _ _ => rfl⟩
    · next op tl hq =>
      split
      · refine ⟨some op.target.task, ?_, fun _ h => by cases h⟩
        rw [lockHeldAfter_append, lockHeldAfter_lockTarget]
        simp [lockHeldAfter]
      · next e1 h1 =>
        obtain ⟨held, h2, h3⟩ := ih (some op.target.task)
          (e1.modifyHp fun d => { d with delayedOperations := d.delayedOperations.drop 1 })
        refine ⟨held, ?_, h3⟩
        rw [lockHeldAfter_append, lockHeldAfter_append, lockHeldAfter_lockTarget]
        simpa [lockHeldAfter] using h2

theorem takesInOrder_lockTarget (queue : List UpdateOperation) (lastLocked : Option Nat)
    (target : Nat) (rest : List DrainEvent) :
    takesInOrder queue (lockTarget lastLocked target ++ rest) ↔ takesInOrder queue rest := by
  unfold lockTarget
  split
  · cases lastLocked <;> simp [unlockLast, takesInOrder]
  · rfl

theorem processedOperations_lockTarget (lastLocked : Option Nat) (target : Nat)
    (rest : List DrainEvent) :
    processedOperations (lockTarget lastLocked target ++ rest) = processedOperations rest := by
  unfold lockTarget
  split
  · cases lastLocked <;> simp [unlockLast, processedOperations]
  · rfl

theorem emittedOperations_lockTarget (length : Nat) (lastLocked : Option Nat) (target : Nat)
    (rest : List DrainEvent) :
    emittedOperations length (lockTarget lastLocked target ++ rest)
      = emittedOperations length rest := by
  unfold lockTarget
  split
  · cases lastLocked <;> simp [unlockLast, emittedOperations]
  · rfl

theorem takesInOrder_unlockLast (queue : List UpdateOperation) (lastLocked : Option Nat) :
    takesInOrder queue (unlockLast lastLocked) := by
  cases lastLocked <;> simp [unlockLast, takesInOrder]

theorem processedOperations_unlockLast (lastLocked : Option Nat) :
    processedOperations (unlockLast lastLocked) = [] := by
  cases lastLocked <;> rfl

theorem emittedOperations_unlockLast (length : Nat) (lastLocked : Option Nat) :
    emittedOperations length (unlockLast lastLocked) = [] := by
  cases lastLocked <;> rfl

theorem processDelayedOperationsLocking_order (handle : Handler) (hh : handle.emitsAtBack)
    (steps : Nat) (lastLocked : Option Nat) (e : Engine) :
    takesInOrder e.hpDependencyData.delayedOperations
        (processDelayedOperationsLocking handle steps lastLocked e).2
      ∧ ∀ e1, (processDelayedOperationsLocking handle steps lastLocked e).1 = .ok e1 →
          e1.hpDependencyData.delayedOperations = []
          ∧ processedOperations (processDelayedOperationsLocking handle steps lastLocked e).2
            = e.hpDependencyData.delayedOperations
              ++ emittedOperations e.hpDependencyData.delayedOperations.length
                (processDelayedOperationsLocking handle steps lastLocked e).2 := by
  induction steps generalizing lastLocked e with
  | zero =>
    simp only [processDelayedOperationsLocking]
    split
    · next hq =>
      refine ⟨takesInOrder_unlockLast _ _, fun e1 h => ?_⟩
      cases h
      have hq := List.isEmpty_iff.1 hq
      simp [hq, processedOperations_unlockLast, emittedOperations_unlockLast]
    · exact ⟨trivial, fun _ h => by cases h⟩
  | succ n ih =>
    simp only [processDelayedOperationsLocking]
    split
    · next hq =>
      refine ⟨takesInOrder_unlockLast _ _, fun e1 h => ?_⟩
      cases h
      simp [hq, processedOperations_unlockLast, emittedOperations_unlockLast]
    · next op tl hq =>
      split
      · refine ⟨?_, fun _ h => by cases h⟩
        rw [takesInOrder_lockTarget]
        simp [takesInOrder, hq]
      · next e1 h1 =>
        obtain ⟨em, hem⟩ : e.hpDependencyData.delayedOperations
            <+: e1.hpDependencyData.delayedOperations :=
          processUpdateOperation_queue _ handle hh op e e1 h1 (List.prefix_refl _)
        obtain ⟨h2, h3⟩ := ih (some op.target.task)
          (e1.modifyHp fun d => { d with delayedOperations := d.delayedOperations.drop 1 })
        have hd : (e1.modifyHp fun d =>
            { d with delayedOperations := d.delayedOperations.drop 1
            }).hpDependencyData.delayedOperations = tl ++ em := by
          show e1.hpDependencyData.delayedOperations.drop 1 = _
          rw [← hem, hq]
          rfl
        rw [hd] at h2 h3
        refine ⟨?_, fun e2 h => ?_⟩
        · rw [List.append_assoc, takesInOrder_lockTarget]
          refine ⟨rfl, by rw [hq]; rfl, ⟨em, hem⟩, ?_⟩
          rw [← hem, hq]
          exact h2
        · obtain ⟨h4, h5⟩ := h3 e2 h
          refine ⟨h4, ?_⟩
          rw [List.append_assoc, processedOperations_lockTarget, emittedOperations_lockTarget]
          simp only [List.singleton_append, processedOperations, emittedOperations, h5]
          rw [← hem, hq]
          simp

/-- C25: the drain of the delayed operations, `processDelayedOperations`, with the events of its
run. The run with the events returns the state of `processDelayedOperations`. Whether the run
fails or not, its events keep the lock discipline from no lock held: the lock of a task is taken
only when no lock is held, the lock given back is the one held, and every operation is processed
while the lock of its target task is held; and when the run returns, no lock is held at the end.
The operations are taken in the order of the queue: each operation that is processed is the
front of the queue, its processing leaves the queue as it is and adds what it emits at the back,
and the pop takes the front off. When the run returns, the queue is empty and the operations
processed are the operations of the queue at the start followed by the operations emitted during
the run, in the order of their emission. -/
theorem drain_locks_one_task_at_a_time (depth steps : Nat) (e : Engine) :
    (processDelayedOperationsLocking (handleDataAccessStatusChanges depth) steps none e).1
        = processDelayedOperations (handleDataAccessStatusChanges depth) steps e
      ∧ (∃ held, lockHeldAfter none
            (processDelayedOperationsLocking (handleDataAccessStatusChanges depth) steps none
              e).2 = some held
          ∧ ∀ e1, processDelayedOperations (handleDataAccessStatusChanges depth) steps e
              = .ok e1 → held = none)
      ∧ takesInOrder e.hpDependencyData.delayedOperations
          (processDelayedOperationsLocking (handleDataAccessStatusChanges depth) steps none e).2
      ∧ ∀ e1, processDelayedOperations (handleDataAccessStatusChanges depth) steps e = .ok e1 →
          e1.hpDependencyData.delayedOperations = []
          ∧ processedOperations
              (processDelayedOperationsLocking (handleDataAccessStatusChanges depth) steps none
                e).2
            = e.hpDependencyData.delayedOperations
              ++ emittedOperations e.hpDependencyData.delayedOperations.length
                (processDelayedOperationsLocking (handleDataAccessStatusChanges depth) steps none
                  e).2 := by
  have h1 := processDelayedOperationsLocking_fst (handleDataAccessStatusChanges depth) steps
    none e
  obtain ⟨held, h2, h3⟩ := processDelayedOperationsLocking_locks
    (handleDataAccessStatusChanges depth) steps none e
  obtain ⟨h4, h5⟩ := processDelayedOperationsLocking_order
    (handleDataAccessStatusChanges depth) (handleDataAccessStatusChanges_queue depth) steps
    none e
  rw [h1] at h3 h5
  exact ⟨h1, ⟨held, h2, h3⟩, h4, h5⟩

/-- The events of the drain of `lockingState`: the lock of T1 is taken once for its two
operations and given back before the lock of T2 is taken, which is given back at the end. -/
theorem drain_of_lockingState :
    ((processDelayedOperationsLocking (handleDataAccessStatusChanges 1) 3 none lockingState).2.map
        fun event =>
          match event with
          | .lock task => (0, task)
          | .unlock task => (1, task)
          | .process operation _ => (2, operation.target.task)
          | .pop queue => (3, queue.length))
      = [(0, 1), (2, 1), (3, 3), (2, 1), (3, 2), (1, 1), (0, 2), (2, 2), (3, 1), (1, 2)] := by
  decide!

/-! ## The operations keep the invariants of the objects -/

theorem Engine.getDataAccesses_modifyTask (e : Engine) (t u : Nat) (f : Task → Task) :
    (e.modifyTask t f).getDataAccesses u
      = if u = t ∧ t < e.tasks.length then (f (e.getTask t)).dataAccesses
        else e.getDataAccesses u := by
  by_cases hu : u = t
  · subst hu
    by_cases ht : u < e.tasks.length
    · simp [Engine.getDataAccesses, Engine.getTask_modifyTask _ _ _ ht, ht]
    · simp [Engine.getDataAccesses, Engine.getTask, Engine.modifyTask,
        List.getD_eq_getElem?_getD, List.getElem?_modify, ht,
        List.getElem?_eq_none (Nat.le_of_not_lt ht)]
  · simp [Engine.getDataAccesses, Engine.getTask_modifyTask_of_ne _ _ _ _ (Ne.symm hu), hu]

theorem Engine.remote_modifyTask (e : Engine) (t u : Nat) (f : Task → Task)
    (hr : ∀ x, (f x).remote = x.remote) :
    ((e.modifyTask t f).getTask u).remote = (e.getTask u).remote := by
  simp only [Engine.getTask, Engine.modifyTask, List.getD_eq_getElem?_getD,
    List.getElem?_modify]
  cases e.tasks[u]? with
  | none => rfl
  | some a =>
    simp only [Option.map_some', Option.getD_some]
    split
    · exact hr a
    · rfl

theorem Engine.inv_modifyTask {I : ObjectInvariant} {e : Engine} (t : Nat) (f : Task → Task)
    (hf : ∀ x : Task, x.dataAccesses.inv I t → (f x).dataAccesses.inv I t)
    (hr : ∀ x, (f x).remote = x.remote)
    (hi : e.inv I) : (e.modifyTask t f).inv I := by
  refine ⟨fun u => ?_, fun u => ?_⟩
  · rw [Engine.getDataAccesses_modifyTask]
    split
    · next h => rw [h.1]; exact hf _ (hi.1 t)
    · exact hi.1 u
  · rw [Engine.remote_modifyTask e t u f hr]; exact hi.2 u

theorem Engine.inv_modifyTask_same {I : ObjectInvariant} {e : Engine} (t : Nat)
    (f : Task → Task) (hf : ∀ x, (f x).dataAccesses = x.dataAccesses)
    (hr : ∀ x, (f x).remote = x.remote) (hi : e.inv I) :
    (e.modifyTask t f).inv I :=
  Engine.inv_modifyTask t f (fun x hx => by rw [hf x]; exact hx) hr hi

theorem Engine.inv_modifyDataAccesses {I : ObjectInvariant} {e : Engine} (t : Nat)
    (f : TaskDataAccesses → TaskDataAccesses) (hf : ∀ s, s.inv I t → (f s).inv I t)
    (hi : e.inv I) : (e.modifyDataAccesses t f).inv I :=
  Engine.inv_modifyTask t _ (fun _ hx => hf _ hx) (fun _ => rfl) hi

theorem Engine.inv_modifyDataAccesses_fields {I : ObjectInvariant} {e : Engine} (t : Nat)
    (f : TaskDataAccesses → TaskDataAccesses) (h1 : ∀ s, (f s).accesses = s.accesses)
    (h2 : ∀ s, (f s).accessFragments = s.accessFragments)
    (h3 : ∀ s, (f s).taskwaitFragments = s.taskwaitFragments)
    (h4 : ∀ s, (f s).subaccessBottomMap = s.subaccessBottomMap)
    (hi : e.inv I) : (e.modifyDataAccesses t f).inv I := by
  refine Engine.inv_modifyDataAccesses t f (fun s hs => ?_) hi
  have hk : ∀ k, (f s).index k = s.index k := by
    intro k; cases k <;> simp [TaskDataAccesses.index, h1, h2, h3]
  exact ⟨fun k a ha => hs.1 k a (hk k ▸ ha), fun b hb => hs.2 b (h4 s ▸ hb)⟩

theorem Engine.inv_modifyBottomMap {I : ObjectInvariant} {e : Engine} (t : Nat)
    (g : List BottomMapEntry → List BottomMapEntry)
    (hg : ∀ l, (∀ b ∈ l, I.entry t b) → ∀ b ∈ g l, I.entry t b) (hi : e.inv I) :
    (e.modifyDataAccesses t fun s => { s with subaccessBottomMap := g s.subaccessBottomMap }).inv
      I := by
  refine Engine.inv_modifyDataAccesses _ _ (fun s hs1 => ?_) hi
  exact ⟨fun k a ha => hs1.1 k a (by cases k <;> exact ha), hg _ hs1.2⟩

theorem forEachEntry_keeps_of_mem {P : Engine → Prop}
    (process : Nat → Engine → Except Failure Engine) (refs : List Nat)
    (hp : ∀ r ∈ refs, ∀ e e1, process r e = .ok e1 → P e → P e1)
    (e e1 : Engine) (h : forEachEntry process refs e = .ok e1) (hi : P e) : P e1 := by
  induction refs generalizing e with
  | nil => simp only [forEachEntry, Except.ok.injEq] at h; exact h ▸ hi
  | cons r rest ih =>
    simp only [forEachEntry] at h
    split at h
    · cases h
    · next e2 h2 =>
      exact ih (fun x hx => hp x (List.mem_cons_of_mem _ hx)) e2 h
        (hp r (List.mem_cons_self _ _) e e2 h2 hi)

theorem Engine.inv_modifyTask_counters {I : ObjectInvariant} (e : Engine) (t : Nat)
    (f : Task → Task) (hf : ∀ x, (f x).dataAccesses = x.dataAccesses)
    (hr : ∀ x, (f x).remote = x.remote) :
    (e.modifyTask t f).inv I ↔ e.inv I := by
  have : ∀ u, (e.modifyTask t f).getDataAccesses u = e.getDataAccesses u := by
    intro u
    rw [Engine.getDataAccesses_modifyTask]
    split
    · next h => rw [hf, h.1]; rfl
    · rfl
  simp only [Engine.inv, this, Engine.remote_modifyTask e t _ f hr]

@[simp] theorem Engine.inv_increasePredecessors {I : ObjectInvariant} (e : Engine) (t : Nat)
    (n : Int) : (e.increasePredecessors t n).inv I ↔ e.inv I :=
  Engine.inv_modifyTask_counters e t _ (fun _ => rfl) (fun _ => rfl)

@[simp] theorem Engine.inv_decreasePredecessors {I : ObjectInvariant} (e : Engine) (t : Nat)
    (n : Int) : (e.decreasePredecessors t n).1.inv I ↔ e.inv I :=
  Engine.inv_modifyTask_counters e t _ (fun _ => rfl) (fun _ => rfl)

@[simp] theorem Engine.inv_decreaseBlockingCount {I : ObjectInvariant} (e : Engine) (t : Nat) :
    (e.decreaseBlockingCount t).1.inv I ↔ e.inv I :=
  Engine.inv_modifyTask_counters e t _ (fun _ => rfl) (fun _ => rfl)

@[simp] theorem Engine.inv_increaseRemovalBlockingCount {I : ObjectInvariant} (e : Engine)
    (t : Nat) : (e.increaseRemovalBlockingCount t).inv I ↔ e.inv I :=
  Engine.inv_modifyTask_counters e t _ (fun _ => rfl) (fun _ => rfl)

@[simp] theorem Engine.inv_decreaseRemovalBlockingCount {I : ObjectInvariant} (e : Engine)
    (t : Nat) : (e.decreaseRemovalBlockingCount t).1.inv I ↔ e.inv I :=
  Engine.inv_modifyTask_counters e t _ (fun _ => rfl) (fun _ => rfl)

@[simp] theorem Engine.inv_modifyDataAccesses_counters {I : ObjectInvariant} (e : Engine)
    (t : Nat) (f : TaskDataAccesses → TaskDataAccesses)
    (h1 : ∀ s, (f s).accesses = s.accesses)
    (h2 : ∀ s, (f s).accessFragments = s.accessFragments)
    (h3 : ∀ s, (f s).taskwaitFragments = s.taskwaitFragments)
    (h4 : ∀ s, (f s).subaccessBottomMap = s.subaccessBottomMap) :
    (e.modifyDataAccesses t f).inv I ↔ e.inv I := by
  have : ∀ u, ∀ J : ObjectInvariant, ((e.modifyDataAccesses t f).getDataAccesses u).inv J u
      ↔ (e.getDataAccesses u).inv J u := by
    intro u J
    unfold Engine.modifyDataAccesses
    rw [Engine.getDataAccesses_modifyTask]
    split
    · next h =>
      rw [h.1]
      have hk : ∀ k, (f (e.getTask t).dataAccesses).index k = (e.getTask t).dataAccesses.index k := by
        intro k; cases k <;> simp [TaskDataAccesses.index, h1, h2, h3]
      simp only [TaskDataAccesses.inv, hk, h4, Engine.getDataAccesses]
    · rfl
  have hr : ∀ u, ((e.modifyDataAccesses t f).getTask u).remote = (e.getTask u).remote :=
    fun u => Engine.remote_modifyTask e t u _ (fun _ => rfl)
  simp only [Engine.inv, this, hr]

@[simp] theorem Engine.inv_mk {I : ObjectInvariant} (tasks : List Task)
    (a : List ReductionInfo) (b : CommutativeScoreboard) (c : CPUDependencyData)
    (d : LinkingFrame) (f : List (Nat × ReadyTaskHint)) (g : List Nat) (i : List AccessRef)
    (j : List LinkedRegion) (k : List ReleasedRegion) (l : List DataAccess) (e : Engine)
    (h : tasks = e.tasks) :
    (Engine.mk tasks a b c d f g i j k l).inv I ↔ e.inv I := by
  subst h; rfl

end DataAccessRegistration
